import Mathlib

/-!
# buildfly: variant descriptors, the cache, downloads, builds, installation and links

A shallow embedding of parts of `all3n/buildfly` (Go) and theorems about them.

Conventions of the embedding.

* A Go `string` is a `List Char` (`Str`): a sequence of Unicode code points.
  Every separator that the embedded code passes to `strings.Split`,
  `strings.SplitN` and `strings.ReplaceAll` is a one-character string, so
  these take a `Char`, except in `ReplaceAllString`, which replaces a longer
  text.
* A Go pointer that may be `nil` is an `Option`.
* A Go `error` result is an `Except` (or an `Option` of the error).
* A nil slice and an empty slice are both the empty list.
* The file system, the network, the processes that the code spawns and the
  libraries outside the repository are records of operations (`Host`, `OS`,
  `Services`, `Shell`, `Machine`) over which the theorems quantify; a `traced`
  record logs the calls, and the records whose names start with `test` or
  `scene` serve to evaluate the definitions on examples.
-/

namespace Buildfly

/-- A Go string, as its sequence of code points. -/
abbrev Str := List Char

deriving instance DecidableEq for Except

/-! ## The parts of Go's `strings` and `unicode` packages that the code uses -/

/-- Go `strings.HasPrefix`. -/
def HasPrefix (s p : Str) : Bool := p.isPrefixOf s

/-- Go `strings.Contains`. -/
def Contains : Str → Str → Bool
  | [], sub => sub.isEmpty
  | c :: cs, sub => sub.isPrefixOf (c :: cs) || Contains cs sub

/-- Go `strings.Split(s, sep)` for a one-character separator: the pieces of
`s` between the occurrences of `sep`; always at least one piece. -/
def Split : Str → Char → List Str
  | [], _ => [[]]
  | c :: cs, sep =>
    if c = sep then [] :: Split cs sep
    else
      match Split cs sep with
      | [] => [[c]]
      | p :: ps => (c :: p) :: ps

/-- Go `strings.SplitN(s, sep, 2)` for a one-character separator: `[s]` when
`sep` does not occur, and otherwise the text before and the text after its
first occurrence. -/
def SplitN2 (s : Str) (sep : Char) : List Str :=
  if sep ∈ s then [s.takeWhile (fun c => c != sep), (s.dropWhile (fun c => c != sep)).drop 1]
  else [s]

/-- Go `strings.Join`. -/
def Join : List Str → Str → Str
  | [], _ => []
  | [p], _ => p
  | p :: q :: ps, sep => p ++ sep ++ Join (q :: ps) sep

/-- Go `strings.ReplaceAll(s, old, new)` for a one-character `old`. -/
def ReplaceAll (s : Str) (old : Char) (new : Str) : Str :=
  s.flatMap (fun c => if c = old then new else [c])

/-- Go `unicode.IsSpace`: the code points with the Unicode White_Space
property. -/
def isSpace (c : Char) : Bool :=
  let n := c.toNat
  (0x09 ≤ n && n ≤ 0x0D) || n == 0x20 || n == 0x85 || n == 0xA0 || n == 0x1680 ||
  (0x2000 ≤ n && n ≤ 0x200A) || n == 0x2028 || n == 0x2029 || n == 0x202F ||
  n == 0x205F || n == 0x3000

/-- Go `strings.TrimSpace`: drop the leading and the trailing white space. -/
def TrimSpace (s : Str) : Str :=
  ((s.dropWhile isSpace).reverse.dropWhile isSpace).reverse

/-! ## `pkg/config/buildtag.go`: the variant descriptor -/

/-- Go `CUDABackend`. -/
structure CUDABackend where
  Version : Str := []
  Arch : List Str := []
  Enabled : Bool := false
  deriving DecidableEq

/-- Go `ROCmBackend`. -/
structure ROCmBackend where
  Version : Str := []
  Arch : List Str := []
  Enabled : Bool := false
  deriving DecidableEq

/-- Go `OpenCLBackend`. -/
structure OpenCLBackend where
  Version : Str := []
  Enabled : Bool := false
  deriving DecidableEq

/-- Go `GPUInfo`. -/
structure GPUInfo where
  Backend : Str := []
  CUDA : Option CUDABackend := none
  ROCm : Option ROCmBackend := none
  OpenCL : Option OpenCLBackend := none
  deriving DecidableEq

/-- Go `BuildTag`. -/
structure BuildTag where
  Arch : Str := []
  Platform : Str := []
  Runtime : Str := []
  Compiler : Str := []
  Std : Str := []
  ABI : Str := []
  Target : Str := []
  GPU : Option GPUInfo := none
  deriving DecidableEq

/-- The errors of `ParseBuildTag` and `Validate`, one constructor for each
`fmt.Errorf` of `buildtag.go`, carrying the text that the message quotes. -/
inductive BuildTagError where
  | emptyTag
  | invalidFormat (pair : Str)
  | unknownKey (key : Str)
  | nilTag
  | invalidArch (v : Str)
  | invalidPlatform (v : Str)
  | invalidStd (v : Str)
  | invalidABI (v : Str)
  | invalidGPU (cause : BuildTagError)
  | invalidBackend (v : Str)
  | cudaNeedsConfig
  | cudaNeedsVersion
  | rocmNeedsConfig
  | rocmNeedsVersion
  | openclNeedsConfig
  | openclNeedsVersion
  deriving DecidableEq

/-- The body of the `switch key` of `ParseBuildTag`: store `value` under
`key` in `bt`. -/
def setKey (bt : BuildTag) (key value : Str) : Except BuildTagError BuildTag :=
  if key = "arch".toList then .ok { bt with Arch := value }
  else if key = "platform".toList then .ok { bt with Platform := value }
  else if key = "runtime".toList then .ok { bt with Runtime := value }
  else if key = "compiler".toList then .ok { bt with Compiler := value }
  else if key = "std".toList then .ok { bt with Std := value }
  else if key = "abi".toList then .ok { bt with ABI := value }
  else if key = "target".toList then .ok { bt with Target := value }
  else if key = "cuda".toList ∨ key = "cuda_version".toList then
    let gpu := bt.GPU.getD { Backend := "cuda".toList }
    let cuda := gpu.CUDA.getD {}
    let cuda :=
      if key = "cuda".toList then { cuda with Version := value, Enabled := true }
      else { cuda with Version := value }
    .ok { bt with GPU := some { gpu with CUDA := some cuda } }
  else if key = "cuda_arch".toList then
    let gpu := bt.GPU.getD { Backend := "cuda".toList }
    let cuda := gpu.CUDA.getD { Enabled := true }
    .ok { bt with GPU := some { gpu with CUDA := some { cuda with Arch := Split value '|' } } }
  else if key = "rocm".toList ∨ key = "rocm_version".toList then
    let gpu := bt.GPU.getD { Backend := "rocm".toList }
    let rocm := gpu.ROCm.getD {}
    let rocm :=
      if key = "rocm".toList then { rocm with Version := value, Enabled := true }
      else { rocm with Version := value }
    .ok { bt with GPU := some { gpu with ROCm := some rocm } }
  else if key = "rocm_arch".toList then
    let gpu := bt.GPU.getD { Backend := "rocm".toList }
    let rocm := gpu.ROCm.getD { Enabled := true }
    .ok { bt with GPU := some { gpu with ROCm := some { rocm with Arch := Split value '|' } } }
  else if key = "opencl".toList ∨ key = "opencl_version".toList then
    let gpu := bt.GPU.getD { Backend := "opencl".toList }
    let opencl := gpu.OpenCL.getD {}
    let opencl :=
      if key = "opencl".toList then { opencl with Version := value, Enabled := true }
      else { opencl with Version := value }
    .ok { bt with GPU := some { gpu with OpenCL := some opencl } }
  else if key = "gpu_backend".toList then
    let gpu := bt.GPU.getD {}
    .ok { bt with GPU := some { gpu with Backend := value } }
  else if key = "gpu_enabled".toList then
    let gpu := bt.GPU.getD {}
    if value = "true".toList ∨ value = "1".toList then
      let gpu : GPUInfo :=
        { gpu with
          CUDA := gpu.CUDA.map (fun c => { c with Enabled := true })
          ROCm := gpu.ROCm.map (fun c => { c with Enabled := true })
          OpenCL := gpu.OpenCL.map (fun c => { c with Enabled := true }) }
      .ok { bt with GPU := some gpu }
    else .ok { bt with GPU := some gpu }
  else .error (.unknownKey key)

/-- The loop of `ParseBuildTag` over the comma-separated pairs, threading the
descriptor built so far. -/
def parsePairs : List Str → BuildTag → Except BuildTagError BuildTag
  | [], bt => .ok bt
  | pair :: rest, bt =>
    let pair := TrimSpace pair
    if pair = [] then parsePairs rest bt
    else
      match SplitN2 pair '=' with
      | [k, v] =>
        match setKey bt (TrimSpace k) (TrimSpace v) with
        | .ok bt2 => parsePairs rest bt2
        | .error e => .error e
      | _ => .error (.invalidFormat pair)

/-- Go `ParseBuildTag`. -/
def ParseBuildTag (tagStr : Str) : Except BuildTagError BuildTag :=
  if tagStr = [] then .error .emptyTag
  else parsePairs (Split tagStr ',') {}

/-- The `parts` slice that `BuildTag.String` builds for the GPU sub-record. -/
def gpuParts (gpu : GPUInfo) : List Str :=
  if gpu.Backend = "cuda".toList then
    match gpu.CUDA with
    | some c =>
      if c.Enabled then
        (if c.Version ≠ [] then ["cuda=".toList ++ c.Version] else []) ++
        (if c.Arch.length > 0 then ["cuda_arch=".toList ++ Join c.Arch "|".toList] else [])
      else []
    | none => []
  else if gpu.Backend = "rocm".toList then
    match gpu.ROCm with
    | some c =>
      if c.Enabled then
        (if c.Version ≠ [] then ["rocm=".toList ++ c.Version] else []) ++
        (if c.Arch.length > 0 then ["rocm_arch=".toList ++ Join c.Arch "|".toList] else [])
      else []
    | none => []
  else if gpu.Backend = "opencl".toList then
    match gpu.OpenCL with
    | some c =>
      if c.Enabled then
        (if c.Version ≠ [] then ["opencl=".toList ++ c.Version] else [])
      else []
    | none => []
  else []

/-- The `parts` slice that `BuildTag.String` builds for a non-nil
descriptor. -/
def stringParts (bt : BuildTag) : List Str :=
  (if bt.Arch ≠ [] then ["arch=".toList ++ bt.Arch] else []) ++
  (if bt.Platform ≠ [] then ["platform=".toList ++ bt.Platform] else []) ++
  (if bt.Runtime ≠ [] then ["runtime=".toList ++ bt.Runtime] else []) ++
  (if bt.Compiler ≠ [] then ["compiler=".toList ++ bt.Compiler] else []) ++
  (if bt.Std ≠ [] then ["std=".toList ++ bt.Std] else []) ++
  (if bt.ABI ≠ [] then ["abi=".toList ++ bt.ABI] else []) ++
  (if bt.Target ≠ [] then ["target=".toList ++ bt.Target] else []) ++
  (match bt.GPU with
   | some gpu => gpuParts gpu
   | none => [])

/-- Go `(*BuildTag).String`: the canonical string; empty for the nil
descriptor. -/
def BuildTag.String : Option BuildTag → Str
  | none => []
  | some bt => Join (stringParts bt) ",".toList

/-- Go `(*BuildTag).ToDirName`. -/
def BuildTag.ToDirName : Option BuildTag → Str
  | none => "default".toList
  | some bt =>
    let dirName := BuildTag.String (some bt)
    let dirName := ReplaceAll dirName '=' "-".toList
    let dirName := ReplaceAll dirName '+' "plus".toList
    let dirName := ReplaceAll dirName '|' "or".toList
    if HasPrefix dirName ".".toList then "_".toList ++ dirName.drop 1
    else dirName

/-- Go `contains` of `buildtag.go`. -/
def contains (slice : List Str) (item : Str) : Bool :=
  slice.any (fun s => s == item)

/-- Go `(*GPUInfo).Validate` on a non-nil record; `none` is Go's `nil`
error. -/
def GPUInfo.Validate (gpu : GPUInfo) : Option BuildTagError :=
  if !contains ["cuda".toList, "rocm".toList, "opencl".toList, "none".toList] gpu.Backend then
    some (.invalidBackend gpu.Backend)
  else if gpu.Backend = "cuda".toList then
    match gpu.CUDA with
    | none => some .cudaNeedsConfig
    | some c => if c.Version = [] then some .cudaNeedsVersion else none
  else if gpu.Backend = "rocm".toList then
    match gpu.ROCm with
    | none => some .rocmNeedsConfig
    | some c => if c.Version = [] then some .rocmNeedsVersion else none
  else if gpu.Backend = "opencl".toList then
    match gpu.OpenCL with
    | none => some .openclNeedsConfig
    | some c => if c.Version = [] then some .openclNeedsVersion else none
  else none

/-- Go `(*BuildTag).Validate`; `none` is Go's `nil` error. -/
def BuildTag.Validate : Option BuildTag → Option BuildTagError
  | none => some .nilTag
  | some bt =>
    if bt.Arch ≠ [] ∧
        !contains ["x86_64".toList, "arm64".toList, "x64".toList, "i386".toList,
          "aarch64".toList] bt.Arch then
      some (.invalidArch bt.Arch)
    else if bt.Platform ≠ [] ∧
        !contains ["linux".toList, "darwin".toList, "windows".toList] bt.Platform then
      some (.invalidPlatform bt.Platform)
    else if bt.Std ≠ [] ∧
        !contains ["cpp11".toList, "cpp14".toList, "cpp17".toList, "cpp20".toList,
          "cpp23".toList] bt.Std then
      some (.invalidStd bt.Std)
    else if bt.ABI ≠ [] ∧
        !contains ["sysv".toList, "macho".toList, "msabi".toList] bt.ABI then
      some (.invalidABI bt.ABI)
    else
      match bt.GPU with
      | some gpu =>
        match gpu.Validate with
        | some e => some (.invalidGPU e)
        | none => none
      | none => none

/-- Go `(*BuildTag).Equals`. -/
def BuildTag.Equals (bt other : Option BuildTag) : Bool :=
  match bt, other with
  | none, none => true
  | none, some _ => false
  | some _, none => false
  | some a, some b => BuildTag.String (some a) == BuildTag.String (some b)

/-- The descriptor of the test case `with plus and pipe`. -/
def cudaTag : BuildTag :=
  { Arch := "x86_64".toList, Platform := "linux".toList, Runtime := "glibc_2.35+".toList,
    Compiler := "gcc_11+".toList, Std := "cpp17".toList, ABI := "sysv".toList,
    GPU := some { Backend := "cuda".toList,
                  CUDA := some { Version := "12.0".toList,
                                 Arch := ["compute_80".toList, "compute_90".toList],
                                 Enabled := true } } }

/-! ## `pkg/config/types.go`: dependencies and their sources -/

/-- Go `SourceInfo`. The field `Type` is named `Typ` (`Type` is a Lean
keyword). The map `Checksums` is the list of its entries, in the order in
which a `range` over it yields them. -/
structure SourceInfo where
  Typ : Str := []
  URLS : List Str := []
  Tag : Str := []
  Hash : Str := []
  MD5 : Str := []
  SHA1 : Str := []
  SHA256 : Str := []
  SHA512 : Str := []
  Checksums : List (Str × Str) := []
  deriving DecidableEq

/-- Go `BuildCommands`: the per-phase command overrides of a dependency. -/
structure BuildCommands where
  Configure : Str := []
  Build : Str := []
  Install : Str := []
  Test : Str := []
  deriving DecidableEq

/-- Go `Dependency`, with the fields that the embedded functions read. -/
structure Dependency where
  Name : Str := []
  Version : Str := []
  Source : SourceInfo := {}
  BuildSystem : Str := []
  CMakeOptions : List Str := []
  MakeOptions : List Str := []
  ConfigureOptions : List Str := []
  CustomScript : Str := []
  BuildCommands : BuildCommands := {}
  deriving DecidableEq

/-- Go `(*SourceInfo).GetURLs`. -/
def SourceInfo.GetURLs (s : SourceInfo) : List Str :=
  if s.URLS.length > 0 then s.URLS else []

/-- Go `(*SourceInfo).IsLocalURL`. -/
def SourceInfo.IsLocalURL (_s : SourceInfo) (url : Str) : Bool :=
  !HasPrefix url "http://".toList &&
  !HasPrefix url "https://".toList &&
  !HasPrefix url "git@".toList &&
  !Contains url "://".toList

/-- The loop of `GetAllAvailableURLs` and of `GetFirstAvailableURL` that
appends every URL to `localURLs` or to `networkURLs`. -/
def SourceInfo.splitURLs (s : SourceInfo) : List Str → List Str → List Str → List Str × List Str
  | [], localURLs, networkURLs => (localURLs, networkURLs)
  | url :: rest, localURLs, networkURLs =>
    if s.IsLocalURL url then s.splitURLs rest (localURLs ++ [url]) networkURLs
    else s.splitURLs rest localURLs (networkURLs ++ [url])

/-- Go `(*SourceInfo).GetAllAvailableURLs`. -/
def SourceInfo.GetAllAvailableURLs (s : SourceInfo) : List Str :=
  let urls := s.GetURLs
  if urls.length = 0 then []
  else
    let (localURLs, networkURLs) := s.splitURLs urls [] []
    localURLs ++ networkURLs

/-- Go `(*SourceInfo).GetFirstAvailableURL`; `fileExists` is the state of the
file system (`os.Stat` succeeds), and `none` is the error `no URLs
available`. -/
def SourceInfo.GetFirstAvailableURL (s : SourceInfo) (fileExists : Str → Bool) : Option Str :=
  let urls := s.GetURLs
  match urls with
  | [] => none
  | first :: _ =>
    let (localURLs, networkURLs) := s.splitURLs urls [] []
    match localURLs.find? fileExists with
    | some url => some url
    | none =>
      match networkURLs with
      | url :: _ => some url
      | [] =>
        match localURLs with
        | url :: _ => some url
        | [] => some first

/-! ## Go's `path/filepath` on a Unix system -/

/-- One step of the loop of `filepath.Clean` over the `/`-separated elements
of a path; `out` holds the elements written to the output buffer so far.
Empty elements and `.` are skipped; `..` removes the last element when there
is one that is not itself `..`, is dropped at the root of a rooted path, and
is kept otherwise; every other element is appended. -/
def cleanStep (rooted : Bool) (out : List Str) (elem : Str) : List Str :=
  if elem = [] ∨ elem = ".".toList then out
  else if elem = "..".toList then
    match out.getLast? with
    | none => if rooted then out else out ++ [elem]
    | some last => if last = "..".toList then out ++ [elem] else out.dropLast
  else out ++ [elem]

/-- The elements that `filepath.Clean` has written to its output buffer at
the end of its loop over `path`. -/
def cleanElems (path : Str) : List Str :=
  (Split path '/').foldl (cleanStep (HasPrefix path "/".toList)) []

/-- Go `filepath.Clean`. -/
def Clean (path : Str) : Str :=
  if path = [] then ".".toList
  else
    let out := cleanElems path
    if HasPrefix path "/".toList then "/".toList ++ Join out "/".toList
    else if out = [] then ".".toList
    else Join out "/".toList

/-- Go `filepath.Dir`: the path up to and including its last `/`, cleaned. -/
def Dir (path : Str) : Str :=
  Clean (path.reverse.dropWhile (fun c => c != '/')).reverse

/-- Go `filepath.Base`: the last element of the path, after its trailing
slashes are removed; `.` for the empty path and `/` for a path of slashes
only. -/
def Base (path : Str) : Str :=
  if path = [] then ".".toList
  else
    let path := (path.reverse.dropWhile (fun c => c == '/')).reverse
    let path := (path.reverse.takeWhile (fun c => c != '/')).reverse
    if path = [] then "/".toList else path

/-- The text that precedes the last element in `Clean (path ++ "/" ++ elem)`
when `elem` is an ordinary file name: the cleaned `path` followed by `/`,
without the `.` of an empty relative path and without a second `/` after the
root. -/
def childPrefix (path : Str) : Str :=
  (if HasPrefix path "/".toList then "/".toList else []) ++
  (if cleanElems path = [] then [] else Join (cleanElems path) "/".toList ++ "/".toList)

/-- Go `filepath.Join`: the elements from the first non-empty one on, joined
by `/` and cleaned; the empty string when every element is empty. -/
def filepathJoin : List Str → Str
  | [] => []
  | e :: es => if e = [] then filepathJoin es else Clean (Join (e :: es) "/".toList)

/-- An ordinary path element: not empty, without `/`, and neither `.` nor
`..`. -/
def plainElem (e : Str) : Prop :=
  e ≠ [] ∧ '/' ∉ e ∧ e ≠ ".".toList ∧ e ≠ "..".toList

/-- The shape of the elements of a cleaned path: a run of `..`, which is
empty when the path is rooted, followed by ordinary elements. -/
def normalElems (rooted : Bool) (out : List Str) : Prop :=
  ∃ (k : Nat) (rest : List Str), out = List.replicate k "..".toList ++ rest ∧
    (∀ e ∈ rest, plainElem e) ∧ (rooted = true → k = 0)

/-- The text that `filepath.Clean` returns for the elements left in its
output buffer. -/
def renderClean (rooted : Bool) (out : List Str) : Str :=
  if rooted then "/".toList ++ Join out "/".toList
  else if out = [] then ".".toList
  else Join out "/".toList

/-! ## `pkg/cache/manager.go`: cache paths -/

/-- Go `CacheManager`; `maxSize` is in bytes and `maxAge` in nanoseconds. -/
structure CacheManager where
  cacheDir : Str := []
  maxSize : Int := 0
  maxAge : Int := 0
  deriving DecidableEq

/-- Go `(*CacheManager).GetBuildCachePath`. -/
def CacheManager.GetBuildCachePath (cm : CacheManager) (dep : Dependency)
    (buildTag : Option BuildTag) : Str :=
  let buildTagDir :=
    match buildTag with
    | none => "default".toList
    | some bt => BuildTag.ToDirName (some bt)
  filepathJoin [cm.cacheDir, "buildfly".toList, dep.Name, dep.Version, buildTagDir]

/-- The directory `cacheDir/buildfly/name/version` that holds the download
entry of a dependency (the directory of `GetDownloadCachePath`). -/
def CacheManager.versionDir (cm : CacheManager) (dep : Dependency) : Str :=
  filepathJoin [cm.cacheDir, "buildfly".toList, dep.Name, dep.Version]

/-! ## `internal/errors`: error values -/

/-- A Go `error` value, as far as the embedded code builds and inspects it:
`app` is an `*errors.Error` of `internal/errors` without a cause and `wrap`
one with a cause, `errorf` is the result of `fmt.Errorf` with a `%w` verb
(`message` is the text before the wrapped error), `source` is a
`*config.SourceError`, and `sys` is an error of the standard library
(`os`, `io`, `net/http`). -/
inductive GoError where
  | app (Code Message : Str)
  | wrap (Code Message : Str) (Cause : GoError)
  | errorf (message : Str) (cause : GoError)
  | source (Message : Str)
  | sys (message : Str)
  deriving DecidableEq

/-- The field `Code` of an `*errors.Error`; empty for other errors. -/
def GoError.code : GoError → Str
  | .app c _ => c
  | .wrap c _ _ => c
  | _ => []

/-- The error that `errors.Unwrap` returns. -/
def GoError.Unwrap : GoError → Option GoError
  | .wrap _ _ e => some e
  | .errorf _ e => some e
  | _ => none

/-- Go `errors.WrapWithCode`. -/
def WrapWithCode (err : Option GoError) (code message : Str) : GoError :=
  match err with
  | none => .app code message
  | some e => .wrap code message e

/-- Go `errors.DownloadError`. -/
def DownloadError (message : Str) : GoError :=
  WrapWithCode none "DOWNLOAD_ERROR".toList message

/-- Go `errors.DownloadErrorWithCause`. -/
def DownloadErrorWithCause (err : GoError) (message : Str) : GoError :=
  WrapWithCode (some err) "DOWNLOAD_ERROR".toList message

/-! ## `pkg/downloader`: checksum verification -/

/-- The content of a file: a sequence of bytes. -/
abbrev Bytes := List Nat

/-- What the embedded code takes from its environment: the part of
`unicode.ToLower` outside ASCII (a table of the Go runtime), the lower-case
hexadecimal digests of `crypto/md5`, `crypto/sha1`, `crypto/sha256` and
`crypto/sha512`, and the order in which a `range` over a map yields its
entries (Go leaves it unspecified). -/
structure Env where
  lowerTable : Char → Char
  md5 : Bytes → Str
  sha1 : Bytes → Str
  sha256 : Bytes → Str
  sha512 : Bytes → Str
  rangeOrder : List (Str × Str) → List (Str × Str)

/-- Go `unicode.ToLower`: ASCII capitals are shifted, other ASCII code points
are left alone, and the rest goes through the case tables. -/
def unicodeToLower (env : Env) (c : Char) : Char :=
  if c.toNat ≤ 127 then
    (if 'A'.toNat ≤ c.toNat ∧ c.toNat ≤ 'Z'.toNat then Char.ofNat (c.toNat + 32) else c)
  else env.lowerTable c

/-- Go `strings.ToLower`. -/
def ToLower (env : Env) (s : Str) : Str := s.map (unicodeToLower env)

/-- Go map assignment `m[k] = v` on a `map[string]string`, kept as the list
of its entries: the value of an existing key is replaced, a new key is
added. -/
def mapSet : List (Str × Str) → Str → Str → List (Str × Str)
  | [], k, v => [(k, v)]
  | (k1, v1) :: rest, k, v => if k1 = k then (k, v) :: rest else (k1, v1) :: mapSet rest k v

/-- Go map lookup `m[k]` on a `map[string]string`: the empty string for a
missing key. -/
def mapGet : List (Str × Str) → Str → Str
  | [], _ => []
  | (k1, v1) :: rest, k => if k1 = k then v1 else mapGet rest k

/-- Go `(*ArchiveDownloader).getChecksums`. -/
def getChecksums (env : Env) (source : SourceInfo) : List (Str × Str) :=
  let checksums : List (Str × Str) := []
  let checksums :=
    if source.MD5 ≠ [] then mapSet checksums "md5".toList (ToLower env source.MD5)
    else checksums
  let checksums :=
    if source.SHA1 ≠ [] then mapSet checksums "sha1".toList (ToLower env source.SHA1)
    else checksums
  let checksums :=
    if source.SHA256 ≠ [] then mapSet checksums "sha256".toList (ToLower env source.SHA256)
    else checksums
  let checksums :=
    if source.SHA512 ≠ [] then mapSet checksums "sha512".toList (ToLower env source.SHA512)
    else checksums
  let checksums :=
    source.Checksums.foldl (fun m e => mapSet m (ToLower env e.1) (ToLower env e.2)) checksums
  if source.Hash ≠ [] ∧ mapGet checksums "sha256".toList = [] then
    mapSet checksums "sha256".toList (ToLower env source.Hash)
  else checksums

/-- The `switch` of `verifyChecksumWithAlgorithm` that selects the hash
function, applied to the content: the digest under a supported algorithm,
`none` for any other name. -/
def hexDigest (env : Env) (algorithm : Str) (content : Bytes) : Option Str :=
  if algorithm = "md5".toList then some (env.md5 content)
  else if algorithm = "sha1".toList then some (env.sha1 content)
  else if algorithm = "sha256".toList then some (env.sha256 content)
  else if algorithm = "sha512".toList then some (env.sha512 content)
  else none

/-- The text of the error `checksum mismatch: expected E, got A`. -/
def mismatchMessage (expectedHash actualHash : Str) : Str :=
  "checksum mismatch: expected ".toList ++ expectedHash ++ ", got ".toList ++ actualHash

/-- Go `(*ArchiveDownloader).verifyChecksumWithAlgorithm` on a file that can
be opened and read, with the given content; `none` is Go's `nil` error. -/
def verifyChecksumWithAlgorithm (env : Env) (content : Bytes) (expectedHash algorithm : Str) :
    Option GoError :=
  match hexDigest env (ToLower env algorithm) content with
  | none => some (DownloadError ("unsupported checksum algorithm: ".toList ++ algorithm))
  | some actualHash =>
    if actualHash ≠ expectedHash then
      some (DownloadError (mismatchMessage expectedHash actualHash))
    else none

/-- The loop of `(*ArchiveDownloader).Verify` over the entries of the
checksum map, in the order in which the `range` yields them. -/
def verifyEach (env : Env) (content : Bytes) : List (Str × Str) → Option GoError
  | [] => none
  | (algorithm, expectedHash) :: rest =>
    match verifyChecksumWithAlgorithm env content expectedHash algorithm with
    | some err =>
      some (.errorf ("checksum verification failed (".toList ++ algorithm ++ ")".toList) err)
    | none => verifyEach env content rest

/-- Go `(*ArchiveDownloader).Verify`. The file system is the map `fs` from
a path to the content of the regular, readable file at that path. -/
def ArchiveDownloader.Verify (env : Env) (fs : Str → Option Bytes) (dep : Dependency)
    (archivePath : Str) : Option GoError :=
  match fs archivePath with
  | none => some (DownloadError ("archive file not found: ".toList ++ archivePath))
  | some content =>
    let checksums := getChecksums env dep.Source
    if checksums.length = 0 then none
    else verifyEach env content (env.rangeOrder checksums)

/-- Go `(*DirectDownloader).verifyChecksum` on a file that can be opened and
read. -/
def DirectDownloader.verifyChecksum (env : Env) (content : Bytes) (expectedHash : Str) :
    Option GoError :=
  let actualHash := env.sha256 content
  if actualHash ≠ expectedHash then
    some (DownloadError (mismatchMessage expectedHash actualHash))
  else none

/-- Go `(*DirectDownloader).Verify`. -/
def DirectDownloader.Verify (env : Env) (fs : Str → Option Bytes) (dep : Dependency)
    (filePath : Str) : Option GoError :=
  match fs filePath with
  | none => some (DownloadError ("file not found: ".toList ++ filePath))
  | some content =>
    if dep.Source.Hash ≠ [] then
      match DirectDownloader.verifyChecksum env content dep.Source.Hash with
      | some err => some err
      | none => none
    else none

/-- A collected checksum passes: its algorithm is one of `md5`, `sha1`,
`sha256` and `sha512`, and the digest of the content under it is the expected
value. -/
def checksumOK (env : Env) (content : Bytes) (e : Str × Str) : Prop :=
  hexDigest env (ToLower env e.1) content = some e.2

instance (env : Env) (content : Bytes) (e : Str × Str) : Decidable (checksumOK env content e) := by
  unfold checksumOK
  infer_instance

/-- An environment for evaluating the definitions on examples: no case
mapping outside ASCII, a stand-in for each digest (the number of bytes, as a
numeral, after a letter for the algorithm), and map entries ranged over in
reverse of the order in which the keys were first set. -/
def testEnv : Env where
  lowerTable := fun c => c
  md5 := fun b => 'a' :: (Nat.toDigits 16 b.length)
  sha1 := fun b => 'b' :: (Nat.toDigits 16 b.length)
  sha256 := fun b => 'c' :: (Nat.toDigits 16 b.length)
  sha512 := fun b => 'd' :: (Nat.toDigits 16 b.length)
  rangeOrder := List.reverse

/-- No checksum is declared: every checksum field of the source is empty. -/
def noChecksum (s : SourceInfo) : Prop :=
  s.MD5 = [] ∧ s.SHA1 = [] ∧ s.SHA256 = [] ∧ s.SHA512 = [] ∧ s.Checksums = [] ∧ s.Hash = []

instance (s : SourceInfo) : Decidable (noChecksum s) := by
  unfold noChecksum
  infer_instance

/-- The error that `ArchiveDownloader.Verify` returns for a SHA-256 mismatch:
the mismatch error naming the expected and the actual hash, wrapped with the
name of the algorithm. -/
def sha256Mismatch (expectedHash actualHash : Str) : GoError :=
  .errorf "checksum verification failed (sha256)".toList
    (DownloadError (mismatchMessage expectedHash actualHash))

/-- A direct-file dependency that declares its SHA-256 in the field
`sha256`. -/
def headerDep : Dependency :=
  { Name := "lib".toList, Version := "1.0".toList,
    Source := { Typ := "direct".toList, URLS := ["https://example.com/lib.h".toList],
                SHA256 := "00".toList } }

/-- An archive dependency that declares a SHA-256 and, in the map
`checksums`, a checksum under the unsupported name `crc32`. -/
def crcDep : Dependency :=
  { Name := "lib".toList, Version := "1.0".toList,
    Source := { Typ := "archive".toList, URLS := ["https://example.com/lib.tar.gz".toList],
                SHA256 := "00".toList, Checksums := [("crc32".toList, "x".toList)] } }

/-! ## `pkg/downloader`: the multi-URL loops -/

/-- The outcomes that the download loops take from their environment. The
claims about the loops quantify over the success or failure of each candidate,
so the per-candidate operations are functions of the candidate and of its
destination: `copyLocalFile src dst` and `httpDownload url dst` (which stands
for `downloadFromHTTP` in the archive downloader and for `downloadFile` in
the direct one) return Go's `nil` as `none`. `userCacheDir` is the result of
`os.UserCacheDir`, `mkdirAll` that of `os.MkdirAll`, and `fs` maps a path to
the content of the file there. -/
structure Host where
  env : Env
  fs : Str → Option Bytes
  userCacheDir : Except GoError Str
  mkdirAll : Str → Option GoError
  copyLocalFile : Str → Str → Option GoError
  httpDownload : Str → Str → Option GoError

/-- Go `getFileNameFromURL` of `pkg/downloader/manager.go`: the text after
the last `/`, up to the first `?`. -/
def downloader.getFileNameFromURL (url : Str) : Str :=
  match (Split url '/').getLast? with
  | some filename => filename.takeWhile (fun c => c != '?')
  | none => "download".toList

/-- The destination of a candidate in `(*DirectDownloader).Download`. -/
def DirectDownloader.targetPath (dep : Dependency) (targetDir url : Str) : Str :=
  let filename := downloader.getFileNameFromURL url
  let filename := if filename = [] ∨ filename = "download".toList then dep.Name else filename
  filepathJoin [targetDir, filename]

/-- One candidate of the loop of `(*DirectDownloader).Download`: a local URL
is copied, any other is fetched over HTTP. -/
def DirectDownloader.attempt (host : Host) (dep : Dependency) (targetDir url : Str) :
    Option GoError :=
  if dep.Source.IsLocalURL url then
    host.copyLocalFile url (DirectDownloader.targetPath dep targetDir url)
  else host.httpDownload url (DirectDownloader.targetPath dep targetDir url)

/-- The loop of `(*DirectDownloader).Download` over the candidate URLs.
`lastErr` is the variable of that name, and `tried` lists the candidates
attempted so far; the result pairs the returned error with the candidates
attempted. -/
def DirectDownloader.loop (host : Host) (dep : Dependency) (targetDir : Str) :
    List Str → Option GoError → List Str → Option GoError × List Str
  | [], lastErr, tried =>
    match lastErr with
    | some err => (some err, tried)
    | none => (some (DownloadError "no valid URLs found for download".toList), tried)
  | url :: rest, _lastErr, tried =>
    match DirectDownloader.attempt host dep targetDir url with
    | some err => DirectDownloader.loop host dep targetDir rest (some err) (tried ++ [url])
    | none => (none, tried ++ [url])

/-- Go `(*DirectDownloader).Download`: the returned error and the candidates
attempted, in order. -/
def DirectDownloader.Download (host : Host) (dep : Dependency) (targetDir : Str) :
    Option GoError × List Str :=
  match host.mkdirAll targetDir with
  | some err =>
    (some (DownloadErrorWithCause err
      ("failed to create target directory ".toList ++ targetDir)), [])
  | none => DirectDownloader.loop host dep targetDir dep.Source.GetAllAvailableURLs none []

/-- One candidate of the loop of `(*ArchiveDownloader).downloadArchive`. -/
def ArchiveDownloader.attempt (host : Host) (dep : Dependency) (cacheFile url : Str) :
    Option GoError :=
  if dep.Source.IsLocalURL url then host.copyLocalFile url cacheFile
  else host.httpDownload url cacheFile

/-- The loop of `(*ArchiveDownloader).downloadArchive` over the candidate
URLs; the result pairs the returned path or error with the candidates
attempted. -/
def ArchiveDownloader.loop (host : Host) (dep : Dependency) (cacheFile : Str) :
    List Str → Option GoError → List Str → Except GoError Str × List Str
  | [], lastErr, tried =>
    match lastErr with
    | some err =>
      (.error (DownloadErrorWithCause err "all URLs failed to download".toList), tried)
    | none => (.error (DownloadError "no valid URLs found for download".toList), tried)
  | url :: rest, _lastErr, tried =>
    match ArchiveDownloader.attempt host dep cacheFile url with
    | some err => ArchiveDownloader.loop host dep cacheFile rest (some err) (tried ++ [url])
    | none => (.ok cacheFile, tried ++ [url])

/-- The file of the raw-archive cache that `downloadArchive` uses for a
dependency, given the user cache directory and the first available URL. -/
def ArchiveDownloader.cacheFile (dep : Dependency) (userCacheDir url : Str) : Str :=
  let cacheDir :=
    filepathJoin [userCacheDir, ".buildfly".toList, "archives".toList, dep.Version]
  filepathJoin [cacheDir, Base url]

/-- Go `(*ArchiveDownloader).downloadArchive`: the returned path or error and
the candidates attempted, in order. -/
def ArchiveDownloader.downloadArchive (host : Host) (dep : Dependency) :
    Except GoError Str × List Str :=
  match dep.Source.GetFirstAvailableURL (fun p => (host.fs p).isSome) with
  | none =>
    (.error (DownloadErrorWithCause (.source "no URLs available".toList)
      "failed to get available URL".toList), [])
  | some url =>
    match host.userCacheDir with
    | .error err =>
      (.error (DownloadErrorWithCause err "failed to get user cache dir".toList), [])
    | .ok userCacheDir =>
      let cacheDir :=
        filepathJoin [userCacheDir, ".buildfly".toList, "archives".toList, dep.Version]
      match host.mkdirAll cacheDir with
      | some err => (.error (DownloadErrorWithCause err "failed to create cache dir".toList), [])
      | none =>
        let cacheFile := ArchiveDownloader.cacheFile dep userCacheDir url
        if (host.fs cacheFile).isSome ∧
            ArchiveDownloader.Verify host.env host.fs dep cacheFile = none then
          (.ok cacheFile, [])
        else
          ArchiveDownloader.loop host dep cacheFile dep.Source.GetAllAvailableURLs none []

/-- A host on which every directory can be created, no file exists, and
every copy and every download fails with the error of a 404 response. -/
def failingHost : Host where
  env := testEnv
  fs := fun _ => none
  userCacheDir := .ok "/home/u/.cache".toList
  mkdirAll := fun _ => none
  copyLocalFile := fun _ _ => some (DownloadError "source file not found".toList)
  httpDownload := fun _ _ => some (DownloadError "HTTP error: 404".toList)

/-- A host on which every directory can be created, no file exists, and a
copy or a download succeeds exactly for the candidates without the letter
`b`. -/
def flakyHost : Host where
  env := testEnv
  fs := fun _ => none
  userCacheDir := .ok "/home/u/.cache".toList
  mkdirAll := fun _ => none
  copyLocalFile := fun src _ =>
    if 'b' ∈ src then some (DownloadError "source file not found".toList) else none
  httpDownload := fun url _ =>
    if 'b' ∈ url then some (DownloadError "HTTP error: 404".toList) else none

/-- A dependency with the candidates `[bad, bad, good]`. -/
def mirrorDep : Dependency :=
  { Name := "fmt".toList, Version := "8.0.1".toList,
    Source := { Typ := "archive".toList,
                URLS := ["https://b1.test/f.tgz".toList, "https://b2.test/f.tgz".toList,
                         "https://ok.test/f.tgz".toList] } }

/-! ## `pkg/downloader`: one HTTP transfer -/

/-- What happens when a URL is fetched: the error of `http.NewRequestWithContext`
and that of `client.Do` (Go's `nil` is `none`), the status code and the
declared `ContentLength` of the response (`-1` when unknown), the bytes that
`io.Copy` receives from the body, and the error with which the copy ends
(`none` when the body ends normally). -/
structure Exchange where
  requestErr : Option GoError := none
  doErr : Option GoError := none
  StatusCode : Nat := 200
  ContentLength : Int := -1
  body : Bytes := []
  copyErr : Option GoError := none

/-- The failures of `os.Remove`, `os.Create` and `os.Rename` other than a
missing file, by path: `none` when the operation takes place. -/
structure Faults where
  remove : Str → Option GoError := fun _ => none
  create : Str → Option GoError := fun _ => none
  rename : Str → Option GoError := fun _ => none

/-- The file system with the file at `path` set to `v` (`none` removes
it). -/
def fsSet (fs : Str → Option Bytes) (path : Str) (v : Option Bytes) : Str → Option Bytes :=
  fun q => if q = path then v else fs q

/-- Go `os.Remove` whose result is ignored: the file is gone unless the
removal fails. -/
def removeQuietly (faults : Faults) (fs : Str → Option Bytes) (path : Str) :
    Str → Option Bytes :=
  match faults.remove path with
  | some _ => fs
  | none => fsSet fs path none

/-- Go `(*ArchiveDownloader).downloadFromHTTP`: the returned error and the
file system after the call. -/
def ArchiveDownloader.downloadFromHTTP (x : Exchange) (faults : Faults)
    (fs : Str → Option Bytes) (url cacheFile : Str) : Option GoError × (Str → Option Bytes) :=
  match x.requestErr with
  | some err => (some (DownloadErrorWithCause err ("invalid URL: ".toList ++ url)), fs)
  | none =>
  match x.doErr with
  | some err => (some (DownloadErrorWithCause err ("failed to download ".toList ++ url)), fs)
  | none =>
  if x.StatusCode ≠ 200 then
    (some (DownloadError ("HTTP error: ".toList ++ Nat.toDigits 10 x.StatusCode ++
      " for URL ".toList ++ url)), fs)
  else
    let tempFile := cacheFile ++ ".tmp".toList
    match (if (fs tempFile).isSome then faults.remove tempFile else none) with
    | some err =>
      (some (DownloadErrorWithCause err "failed to remove existing temp file".toList), fs)
    | none =>
    let fs := fsSet fs tempFile none
    match faults.create tempFile with
    | some err => (some (DownloadErrorWithCause err "failed to create temp file".toList), fs)
    | none =>
    let fs := fsSet fs tempFile (some x.body)
    match x.copyErr with
    | some err =>
      (some (DownloadErrorWithCause err "failed to write archive file".toList),
        removeQuietly faults fs tempFile)
    | none =>
    if x.ContentLength > 0 ∧ (x.body.length : Int) ≠ x.ContentLength then
      (some (DownloadError ("download incomplete: expected ".toList ++
        Nat.toDigits 10 x.ContentLength.toNat ++ " bytes, got ".toList ++
        Nat.toDigits 10 x.body.length ++ " bytes".toList)), removeQuietly faults fs tempFile)
    else
      match faults.rename tempFile with
      | some err =>
        (some (DownloadErrorWithCause err
          "failed to move downloaded file to final location".toList),
          removeQuietly faults fs tempFile)
      | none => (none, fsSet (fsSet fs cacheFile (some x.body)) tempFile none)

/-- Go `(*DirectDownloader).downloadFile`: the returned error and the file
system after the call. -/
def DirectDownloader.downloadFile (x : Exchange) (faults : Faults)
    (fs : Str → Option Bytes) (url targetPath : Str) : Option GoError × (Str → Option Bytes) :=
  match x.requestErr with
  | some err => (some (DownloadErrorWithCause err ("invalid URL: ".toList ++ url)), fs)
  | none =>
  match x.doErr with
  | some err => (some (DownloadErrorWithCause err ("failed to download ".toList ++ url)), fs)
  | none =>
  if x.StatusCode ≠ 200 then
    (some (DownloadError ("HTTP error: ".toList ++ Nat.toDigits 10 x.StatusCode)), fs)
  else
    match faults.create targetPath with
    | some err =>
      (some (DownloadErrorWithCause err ("failed to create file ".toList ++ targetPath)), fs)
    | none =>
    let fs := fsSet fs targetPath (some x.body)
    match x.copyErr with
    | some err => (some (DownloadErrorWithCause err "failed to write file".toList), fs)
    | none => (none, fs)

/-- A transfer that declares ten bytes and breaks off after three. -/
def brokenTransfer : Exchange :=
  { StatusCode := 200, ContentLength := 10, body := [1, 2, 3],
    copyErr := some (.sys "unexpected EOF".toList) }

/-- A file system with one complete file, at `d/lib.h`. -/
def oneFile : Str → Option Bytes :=
  fun p => if p = "d/lib.h".toList then some [7, 7, 7, 7] else none

/-! ## The file system as a tree, and `pkg/utils/fileutils.go` -/

/-- A node of the file system: a regular file with its content, or a
directory with its entries by name (in the order in which `os.ReadDir` lists
them). File modes and symbolic links are not modelled. -/
inductive Node where
  | file (data : Bytes)
  | dir (entries : List (Str × Node))

/-- The entry of a directory with the given name. -/
def lookupEntry : List (Str × Node) → Str → Option Node
  | [], _ => none
  | (k, n) :: rest, name => if k = name then some n else lookupEntry rest name

/-- The entries of a directory after the entry `name` is created or
replaced. -/
def setEntry : List (Str × Node) → Str → Node → List (Str × Node)
  | [], name, n => [(name, n)]
  | (k, m) :: rest, name, n =>
    if k = name then (k, n) :: rest else (k, m) :: setEntry rest name n

/-- The node at a path, given by the elements of the path from the root. -/
def Node.lookup : Node → List Str → Option Node
  | n, [] => some n
  | .file _, _ :: _ => none
  | .dir es, c :: cs =>
    match lookupEntry es c with
    | some child => child.lookup cs
    | none => none

/-- The elements of a path from the root: its `/`-separated pieces without
the empty ones, `.` and `..` (paths are resolved from the root, which is also
the working directory). -/
def pathElems (path : Str) : List Str :=
  (Split path '/').filter (fun e => e ≠ [] ∧ e ≠ ".".toList ∧ e ≠ "..".toList)

/-- Go `os.MkdirAll`: the tree with every missing directory of the path
created; `none` (an error, and no change) when an element of the path is a
regular file. -/
def MkdirAll : Node → List Str → Option Node
  | .file _, _ => none
  | .dir es, [] => some (.dir es)
  | .dir es, c :: cs =>
    match lookupEntry es c with
    | some child => (MkdirAll child cs).map (fun child2 => .dir (setEntry es c child2))
    | none => (MkdirAll (.dir []) cs).map (fun child2 => .dir (setEntry es c child2))

/-- The effect of `utils.CopyFile` on its destination, whose directory
exists: `os.OpenFile` with `O_CREATE|O_TRUNC` fails on a directory and leaves
it; otherwise the destination becomes a file with the copied content. -/
def copyFileNode (data : Bytes) : Option Node → Option GoError × Node
  | some (.dir es) => (some (.sys "is a directory".toList), .dir es)
  | _ => (none, .file data)

mutual
/-- The effect on the destination of copying a source node to it: of
`utils.CopyFile` for a file, and of `utils.CopyDir` for a directory, whose
`os.MkdirAll` fails on a regular file and otherwise creates the directory when
it is missing. -/
def copyNode : Node → Option Node → Option GoError × Node
  | .file data, dst => copyFileNode data dst
  | .dir src, dst =>
    match dst with
    | some (.file d) => (some (.sys "not a directory".toList), .file d)
    | some (.dir es) => ((copyEntries src es).1, .dir (copyEntries src es).2)
    | none => ((copyEntries src []).1, .dir (copyEntries src []).2)
/-- The loop of `utils.CopyDir` over the entries of the source directory: each
entry is copied to the entry of the same name of the destination, and the
first error ends the loop. -/
def copyEntries : List (Str × Node) → List (Str × Node) → Option GoError × List (Str × Node)
  | [], dst => (none, dst)
  | (name, n) :: rest, dst =>
    match (copyNode n (lookupEntry dst name)).1 with
    | some err => (some err, setEntry dst name (copyNode n (lookupEntry dst name)).2)
    | none => copyEntries rest (setEntry dst name (copyNode n (lookupEntry dst name)).2)
end

/-- A change `f` of the node at a path, applied to the tree; the directory of
the path must exist. -/
def updateAt (f : Option Node → Option GoError × Node) :
    Node → List Str → Option GoError × Node
  | n, [] => f (some n)
  | .file d, _ :: _ => (some (.sys "not a directory".toList), .file d)
  | .dir es, [c] => ((f (lookupEntry es c)).1, .dir (setEntry es c (f (lookupEntry es c)).2))
  | .dir es, c :: c2 :: cs =>
    match lookupEntry es c with
    | some child =>
      ((updateAt f child (c2 :: cs)).1, .dir (setEntry es c (updateAt f child (c2 :: cs)).2))
    | none => (some (.sys "no such file or directory".toList), .dir es)

/-- Go `utils.CopyFile(src, dst)` for a source file with the given content
outside the tree: the returned error and the tree after the call. `dir` holds
the elements of `filepath.Dir(dst)`. -/
def CopyFile (data : Bytes) (fs : Node) (dir dst : List Str) : Option GoError × Node :=
  match MkdirAll fs dir with
  | none => (some (.sys "not a directory".toList), fs)
  | some fs1 => updateAt (copyFileNode data) fs1 dst

/-- Go `utils.CopyDir(src, dst)` for a source directory with the given
entries outside the tree: the returned error and the tree after the call. -/
def CopyDir (src : List (Str × Node)) (fs : Node) (dst : List Str) : Option GoError × Node :=
  match MkdirAll fs dst with
  | none => (some (.sys "not a directory".toList), fs)
  | some fs1 => updateAt (copyNode (.dir src)) fs1 dst

/-- Go `errors.CacheError`. -/
def CacheError (message : Str) : GoError :=
  WrapWithCode none "CACHE_ERROR".toList message

/-- Go `errors.CacheErrorWithCause`. -/
def CacheErrorWithCause (err : GoError) (message : Str) : GoError :=
  WrapWithCode (some err) "CACHE_ERROR".toList message

/-- Go `(*CacheManager).IsBuildCached`. -/
def CacheManager.IsBuildCached (cm : CacheManager) (fs : Node) (dep : Dependency)
    (buildTag : Option BuildTag) : Bool :=
  (fs.lookup (pathElems (cm.GetBuildCachePath dep buildTag))).isSome

/-- Go `(*CacheManager).StoreBuild`, for build output `build` that lies
outside the cache tree `fs`: the returned error and the tree after the
call. -/
def CacheManager.StoreBuild (cm : CacheManager) (fs : Node) (dep : Dependency) (build : Node)
    (buildTag : Option BuildTag) : Option GoError × Node :=
  let cachePath := cm.GetBuildCachePath dep buildTag
  match MkdirAll fs (pathElems (Dir cachePath)) with
  | none =>
    (some (CacheErrorWithCause (.sys "not a directory".toList)
      "failed to create build cache directory".toList), fs)
  | some fs1 =>
    match build with
    | .dir src => CopyDir src fs1 (pathElems cachePath)
    | .file data => CopyFile data fs1 (pathElems (Dir cachePath)) (pathElems cachePath)

/-- Go `(*CacheManager).RetrieveBuild`, for a target outside the cache tree
whose directory exists: the returned error and the node at the target path
after the call, given the node `target` there before. -/
def CacheManager.RetrieveBuild (cm : CacheManager) (fs : Node) (dep : Dependency)
    (target : Option Node) (buildTag : Option BuildTag) : Option GoError × Option Node :=
  match fs.lookup (pathElems (cm.GetBuildCachePath dep buildTag)) with
  | none =>
    (some (CacheError ("build cache not found for dependency ".toList ++ dep.Name)), target)
  | some cached => ((copyNode cached target).1, some (copyNode cached target).2)

mutual
/-- The names in every directory of a tree are distinct, as in a real
directory. -/
def distinctNames : Node → Bool
  | .file _ => true
  | .dir es => distinctEntries es
/-- The names of the entries are distinct, in this list and below. -/
def distinctEntries : List (Str × Node) → Bool
  | [] => true
  | (name, n) :: rest =>
    (lookupEntry rest name).isNone && distinctNames n && distinctEntries rest
end

/-- A cache manager rooted at `/c`. -/
def cacheAtC : CacheManager := { cacheDir := "/c".toList }

/-- The dependency `fmt@8.0.1`. -/
def fmtDep : Dependency := { Name := "fmt".toList, Version := "8.0.1".toList }

/-- A build output with a library and a directory of headers. -/
def fmtBuild : List (Str × Node) :=
  [("libfmt.a".toList, .file [1, 2]), ("include".toList, .dir [("fmt.h".toList, .file [3])])]

/-- A canonical string that the directory-name encoding of `ToDirName` and
the path cleaning of `filepath.Join` leave recoverable: it contains none of
`-`, `+`, `|` and `/`. -/
def dirSafe (s : Str) : Prop :=
  '-' ∉ s ∧ '+' ∉ s ∧ '|' ∉ s ∧ '/' ∉ s

instance (s : Str) : Decidable (dirSafe s) := by
  unfold dirSafe
  infer_instance

/-- A value that survives the parser unchanged: it contains no `,` and
`TrimSpace` leaves it as it is (no leading or trailing white space). -/
def plainValue (v : Str) : Prop :=
  ',' ∉ v ∧ TrimSpace v = v

instance (v : Str) : Decidable (plainValue v) := by
  unfold plainValue
  infer_instance

/-- An architecture list that survives the parser unchanged: it is empty, or
no entry contains the separator `|` and the joined list is a `plainValue`. -/
def plainArchs (archs : List Str) : Prop :=
  archs = [] ∨ ((∀ a ∈ archs, '|' ∉ a) ∧ plainValue (Join archs "|".toList))

instance (archs : List Str) : Decidable (plainArchs archs) := by
  unfold plainArchs
  infer_instance

/-- A GPU sub-record that `String` writes out in full: it is absent, or it is
the enabled sub-record of its backend (`cuda`, `rocm` or `opencl`) with plain
values, the sub-records of the other two backends being absent. -/
def emittedGPU : Option GPUInfo → Prop
  | none => True
  | some g =>
    (g.Backend = "cuda".toList ∧ g.ROCm = none ∧ g.OpenCL = none ∧
      ∃ c ∈ g.CUDA, c.Enabled = true ∧ plainValue c.Version ∧ plainArchs c.Arch) ∨
    (g.Backend = "rocm".toList ∧ g.CUDA = none ∧ g.OpenCL = none ∧
      ∃ c ∈ g.ROCm, c.Enabled = true ∧ plainValue c.Version ∧ plainArchs c.Arch) ∨
    (g.Backend = "opencl".toList ∧ g.CUDA = none ∧ g.ROCm = none ∧
      ∃ c ∈ g.OpenCL, c.Enabled = true ∧ plainValue c.Version)

instance (g : Option GPUInfo) : Decidable (emittedGPU g) := by
  cases g with
  | none => exact isTrue trivial
  | some g =>
    unfold emittedGPU
    infer_instance

/-! ## The keys of a variant string -/

/-- The keys that the `switch key` of `ParseBuildTag` has a case for. -/
def knownKeys : List Str :=
  ["arch".toList, "platform".toList, "runtime".toList, "compiler".toList, "std".toList,
   "abi".toList, "target".toList, "cuda".toList, "cuda_version".toList, "cuda_arch".toList,
   "rocm".toList, "rocm_version".toList, "rocm_arch".toList, "opencl".toList,
   "opencl_version".toList, "gpu_backend".toList, "gpu_enabled".toList]

/-- A comma-separated segment that `ParseBuildTag` rejects: it is not empty
after trimming and either has no `=` or has a key (the trimmed text before
its first `=`) that is not a known key. -/
def badSegment (seg : Str) : Prop :=
  TrimSpace seg ≠ [] ∧
    ('=' ∉ TrimSpace seg ∨
      TrimSpace ((TrimSpace seg).takeWhile (fun c => c != '=')) ∉ knownKeys)

instance (seg : Str) : Decidable (badSegment seg) := by
  unfold badSegment; infer_instance

/-! ## The closed lists of `Validate` -/

/-- A GPU sub-record that is complete for its backend: the backend is `none`,
or it is one of `cuda`, `rocm` and `opencl` and the sub-record of that
backend is present with a version that is not empty. -/
def completeGPU (g : GPUInfo) : Prop :=
  g.Backend = "none".toList ∨
  (g.Backend = "cuda".toList ∧ ∃ c, g.CUDA = some c ∧ c.Version ≠ []) ∨
  (g.Backend = "rocm".toList ∧ ∃ c, g.ROCm = some c ∧ c.Version ≠ []) ∨
  (g.Backend = "opencl".toList ∧ ∃ c, g.OpenCL = some c ∧ c.Version ≠ [])

/-- A descriptor whose fields with a closed list hold a member of the list or
nothing, and whose GPU sub-record is absent or complete. -/
def wellFormedTag (bt : BuildTag) : Prop :=
  (bt.Arch = [] ∨ bt.Arch ∈ ["x86_64".toList, "arm64".toList, "x64".toList, "i386".toList,
    "aarch64".toList]) ∧
  (bt.Platform = [] ∨ bt.Platform ∈ ["linux".toList, "darwin".toList, "windows".toList]) ∧
  (bt.Std = [] ∨ bt.Std ∈ ["cpp11".toList, "cpp14".toList, "cpp17".toList, "cpp20".toList,
    "cpp23".toList]) ∧
  (bt.ABI = [] ∨ bt.ABI ∈ ["sysv".toList, "macho".toList, "msabi".toList]) ∧
  (bt.GPU = none ∨ ∃ g, bt.GPU = some g ∧ completeGPU g)

/-! ## `pkg/cache/manager.go`: the download entry -/

/-- The UTF-8 encoding of a code point. -/
def utf8Bytes (c : Char) : List Nat :=
  let n := c.toNat
  if n < 0x80 then [n]
  else if n < 0x800 then [0xC0 + n / 64, 0x80 + n % 64]
  else if n < 0x10000 then [0xE0 + n / 4096, 0x80 + (n / 64) % 64, 0x80 + n % 64]
  else [0xF0 + n / 262144, 0x80 + (n / 4096) % 64, 0x80 + (n / 64) % 64, 0x80 + n % 64]

/-- Go `[]byte(s)`: the bytes of a string. -/
def toBytes (s : Str) : Bytes := s.flatMap utf8Bytes

/-- Go `strings.Index(s, sep)` for a one-character ASCII `sep`: the position
of its first occurrence, or `-1`. The position is counted in code points, as
`Str` is; the embedded code uses it only to cut the string there. -/
def Index (s : Str) (sep : Char) : Int :=
  if sep ∈ s then ((s.takeWhile (fun c => c != sep)).length : Int) else -1

/-- Go `(*CacheManager).GetCacheKey`: the SHA-256 digest, in hexadecimal, of
the URLs, the version, and the tag and the hash when they are not empty. -/
def CacheManager.GetCacheKey (_cm : CacheManager) (env : Env) (dep : Dependency) : Str :=
  let h : Bytes := []
  let h := dep.Source.GetURLs.foldl (fun h url => h ++ toBytes url) h
  let h := h ++ toBytes dep.Version
  let h := if dep.Source.Tag ≠ [] then h ++ toBytes dep.Source.Tag else h
  let h := if dep.Source.Hash ≠ [] then h ++ toBytes dep.Source.Hash else h
  env.sha256 h

/-- Go `getFileNameFromURL` of `pkg/cache/manager.go`. -/
def getFileNameFromURL (url : Str) : Str :=
  let parts := Split url '/'
  if parts.length > 0 then
    let filename := parts.getLastD []
    let idx := Index filename '?'
    let filename := if idx ≠ -1 then filename.take idx.toNat else filename
    let idx := Index filename '#'
    let filename := if idx ≠ -1 then filename.take idx.toNat else filename
    filename
  else []

/-- Go `(*CacheManager).getCacheFileName`. -/
def CacheManager.getCacheFileName (cm : CacheManager) (env : Env) (dep : Dependency) : Str :=
  let urls := dep.Source.GetURLs
  let fromURL : Option Str :=
    match urls with
    | url :: _ =>
      let filename := getFileNameFromURL url
      if filename ≠ [] ∧ filename ≠ "download".toList then some filename else none
    | [] => none
  match fromURL with
  | some filename => filename
  | none =>
    let cacheKey := cm.GetCacheKey env dep
    let ext :=
      if dep.Source.Typ = "archive".toList then ".tar.gz".toList
      else if dep.Source.Typ = "git".toList then ".git".toList
      else ".bin".toList
    cacheKey ++ ext

/-- Go `(*CacheManager).GetDownloadCachePath`. -/
def CacheManager.GetDownloadCachePath (cm : CacheManager) (env : Env) (dep : Dependency) : Str :=
  let filename := cm.getCacheFileName env dep
  filepathJoin [cm.cacheDir, "buildfly".toList, dep.Name, dep.Version, filename]

/-- The file name of a download entry in the words of the specification: the
last `/`-separated segment of the first URL, without its `?` query and its
`#` fragment, when that is neither empty nor `download`; otherwise the cache
key followed by `.tar.gz` for an archive, `.git` for a git source and `.bin`
for any other type. -/
def specFileName (cm : CacheManager) (env : Env) (dep : Dependency) : Str :=
  let fallback :=
    cm.GetCacheKey env dep ++
      (if dep.Source.Typ = "archive".toList then ".tar.gz".toList
       else if dep.Source.Typ = "git".toList then ".git".toList
       else ".bin".toList)
  match dep.Source.GetURLs.head? with
  | none => fallback
  | some url =>
    let segment := (url.reverse.takeWhile (fun c => c != '/')).reverse
    let name := segment.takeWhile (fun c => c != '?' && c != '#')
    if name = [] ∨ name = "download".toList then fallback else name

/-- The dependency of the test `TestInstallCacheLogic`. -/
def testLibDep : Dependency :=
  { Name := "test-lib".toList, Version := "1.0.0".toList, BuildSystem := "cmake".toList,
    Source := { Typ := "archive".toList,
                URLS := ["https://example.com/test-lib.tar.gz".toList] } }

/-! ## `pkg/cache/manager.go`: storing downloads and sweeping the cache -/

/-- The entries of a directory without the entry `name`. -/
def removeEntry (es : List (Str × Node)) (name : Str) : List (Str × Node) :=
  es.filter (fun e => e.1 ≠ name)

/-- Go `os.RemoveAll` on the tree: the node at the path is removed with all
that is below it; a path that does not exist is left alone. The root itself is
never removed. -/
def RemoveAll : Node → List Str → Node
  | n, [] => n
  | .file d, _ :: _ => .file d
  | .dir es, [c] => .dir (removeEntry es c)
  | .dir es, c :: c2 :: cs =>
    match lookupEntry es c with
    | some child => .dir (setEntry es c (RemoveAll child (c2 :: cs)))
    | none => .dir es

/-- Go `(*CacheManager).Init`: the returned error and the tree after the
call. -/
def CacheManager.Init (cm : CacheManager) (fs : Node) : Option GoError × Node :=
  match MkdirAll fs (pathElems cm.cacheDir) with
  | none =>
    (some (CacheErrorWithCause (.sys "not a directory".toList)
      ("failed to create cache directory ".toList ++ cm.cacheDir)), fs)
  | some fs1 =>
    ["downloads".toList, "builds".toList, "metadata".toList].foldl
      (fun (acc : Option GoError × Node) dir =>
        match acc.1 with
        | some err => (some err, acc.2)
        | none =>
          match MkdirAll acc.2 (pathElems (filepathJoin [cm.cacheDir, dir])) with
          | none =>
            (some (CacheErrorWithCause (.sys "not a directory".toList)
              ("failed to create cache subdirectory ".toList ++ dir)), acc.2)
          | some fs2 => (none, fs2))
      (none, fs1)

/-- Go `(*CacheManager).IsCachedDownloads`. -/
def CacheManager.IsCachedDownloads (cm : CacheManager) (env : Env) (fs : Node)
    (dep : Dependency) : Bool :=
  (fs.lookup (pathElems (cm.GetDownloadCachePath env dep))).isSome

/-- Go `(*CacheManager).Store`, for a source `source` that lies outside the
cache tree `fs`: the returned error and the tree after the call. -/
def CacheManager.Store (cm : CacheManager) (env : Env) (fs : Node) (dep : Dependency)
    (source : Node) : Option GoError × Node :=
  let cachePath := cm.GetDownloadCachePath env dep
  match MkdirAll fs (pathElems (Dir cachePath)) with
  | none =>
    (some (CacheErrorWithCause (.sys "not a directory".toList)
      "failed to create cache directory".toList), fs)
  | some fs1 =>
    match source with
    | .dir src => CopyDir src fs1 (pathElems cachePath)
    | .file data => CopyFile data fs1 (pathElems (Dir cachePath)) (pathElems cachePath)

/-- Go `(*CacheManager).isExpired`. `since path` is `time.Since` of the
modification time of the node at `path`, in nanoseconds, at the time of the
call. -/
def CacheManager.isExpired (cm : CacheManager) (since : Str → Int) (fs : Node)
    (path : Str) : Bool :=
  match fs.lookup (pathElems path) with
  | none => true
  | some _ => decide (since path > cm.maxAge)

/-- Go `(*CacheManager).cleanupDir`: the returned error and the tree after the
call. `os.RemoveAll` does not fail on the tree. -/
def CacheManager.cleanupDir (cm : CacheManager) (since : Str → Int) (fs : Node)
    (dir : Str) : Option GoError × Node :=
  match fs.lookup (pathElems dir) with
  | some (.dir entries) =>
    (none, entries.foldl
      (fun fs entry =>
        let entryPath := filepathJoin [dir, entry.1]
        if cm.isExpired since fs entryPath then RemoveAll fs (pathElems entryPath) else fs)
      fs)
  | some (.file _) =>
    (some (CacheErrorWithCause (.sys "not a directory".toList)
      ("failed to read cache directory ".toList ++ dir)), fs)
  | none =>
    (some (CacheErrorWithCause (.sys "no such file or directory".toList)
      ("failed to read cache directory ".toList ++ dir)), fs)

/-- Go `(*CacheManager).Cleanup`: the returned error and the tree after the
call. -/
def CacheManager.Cleanup (cm : CacheManager) (since : Str → Int) (fs : Node) :
    Option GoError × Node :=
  match cm.cleanupDir since fs (filepathJoin [cm.cacheDir, "downloads".toList]) with
  | (some err, fs1) => (some err, fs1)
  | (none, fs1) =>
    match cm.cleanupDir since fs1 (filepathJoin [cm.cacheDir, "builds".toList]) with
    | (some err, fs2) => (some err, fs2)
    | (none, fs2) =>
      match cm.cleanupDir since fs2 (filepathJoin [cm.cacheDir, "metadata".toList]) with
      | (some err, fs3) => (some err, fs3)
      | (none, fs3) => (none, fs3)

/-- A day, in nanoseconds. -/
def day : Int := 24 * 60 * 60 * 1000000000

/-- A cache manager rooted at `/c` that keeps entries for seven days. -/
def weekCache : CacheManager := { cacheDir := "/c".toList, maxAge := 7 * day }

/-- The tree after `Init` of `weekCache` on an empty file system. -/
def initCache : Option GoError × Node := weekCache.Init (.dir [])

/-- The tree after `Store` of the download of `testLibDep` (a scratch
directory that holds the archive). -/
def downloadStored : Option GoError × Node :=
  weekCache.Store testEnv initCache.2 testLibDep
    (.dir [("test-lib.tar.gz".toList, .file [1, 2, 3])])

/-- The tree after `StoreBuild` of a build output of `testLibDep` for the nil
variant. -/
def buildStored : Option GoError × Node :=
  weekCache.StoreBuild downloadStored.2 testLibDep (.dir fmtBuild) none

/-! ## `cmd/cli/install.go`: the install orchestrator

The orchestrator runs against the operating system and against the other
packages of the repository. Both are interfaces here: a record of operations
on a state `σ`, each returning its result and the state after the call. The
functions of `install.go` are written once, for every such record; a record
that logs its calls gives the sequence of operations of a run. -/

/-- Go `config.ProjectConfig`, with the fields that the embedded functions
read. -/
structure ProjectConfig where
  BuildFlyBaseDir : Str := []
  InstallDir : Str := []
  BuildDir : Str := []
  CacheDir : Str := []
  BuildTag : Option BuildTag := none
  deriving DecidableEq

/-- The operations of the packages `os` and `path/filepath` that
`install.go` calls. `Lstat` returns whether the call succeeded, `ReadDir` the
names of the entries, `OpenAppend path` is
`os.OpenFile(path, O_APPEND|O_CREATE|O_WRONLY, 0644)` and `WriteString path`
is `WriteString` on the file opened there. -/
structure OS (σ : Type) where
  MkdirAll : Str → σ → Option GoError × σ
  MkdirTemp : Str → σ → Except GoError Str × σ
  RemoveAll : Str → σ → Option GoError × σ
  ReadDir : Str → σ → Except GoError (List Str) × σ
  Lstat : Str → σ → Bool × σ
  Abs : Str → σ → Except GoError Str × σ
  Symlink : Str → Str → σ → Option GoError × σ
  OpenAppend : Str → σ → Option GoError × σ
  WriteString : Str → Str → σ → Option GoError × σ

/-- The operations of the cache manager, of the download manager (the Fetch
Subsystem), of the build executor and of `utils` that `install.go` calls.
`StoreBuild` takes the cache directory of the manager that `compileInBuildDir`
creates for it; `Execute` takes the source, build and install directories. -/
structure Services (σ : Type) where
  IsCachedDownloads : Dependency → σ → Bool × σ
  IsBuildCached : Dependency → Option BuildTag → σ → Bool × σ
  Retrieve : Dependency → Str → σ → Option GoError × σ
  RetrieveBuild : Dependency → Str → Option BuildTag → σ → Option GoError × σ
  Store : Dependency → Str → σ → Option GoError × σ
  StoreBuild : Str → Dependency → Str → Option BuildTag → σ → Option GoError × σ
  Download : Dependency → Str → σ → Option GoError × σ
  Execute : Dependency → Str → Str → Str → σ → Option GoError × σ
  CopyDir : Str → Str → σ → Option GoError × σ

/-- Go `getDepBuildDir`. -/
def getDepBuildDir (cfg : ProjectConfig) (dep : Dependency) (buildTag : Option BuildTag) :
    Str :=
  let baseDir := filepathJoin [cfg.BuildDir, dep.Name, dep.Version]
  match buildTag with
  | some bt => filepathJoin [baseDir, BuildTag.ToDirName (some bt)]
  | none => baseDir

/-- Go `getDepInstallDir`. -/
def getDepInstallDir (cfg : ProjectConfig) (dep : Dependency) (buildTag : Option BuildTag) :
    Str :=
  let baseDir := filepathJoin [cfg.InstallDir, dep.Name, dep.Version]
  match buildTag with
  | some bt => filepathJoin [baseDir, BuildTag.ToDirName (some bt)]
  | none => baseDir

/-- The first loop of `linkToProjectDir`, over the entries of the source
directory: whatever is at the target path is removed, and a symbolic link to
the absolute source path is created there. `linkDirs` collects the target
paths. -/
def linkEntries {σ : Type} (os : OS σ) (sourceDir targetDepDir : Str) :
    List Str → List Str → σ → Except GoError (List Str) × σ
  | [], linkDirs, s => (.ok linkDirs, s)
  | name :: rest, linkDirs, s =>
    let sourcePath := filepathJoin [sourceDir, name]
    let targetPath := filepathJoin [targetDepDir, name]
    match os.Lstat targetPath s with
    | (found, s1) =>
      match (if found then os.RemoveAll targetPath s1 else (none, s1)) with
      | (some err, s2) =>
        (.error (.errorf ("failed to remove existing target path ".toList ++ targetPath ++
          ": ".toList) err), s2)
      | (none, s2) =>
        match os.Abs sourcePath s2 with
        | (.error err, s3) =>
          (.error (.errorf ("failed to get absolute path for source ".toList ++ sourcePath ++
            ": ".toList) err), s3)
        | (.ok absSourcePath, s3) =>
          match os.Symlink absSourcePath targetPath s3 with
          | (some err, s4) =>
            (.error (.errorf ("failed to create symlink for ".toList ++ name ++ ": ".toList)
              err), s4)
          | (none, s4) => linkEntries os sourceDir targetDepDir rest (linkDirs ++ [targetPath]) s4

/-- The second loop of `linkToProjectDir`: one line of the install record for
each target path. -/
def recordLinks {σ : Type} (os : OS σ) (installTxt : Str) : List Str → σ → Option GoError × σ
  | [], s => (none, s)
  | dir :: rest, s =>
    match os.WriteString installTxt (dir ++ "\n".toList) s with
    | (some err, s1) => (some (.errorf "failed to write install record: ".toList err), s1)
    | (none, s1) => recordLinks os installTxt rest s1

/-- The directory whose entries `linkToProjectDir` links into the project. -/
def linkSourceDir (cfg : ProjectConfig) (dep : Dependency) : Str :=
  let sourceDir := getDepInstallDir cfg dep cfg.BuildTag
  if dep.BuildSystem = [] ∨ dep.BuildSystem = "none".toList then cfg.InstallDir else sourceDir

/-- Go `linkToProjectDir`. -/
def linkToProjectDir {σ : Type} (os : OS σ) (cfg : ProjectConfig) (dep : Dependency) (s : σ) :
    Option GoError × σ :=
  let sourceDir := linkSourceDir cfg dep
  let targetDepDir := filepathJoin [cfg.BuildFlyBaseDir, "install".toList, dep.Name]
  match os.MkdirAll targetDepDir s with
  | (some err, s1) => (some (.errorf "failed to create target directory: ".toList err), s1)
  | (none, s1) =>
    match os.ReadDir sourceDir s1 with
    | (.error err, s2) => (some (.errorf "failed to read source directory: ".toList err), s2)
    | (.ok entries, s2) =>
      match linkEntries os sourceDir targetDepDir entries [] s2 with
      | (.error err, s3) => (some err, s3)
      | (.ok linkDirs, s3) =>
        let installTxt := filepathJoin [cfg.BuildFlyBaseDir, "install.txt".toList]
        match os.OpenAppend installTxt s3 with
        | (some err, s4) =>
          (some (.errorf "failed to open install record file: ".toList err), s4)
        | (none, s4) => recordLinks os installTxt linkDirs s4

/-- Go `compileInBuildDir`. A failure of `StoreBuild` is only printed. -/
def compileInBuildDir {σ : Type} (os : OS σ) (sv : Services σ) (cfg : ProjectConfig)
    (dep : Dependency) (buildDir installDir : Str) (noCache : Bool) (s : σ) :
    Option GoError × σ :=
  match os.MkdirAll installDir s with
  | (some err, s1) => (some (.errorf "failed to create install dir: ".toList err), s1)
  | (none, s1) =>
    match sv.Execute dep buildDir buildDir installDir s1 with
    | (some err, s2) =>
      (some (.errorf ("failed to build ".toList ++ dep.Name ++ ": ".toList) err), s2)
    | (none, s2) =>
      if !noCache then (none, (sv.StoreBuild cfg.CacheDir dep installDir cfg.BuildTag s2).2)
      else (none, s2)

/-- The part of `tryBuildFromCache` after its check of the build cache: the
source is retrieved from the download cache into the build directory, built
and linked. -/
def buildFromDownloadCache {σ : Type} (os : OS σ) (sv : Services σ) (cfg : ProjectConfig)
    (dep : Dependency) (noCache : Bool) (s : σ) : Bool × σ :=
  let depBuildDir := getDepBuildDir cfg dep cfg.BuildTag
  let depInstallDir := getDepInstallDir cfg dep cfg.BuildTag
  match os.MkdirAll depBuildDir s with
  | (some _, s1) => (false, s1)
  | (none, s1) =>
    match sv.Retrieve dep depBuildDir s1 with
    | (some _, s2) => (false, s2)
    | (none, s2) =>
      match compileInBuildDir os sv cfg dep depBuildDir depInstallDir noCache s2 with
      | (some _, s3) => (false, s3)
      | (none, s3) =>
        match linkToProjectDir os cfg dep s3 with
        | (some _, s4) => (false, s4)
        | (none, s4) => (true, s4)

/-- Go `tryBuildFromCache`. -/
def tryBuildFromCache {σ : Type} (os : OS σ) (sv : Services σ) (cfg : ProjectConfig)
    (dep : Dependency) (noCache : Bool) (s : σ) : Bool × σ :=
  let currentBuildTag := cfg.BuildTag
  let depInstallDir := getDepInstallDir cfg dep currentBuildTag
  match sv.IsBuildCached dep currentBuildTag s with
  | (true, s1) =>
    match os.MkdirAll depInstallDir s1 with
    | (some _, s2) => (false, s2)
    | (none, s2) =>
      match sv.RetrieveBuild dep depInstallDir currentBuildTag s2 with
      | (some _, s3) => buildFromDownloadCache os sv cfg dep noCache s3
      | (none, s3) =>
        match linkToProjectDir os cfg dep s3 with
        | (some _, s4) => (false, s4)
        | (none, s4) => (true, s4)
  | (false, s1) => buildFromDownloadCache os sv cfg dep noCache s1

/-- Go `tryInstallFromCache`. -/
def tryInstallFromCache {σ : Type} (os : OS σ) (sv : Services σ) (cfg : ProjectConfig)
    (dep : Dependency) (noCache : Bool) (s : σ) : Bool × σ :=
  match sv.IsCachedDownloads dep s with
  | (false, s1) => (false, s1)
  | (true, s1) =>
    if dep.BuildSystem ≠ [] ∧ dep.BuildSystem ≠ "none".toList then
      tryBuildFromCache os sv cfg dep noCache s1
    else
      match linkToProjectDir os cfg dep s1 with
      | (some _, s2) => (false, s2)
      | (none, s2) => (true, s2)

/-- Go `downloadArchivesIfNeeded`: the scratch directory that holds the
source, or an error. -/
def downloadArchivesIfNeeded {σ : Type} (os : OS σ) (sv : Services σ) (dep : Dependency)
    (noCache : Bool) (s : σ) : Except GoError Str × σ :=
  match (if !noCache then sv.IsCachedDownloads dep s else (false, s)) with
  | (true, s1) =>
    match os.MkdirTemp "buildfly-cache-*".toList s1 with
    | (.error err, s2) => (.error (.errorf "failed to create temp dir: ".toList err), s2)
    | (.ok tempDir, s2) =>
      match sv.Retrieve dep tempDir s2 with
      | (some err, s3) =>
        (.error (.errorf "failed to retrieve from cache: ".toList err),
          (os.RemoveAll tempDir s3).2)
      | (none, s3) => (.ok tempDir, s3)
  | (false, s1) =>
    match os.MkdirTemp "buildfly-download-*".toList s1 with
    | (.error err, s2) => (.error (.errorf "failed to create temp dir: ".toList err), s2)
    | (.ok tempDir, s2) =>
      match sv.Download dep tempDir s2 with
      | (some err, s3) =>
        (.error (.errorf ("failed to download ".toList ++ dep.Name ++ ": ".toList) err),
          (os.RemoveAll tempDir s3).2)
      | (none, s3) =>
        if !noCache then (.ok tempDir, (sv.Store dep tempDir s3).2)
        else (.ok tempDir, s3)

/-- Go `createBuildDirIfNeeded`. -/
def createBuildDirIfNeeded {σ : Type} (os : OS σ) (sv : Services σ) (cfg : ProjectConfig)
    (dep : Dependency) (buildTag : Option BuildTag) (sourceDir : Str) (s : σ) :
    Except GoError Str × σ :=
  let depBuildDir := getDepBuildDir cfg dep buildTag
  match os.MkdirAll depBuildDir s with
  | (some err, s1) => (.error (.errorf "failed to create build dir: ".toList err), s1)
  | (none, s1) =>
    match sv.CopyDir sourceDir depBuildDir s1 with
    | (some err, s2) =>
      (.error (.errorf "failed to copy source to build dir: ".toList err), s2)
    | (none, s2) => (.ok depBuildDir, s2)

/-- Go `downloadAndInstall`. -/
def downloadAndInstall {σ : Type} (os : OS σ) (sv : Services σ) (cfg : ProjectConfig)
    (dep : Dependency) (noCache : Bool) (s : σ) : Option GoError × σ :=
  match downloadArchivesIfNeeded os sv dep noCache s with
  | (.error err, s1) => (some (.errorf "failed to download archives: ".toList err), s1)
  | (.ok sourceDir, s1) =>
    let currentBuildTag := cfg.BuildTag
    match createBuildDirIfNeeded os sv cfg dep currentBuildTag sourceDir s1 with
    | (.error err, s2) => (some (.errorf "failed to create build dir: ".toList err), s2)
    | (.ok depBuildDir, s2) =>
      match
        (if dep.BuildSystem ≠ [] ∧ dep.BuildSystem ≠ "none".toList then
          match compileInBuildDir os sv cfg dep depBuildDir
              (getDepInstallDir cfg dep currentBuildTag) noCache s2 with
          | (some err, s3) => (some (GoError.errorf "failed to compile: ".toList err), s3)
          | (none, s3) => (none, s3)
        else (none, s2)) with
      | (some err, s3) => (some err, s3)
      | (none, s3) =>
        match linkToProjectDir os cfg dep s3 with
        | (some err, s4) => (some (.errorf "failed to link to project: ".toList err), s4)
        | (none, s4) => (none, s4)

/-- Go `installDependency`. -/
def installDependency {σ : Type} (os : OS σ) (sv : Services σ) (cfg : ProjectConfig)
    (dep : Dependency) (force noCache : Bool) (s : σ) : Option GoError × σ :=
  if !force && !noCache then
    match tryInstallFromCache os sv cfg dep noCache s with
    | (true, s1) => (none, s1)
    | (false, s1) => downloadAndInstall os sv cfg dep noCache s1
  else downloadAndInstall os sv cfg dep noCache s

/-- Go `runInstall` from the point where the build tag is settled and the
dependencies to install are resolved: the loop over `dependenciesToInstall`. -/
def runInstall {σ : Type} (os : OS σ) (sv : Services σ) (cfg : ProjectConfig)
    (force noCache : Bool) : List Dependency → σ → Option GoError × σ
  | [], s => (none, s)
  | dep :: rest, s =>
    match installDependency os sv cfg dep force noCache s with
    | (some err, s1) => (some err, s1)
    | (none, s1) => runInstall os sv cfg force noCache rest s1

/-- A call of one of the operations of `OS` or of `Services`, with its
arguments. -/
inductive Call where
  | MkdirAll (path : Str)
  | MkdirTemp (pattern : Str)
  | RemoveAll (path : Str)
  | ReadDir (path : Str)
  | Lstat (path : Str)
  | Abs (path : Str)
  | Symlink (oldname newname : Str)
  | OpenAppend (path : Str)
  | WriteString (path text : Str)
  | IsCachedDownloads (dep : Dependency)
  | IsBuildCached (dep : Dependency) (buildTag : Option BuildTag)
  | Retrieve (dep : Dependency) (targetPath : Str)
  | RetrieveBuild (dep : Dependency) (targetPath : Str) (buildTag : Option BuildTag)
  | Store (dep : Dependency) (sourcePath : Str)
  | StoreBuild (cacheDir : Str) (dep : Dependency) (buildPath : Str)
      (buildTag : Option BuildTag)
  | Download (dep : Dependency) (targetDir : Str)
  | Execute (dep : Dependency) (sourceDir buildDir installDir : Str)
  | CopyDir (src dst : Str)
  deriving DecidableEq

/-- A call of the Fetch Subsystem. -/
def Call.isDownload : Call → Bool
  | .Download _ _ => true
  | _ => false

/-- A call of the Build Executor. -/
def Call.isExecute : Call → Bool
  | .Execute _ _ _ _ => true
  | _ => false

/-- A call that takes the source out of the download cache. -/
def Call.isRetrieve : Call → Bool
  | .Retrieve _ _ => true
  | _ => false

/-- A call of an operation of `OS`. -/
def Call.isOS : Call → Bool
  | .MkdirAll _ => true
  | .MkdirTemp _ => true
  | .RemoveAll _ => true
  | .ReadDir _ => true
  | .Lstat _ => true
  | .Abs _ => true
  | .Symlink _ _ => true
  | .OpenAppend _ => true
  | .WriteString _ _ => true
  | _ => false

/-- The operations of `os`, each logging its call: the state is the state of
`os` with the calls made so far. -/
def OS.traced {σ : Type} (os : OS σ) : OS (σ × List Call) where
  MkdirAll := fun path s =>
    ((os.MkdirAll path s.1).1, ((os.MkdirAll path s.1).2, s.2 ++ [.MkdirAll path]))
  MkdirTemp := fun pattern s =>
    ((os.MkdirTemp pattern s.1).1, ((os.MkdirTemp pattern s.1).2, s.2 ++ [.MkdirTemp pattern]))
  RemoveAll := fun path s =>
    ((os.RemoveAll path s.1).1, ((os.RemoveAll path s.1).2, s.2 ++ [.RemoveAll path]))
  ReadDir := fun path s =>
    ((os.ReadDir path s.1).1, ((os.ReadDir path s.1).2, s.2 ++ [.ReadDir path]))
  Lstat := fun path s =>
    ((os.Lstat path s.1).1, ((os.Lstat path s.1).2, s.2 ++ [.Lstat path]))
  Abs := fun path s =>
    ((os.Abs path s.1).1, ((os.Abs path s.1).2, s.2 ++ [.Abs path]))
  Symlink := fun oldname newname s =>
    ((os.Symlink oldname newname s.1).1,
      ((os.Symlink oldname newname s.1).2, s.2 ++ [.Symlink oldname newname]))
  OpenAppend := fun path s =>
    ((os.OpenAppend path s.1).1, ((os.OpenAppend path s.1).2, s.2 ++ [.OpenAppend path]))
  WriteString := fun path text s =>
    ((os.WriteString path text s.1).1,
      ((os.WriteString path text s.1).2, s.2 ++ [.WriteString path text]))

/-- The operations of `sv`, each logging its call. -/
def Services.traced {σ : Type} (sv : Services σ) : Services (σ × List Call) where
  IsCachedDownloads := fun dep s =>
    ((sv.IsCachedDownloads dep s.1).1,
      ((sv.IsCachedDownloads dep s.1).2, s.2 ++ [.IsCachedDownloads dep]))
  IsBuildCached := fun dep bt s =>
    ((sv.IsBuildCached dep bt s.1).1,
      ((sv.IsBuildCached dep bt s.1).2, s.2 ++ [.IsBuildCached dep bt]))
  Retrieve := fun dep target s =>
    ((sv.Retrieve dep target s.1).1,
      ((sv.Retrieve dep target s.1).2, s.2 ++ [.Retrieve dep target]))
  RetrieveBuild := fun dep target bt s =>
    ((sv.RetrieveBuild dep target bt s.1).1,
      ((sv.RetrieveBuild dep target bt s.1).2, s.2 ++ [.RetrieveBuild dep target bt]))
  Store := fun dep source s =>
    ((sv.Store dep source s.1).1, ((sv.Store dep source s.1).2, s.2 ++ [.Store dep source]))
  StoreBuild := fun cacheDir dep path bt s =>
    ((sv.StoreBuild cacheDir dep path bt s.1).1,
      ((sv.StoreBuild cacheDir dep path bt s.1).2, s.2 ++ [.StoreBuild cacheDir dep path bt]))
  Download := fun dep target s =>
    ((sv.Download dep target s.1).1,
      ((sv.Download dep target s.1).2, s.2 ++ [.Download dep target]))
  Execute := fun dep src build inst s =>
    ((sv.Execute dep src build inst s.1).1,
      ((sv.Execute dep src build inst s.1).2, s.2 ++ [.Execute dep src build inst]))
  CopyDir := fun src dst s =>
    ((sv.CopyDir src dst s.1).1, ((sv.CopyDir src dst s.1).2, s.2 ++ [.CopyDir src dst]))

/-- A small world for running the orchestrator on examples: what the caches
hold, the names of the dependencies whose source cannot be fetched, and
whether links can be created in the project tree. -/
structure Scene where
  downloadCached : List Str := []
  buildCached : List Str := []
  offline : List Str := []
  readOnly : Bool := false
  deriving DecidableEq

/-- The operating system of a `Scene`: every operation succeeds, except that
`Symlink` fails in a read-only project; every source directory holds `include`
and `lib`, nothing exists at a target path, paths are absolute already, and the
scratch directory of `MkdirTemp` takes `1` for the `*` of its pattern. -/
def sceneOS : OS Scene where
  MkdirAll := fun _ s => (none, s)
  MkdirTemp := fun pattern s => (.ok ("/tmp/".toList ++ ReplaceAll pattern '*' "1".toList), s)
  RemoveAll := fun _ s => (none, s)
  ReadDir := fun _ s => (.ok ["include".toList, "lib".toList], s)
  Lstat := fun _ s => (false, s)
  Abs := fun path s => (.ok path, s)
  Symlink := fun _ _ s =>
    if s.readOnly then (some (.sys "permission denied".toList), s) else (none, s)
  OpenAppend := fun _ s => (none, s)
  WriteString := fun _ _ s => (none, s)

/-- The services of a `Scene`: the caches answer by the name of the
dependency, storing adds the name, fetching fails for the names that are
offline, and building and copying succeed. -/
def sceneServices : Services Scene where
  IsCachedDownloads := fun dep s => (decide (dep.Name ∈ s.downloadCached), s)
  IsBuildCached := fun dep _ s => (decide (dep.Name ∈ s.buildCached), s)
  Retrieve := fun dep _ s =>
    if dep.Name ∈ s.downloadCached then (none, s)
    else (some (CacheError ("cache not found for dependency ".toList ++ dep.Name)), s)
  RetrieveBuild := fun dep _ _ s =>
    if dep.Name ∈ s.buildCached then (none, s)
    else (some (CacheError ("build cache not found for dependency ".toList ++ dep.Name)), s)
  Store := fun dep _ s => (none, { s with downloadCached := dep.Name :: s.downloadCached })
  StoreBuild := fun _ dep _ _ s => (none, { s with buildCached := dep.Name :: s.buildCached })
  Download := fun dep _ s =>
    if dep.Name ∈ s.offline then
      (some (DownloadErrorWithCause (DownloadError "no valid URLs found".toList)
        ("failed to download ".toList ++ dep.Name)), s)
    else (none, s)
  Execute := fun _ _ _ _ s => (none, s)
  CopyDir := fun _ _ s => (none, s)

/-- The configuration that `fillConfigDefaults` gives a project at `/p` for
the home directory `/home/u`. -/
def defaultConfig : ProjectConfig :=
  { BuildFlyBaseDir := "/p/.buildfly".toList, InstallDir := "/home/u/.buildfly/install".toList,
    BuildDir := "/p/.buildfly/build".toList, CacheDir := "/home/u/.buildfly/cache".toList,
    BuildTag := some {} }

/-- A header-only dependency: a direct source and no build system. -/
def hdrDep : Dependency :=
  { Name := "hdr".toList, Version := "1.0".toList,
    Source := { Typ := "direct".toList, URLS := ["https://example.com/hdr.h".toList] } }

/-- A header-only dependency with the build system `none`, as the loader
accepts it. -/
def headersDep : Dependency :=
  { Name := "hdr".toList, Version := "1.0".toList, BuildSystem := "none".toList,
    Source := { Typ := "direct".toList, URLS := ["https://example.com/hdr.h".toList] } }

/-- A second dependency with a build system. -/
def zlibDep : Dependency :=
  { Name := "zlib".toList, Version := "1.3".toList, BuildSystem := "make".toList,
    Source := { Typ := "archive".toList, URLS := ["https://example.com/zlib.tar.gz".toList] } }

/-- The log `l` extends the log `l0` by calls that all satisfy `Q`. -/
def Extends (Q : Call → Bool) (l0 l : List Call) : Prop :=
  ∃ added, l = l0 ++ added ∧ ∀ c ∈ added, Q c = true

/-! ## A file system with symbolic links

The link step of the orchestrator and the link manager of `pkg/utils` work on
a project tree with symbolic links. The state of the file system is the list
of its objects by absolute path (as the elements of the path), with the
working directory of the process. The root directory always exists. Paths are
resolved by their text: operations on a path one of whose proper prefixes is a
symbolic link fail. Permissions and times are not part of the state. -/

instance (e : Str) : Decidable (plainElem e) := by
  unfold plainElem; infer_instance

/-- What is at a path: a regular file with its text, a directory, or a
symbolic link with its target. -/
inductive Obj where
  | file (content : Str)
  | dir
  | link (target : Str)
  deriving DecidableEq

/-- The state of the file system. `nextTemp` is the number that the next
`os.MkdirTemp` puts in place of the `*` of its pattern (a random string in
Go), and `tempDir` is `os.TempDir()`. -/
structure FS where
  cwd : List Str := []
  objs : List (List Str × Obj) := []
  tempDir : Str := "/tmp".toList
  nextTemp : Nat := 0
  deriving DecidableEq

/-- The object with the given key in a list of objects: the first one. -/
def lookupObj : List (List Str × Obj) → List Str → Option Obj
  | [], _ => none
  | (k, o) :: rest, key => if k = key then some o else lookupObj rest key

/-- The objects after the object at `key` is created or replaced. -/
def setObj : List (List Str × Obj) → List Str → Obj → List (List Str × Obj)
  | [], key, o => [(key, o)]
  | (k, p) :: rest, key, o => if k = key then (k, o) :: rest else (k, p) :: setObj rest key o

/-- The elements of the absolute path that `path` names, relative paths being
taken from `base`: empty elements and `.` are skipped and `..` removes the
last element. -/
def resolveFrom (base : List Str) (path : Str) : List Str :=
  (Split path '/').foldl (cleanStep true) (if HasPrefix path "/".toList then [] else base)

/-- The elements of the absolute path that `path` names in the working
directory. -/
def FS.resolve (fs : FS) (path : Str) : List Str := resolveFrom fs.cwd path

/-- The text of an absolute path from its elements. -/
def renderAbs (elems : List Str) : Str := "/".toList ++ Join elems "/".toList

/-- What `os.Lstat` finds at an absolute path. -/
def FS.lstat (fs : FS) (key : List Str) : Option Obj :=
  if key = [] then some .dir else lookupObj fs.objs key

/-- What `os.Stat` finds at an absolute path, with the path of the object: a
symbolic link at the path is followed, a relative target being taken from the
directory of the link, through at most `fuel - 1` links. -/
def FS.statFrom (fs : FS) : Nat → List Str → Option (List Str × Obj)
  | 0, _ => none
  | fuel + 1, key =>
    match fs.lstat key with
    | some (.link target) => fs.statFrom fuel (resolveFrom key.dropLast target)
    | some o => some (key, o)
    | none => none

/-- What `os.Stat` finds at an absolute path; the kernel follows at most 40
symbolic links. -/
def FS.stat (fs : FS) (key : List Str) : Option (List Str × Obj) := fs.statFrom 41 key

/-- Go `utils.PathExists`. -/
def FS.PathExists (fs : FS) (path : Str) : Bool := (fs.stat (fs.resolve path)).isSome

/-- Go `os.Lstat(path)` without error. -/
def FS.Lstat (fs : FS) (path : Str) : Bool := (fs.lstat (fs.resolve path)).isSome

/-- The loop of `os.MkdirAll` over the prefixes of the path: `done` holds the
elements of the prefix that exists, `todo` the elements that remain. A missing
directory is created; a regular file on the way is an error, and so is a
symbolic link, unless it is the last element and leads to a directory. -/
def FS.mkdirFrom (fs : FS) (done : List Str) : List Str → Option GoError × FS
  | [] => (none, fs)
  | e :: todo =>
    match fs.lstat (done ++ [e]) with
    | some .dir => fs.mkdirFrom (done ++ [e]) todo
    | none =>
      FS.mkdirFrom { fs with objs := fs.objs ++ [(done ++ [e], .dir)] } (done ++ [e]) todo
    | some (.file _) => (some (.sys "not a directory".toList), fs)
    | some (.link _) =>
      if todo = [] ∧ (fs.stat (done ++ [e])).map (fun r => r.2) = some .dir then (none, fs)
      else (some (.sys "not a directory".toList), fs)

/-- Go `os.MkdirAll`. -/
def FS.MkdirAll (fs : FS) (path : Str) : Option GoError × FS :=
  fs.mkdirFrom [] (fs.resolve path)

/-- The byte order of Go strings, which is the order of their code points. -/
def strLe : Str → Str → Bool
  | [], _ => true
  | _ :: _, [] => false
  | a :: as, b :: bs => if a.toNat < b.toNat then true else if a = b then strLe as bs else false

/-- The order in which `filepath.Walk` visits paths, given by their elements:
a directory before what is in it, and the entries of a directory in byte
order. -/
def keyLe : List Str → List Str → Bool
  | [], _ => true
  | _ :: _, [] => false
  | a :: as, b :: bs => if a = b then keyLe as bs else strLe a b

/-- The names of the entries of the directory at `key`, as `os.ReadDir` lists
them: each name once, in byte order. An entry name is an ordinary path
element. -/
def FS.entryNames (fs : FS) (key : List Str) : List Str :=
  (((fs.objs.filter (fun e => decide (e.1 ≠ [] ∧ e.1.dropLast = key ∧
      plainElem (e.1.getLastD [])))).map (fun e => e.1.getLastD [])).dedup).insertionSort
    (fun a b => strLe a b = true)

/-- Go `os.ReadDir`, with the names of the entries. -/
def FS.ReadDir (fs : FS) (path : Str) : Except GoError (List Str) :=
  match fs.stat (fs.resolve path) with
  | some (key, .dir) => .ok (fs.entryNames key)
  | some _ => .error (.sys "not a directory".toList)
  | none => .error (.sys "no such file or directory".toList)

/-- Go `os.RemoveAll`: the object at the path goes with all that is below it;
a path without an object is not an error. -/
def FS.RemoveAll (fs : FS) (path : Str) : Option GoError × FS :=
  if fs.resolve path = [] then (some (.sys "unlinkat /: device or resource busy".toList), fs)
  else
    (none, { fs with objs := fs.objs.filter (fun e => decide (¬ (fs.resolve path) <+: e.1)) })

/-- Go `filepath.Abs`. -/
def FS.Abs (fs : FS) (path : Str) : Str := renderAbs (fs.resolve path)

/-- Go `os.Symlink(oldname, newname)`: fails when something is at `newname`
or the directory of `newname` is missing. -/
def FS.Symlink (fs : FS) (oldname newname : Str) : Option GoError × FS :=
  let key := fs.resolve newname
  if (fs.lstat key).isSome then (some (.sys "file exists".toList), fs)
  else if fs.lstat key.dropLast = some .dir then
    (none, { fs with objs := fs.objs ++ [(key, .link oldname)] })
  else (some (.sys "no such file or directory".toList), fs)

/-- Go `os.ReadFile`. -/
def FS.ReadFile (fs : FS) (path : Str) : Except GoError Str :=
  match fs.stat (fs.resolve path) with
  | some (_, .file content) => .ok content
  | some _ => .error (.sys "is a directory".toList)
  | none => .error (.sys "no such file or directory".toList)

/-- Go `os.OpenFile(path, O_WRONLY|O_CREATE|flags, 0644)` followed by writes:
the file is created when it is missing, `update` gives its new text from the
old one (the empty text for a new file). The directory of a new file must
exist. -/
def FS.writeWith (fs : FS) (path : Str) (update : Str → Str) : Option GoError × FS :=
  let key := fs.resolve path
  match fs.stat key with
  | some (at_, .file content) =>
    (none, { fs with objs := setObj fs.objs at_ (.file (update content)) })
  | some _ => (some (.sys "is a directory".toList), fs)
  | none =>
    if (fs.lstat key).isNone ∧ fs.lstat key.dropLast = some .dir then
      (none, { fs with objs := fs.objs ++ [(key, .file (update []))] })
    else (some (.sys "no such file or directory".toList), fs)

/-- Go `os.WriteFile(path, data, 0644)`. -/
def FS.WriteFile (fs : FS) (path : Str) (data : Str) : Option GoError × FS :=
  fs.writeWith path (fun _ => data)

/-- Go `os.OpenFile(path, O_APPEND|O_CREATE|O_WRONLY, 0644)`. -/
def FS.OpenAppend (fs : FS) (path : Str) : Option GoError × FS :=
  fs.writeWith path (fun content => content)

/-- Go `WriteString` on a file opened for appending at `path`. -/
def FS.WriteString (fs : FS) (path text : Str) : Option GoError × FS :=
  match fs.stat (fs.resolve path) with
  | some (at_, .file content) =>
    (none, { fs with objs := setObj fs.objs at_ (.file (content ++ text)) })
  | _ => (some (.sys "bad file descriptor".toList), fs)

/-- Go `os.OpenFile(path, O_TRUNC|O_WRONLY, 0644)`: the file must exist and
is emptied. -/
def FS.OpenTrunc (fs : FS) (path : Str) : Option GoError × FS :=
  match fs.stat (fs.resolve path) with
  | some (at_, .file _) => (none, { fs with objs := setObj fs.objs at_ (.file []) })
  | some _ => (some (.sys "is a directory".toList), fs)
  | none => (some (.sys "no such file or directory".toList), fs)

/-- Go `os.MkdirTemp("", pattern)`: a new directory in the directory for
temporary files, named by the pattern with its last `*` replaced. -/
def FS.MkdirTemp (fs : FS) (pattern : Str) : Except GoError Str × FS :=
  let pre := (pattern.reverse.dropWhile (fun c => c != '*')).reverse.dropLast
  let suf := (pattern.reverse.takeWhile (fun c => c != '*')).reverse
  let name :=
    if '*' ∈ pattern then pre ++ (Nat.toDigits 10 fs.nextTemp) ++ suf
    else pattern ++ (Nat.toDigits 10 fs.nextTemp)
  let path := filepathJoin [fs.tempDir, name]
  let key := fs.resolve path
  if (fs.lstat key).isNone ∧ fs.lstat key.dropLast = some .dir then
    (.ok path, { fs with objs := fs.objs ++ [(key, .dir)], nextTemp := fs.nextTemp + 1 })
  else (.error (.sys "no such file or directory".toList), fs)

/-- The paths that `filepath.Walk(root, fn)` visits, with the names that
`fn` sees: the root and, when it is a directory, all that is below it, in the
order of the walk. `none` when nothing is at the root. The callbacks of the
embedded code change nothing below the root. -/
def FS.walk (fs : FS) (root : Str) : Option (List (Str × Str)) :=
  let key := fs.resolve root
  match fs.lstat key with
  | none => none
  | some o =>
    let below :=
      match o with
      | .dir =>
        (((fs.objs.map (fun e : List Str × Obj => e.1)).filter
          (fun k => decide (key <+: k ∧ k ≠ key))).map
            (fun k : List Str => k.drop key.length)).insertionSort
            (fun a b => keyLe a b = true)
      | _ => []
    some ((root, Base root) ::
      below.map (fun rel => (filepathJoin (root :: rel), rel.getLastD [])))

/-- The operations of `OS` on the file system. -/
def posix : OS FS where
  MkdirAll := fun path fs => fs.MkdirAll path
  MkdirTemp := fun pattern fs => fs.MkdirTemp pattern
  RemoveAll := fun path fs => fs.RemoveAll path
  ReadDir := fun path fs => (fs.ReadDir path, fs)
  Lstat := fun path fs => (fs.Lstat path, fs)
  Abs := fun path fs => (.ok (fs.Abs path), fs)
  Symlink := fun oldname newname fs => fs.Symlink oldname newname
  OpenAppend := fun path fs => fs.OpenAppend path
  WriteString := fun path text fs => fs.WriteString path text

/-- A file system with a project at `/p` (the working directory) and, in the
install directory of `defaultConfig`, the build output of `test-lib` for the
empty variant: the directories `include` and `lib`. At the place of the link
to `lib` in the project there is a stale regular file. -/
def projectFS : FS :=
  { cwd := ["p".toList],
    objs :=
      [(["p".toList], .dir), (["tmp".toList], .dir), (["home".toList], .dir),
       (["home".toList, "u".toList], .dir),
       (["home".toList, "u".toList, ".buildfly".toList], .dir),
       (["home".toList, "u".toList, ".buildfly".toList, "install".toList], .dir),
       (["home".toList, "u".toList, ".buildfly".toList, "install".toList, "test-lib".toList],
          .dir),
       (["home".toList, "u".toList, ".buildfly".toList, "install".toList, "test-lib".toList,
         "1.0.0".toList], .dir),
       (["home".toList, "u".toList, ".buildfly".toList, "install".toList, "test-lib".toList,
         "1.0.0".toList, "lib".toList], .dir),
       (["home".toList, "u".toList, ".buildfly".toList, "install".toList, "test-lib".toList,
         "1.0.0".toList, "include".toList], .dir),
       (["p".toList, ".buildfly".toList], .dir),
       (["p".toList, ".buildfly".toList, "install".toList], .dir),
       (["p".toList, ".buildfly".toList, "install".toList, "test-lib".toList], .dir),
       (["p".toList, ".buildfly".toList, "install".toList, "test-lib".toList, "lib".toList],
          .file "stale".toList)] }

/-! ## `pkg/utils/link_manager.go`: the link manager -/

/-- Go `LinkInfo`, without its time. -/
structure LinkInfo where
  TargetPath : Str := []
  SourcePath : Str := []
  deriving DecidableEq

/-- Go `InstallManifest`, without its time. -/
structure InstallManifest where
  DepName : Str := []
  Version : Str := []
  BuildTag : Str := []
  Links : List LinkInfo := []
  deriving DecidableEq

/-- Go `LinkManager`, without its mutex. -/
structure LinkManager where
  projectRoot : Str := []
  installTxtPath : Str := []
  deriving DecidableEq

/-- Go `NewLinkManager`. -/
def NewLinkManager (projectRoot : Str) : LinkManager :=
  { projectRoot := projectRoot,
    installTxtPath := filepathJoin [projectRoot, ".buildfly".toList, "install.txt".toList] }

/-- The loop of `prepareInstall` over the entries of the source directory. -/
def LinkManager.prepareEntries (tempDir sourceDir targetDir : Str) :
    List Str → InstallManifest → FS → Option GoError × InstallManifest × FS
  | [], manifest, fs => (none, manifest, fs)
  | name :: rest, manifest, fs =>
    let sourcePath := filepathJoin [sourceDir, name]
    let targetPath := filepathJoin [targetDir, name]
    let flagged : Option GoError × FS :=
      if fs.Lstat targetPath then
        let backupPath := filepathJoin [tempDir, "remove".toList, name]
        match fs.MkdirAll (Dir backupPath) with
        | (some err, fs1) =>
          (some (.errorf "failed to create backup directory: ".toList err), fs1)
        | (none, fs1) =>
          let removeFile := filepathJoin [backupPath, "remove.flag".toList]
          match fs1.WriteFile removeFile targetPath with
          | (some err, fs2) => (some (.errorf "failed to create remove flag: ".toList err), fs2)
          | (none, fs2) => (none, fs2)
      else (none, fs)
    match flagged with
    | (some err, fs1) => (some err, manifest, fs1)
    | (none, fs1) =>
      let absSourcePath := fs1.Abs sourcePath
      let manifest : InstallManifest :=
        { manifest with
          Links := manifest.Links ++ [{ TargetPath := targetPath, SourcePath := absSourcePath }] }
      let tempLinkPath := filepathJoin [tempDir, "links".toList, name]
      match fs1.MkdirAll (Dir tempLinkPath) with
      | (some err, fs2) =>
        (some (.errorf "failed to create temp link directory: ".toList err), manifest, fs2)
      | (none, fs2) =>
        match fs2.Symlink absSourcePath tempLinkPath with
        | (some err, fs3) =>
          (some (.errorf "failed to create temp symlink: ".toList err), manifest, fs3)
        | (none, fs3) => LinkManager.prepareEntries tempDir sourceDir targetDir rest manifest fs3

/-- Go `(*LinkManager).prepareInstall`: the error, the manifest with the
links to create, and the file system after the call. -/
def LinkManager.prepareInstall (_lm : LinkManager) (tempDir sourceDir targetDir : Str)
    (manifest : InstallManifest) (fs : FS) : Option GoError × InstallManifest × FS :=
  if !fs.PathExists sourceDir then
    (some (.sys ("source directory does not exist: ".toList ++ sourceDir)), manifest, fs)
  else
    match fs.ReadDir sourceDir with
    | .error err =>
      (some (.errorf "failed to read source directory: ".toList err), manifest, fs)
    | .ok entries =>
      match fs.MkdirAll targetDir with
      | (some err, fs1) =>
        (some (.errorf "failed to create target directory: ".toList err), manifest, fs1)
      | (none, fs1) => LinkManager.prepareEntries tempDir sourceDir targetDir entries manifest fs1

/-- The callback of `executeRemovals` on the visited paths; each comes with
the name that `info.Name()` returns. -/
def LinkManager.removeFlagged : List (Str × Str) → FS → Option GoError × FS
  | [], fs => (none, fs)
  | (path, name) :: rest, fs =>
    if name = "remove.flag".toList then
      match fs.ReadFile path with
      | .error err => (some (.errorf "failed to read remove flag: ".toList err), fs)
      | .ok targetPath =>
        match fs.RemoveAll targetPath with
        | (some err, fs1) =>
          (some (.errorf ("failed to remove target path ".toList ++ targetPath ++ ": ".toList)
            err), fs1)
        | (none, fs1) => LinkManager.removeFlagged rest fs1
    else LinkManager.removeFlagged rest fs

/-- Go `(*LinkManager).executeRemovals`. -/
def LinkManager.executeRemovals (_lm : LinkManager) (removeDir : Str) (fs : FS) :
    Option GoError × FS :=
  match fs.walk removeDir with
  | none => (some (.sys "no such file or directory".toList), fs)
  | some visited => LinkManager.removeFlagged visited fs

/-- The loop of `executeLinks` and the body of the function. -/
def LinkManager.executeLinks (_lm : LinkManager) : List LinkInfo → FS → Option GoError × FS
  | [], fs => (none, fs)
  | linkInfo :: rest, fs =>
    match fs.MkdirAll (Dir linkInfo.TargetPath) with
    | (some err, fs1) =>
      (some (.errorf ("failed to create target directory for ".toList ++ linkInfo.TargetPath ++
        ": ".toList) err), fs1)
    | (none, fs1) =>
      match fs1.Symlink linkInfo.SourcePath linkInfo.TargetPath with
      | (some err, fs2) =>
        (some (.errorf ("failed to create symlink ".toList ++ linkInfo.TargetPath ++
          " -> ".toList ++ linkInfo.SourcePath ++ ": ".toList) err), fs2)
      | (none, fs2) => LinkManager.executeLinks _lm rest fs2

/-- Go `(*LinkManager).executeInstall`. -/
def LinkManager.executeInstall (lm : LinkManager) (tempDir : Str) (manifest : InstallManifest)
    (fs : FS) : Option GoError × FS :=
  let removeDir := filepathJoin [tempDir, "remove".toList]
  let removed : Option GoError × FS :=
    if fs.PathExists removeDir then
      match lm.executeRemovals removeDir fs with
      | (some err, fs1) => (some (.errorf "failed to execute removals: ".toList err), fs1)
      | (none, fs1) => (none, fs1)
    else (none, fs)
  match removed with
  | (some err, fs1) => (some err, fs1)
  | (none, fs1) =>
    let linksDir := filepathJoin [tempDir, "links".toList]
    if fs1.PathExists linksDir then
      match lm.executeLinks manifest.Links fs1 with
      | (some err, fs2) => (some (.errorf "failed to execute links: ".toList err), fs2)
      | (none, fs2) => (none, fs2)
    else (none, fs1)

/-- The loop that writes one line for each link to the open manifest file. -/
def LinkManager.writeLinks (path : Str) : List LinkInfo → FS → Option GoError × FS
  | [], fs => (none, fs)
  | linkInfo :: rest, fs =>
    match fs.WriteString path (linkInfo.TargetPath ++ "\n".toList) with
    | (some err, fs1) => (some (.errorf "failed to write to manifest: ".toList err), fs1)
    | (none, fs1) => LinkManager.writeLinks path rest fs1

/-- Go `(*LinkManager).recordInstall`. -/
def LinkManager.recordInstall (lm : LinkManager) (manifest : InstallManifest) (fs : FS) :
    Option GoError × FS :=
  match fs.MkdirAll (Dir lm.installTxtPath) with
  | (some err, fs1) => (some (.errorf "failed to create manifest directory: ".toList err), fs1)
  | (none, fs1) =>
    match fs1.OpenAppend lm.installTxtPath with
    | (some err, fs2) => (some (.errorf "failed to open manifest file: ".toList err), fs2)
    | (none, fs2) => LinkManager.writeLinks lm.installTxtPath manifest.Links fs2

/-- Go `(*LinkManager).AtomicInstall`. A failure of `recordInstall` is only
printed; the deferred `os.RemoveAll(tempDir)` runs last. -/
def LinkManager.AtomicInstall (lm : LinkManager)
    (depName version buildTag sourceDir targetDir : Str) (fs : FS) : Option GoError × FS :=
  match fs.MkdirTemp "buildfly-install-*".toList with
  | (.error err, fs1) => (some (.errorf "failed to create temp directory: ".toList err), fs1)
  | (.ok tempDir, fs1) =>
    let manifest : InstallManifest :=
      { DepName := depName, Version := version, BuildTag := buildTag, Links := [] }
    let result : Option GoError × FS :=
      match lm.prepareInstall tempDir sourceDir targetDir manifest fs1 with
      | (some err, _, fs2) => (some (.errorf "failed to prepare install: ".toList err), fs2)
      | (none, manifest, fs2) =>
        match lm.executeInstall tempDir manifest fs2 with
        | (some err, fs3) => (some (.errorf "failed to execute install: ".toList err), fs3)
        | (none, fs3) => (none, (lm.recordInstall manifest fs3).2)
    (result.1, (result.2.RemoveAll tempDir).2)

/-- One line of a text without its final carriage return, as `bufio.ScanLines`
returns it. -/
def dropCR (line : Str) : Str :=
  if line.getLast? = some '\r' then line.dropLast else line

/-- The lines that a `bufio.Scanner` returns for a text: the pieces between
line feeds, without a last empty piece. The limit of the scanner on the length
of a line is not modelled. -/
def scanLines (content : Str) : List Str :=
  let pieces := Split content '\n'
  let pieces := if pieces.getLastD [] = [] then pieces.dropLast else pieces
  pieces.map dropCR

/-- Go `(*LinkManager).readManifests`. -/
def LinkManager.readManifests (lm : LinkManager) (fs : FS) :
    Except GoError (List InstallManifest) :=
  if !fs.PathExists lm.installTxtPath then .ok []
  else
    match fs.ReadFile lm.installTxtPath with
    | .error err => .error (.errorf "failed to open manifest file: ".toList err)
    | .ok content =>
      let lines := ((scanLines content).map TrimSpace).filter (fun line => line ≠ [])
      let currentManifest : InstallManifest :=
        { Links := lines.map (fun line => { TargetPath := line }) }
      if currentManifest.Links.length > 0 then .ok [currentManifest] else .ok []

/-- The loop of `prepareUninstall`: one flag file for each link, numbered from
`i`. -/
def LinkManager.writeFlags (removeDir : Str) : Nat → List LinkInfo → FS → Option GoError × FS
  | _, [], fs => (none, fs)
  | i, linkInfo :: rest, fs =>
    let removeFile :=
      filepathJoin [removeDir, "remove_".toList ++ Nat.toDigits 10 i ++ ".flag".toList]
    match fs.WriteFile removeFile linkInfo.TargetPath with
    | (some err, fs1) => (some (.errorf "failed to create remove flag: ".toList err), fs1)
    | (none, fs1) => LinkManager.writeFlags removeDir (i + 1) rest fs1

/-- Go `(*LinkManager).prepareUninstall`. -/
def LinkManager.prepareUninstall (_lm : LinkManager) (tempDir : Str) (links : List LinkInfo)
    (fs : FS) : Option GoError × FS :=
  let removeDir := filepathJoin [tempDir, "remove".toList]
  match fs.MkdirAll removeDir with
  | (some err, fs1) => (some (.errorf "failed to create remove directory: ".toList err), fs1)
  | (none, fs1) => LinkManager.writeFlags removeDir 0 links fs1

/-- The test of `executeUninstall` on the name of a visited path:
`info.Name() == "remove.flag" || (len(info.Name()) > 11 &&
info.Name()[:11] == "remove_" && strings.HasSuffix(info.Name(), ".flag"))`,
on the bytes of the name. -/
def isUninstallFlag (name : Str) : Bool :=
  name = "remove.flag".toList ||
  (decide ((toBytes name).length > 11) &&
    decide ((toBytes name).take 11 = toBytes "remove_".toList) &&
    ".flag".toList.reverse.isPrefixOf name.reverse)

/-- The callback of `executeUninstall` on the visited paths. -/
def LinkManager.removeListed : List (Str × Str) → FS → Option GoError × FS
  | [], fs => (none, fs)
  | (path, name) :: rest, fs =>
    if isUninstallFlag name then
      match fs.ReadFile path with
      | .error err => (some (.errorf "failed to read remove flag: ".toList err), fs)
      | .ok targetPath =>
        if fs.PathExists targetPath then
          match fs.RemoveAll targetPath with
          | (some err, fs1) =>
            (some (.errorf ("failed to remove target path ".toList ++ targetPath ++
              ": ".toList) err), fs1)
          | (none, fs1) => LinkManager.removeListed rest fs1
        else LinkManager.removeListed rest fs
    else LinkManager.removeListed rest fs

/-- Go `(*LinkManager).executeUninstall`. -/
def LinkManager.executeUninstall (_lm : LinkManager) (tempDir : Str) (fs : FS) :
    Option GoError × FS :=
  match fs.walk (filepathJoin [tempDir, "remove".toList]) with
  | none => (some (.sys "no such file or directory".toList), fs)
  | some visited => LinkManager.removeListed visited fs

/-- Go `(*LinkManager).removeFromManifest`. -/
def LinkManager.removeFromManifest (lm : LinkManager) (depName : Str) (fs : FS) :
    Option GoError × FS :=
  if !fs.PathExists lm.installTxtPath then (none, fs)
  else
    match lm.readManifests fs with
    | .error err => (some err, fs)
    | .ok manifests =>
      let remainingManifests := manifests.filter (fun m => m.DepName ≠ depName)
      match fs.OpenTrunc lm.installTxtPath with
      | (some err, fs1) =>
        (some (.errorf "failed to open manifest file for writing: ".toList err), fs1)
      | (none, fs1) =>
        LinkManager.writeLinks lm.installTxtPath (remainingManifests.flatMap (fun m => m.Links))
          fs1

/-- Go `(*LinkManager).AtomicUninstall`. A failure of `removeFromManifest` is
only printed; the deferred `os.RemoveAll(tempDir)` runs last. -/
def LinkManager.AtomicUninstall (lm : LinkManager) (depName : Str) (fs : FS) :
    Option GoError × FS :=
  match lm.readManifests fs with
  | .error err => (some (.errorf "failed to read manifests: ".toList err), fs)
  | .ok manifests =>
    let linksToRemove :=
      (manifests.filter (fun m => m.DepName = depName)).flatMap (fun m => m.Links)
    if linksToRemove.length = 0 then (none, fs)
    else
      match fs.MkdirTemp "buildfly-uninstall-*".toList with
      | (.error err, fs1) => (some (.errorf "failed to create temp directory: ".toList err), fs1)
      | (.ok tempDir, fs1) =>
        let result : Option GoError × FS :=
          match lm.prepareUninstall tempDir linksToRemove fs1 with
          | (some err, fs2) => (some (.errorf "failed to prepare uninstall: ".toList err), fs2)
          | (none, fs2) =>
            match lm.executeUninstall tempDir fs2 with
            | (some err, fs3) =>
              (some (.errorf "failed to execute uninstall: ".toList err), fs3)
            | (none, fs3) => (none, (lm.removeFromManifest depName fs3).2)
        (result.1, (result.2.RemoveAll tempDir).2)

/-- A project at `/p` and a build output at `/s` with the directory `lib`;
nothing is installed. -/
def freshFS : FS :=
  { cwd := ["p".toList],
    objs :=
      [(["p".toList], .dir), (["tmp".toList], .dir), (["s".toList], .dir),
       (["s".toList, "lib".toList], .dir)] }

/-- The state after `AtomicInstall` of `fmt` from `/s` into
`/p/.buildfly/install/fmt` on `freshFS`. -/
def fmtInstalled : FS :=
  ((NewLinkManager "/p".toList).AtomicInstall "fmt".toList "8.0.1".toList [] "/s".toList
    "/p/.buildfly/install/fmt".toList freshFS).2

/-! ## The GPU invariant and the merge with the detected descriptor -/

/-- The GPU invariant of the descriptor type (`多个后端互斥`, the back ends
exclude one another): a populated sub-record is the one that `Backend`
names. -/
def gpuExclusive (g : GPUInfo) : Prop :=
  (g.CUDA.isSome → g.Backend = "cuda".toList) ∧
  (g.ROCm.isSome → g.Backend = "rocm".toList) ∧
  (g.OpenCL.isSome → g.Backend = "opencl".toList)

instance (g : GPUInfo) : Decidable (gpuExclusive g) := by
  unfold gpuExclusive
  infer_instance

/-- Go `(*BuildTag).Clone`: a deep copy; each sub-record and each
architecture list is copied into a new value with the same content. -/
def BuildTag.Clone : Option BuildTag → Option BuildTag
  | none => none
  | some bt =>
    let clone := bt
    match bt.GPU with
    | some gpu =>
      let gpuClone := gpu
      let gpuClone :=
        match gpu.CUDA with
        | some cuda => { gpuClone with CUDA := some { cuda with Arch := cuda.Arch } }
        | none => gpuClone
      let gpuClone :=
        match gpu.ROCm with
        | some rocm => { gpuClone with ROCm := some { rocm with Arch := rocm.Arch } }
        | none => gpuClone
      let gpuClone :=
        match gpu.OpenCL with
        | some opencl => { gpuClone with OpenCL := some opencl }
        | none => gpuClone
      some { clone with GPU := some gpuClone }
    | none => some clone

/-- Go `GetDefaultBuildTag`. `detect` is the result of `DetectBuildTag`, which
probes the machine. -/
def GetDefaultBuildTag (detect : Except GoError BuildTag) (config : Option BuildTag) :
    Except GoError BuildTag :=
  let result : BuildTag :=
    match config with
    | some c => (BuildTag.Clone (some c)).getD {}
    | none => {}
  match detect with
  | .error err => .error (.errorf "failed to detect build tag".toList err)
  | .ok detected =>
    let result := if result.Arch = [] then { result with Arch := detected.Arch } else result
    let result :=
      if result.Platform = [] then { result with Platform := detected.Platform } else result
    let result :=
      if result.Runtime = [] then { result with Runtime := detected.Runtime } else result
    let result :=
      if result.Compiler = [] then { result with Compiler := detected.Compiler } else result
    let result := if result.Std = [] then { result with Std := detected.Std } else result
    let result := if result.ABI = [] then { result with ABI := detected.ABI } else result
    let result := if result.Target = [] then { result with Target := detected.Target } else result
    let result := if result.GPU = none then { result with GPU := detected.GPU } else result
    .ok result

/-- A base descriptor whose compiler and GPU are given, to be merged with
`cudaTag`. -/
def clangTag : BuildTag :=
  { Compiler := "clang_15".toList,
    GPU := some { Backend := "rocm".toList,
                  ROCm := some { Version := "5.0".toList, Enabled := true } } }

/-! ## The values of a canonical string -/

/-- The value of a pair `key=value` of a canonical string: the text after the
first `=`. -/
def valueOf (pair : Str) : Str := (pair.dropWhile (fun c => c != '=')).drop 1

/-- The keys that `String` writes. -/
def emittedKeys : List Str :=
  ["arch".toList, "platform".toList, "runtime".toList, "compiler".toList, "std".toList,
   "abi".toList, "target".toList, "cuda".toList, "cuda_arch".toList, "rocm".toList,
   "rocm_arch".toList, "opencl".toList]

/-- A descriptor with a disabled CUDA sub-record, which `String` does not
write. -/
def disabledCudaTag : BuildTag :=
  { Arch := "x86_64".toList, Runtime := "glibc_2.35+".toList,
    GPU := some { Backend := "cuda".toList, CUDA := some { Version := "12.0".toList } } }

/-- A descriptor whose CUDA architectures contain the separator, written by
`String` as `cuda_arch=sm_80|sm_90|sm_75`. -/
def splitArchTag : BuildTag :=
  { Arch := "x86_64".toList,
    GPU := some { Backend := "cuda".toList,
                  CUDA := some { Arch := ["sm_80|sm_90".toList, "sm_75".toList],
                                 Enabled := true } } }

/-- The pairs that `String` writes for the GPU sub-record of a descriptor:
none when the sub-record is absent. -/
def optGpuParts : Option GPUInfo → List Str
  | some gpu => gpuParts gpu
  | none => []

/-! ## The checksums that a source declares -/

/-- The checksums that a source declares, as `getChecksums` reads them: the
non-empty fields `md5`, `sha1`, `sha256` and `sha512` under their names, then
the entries of the map `checksums`, each name and each hash in lower case. -/
def declaredChecksums (env : Env) (source : SourceInfo) : List (Str × Str) :=
  (if source.MD5 ≠ [] then [("md5".toList, ToLower env source.MD5)] else []) ++
  (if source.SHA1 ≠ [] then [("sha1".toList, ToLower env source.SHA1)] else []) ++
  (if source.SHA256 ≠ [] then [("sha256".toList, ToLower env source.SHA256)] else []) ++
  (if source.SHA512 ≠ [] then [("sha512".toList, ToLower env source.SHA512)] else []) ++
  source.Checksums.map (fun e => (ToLower env e.1, ToLower env e.2))

/-- No two declared checksums have the same name in lower case. -/
def distinctChecksumNames (env : Env) (source : SourceInfo) : Prop :=
  ((declaredChecksums env source).map (fun e => e.1)).Nodup

instance (env : Env) (source : SourceInfo) : Decidable (distinctChecksumNames env source) := by
  unfold distinctChecksumNames
  infer_instance

/-- The legacy field `hash` supplies the SHA-256: it is not empty, and no
declared checksum under the name `sha256` has a non-empty hash. -/
def legacySupplies (env : Env) (source : SourceInfo) : Prop :=
  source.Hash ≠ [] ∧ ∀ e ∈ declaredChecksums env source, e.1 = "sha256".toList → e.2 = []

instance (env : Env) (source : SourceInfo) : Decidable (legacySupplies env source) := by
  unfold legacySupplies
  infer_instance

/-- A source that declares an MD5 in the field `md5`, a SHA-512 in the map,
and a legacy hash. -/
def mixedSource : SourceInfo :=
  { Typ := "archive".toList, URLS := ["https://example.com/lib.tar.gz".toList],
    MD5 := "AB12".toList, Checksums := [("SHA512".toList, "CD34".toList)],
    Hash := "EF56".toList }

/-! ## The raw-archive cache shared between dependencies -/

/-- A host whose raw-archive cache holds the file `lib.tar.gz` for the version
`1.0`; every download fails. -/
def cachedHost : Host where
  env := testEnv
  fs := fun p =>
    if p = "/home/u/.cache/.buildfly/archives/1.0/lib.tar.gz".toList then some [1, 2, 3]
    else none
  userCacheDir := .ok "/home/u/.cache".toList
  mkdirAll := fun _ => none
  copyLocalFile := fun _ _ => some (DownloadError "source file not found".toList)
  httpDownload := fun _ _ => some (DownloadError "HTTP error: 404".toList)

/-- A dependency `zlib` whose archive is `lib.tar.gz`, version `1.0`. -/
def zlibArchive : Dependency :=
  { Name := "zlib".toList, Version := "1.0".toList,
    Source := { Typ := "archive".toList, URLS := ["https://zlib.test/dl/lib.tar.gz".toList] } }

/-- Another dependency, `png`, whose first archive has the same base name and
which has the same version. -/
def pngArchive : Dependency :=
  { Name := "png".toList, Version := "1.0".toList,
    Source := { Typ := "archive".toList,
                URLS := ["https://png.test/releases/lib.tar.gz".toList,
                         "https://mirror.test/png-1.0.tar.gz".toList] } }

/-! ## Go's `os.Expand`, `strings.ToUpper` and `strconv.Itoa` -/

/-- Go `strings.HasSuffix`. -/
def HasSuffix (s suffix : Str) : Bool := suffix.reverse.isPrefixOf s.reverse

/-- Go `strings.ReplaceAll(s, old, new)` for a non-empty `old`, scanning from
the left for occurrences that do not overlap. The first argument counts the
characters of an occurrence still to be skipped. -/
def replaceFrom (old new : Str) : Nat → Str → Str
  | _, [] => []
  | skip + 1, _ :: rest => replaceFrom old new skip rest
  | 0, c :: rest =>
    if old.isPrefixOf (c :: rest) then new ++ replaceFrom old new (old.length - 1) rest
    else c :: replaceFrom old new 0 rest

/-- Go `strings.ReplaceAll` for a non-empty `old`. -/
def ReplaceAllString (s old new : Str) : Str := replaceFrom old new 0 s

/-- Go `isShellSpecialVar` of the package `os`. -/
def isShellSpecialVar (c : Char) : Bool :=
  c ∈ ['*', '#', '$', '@', '!', '?', '-', '0', '1', '2', '3', '4', '5', '6', '7', '8', '9']

/-- Go `isAlphaNum` of the package `os`. -/
def isAlphaNum (c : Char) : Bool :=
  c = '_' || ('0' ≤ c && c ≤ '9') || ('a' ≤ c && c ≤ 'z') || ('A' ≤ c && c ≤ 'Z')

/-- The loop `Scan to closing brace` of `getShellName`, on the text after the
opening brace. -/
def scanBrace (rest : Str) : Str × Nat :=
  if '\x7d' ∈ rest then
    let name := rest.takeWhile (fun c => c != '\x7d')
    if name = [] then ([], 2) else (name, name.length + 2)
  else ([], 1)

/-- Go `getShellName` of the package `os`, on the text after a `$`: the name
of the variable and the number of characters that the reference takes. -/
def getShellName (s : Str) : Str × Nat :=
  match s with
  | [] => ([], 0)
  | '\x7b' :: rest =>
    match rest with
    | c :: '\x7d' :: _ => if isShellSpecialVar c then ([c], 3) else scanBrace rest
    | _ => scanBrace rest
  | c :: _ =>
    if isShellSpecialVar c then ([c], 1)
    else
      let name := s.takeWhile isAlphaNum
      (name, name.length)

/-- The loop of Go `os.Expand`. The first argument counts the characters of a
reference still to be skipped. -/
def expandFrom (mapping : Str → Str) : Nat → Str → Str
  | _, [] => []
  | skip + 1, _ :: rest => expandFrom mapping skip rest
  | 0, c :: rest =>
    if c = '$' ∧ rest ≠ [] then
      let (name, w) := getShellName rest
      let out :=
        if name = [] ∧ w > 0 then []
        else if name = [] then ['$']
        else mapping name
      out ++ expandFrom mapping w rest
    else c :: expandFrom mapping 0 rest

/-- Go `os.Expand`. -/
def Expand (s : Str) (mapping : Str → Str) : Str := expandFrom mapping 0 s

/-- Go `strconv.Itoa`. -/
def Itoa (n : Int) : Str :=
  if n < 0 then '-' :: Nat.toDigits 10 n.natAbs else Nat.toDigits 10 n.toNat

/-- Go `filepath.Ext`: the suffix of the last element of the path that starts
at its last dot; empty when that element has no dot. -/
def Ext (path : Str) : Str :=
  let last := (path.reverse.takeWhile (fun c => c != '/')).reverse
  if '.' ∈ last then '.' :: (last.reverse.takeWhile (fun c => c != '.')).reverse else []

/-! ## `pkg/config/variables.go`: the variable context -/

/-- Go `VariableContext`, without the reference to the project configuration.
`CustomVars` lists the entries of the map. -/
structure VariableContext where
  ProjectName : Str := []
  ProjectVersion : Str := []
  ProjectRoot : Str := []
  InstallDir : Str := []
  BuildDir : Str := []
  DownloadPath : Str := []
  ExtractDir : Str := []
  SourceDir : Str := []
  BuildType : Str := []
  CXXCompiler : Str := []
  CXXFlags : Str := []
  OS : Str := []
  Arch : Str := []
  CPUCount : Int := 0
  CustomVars : List (Str × Str) := []
  DepName : Str := []
  DepVersion : Str := []
  BuildTag : Option BuildTag := none
  deriving DecidableEq

/-- Go `TemplateData` of `pkg/builder/executor.go`. -/
structure TemplateData where
  Dependency : Dependency := {}
  ProjectName : Str := []
  ProjectVersion : Str := []
  Variables : List (Str × Str) := []
  SourceDir : Str := []
  BuildDir : Str := []
  InstallDir : Str := []
  BuildType : Str := []
  CPUCount : Int := 0
  OS : Str := []
  Arch : Str := []
  deriving DecidableEq

/-- The outcome of parsing a build script as a `text/template` and executing
it on the template data. -/
inductive Rendered where
  | parseError (err : GoError)
  | executeError (err : GoError)
  | text (content : Str)
  deriving DecidableEq

/-- What the variable context and the build executor take from the process
and from the libraries: the part of `unicode.ToUpper` outside ASCII,
`os.Getenv`, `runtime.GOOS` and `runtime.GOARCH`, the order in which a `range`
over a map yields its entries, and the package `text/template`:
`ExpandTemplate input vc` parses `input` as the template `vars` (with the
functions `upper`, `lower`, `title` and `replace`) and executes it on the
context, `RenderScript script data` does the same for a build script. -/
structure Machine where
  upperTable : Char → Char
  Getenv : Str → Str
  GOOS : Str
  GOARCH : Str
  rangeOrder : List (Str × Str) → List (Str × Str)
  ExpandTemplate : Str → VariableContext → Except GoError Str
  RenderScript : Str → TemplateData → Rendered

/-- Go `unicode.ToUpper`: ASCII small letters are shifted, other ASCII code
points are left alone, and the rest goes through the case tables. -/
def unicodeToUpper (m : Machine) (c : Char) : Char :=
  if c.toNat ≤ 127 then
    (if 'a'.toNat ≤ c.toNat ∧ c.toNat ≤ 'z'.toNat then Char.ofNat (c.toNat - 32) else c)
  else m.upperTable c

/-- Go `strings.ToUpper`. -/
def ToUpper (m : Machine) (s : Str) : Str := s.map (unicodeToUpper m)

/-- Go `(*VariableContext).GetBuildTagDir`. -/
def VariableContext.GetBuildTagDir (vc : VariableContext) : Str :=
  match vc.BuildTag with
  | none => "default".toList
  | some bt => BuildTag.ToDirName (some bt)

/-- Go `(*VariableContext).resolvePath`. -/
def VariableContext.resolvePath (vc : VariableContext) (path : Str) : Str :=
  if HasPrefix path "/".toList then path
  else if vc.ProjectRoot ≠ [] then filepathJoin [vc.ProjectRoot, path]
  else path

/-- Go `(*VariableContext).ExpandVariables`. -/
def VariableContext.ExpandVariables (m : Machine) (vc : VariableContext) (input : Str) :
    Except GoError Str :=
  m.ExpandTemplate input vc

/-- The names of the `switch` of `ExpandCommand`, in its order. -/
def builtinVars : List Str :=
  ["INSTALL_DIR".toList, "BUILD_DIR".toList, "DOWNLOAD_PATH".toList, "EXTRACT_DIR".toList,
   "SOURCE_DIR".toList, "BUILD_TYPE".toList, "CXX_COMPILER".toList, "CXX_FLAGS".toList,
   "CPU_CORES".toList, "OS".toList, "ARCH".toList, "PROJECT_NAME".toList,
   "PROJECT_VERSION".toList, "DEP_NAME".toList, "DEP_VERSION".toList, "BUILD_TAG".toList,
   "BUILD_TAG_DIR".toList]

/-- The function that `ExpandCommand` passes to `os.Expand`: the value of the
variable `key`. -/
def VariableContext.lookupVar (m : Machine) (vc : VariableContext) (key : Str) : Str :=
  match vc.CustomVars.lookup key with
  | some val => val
  | none =>
    let upper := ToUpper m key
    if upper = "INSTALL_DIR".toList then vc.InstallDir
    else if upper = "BUILD_DIR".toList then vc.BuildDir
    else if upper = "DOWNLOAD_PATH".toList then vc.DownloadPath
    else if upper = "EXTRACT_DIR".toList then vc.ExtractDir
    else if upper = "SOURCE_DIR".toList then vc.SourceDir
    else if upper = "BUILD_TYPE".toList then vc.BuildType
    else if upper = "CXX_COMPILER".toList then vc.CXXCompiler
    else if upper = "CXX_FLAGS".toList then vc.CXXFlags
    else if upper = "CPU_CORES".toList then Itoa vc.CPUCount
    else if upper = "OS".toList then vc.OS
    else if upper = "ARCH".toList then vc.Arch
    else if upper = "PROJECT_NAME".toList then vc.ProjectName
    else if upper = "PROJECT_VERSION".toList then vc.ProjectVersion
    else if upper = "DEP_NAME".toList then vc.DepName
    else if upper = "DEP_VERSION".toList then vc.DepVersion
    else if upper = "BUILD_TAG".toList then
      match vc.BuildTag with
      | some bt => BuildTag.String (some bt)
      | none => []
    else if upper = "BUILD_TAG_DIR".toList then vc.GetBuildTagDir
    else if m.Getenv key ≠ [] then m.Getenv key
    else "$\x7b".toList ++ key ++ "\x7d".toList

/-- Go `(*VariableContext).ExpandCommand`. -/
def VariableContext.ExpandCommand (m : Machine) (vc : VariableContext) (script : Str) :
    Except GoError Str :=
  let expanded := Expand script (vc.lookupVar m)
  match vc.ExpandVariables m expanded with
  | .error err => .error err
  | .ok result =>
    if Contains result "$\x7bINSTALL_DIR\x7d".toList then
      match vc.CustomVars.lookup "install_dir".toList with
      | some installDir =>
        .ok (ReplaceAllString result "$\x7bINSTALL_DIR\x7d".toList (vc.resolvePath installDir))
      | none => .ok result
    else .ok result

/-- A variable that `ExpandCommand` cannot resolve: it is not a custom
variable, its upper-case form is not a name of the `switch`, and the
environment has no non-empty value for it. -/
def VariableContext.unresolved (m : Machine) (vc : VariableContext) (key : Str) : Prop :=
  vc.CustomVars.lookup key = none ∧ ToUpper m key ∉ builtinVars ∧ m.Getenv key = []

instance (m : Machine) (vc : VariableContext) (key : Str) : Decidable (vc.unresolved m key) := by
  unfold VariableContext.unresolved
  infer_instance

/-- A machine for evaluating the definitions on examples: no case mapping
outside ASCII, an environment that holds `HOME` only, map entries ranged over
in the order of the list, and templates without actions: a text in which the
delimiter of an action does not occur is rendered as itself, and any other
text is refused. -/
def testMachine : Machine where
  upperTable := fun c => c
  Getenv := fun k => if k = "HOME".toList then "/home/u".toList else []
  GOOS := "linux".toList
  GOARCH := "amd64".toList
  rangeOrder := fun l => l
  ExpandTemplate := fun input _ =>
    if Contains input "\x7b\x7b".toList then .error (.sys "template: action".toList)
    else .ok input
  RenderScript := fun script _ =>
    if Contains script "\x7b\x7b".toList then .parseError (.sys "template: action".toList)
    else .text script

/-- The context that `NewVariableContext` creates for the dependency `fmt` of
a project `demo` with the custom variable `build_type`, after `SetPaths`. -/
def demoContext : VariableContext :=
  { ProjectName := "demo".toList, ProjectVersion := "1.0.0".toList,
    InstallDir := "/p/.buildfly/install".toList, BuildDir := "/p/.buildfly/build".toList,
    DownloadPath := "/p/.buildfly/dl".toList, ExtractDir := "/p/.buildfly/x".toList,
    SourceDir := "/p/.buildfly/src".toList, BuildType := "Release".toList,
    CXXCompiler := "g++".toList, CXXFlags := "-O2 -std=c++17".toList,
    OS := "linux".toList, Arch := "amd64".toList, CPUCount := 4,
    CustomVars := [("build_type".toList, "Debug".toList)], DepName := "fmt".toList }

/-! ## `pkg/builder/executor.go`: the build executor -/

/-- Go `errors.BuildError`. -/
def BuildError (message : Str) : GoError :=
  WrapWithCode none "BUILD_ERROR".toList message

/-- Go `errors.BuildErrorWithCause`. -/
def BuildErrorWithCause (err : GoError) (message : Str) : GoError :=
  WrapWithCode (some err) "BUILD_ERROR".toList message

/-- A process to spawn: `exec.Command(name, args...)` with the working
directory `dir` (empty: the one of the caller) and the entries `env` appended
to the environment of the caller. -/
structure Cmd where
  name : Str
  args : List Str := []
  dir : Str := []
  env : List Str := []
  deriving DecidableEq

/-- The operations of the packages `os`, `os/exec` and `path/filepath` that
the build executor and the extraction of archives call: `Run cmd` spawns the
process and waits for it, returning the error of `cmd.Run()`. -/
structure Shell (σ : Type) where
  Abs : Str → σ → Except GoError Str × σ
  MkdirAll : Str → σ → Option GoError × σ
  WriteFile : Str → Str → σ → Option GoError × σ
  Run : Cmd → σ → Option GoError × σ

/-- Go `BuildExecutor`. `venvVars` lists the variables that the manager of the
virtual environment reports; it is empty without a manager and when the
manager returns an error. -/
structure BuildExecutor where
  context : VariableContext := {}
  venvVars : List (Str × Str) := []
  deriving DecidableEq

/-- The entries `key=value` that the loops over a map of variables append to
the environment of a process. -/
def envEntries (m : Machine) (vars : List (Str × Str)) : List Str :=
  (m.rangeOrder vars).map (fun kv => kv.1 ++ "=".toList ++ kv.2)

/-- The statement `if err := step; err != nil { return
errors.BuildErrorWithCause(err, message) }`: the error of a step, wrapped. -/
def orBuildError {σ : Type} (message : Str) (r : Option GoError × σ) : Option GoError × σ :=
  match r with
  | (some err, s) => (some (BuildErrorWithCause err message), s)
  | (none, s) => (none, s)

/-- Go `(*BuildExecutor).executeCommand`. -/
def BuildExecutor.executeCommand {σ : Type} (sh : Shell σ) (m : Machine) (be : BuildExecutor)
    (commandLine workDir : Str) (s : σ) : Option GoError × σ :=
  match be.context.ExpandCommand m commandLine with
  | .error err =>
    (some (BuildErrorWithCause err "failed to expand command variables".toList), s)
  | .ok expandedCommand =>
    sh.Run { name := "sh".toList, args := ["-c".toList, expandedCommand], dir := workDir,
             env := envEntries m be.context.CustomVars } s

/-- Go `(*BuildExecutor).runCommandWithEnv`. -/
def BuildExecutor.runCommandWithEnv {σ : Type} (sh : Shell σ) (m : Machine) (be : BuildExecutor)
    (name dir : Str) (args : List Str) (s : σ) : Option GoError × σ :=
  sh.Run { name := name, args := args, dir := dir,
           env := envEntries m be.context.CustomVars ++ envEntries m be.venvVars } s

/-- Go `(*BuildExecutor).runCommand`. -/
def BuildExecutor.runCommand {σ : Type} (sh : Shell σ) (m : Machine) (be : BuildExecutor)
    (name : Str) (args : List Str) (s : σ) : Option GoError × σ :=
  be.runCommandWithEnv sh m name [] args s

/-- Go `(*BuildExecutor).runCommandInDir`. -/
def BuildExecutor.runCommandInDir {σ : Type} (sh : Shell σ) (m : Machine) (be : BuildExecutor)
    (name dir : Str) (args : List Str) (s : σ) : Option GoError × σ :=
  be.runCommandWithEnv sh m name dir args s

/-- The loops `for _, option := range dep.CMakeOptions` (and `MakeOptions`,
`ConfigureOptions`) that append the expanded options to the arguments; `kind`
is the word `CMake`, `Make` or `Configure` of the error message. -/
def BuildExecutor.expandOptions (m : Machine) (be : BuildExecutor) (kind : Str) :
    List Str → List Str → Except GoError (List Str)
  | [], args => .ok args
  | option :: rest, args =>
    match be.context.ExpandCommand m option with
    | .error err =>
      .error (BuildErrorWithCause err
        ("failed to expand ".toList ++ kind ++ " option: ".toList ++ option))
    | .ok expandedOption => be.expandOptions m kind rest (args ++ [expandedOption])

/-- Go `(*BuildExecutor).executeScriptWithDependency`. -/
def BuildExecutor.executeScriptWithDependency {σ : Type} (sh : Shell σ) (m : Machine)
    (be : BuildExecutor) (script workDir : Str) (dep : Dependency) (s : σ) :
    Option GoError × σ :=
  let templateData : TemplateData :=
    { Dependency := dep, ProjectName := be.context.ProjectName,
      ProjectVersion := be.context.ProjectVersion, Variables := be.context.CustomVars,
      SourceDir := be.context.SourceDir, BuildDir := be.context.BuildDir,
      InstallDir := be.context.InstallDir, BuildType := be.context.BuildType,
      CPUCount := be.context.CPUCount, OS := m.GOOS, Arch := m.GOARCH }
  match m.RenderScript script templateData with
  | .parseError err => (some (BuildErrorWithCause err "failed to parse script template".toList), s)
  | .executeError err =>
    (some (BuildErrorWithCause err "failed to execute script template".toList), s)
  | .text scriptContent =>
    let scriptName := ".buildfly_build_script.sh".toList
    let scriptPath := filepathJoin [workDir, scriptName]
    match sh.WriteFile scriptPath scriptContent s with
    | (some err, s) => (some (BuildErrorWithCause err "failed to write script file".toList), s)
    | (none, s) =>
      sh.Run { name := "bash".toList, args := [scriptName], dir := workDir,
               env := envEntries m be.context.CustomVars } s

/-- The configure stage (`配置阶段`) of `executeCMake`. -/
def BuildExecutor.cmakeConfigure {σ : Type} (sh : Shell σ) (m : Machine) (be : BuildExecutor)
    (dep : Dependency) (sourceDir buildDir installDir : Str) (s : σ) : Option GoError × σ :=
  if dep.BuildCommands.Configure ≠ [] then
    orBuildError "CMake configure failed".toList
      (be.executeCommand sh m dep.BuildCommands.Configure buildDir s)
  else
    let cmakeArgs :=
      ["-B".toList, buildDir, "-S".toList, sourceDir,
       "-DCMAKE_INSTALL_PREFIX=".toList ++ installDir,
       "-DCMAKE_BUILD_TYPE=".toList ++ be.context.BuildType]
    match be.expandOptions m "CMake".toList dep.CMakeOptions cmakeArgs with
    | .error err => (some err, s)
    | .ok cmakeArgs =>
      orBuildError "CMake configure failed".toList (be.runCommand sh m "cmake".toList cmakeArgs s)

/-- The build stage (`构建阶段`) of `executeCMake`. -/
def BuildExecutor.cmakeBuild {σ : Type} (sh : Shell σ) (m : Machine) (be : BuildExecutor)
    (dep : Dependency) (buildDir : Str) (s : σ) : Option GoError × σ :=
  if dep.BuildCommands.Build ≠ [] then
    orBuildError "CMake build failed".toList
      (be.executeCommand sh m dep.BuildCommands.Build buildDir s)
  else
    let buildArgs :=
      ["--build".toList, buildDir, "--config".toList, be.context.BuildType,
       "--parallel".toList, Itoa be.context.CPUCount]
    orBuildError "CMake build failed".toList (be.runCommand sh m "cmake".toList buildArgs s)

/-- The install stage (`安装阶段`) of `executeCMake`. -/
def BuildExecutor.cmakeInstall {σ : Type} (sh : Shell σ) (m : Machine) (be : BuildExecutor)
    (dep : Dependency) (buildDir : Str) (s : σ) : Option GoError × σ :=
  if dep.BuildCommands.Install ≠ [] then
    orBuildError "CMake install failed".toList
      (be.executeCommand sh m dep.BuildCommands.Install buildDir s)
  else
    let installArgs := ["--install".toList, buildDir, "--config".toList, be.context.BuildType]
    orBuildError "CMake install failed".toList (be.runCommand sh m "cmake".toList installArgs s)

/-- Three stages in a row, each one run only when the one before returned no
error: the body of `executeCMake`, `executeMake` and `executeConfigure` after
the build directory has been created. -/
def inSequence {σ : Type} (first second third : σ → Option GoError × σ) (s : σ) :
    Option GoError × σ :=
  match first s with
  | (some err, s) => (some err, s)
  | (none, s) =>
    match second s with
    | (some err, s) => (some err, s)
    | (none, s) => third s

/-- Go `(*BuildExecutor).executeCMake`. -/
def BuildExecutor.executeCMake {σ : Type} (sh : Shell σ) (m : Machine) (be : BuildExecutor)
    (dep : Dependency) (sourceDir buildDir installDir : Str) (s : σ) : Option GoError × σ :=
  match sh.MkdirAll buildDir s with
  | (some err, s) => (some (BuildErrorWithCause err "failed to create build directory".toList), s)
  | (none, s) =>
    inSequence (be.cmakeConfigure sh m dep sourceDir buildDir installDir)
      (be.cmakeBuild sh m dep buildDir) (be.cmakeInstall sh m dep buildDir) s

/-- The configure stage of `executeMake`: it runs only with an override. -/
def BuildExecutor.makeConfigure {σ : Type} (sh : Shell σ) (m : Machine) (be : BuildExecutor)
    (dep : Dependency) (sourceDir : Str) (s : σ) : Option GoError × σ :=
  if dep.BuildCommands.Configure ≠ [] then
    orBuildError "Make configure failed".toList
      (be.executeCommand sh m dep.BuildCommands.Configure sourceDir s)
  else (none, s)

/-- The build stage of `executeMake`. -/
def BuildExecutor.makeBuild {σ : Type} (sh : Shell σ) (m : Machine) (be : BuildExecutor)
    (dep : Dependency) (sourceDir : Str) (s : σ) : Option GoError × σ :=
  if dep.BuildCommands.Build ≠ [] then
    orBuildError "Make build failed".toList
      (be.executeCommand sh m dep.BuildCommands.Build sourceDir s)
  else
    let makeArgs := ["-j".toList ++ Itoa be.context.CPUCount]
    match be.expandOptions m "Make".toList dep.MakeOptions makeArgs with
    | .error err => (some err, s)
    | .ok makeArgs =>
      orBuildError "Make build failed".toList
        (be.runCommandInDir sh m "make".toList sourceDir makeArgs s)

/-- The install stage of `executeMake`, and of `executeConfigure`. -/
def BuildExecutor.makeInstall {σ : Type} (sh : Shell σ) (m : Machine) (be : BuildExecutor)
    (dep : Dependency) (sourceDir : Str) (s : σ) : Option GoError × σ :=
  if dep.BuildCommands.Install ≠ [] then
    orBuildError "Make install failed".toList
      (be.executeCommand sh m dep.BuildCommands.Install sourceDir s)
  else
    let installArgs := ["install".toList]
    orBuildError "Make install failed".toList
      (be.runCommandInDir sh m "make".toList sourceDir installArgs s)

/-- Go `(*BuildExecutor).executeMake`. -/
def BuildExecutor.executeMake {σ : Type} (sh : Shell σ) (m : Machine) (be : BuildExecutor)
    (dep : Dependency) (sourceDir buildDir _installDir : Str) (s : σ) : Option GoError × σ :=
  match sh.MkdirAll buildDir s with
  | (some err, s) => (some (BuildErrorWithCause err "failed to create build directory".toList), s)
  | (none, s) =>
    inSequence (be.makeConfigure sh m dep sourceDir) (be.makeBuild sh m dep sourceDir)
      (be.makeInstall sh m dep sourceDir) s

/-- The configure stage of `executeConfigure`. -/
def BuildExecutor.configureConfigure {σ : Type} (sh : Shell σ) (m : Machine)
    (be : BuildExecutor) (dep : Dependency) (sourceDir installDir : Str) (s : σ) :
    Option GoError × σ :=
  if dep.BuildCommands.Configure ≠ [] then
    orBuildError "Configure failed".toList
      (be.executeCommand sh m dep.BuildCommands.Configure sourceDir s)
  else
    let configurePath := filepathJoin [sourceDir, "configure".toList]
    let configureArgs := ["--prefix=".toList ++ installDir]
    match be.expandOptions m "Configure".toList dep.ConfigureOptions configureArgs with
    | .error err => (some err, s)
    | .ok configureArgs =>
      orBuildError "Configure failed".toList
        (be.runCommandInDir sh m configurePath sourceDir configureArgs s)

/-- The build stage of `executeConfigure`. -/
def BuildExecutor.configureBuild {σ : Type} (sh : Shell σ) (m : Machine) (be : BuildExecutor)
    (dep : Dependency) (sourceDir : Str) (s : σ) : Option GoError × σ :=
  if dep.BuildCommands.Build ≠ [] then
    orBuildError "Make build failed".toList
      (be.executeCommand sh m dep.BuildCommands.Build sourceDir s)
  else
    let makeArgs := ["-j".toList ++ Itoa be.context.CPUCount]
    orBuildError "Make build failed".toList
      (be.runCommandInDir sh m "make".toList sourceDir makeArgs s)

/-- Go `(*BuildExecutor).executeConfigure`. -/
def BuildExecutor.executeConfigure {σ : Type} (sh : Shell σ) (m : Machine) (be : BuildExecutor)
    (dep : Dependency) (sourceDir buildDir installDir : Str) (s : σ) : Option GoError × σ :=
  match sh.MkdirAll buildDir s with
  | (some err, s) => (some (BuildErrorWithCause err "failed to create build directory".toList), s)
  | (none, s) =>
    inSequence (be.configureConfigure sh m dep sourceDir installDir)
      (be.configureBuild sh m dep sourceDir) (be.makeInstall sh m dep sourceDir) s

/-- Go `(*BuildExecutor).executeCustom`. -/
def BuildExecutor.executeCustom {σ : Type} (sh : Shell σ) (m : Machine) (be : BuildExecutor)
    (dep : Dependency) (_sourceDir buildDir _installDir : Str) (s : σ) : Option GoError × σ :=
  if dep.CustomScript = [] then
    (some (BuildError "custom build system requires custom_script".toList), s)
  else
    orBuildError "custom script execution failed".toList
      (be.executeScriptWithDependency sh m dep.CustomScript buildDir dep s)

/-- The first statements of `Execute`: each directory is replaced by the
result of `filepath.Abs` (the empty string when that fails) and stored in the
context. -/
def BuildExecutor.setDirs {σ : Type} (sh : Shell σ) (be : BuildExecutor)
    (sourceDir buildDir installDir : Str) (s : σ) : (Str × Str × Str) × BuildExecutor × σ :=
  let (a, s) := sh.Abs sourceDir s
  let sourceDir := match a with
    | .ok p => p
    | .error _ => []
  let (a, s) := sh.Abs buildDir s
  let buildDir := match a with
    | .ok p => p
    | .error _ => []
  let (a, s) := sh.Abs installDir s
  let installDir := match a with
    | .ok p => p
    | .error _ => []
  ((sourceDir, buildDir, installDir),
    { be with context := { be.context with SourceDir := sourceDir, BuildDir := buildDir,
                                           InstallDir := installDir } }, s)

/-- Go `(*BuildExecutor).Execute`: the returned error, the executor with its
updated context, and the state. -/
def BuildExecutor.Execute {σ : Type} (sh : Shell σ) (m : Machine) (be : BuildExecutor)
    (dep : Dependency) (sourceDir buildDir installDir : Str) (s : σ) :
    Option GoError × BuildExecutor × σ :=
  match be.setDirs sh sourceDir buildDir installDir s with
  | ((sourceDir, buildDir, installDir), be, s) =>
    let (err, s) :=
      if dep.BuildSystem = "cmake".toList then
        be.executeCMake sh m dep sourceDir buildDir installDir s
      else if dep.BuildSystem = "make".toList then
        be.executeMake sh m dep sourceDir buildDir installDir s
      else if dep.BuildSystem = "configure".toList then
        be.executeConfigure sh m dep sourceDir buildDir installDir s
      else if dep.BuildSystem = "custom".toList then
        be.executeCustom sh m dep sourceDir buildDir installDir s
      else
        (some (BuildError ("unsupported build system: ".toList ++ dep.BuildSystem)), s)
    (err, be, s)

/-- Go `(*BuildExecutor).ValidateBuildSystem`. -/
def BuildExecutor.ValidateBuildSystem (_be : BuildExecutor) (dep : Dependency) :
    Option GoError :=
  let supportedSystems :=
    ["cmake".toList, "make".toList, "configure".toList, "custom".toList]
  if dep.BuildSystem ∉ supportedSystems then
    some (BuildError ("unsupported build system: ".toList ++ dep.BuildSystem))
  else if dep.BuildSystem = "custom".toList ∧ dep.CustomScript = [] then
    some (BuildError "custom build system requires custom_script".toList)
  else none

/-! ## `pkg/config/loader.go`: validation of a dependency -/

/-- Go `(*ConfigLoader).validateDependency`. -/
def validateDependency (name : Str) (dep : Dependency) : Option GoError :=
  if dep.Version = [] then
    some (.sys ("version is required for dependency ".toList ++ name))
  else if dep.Source.Typ ≠ "external_index".toList ∧ dep.Source.URLS.length = 0 then
    some (.sys ("source URLs are required for dependency ".toList ++ name))
  else if dep.Source.Typ ∉
      ["git".toList, "archive".toList, "direct".toList, "external_index".toList] then
    some (.sys ("unsupported source type: ".toList ++ dep.Source.Typ ++
      " for dependency ".toList ++ name))
  else if dep.BuildSystem ∉
      ["make".toList, "cmake".toList, "configure".toList, "custom".toList, "none".toList] then
    some (.sys ("unsupported build system: ".toList ++ dep.BuildSystem ++
      " for dependency ".toList ++ name))
  else if dep.BuildSystem = "custom".toList ∧ dep.CustomScript = [] ∧
      dep.BuildCommands.Configure = [] then
    some (.sys (("custom_script or build_commands.configure is required for custom build " ++
      "system in dependency ").toList ++ name))
  else none

/-! ## Processes and their log -/

/-- The shell that records, after each `Run`, the process spawned and the
error that it returned. -/
def Shell.traced {σ : Type} (sh : Shell σ) : Shell (σ × List (Cmd × Option GoError)) where
  Abs := fun p st => ((sh.Abs p st.1).1, ((sh.Abs p st.1).2, st.2))
  MkdirAll := fun p st => ((sh.MkdirAll p st.1).1, ((sh.MkdirAll p st.1).2, st.2))
  WriteFile := fun p d st => ((sh.WriteFile p d st.1).1, ((sh.WriteFile p d st.1).2, st.2))
  Run := fun c st => ((sh.Run c st.1).1, ((sh.Run c st.1).2, st.2 ++ [(c, (sh.Run c st.1).1)]))

/-- A shell for evaluating the definitions on examples: the state counts the
processes spawned, paths are taken as absolute, every directory can be
created and every file written, and a process fails with exit status 2
exactly when its name or one of its arguments contains the word `fail`. -/
def testShell : Shell Nat where
  Abs := fun p n => (.ok p, n)
  MkdirAll := fun _ n => (none, n)
  WriteFile := fun _ _ n => (none, n)
  Run := fun c n =>
    if (c.name :: c.args).any (fun a => Contains a "fail".toList) then
      (some (.sys "exit status 2".toList), n + 1)
    else (none, n + 1)

/-- A dependency with the build system `custom`, an override for the
configure command, and no custom script. -/
def scriptlessDep : Dependency :=
  { Name := "tool".toList, Version := "1.0".toList,
    Source := { Typ := "archive".toList, URLS := ["https://example.com/tool.tar.gz".toList] },
    BuildSystem := "custom".toList,
    BuildCommands := { Configure := "./build.sh".toList } }

/-! ## The phases of a build -/

/-- The phases of a build with `cmake`, `make` or `configure`. -/
inductive Phase where
  | configure
  | build
  | install
  deriving DecidableEq

/-- The word for a phase. -/
def Phase.word : Phase → Str
  | .configure => "configure".toList
  | .build => "build".toList
  | .install => "install".toList

/-- The phases that `Execute` goes through for a dependency, in order: the
three of them, except that `executeMake` has a configure phase only when the
dependency overrides the configure command. -/
def phasesOf (dep : Dependency) : List Phase :=
  if dep.BuildSystem = "make".toList ∧ dep.BuildCommands.Configure = [] then [.build, .install]
  else [.configure, .build, .install]

/-- The message of the build error that `executeCMake`, `executeMake` and
`executeConfigure` return when the process of a phase fails. -/
def phaseMessage (buildSystem : Str) (p : Phase) : Str :=
  if buildSystem = "cmake".toList then
    match p with
    | .configure => "CMake configure failed".toList
    | .build => "CMake build failed".toList
    | .install => "CMake install failed".toList
  else if buildSystem = "make".toList then
    match p with
    | .configure => "Make configure failed".toList
    | .build => "Make build failed".toList
    | .install => "Make install failed".toList
  else
    match p with
    | .configure => "Configure failed".toList
    | .build => "Make build failed".toList
    | .install => "Make install failed".toList

/-- The process of a phase whose command the dependency overrides: the
expanded command line, run by `sh -c` in the working directory of the build
system. When the expansion fails there is no process, and the result is the
error that `Execute` returns then. -/
def overrideCommand (m : Machine) (be : BuildExecutor) (message commandLine workDir : Str) :
    Except GoError Cmd :=
  match be.context.ExpandCommand m commandLine with
  | .error err =>
    .error (BuildErrorWithCause
      (BuildErrorWithCause err "failed to expand command variables".toList) message)
  | .ok expandedCommand =>
    .ok { name := "sh".toList, args := ["-c".toList, expandedCommand], dir := workDir,
          env := envEntries m be.context.CustomVars }

/-- The process that a phase of `Execute` spawns for a dependency, after the
directories have been made absolute: the override of the dependency when
there is one, the default command of the build system otherwise. When an
expansion fails there is no process, and the result is the error that
`Execute` returns then. `executeMake` has no default configure command: that
phase is not among `phasesOf` then, and the entry for it here is an error
that no run returns. -/
def phaseCommand (m : Machine) (be : BuildExecutor) (dep : Dependency)
    (sourceDir buildDir installDir : Str) (p : Phase) : Except GoError Cmd :=
  let commandLine :=
    match p with
    | .configure => dep.BuildCommands.Configure
    | .build => dep.BuildCommands.Build
    | .install => dep.BuildCommands.Install
  let workDir := if dep.BuildSystem = "cmake".toList then buildDir else sourceDir
  let env := envEntries m be.context.CustomVars ++ envEntries m be.venvVars
  if commandLine ≠ [] then
    overrideCommand m be (phaseMessage dep.BuildSystem p) commandLine workDir
  else if dep.BuildSystem = "cmake".toList then
    match p with
    | .configure =>
      match be.expandOptions m "CMake".toList dep.CMakeOptions
          ["-B".toList, buildDir, "-S".toList, sourceDir,
           "-DCMAKE_INSTALL_PREFIX=".toList ++ installDir,
           "-DCMAKE_BUILD_TYPE=".toList ++ be.context.BuildType] with
      | .error err => .error err
      | .ok args => .ok { name := "cmake".toList, args := args, env := env }
    | .build =>
      .ok { name := "cmake".toList,
            args := ["--build".toList, buildDir, "--config".toList, be.context.BuildType,
                     "--parallel".toList, Itoa be.context.CPUCount],
            env := env }
    | .install =>
      .ok { name := "cmake".toList,
            args := ["--install".toList, buildDir, "--config".toList, be.context.BuildType],
            env := env }
  else if dep.BuildSystem = "make".toList then
    match p with
    | .configure => .error (BuildError "no configure command".toList)
    | .build =>
      match be.expandOptions m "Make".toList dep.MakeOptions
          ["-j".toList ++ Itoa be.context.CPUCount] with
      | .error err => .error err
      | .ok args => .ok { name := "make".toList, args := args, dir := sourceDir, env := env }
    | .install =>
      .ok { name := "make".toList, args := ["install".toList], dir := sourceDir, env := env }
  else
    match p with
    | .configure =>
      match be.expandOptions m "Configure".toList dep.ConfigureOptions
          ["--prefix=".toList ++ installDir] with
      | .error err => .error err
      | .ok args =>
        .ok { name := filepathJoin [sourceDir, "configure".toList], args := args,
              dir := sourceDir, env := env }
    | .build =>
      .ok { name := "make".toList, args := ["-j".toList ++ Itoa be.context.CPUCount],
            dir := sourceDir, env := env }
    | .install =>
      .ok { name := "make".toList, args := ["install".toList], dir := sourceDir, env := env }

/-- One phase, as the specification words it: its process is spawned, and a
failure of the process is returned as a build error with the message of the
phase and the error of the process as its cause. -/
def runPhase {σ : Type} (sh : Shell σ) (message : Str) (cmd : Except GoError Cmd) (s : σ) :
    Option GoError × σ :=
  match cmd with
  | .error e => (some e, s)
  | .ok c => orBuildError message (sh.Run c s)

/-- The phases in order, as the specification words them: each phase runs
only when every phase before it succeeded. -/
def runPhases {σ : Type} (sh : Shell σ) (message : Phase → Str)
    (cmd : Phase → Except GoError Cmd) : List Phase → σ → Option GoError × σ
  | [], s => (none, s)
  | p :: rest, s =>
    match runPhase sh (message p) (cmd p) s with
    | (some err, s) => (some err, s)
    | (none, s) => runPhases sh message cmd rest s

/-- A CMake dependency whose build command is overridden by one that fails. -/
def brokenBuildDep : Dependency :=
  { Name := "fmt".toList, Version := "8.0.1".toList,
    Source := { Typ := "archive".toList, URLS := ["https://example.com/fmt.tar.gz".toList] },
    BuildSystem := "cmake".toList,
    CMakeOptions := ["-DFMT_TEST=OFF".toList],
    BuildCommands := { Build := "make fail -j$CPU_CORES".toList } }

/-- The executor of `demoContext`, without a virtual environment. -/
def demoExecutor : BuildExecutor := { context := demoContext }

/-- The run of `Execute` for `brokenBuildDep` on the test machine, with its
log. -/
def brokenRun : Option GoError × BuildExecutor × Nat × List (Cmd × Option GoError) :=
  demoExecutor.Execute testShell.traced testMachine brokenBuildDep
    "/s".toList "/b".toList "/i".toList (0, [])

/-- The directories and the executor after the first statements of that
run. -/
def brokenDirs : (Str × Str × Str) × BuildExecutor × Nat × List (Cmd × Option GoError) :=
  demoExecutor.setDirs testShell.traced "/s".toList "/b".toList "/i".toList (0, [])

/-- A dependency built with `make`, without any override. -/
def plainMakeDep : Dependency :=
  { Name := "lz4".toList, Version := "1.9.4".toList,
    Source := { Typ := "archive".toList, URLS := ["https://example.com/lz4.tar.gz".toList] },
    BuildSystem := "make".toList }

/-- The run of `Execute` for `plainMakeDep` on the test machine, with its
log. -/
def plainMakeRun : Option GoError × BuildExecutor × Nat × List (Cmd × Option GoError) :=
  demoExecutor.Execute testShell.traced testMachine plainMakeDep
    "/s".toList "/b".toList "/i".toList (0, [])

/-- A dependency built with `configure` whose build command is overridden by
one that fails. -/
def brokenConfigureDep : Dependency :=
  { Name := "curl".toList, Version := "8.5.0".toList,
    Source := { Typ := "archive".toList, URLS := ["https://example.com/curl.tar.gz".toList] },
    BuildSystem := "configure".toList,
    ConfigureOptions := ["--with-ssl=$INSTALL_DIR".toList],
    BuildCommands := { Build := "make fail".toList } }

/-- The run of `Execute` for `brokenConfigureDep` on the test machine, with
its log. -/
def configureRun : Option GoError × BuildExecutor × Nat × List (Cmd × Option GoError) :=
  demoExecutor.Execute testShell.traced testMachine brokenConfigureDep
    "/s".toList "/b".toList "/i".toList (0, [])

/-! ## `pkg/downloader/archive.go`: extraction -/

/-- Go `(*ArchiveDownloader).extractTarGz`. The output of `file` is printed
and its error ignored. -/
def ArchiveDownloader.extractTarGz {σ : Type} (sh : Shell σ) (archivePath targetDir : Str)
    (s : σ) : Option GoError × σ :=
  let (_, s) := sh.Run { name := "file".toList, args := [archivePath] } s
  match sh.MkdirAll targetDir s with
  | (some err, s) =>
    (some (DownloadErrorWithCause err "failed to create target directory".toList), s)
  | (none, s) =>
    match sh.Run { name := "tar".toList,
                   args := ["xzf".toList, archivePath, "-C".toList, targetDir,
                            "--strip-components=1".toList, "--preserve-permissions".toList] } s with
    | (some err, s) =>
      (some (DownloadErrorWithCause err "failed to extract tar.gz archive".toList), s)
    | (none, s) => (none, s)

/-- Go `(*ArchiveDownloader).extractTar`. -/
def ArchiveDownloader.extractTar {σ : Type} (sh : Shell σ) (archivePath targetDir : Str)
    (s : σ) : Option GoError × σ :=
  match sh.Run { name := "tar".toList,
                 args := ["xf".toList, archivePath, "-C".toList, targetDir,
                          "--strip-components=1".toList, "--preserve-permissions".toList] } s with
  | (some err, s) => (some (DownloadErrorWithCause err "failed to extract tar archive".toList), s)
  | (none, s) => (none, s)

/-- Go `(*ArchiveDownloader).extractZip`. -/
def ArchiveDownloader.extractZip {σ : Type} (sh : Shell σ) (archivePath targetDir : Str)
    (s : σ) : Option GoError × σ :=
  match sh.Run { name := "unzip".toList,
                 args := ["-q".toList, "-o".toList, archivePath, "-d".toList, targetDir] } s with
  | (some err, s) => (some (DownloadErrorWithCause err "failed to extract zip archive".toList), s)
  | (none, s) => (none, s)

/-- Go `(*ArchiveDownloader).extractTarBz2`. -/
def ArchiveDownloader.extractTarBz2 {σ : Type} (sh : Shell σ) (archivePath targetDir : Str)
    (s : σ) : Option GoError × σ :=
  match sh.Run { name := "tar".toList,
                 args := ["xjf".toList, archivePath, "-C".toList, targetDir,
                          "--strip-components=1".toList, "--preserve-permissions".toList] } s with
  | (some err, s) =>
    (some (DownloadErrorWithCause err "failed to extract tar.bz2 archive".toList), s)
  | (none, s) => (none, s)

/-- Go `(*ArchiveDownloader).extractTarXz`. -/
def ArchiveDownloader.extractTarXz {σ : Type} (sh : Shell σ) (archivePath targetDir : Str)
    (s : σ) : Option GoError × σ :=
  match sh.Run { name := "tar".toList,
                 args := ["xJf".toList, archivePath, "-C".toList, targetDir,
                          "--strip-components=1".toList, "--preserve-permissions".toList] } s with
  | (some err, s) =>
    (some (DownloadErrorWithCause err "failed to extract tar.xz archive".toList), s)
  | (none, s) => (none, s)

/-- Go `(*ArchiveDownloader).extractArchive`. -/
def ArchiveDownloader.extractArchive {σ : Type} (env : Env) (sh : Shell σ)
    (archivePath targetDir : Str) (s : σ) : Option GoError × σ :=
  let lowerPath := ToLower env archivePath
  if HasSuffix lowerPath ".tar.gz".toList || HasSuffix lowerPath ".tgz".toList then
    ArchiveDownloader.extractTarGz sh archivePath targetDir s
  else if HasSuffix lowerPath ".tar.bz2".toList || HasSuffix lowerPath ".tbz2".toList then
    ArchiveDownloader.extractTarBz2 sh archivePath targetDir s
  else if HasSuffix lowerPath ".tar.xz".toList || HasSuffix lowerPath ".txz".toList then
    ArchiveDownloader.extractTarXz sh archivePath targetDir s
  else if HasSuffix lowerPath ".tar".toList then
    ArchiveDownloader.extractTar sh archivePath targetDir s
  else if HasSuffix lowerPath ".zip".toList then
    ArchiveDownloader.extractZip sh archivePath targetDir s
  else if HasSuffix lowerPath ".gz".toList then
    (some (DownloadError
      "standalone .gz files are not supported, please use .tar.gz".toList), s)
  else if HasSuffix lowerPath ".bz2".toList then
    (some (DownloadError
      "standalone .bz2 files are not supported, please use .tar.bz2".toList), s)
  else if HasSuffix lowerPath ".xz".toList then
    (some (DownloadError
      "standalone .xz files are not supported, please use .tar.xz".toList), s)
  else
    (some (DownloadError ("unsupported archive format: ".toList ++ Ext archivePath)), s)

/-- A process that removes the top-level directory component from the names
of the members that it extracts: `tar` with the option
`--strip-components=1`. (`unzip` has no option that removes leading
directories.) -/
def stripsTopLevel (c : Cmd) : Prop :=
  c.name = "tar".toList ∧ "--strip-components=1".toList ∈ c.args

instance (c : Cmd) : Decidable (stripsTopLevel c) := by
  unfold stripsTopLevel
  infer_instance

/-- The extensions of the tar formats that `extractArchive` supports. -/
def tarSuffixes : List Str :=
  [".tar.gz".toList, ".tgz".toList, ".tar.bz2".toList, ".tbz2".toList, ".tar.xz".toList,
   ".txz".toList, ".tar".toList]

/-! # Theorems -/

/-! ### Checks of the embedding against the repository's tests -/

example : ParseBuildTag [] = .error .emptyTag := by decide
example : ParseBuildTag "invalid-tag".toList = .error (.invalidFormat "invalid-tag".toList) := by
  decide
example : ParseBuildTag "unknown=value".toList = .error (.unknownKey "unknown".toList) := by
  decide

example : BuildTag.ToDirName (some cudaTag) =
    ("arch-x86_64,platform-linux,runtime-glibc_2.35plus,compiler-gcc_11plus,std-cpp17," ++
      "abi-sysv,cuda-12.0,cuda_arch-compute_80orcompute_90").toList := by decide
example : BuildTag.ToDirName none = "default".toList := by decide
example : BuildTag.Validate (some cudaTag) = none := by decide
example : ParseBuildTag (BuildTag.String (some cudaTag)) = .ok cudaTag := by decide
example : ParseBuildTag
    ("arch=x86_64,platform=linux,cuda=12.0,cuda_arch=compute_80|compute_90," ++
      "gpu_enabled=true,gpu_backend=cuda").toList =
    .ok { Arch := "x86_64".toList, Platform := "linux".toList,
          GPU := some { Backend := "cuda".toList,
                        CUDA := some { Version := "12.0".toList,
                                       Arch := ["compute_80".toList, "compute_90".toList],
                                       Enabled := true } } } := by decide

/-! ### Directory-name safety (C2) -/

theorem mem_ReplaceAll {s : Str} {old : Char} {new : Str} {c : Char}
    (h : c ∈ ReplaceAll s old new) : (c ∈ s ∧ c ≠ old) ∨ c ∈ new := by
  unfold ReplaceAll at h
  rw [List.mem_flatMap] at h
  obtain ⟨a, ha, hc⟩ := h
  by_cases hao : a = old
  · rw [if_pos hao] at hc
    exact Or.inr hc
  · rw [if_neg hao] at hc
    have hca : c = a := by simpa using hc
    exact Or.inl ⟨hca ▸ ha, hca ▸ hao⟩

/-- The three replacements of `ToDirName` leave none of `=`, `+`, `|`. -/
theorem replaced_safe (s : Str) (c : Char) (hc : c = '=' ∨ c = '+' ∨ c = '|') :
    c ∉ ReplaceAll (ReplaceAll (ReplaceAll s '=' "-".toList) '+' "plus".toList) '|'
      "or".toList := by
  intro h
  rcases mem_ReplaceAll h with ⟨h2, hne2⟩ | h2
  · rcases mem_ReplaceAll h2 with ⟨h1, hne1⟩ | h1
    · rcases mem_ReplaceAll h1 with ⟨_, hne0⟩ | h0
      · rcases hc with hc | hc | hc
        · exact hne0 hc
        · exact hne1 hc
        · exact hne2 hc
      · rcases hc with hc | hc | hc <;> subst hc <;> revert h0 <;> decide
    · rcases hc with hc | hc | hc <;> subst hc <;> revert h1 <;> decide
  · rcases hc with hc | hc | hc <;> subst hc <;> revert h2 <;> decide

/-- C2. For every descriptor, the nil descriptor included, the directory name
`ToDirName` contains none of the characters `=`, `+` and `|`, and does not
start with `.`. -/
theorem toDirName_safe (bt : Option BuildTag) :
    '=' ∉ BuildTag.ToDirName bt ∧ '+' ∉ BuildTag.ToDirName bt ∧
    '|' ∉ BuildTag.ToDirName bt ∧ HasPrefix (BuildTag.ToDirName bt) ".".toList = false := by
  cases bt with
  | none => decide
  | some bt =>
    have key : ∀ c : Char, (c = '=' ∨ c = '+' ∨ c = '|') →
        c ∉ BuildTag.ToDirName (some bt) := by
      intro c hc
      have hs := replaced_safe (BuildTag.String (some bt)) c hc
      simp only [BuildTag.ToDirName]
      split
      · intro h
        rcases List.mem_append.mp h with h | h
        · rcases hc with hc | hc | hc <;> subst hc <;> revert h <;> decide
        · exact hs (List.mem_of_mem_drop h)
      · exact hs
    refine ⟨key _ (Or.inl rfl), key _ (Or.inr (Or.inl rfl)), key _ (Or.inr (Or.inr rfl)), ?_⟩
    simp only [BuildTag.ToDirName]
    split
    · rfl
    · rename_i h
      simpa using h

/-! ### Candidate order (C7) -/

theorem splitURLs_eq (s : SourceInfo) (urls l n : List Str) :
    s.splitURLs urls l n =
      (l ++ urls.filter s.IsLocalURL, n ++ urls.filter (fun u => !s.IsLocalURL u)) := by
  induction urls generalizing l n with
  | nil => simp [SourceInfo.splitURLs]
  | cons u us ih =>
    by_cases hu : s.IsLocalURL u = true
    · simp [SourceInfo.splitURLs, hu, ih]
    · simp [SourceInfo.splitURLs, hu, ih]

theorem getAllAvailableURLs_eq (s : SourceInfo) :
    s.GetAllAvailableURLs =
      s.GetURLs.filter s.IsLocalURL ++ s.GetURLs.filter (fun u => !s.IsLocalURL u) := by
  unfold SourceInfo.GetAllAvailableURLs
  by_cases h : s.GetURLs.length = 0
  · have h0 : s.GetURLs = [] := List.length_eq_zero.mp h
    simp [h0]
  · simp [h, splitURLs_eq]

/-- C7. `GetAllAvailableURLs` returns a permutation of `GetURLs` in which no
network URL comes before a local one (a URL is local when `IsLocalURL` accepts
it), and the local URLs, and likewise the network URLs, keep the relative
order they have in the configured list. -/
theorem getAllAvailableURLs_local_first (s : SourceInfo) :
    s.GetAllAvailableURLs.Perm s.GetURLs ∧
    s.GetAllAvailableURLs.Pairwise
      (fun a b => ¬ (s.IsLocalURL a = false ∧ s.IsLocalURL b = true)) ∧
    s.GetAllAvailableURLs.filter s.IsLocalURL = s.GetURLs.filter s.IsLocalURL ∧
    s.GetAllAvailableURLs.filter (fun u => !s.IsLocalURL u) =
      s.GetURLs.filter (fun u => !s.IsLocalURL u) := by
  rw [getAllAvailableURLs_eq]
  refine ⟨?_, ?_, ?_, ?_⟩
  · exact List.filter_append_perm _ _
  · rw [List.pairwise_append]
    refine ⟨?_, ?_, ?_⟩
    · refine List.Pairwise.imp_of_mem ?_ (List.pairwise_of_forall (R := fun _ _ => True) (fun _ _ => trivial))
      intro a b ha _ _ h
      have := (List.mem_filter.mp ha).2
      simp [h.1] at this
    · refine List.Pairwise.imp_of_mem ?_ (List.pairwise_of_forall (R := fun _ _ => True) (fun _ _ => trivial))
      intro a b _ hb _ h
      have := (List.mem_filter.mp hb).2
      simp [h.2] at this
    · intro a ha b _ h
      have := (List.mem_filter.mp ha).2
      simp [h.1] at this
  · simp [List.filter_append, List.filter_filter]
  · simp [List.filter_append, List.filter_filter]

example : Dir "/a/b".toList = "/a".toList := by decide
example : Dir "a".toList = ".".toList := by decide
example : Dir "/a".toList = "/".toList := by decide
example : Dir "../..".toList = "..".toList := by decide
example : Base "/a/b".toList = "b".toList := by decide
example : Base "/a/b//".toList = "b".toList := by decide
example : Base "//".toList = "/".toList := by decide
example : Clean "a/b/../c".toList = "a/c".toList := by decide
example : Clean "/../a".toList = "/a".toList := by decide
example : Clean "../../a/..".toList = "../..".toList := by decide
example : Clean "a//b/./c/".toList = "a/b/c".toList := by decide
example : Clean "a/..".toList = ".".toList := by decide
example : Clean "/".toList = "/".toList := by decide
example : Clean "a/../../b".toList = "../b".toList := by decide
example : filepathJoin ["".toList, "a".toList, "".toList, "b".toList] = "a/b".toList := by decide
example : CacheManager.GetBuildCachePath { cacheDir := "/c".toList }
    { Name := "test-lib".toList, Version := "1.0.0".toList } none =
    "/c/buildfly/test-lib/1.0.0/default".toList := by decide

/-! ### Splitting, joining and cleaning paths -/

theorem Split_ne_nil (s : Str) (sep : Char) : Split s sep ≠ [] := by
  induction s with
  | nil => simp [Split]
  | cons c cs ih =>
    unfold Split
    split
    · simp
    · split <;> simp

theorem Split_of_not_mem {s : Str} {sep : Char} (h : sep ∉ s) : Split s sep = [s] := by
  induction s with
  | nil => simp [Split]
  | cons c cs ih =>
    have hc : c ≠ sep := fun e => h (e ▸ List.mem_cons_self _ _)
    have hcs : sep ∉ cs := fun e => h (List.mem_cons_of_mem _ e)
    simp [Split, hc, ih hcs]

theorem Split_append_sep (a b : Str) (sep : Char) :
    Split (a ++ sep :: b) sep = Split a sep ++ Split b sep := by
  induction a with
  | nil => simp [Split]
  | cons c cs ih =>
    by_cases hc : c = sep
    · simp [Split, hc, ih]
    · simp only [List.cons_append, Split, hc, if_false]
      simp only [List.append_eq]
      rw [ih]
      cases h : Split cs sep with
      | nil => exact absurd h (Split_ne_nil _ _)
      | cons p ps => simp

theorem Join_append_singleton (l : List Str) (d sep : Str) (h : l ≠ []) :
    Join (l ++ [d]) sep = Join l sep ++ sep ++ d := by
  induction l with
  | nil => exact absurd rfl h
  | cons p ps ih =>
    cases ps with
    | nil => simp [Join]
    | cons q qs =>
      have := ih (by simp)
      rw [List.cons_append] at this
      show p ++ sep ++ Join (q :: (qs ++ [d])) sep = _
      rw [this]
      simp [Join, List.append_assoc]

/-- Splitting undoes joining when no piece contains the separator. -/
theorem Split_Join (parts : List Str) (sep : Char) (hne : parts ≠ [])
    (h : ∀ p ∈ parts, sep ∉ p) : Split (Join parts [sep]) sep = parts := by
  induction parts with
  | nil => exact absurd rfl hne
  | cons p ps ih =>
    cases ps with
    | nil => simpa [Join] using Split_of_not_mem (h p (by simp))
    | cons q qs =>
      have h1 := ih (by simp) (fun x hx => h x (List.mem_cons_of_mem _ hx))
      simp only [Join, List.append_assoc, List.singleton_append]
      rw [Split_append_sep, h1, Split_of_not_mem (h p (by simp))]
      simp

theorem HasPrefix_append (X Y : Str) (p : Char) (hX : X ≠ []) :
    HasPrefix (X ++ Y) [p] = HasPrefix X [p] := by
  cases X with
  | nil => exact absurd rfl hX
  | cons x xs => simp [HasPrefix, List.isPrefixOf]

theorem cleanStep_plain (r : Bool) (out : List Str) (e : Str) (h1 : e ≠ [])
    (h2 : HasPrefix e ".".toList = false) : cleanStep r out e = out ++ [e] := by
  have h3 : e ≠ ".".toList := by
    intro h; rw [h] at h2; revert h2; decide
  have h4 : e ≠ "..".toList := by
    intro h; rw [h] at h2; revert h2; decide
  unfold cleanStep
  rw [if_neg (fun h => h.elim h1 h3), if_neg h4]

theorem cleanElems_append_elem (X D : Str) (hX : X ≠ []) (hD : '/' ∉ D) :
    cleanElems (X ++ '/' :: D) = cleanStep (HasPrefix X "/".toList) (cleanElems X) D := by
  unfold cleanElems
  rw [Split_append_sep, Split_of_not_mem hD, List.foldl_append]
  have : HasPrefix (X ++ '/' :: D) "/".toList = HasPrefix X "/".toList :=
    HasPrefix_append X _ '/' hX
  rw [this]
  rfl

/-- Cleaning a path extended by an ordinary file name appends that name. -/
theorem Clean_append_elem (X D : Str) (hX : X ≠ []) (h1 : D ≠ []) (h2 : '/' ∉ D)
    (h3 : HasPrefix D ".".toList = false) :
    Clean (X ++ '/' :: D) = childPrefix X ++ D := by
  have hne : X ++ '/' :: D ≠ [] := by simp
  have hp : HasPrefix (X ++ '/' :: D) "/".toList = HasPrefix X "/".toList :=
    HasPrefix_append X _ '/' hX
  unfold Clean childPrefix
  rw [if_neg hne, cleanElems_append_elem X D hX h2, cleanStep_plain _ _ _ h1 h3, hp]
  generalize HasPrefix X "/".toList = r
  generalize cleanElems X = o
  have hj : ∀ (a : Str) (l : List Str),
      Join (a :: (l ++ [D])) ['/'] = Join (a :: l) ['/'] ++ '/' :: D := by
    intro a l
    have := Join_append_singleton (a :: l) D ['/'] (by simp)
    simpa [List.append_assoc] using this
  cases r <;> cases o <;> simp [Join, hj]

/-- Cleaning is not affected by a trailing slash. -/
theorem Clean_append_slash (X : Str) (hX : X ≠ []) : Clean (X ++ ['/']) = Clean X := by
  have hne : X ++ ['/'] ≠ [] := by simp
  have hp : HasPrefix (X ++ ['/']) "/".toList = HasPrefix X "/".toList :=
    HasPrefix_append X _ '/' hX
  have he : cleanElems (X ++ ['/']) = cleanElems X := by
    rw [cleanElems_append_elem X [] hX (by simp)]
    simp [cleanStep]
  unfold Clean
  rw [if_neg hne, if_neg hX, he, hp]

theorem Split_no_sep (s : Str) (sep : Char) : ∀ p ∈ Split s sep, sep ∉ p := by
  induction s with
  | nil => simp [Split]
  | cons c cs ih =>
    intro p hp
    unfold Split at hp
    split at hp
    · rcases List.mem_cons.mp hp with h | h
      · simp [h]
      · exact ih p h
    · rename_i hc
      split at hp
      · simp at hp; simp [hp]; exact fun h => hc h.symm
      · rename_i q qs hq
        rcases List.mem_cons.mp hp with h | h
        · have hq1 : sep ∉ q := ih q (by simp [hq])
          subst h
          intro hm
          rcases List.mem_cons.mp hm with h | h
          · exact hc h.symm
          · exact hq1 h
        · exact ih p (by simp [hq, h])

theorem cleanStep_normal (r : Bool) (out : List Str) (e : Str) (hn : normalElems r out)
    (he : '/' ∉ e) : normalElems r (cleanStep r out e) := by
  obtain ⟨k, rest, hout, hrest, hk⟩ := hn
  unfold cleanStep
  split
  · exact ⟨k, rest, hout, hrest, hk⟩
  · rename_i h1
    split
    · rename_i h2
      subst h2
      rcases List.eq_nil_or_concat rest with hr | ⟨rest2, last, hr⟩
      · subst hr
        simp only [List.append_nil] at hout
        cases k with
        | zero =>
          simp only [List.replicate_zero] at hout
          subst hout
          cases r with
          | true => exact ⟨0, [], by simp, by simp, by simp⟩
          | false => exact ⟨1, [], by simp, by simp, by simp⟩
        | succ k =>
          have hrf : r = false := by
            cases r with
            | true => exact absurd (hk rfl) (by simp)
            | false => rfl
          have hl : out.getLast? = some "..".toList := by
            rw [hout, List.replicate_succ']
            simp
          rw [hl]
          simp only [if_true]
          refine ⟨k + 2, [], ?_, by simp, by simp [hrf]⟩
          rw [hout]
          simp [List.replicate_succ']
      · rw [List.concat_eq_append] at hr
        subst hr
        have hlast : plainElem last := hrest last (by simp)
        have hl : out.getLast? = some last := by
          rw [hout, ← List.append_assoc]
          simp
        rw [hl]
        simp only []
        rw [if_neg hlast.2.2.2]
        refine ⟨k, rest2, ?_, fun e he => hrest e (by simp [he]), hk⟩
        rw [hout, ← List.append_assoc, List.dropLast_concat]
    · rename_i h2
      refine ⟨k, rest ++ [e], by simp [hout], ?_, hk⟩
      intro x hx
      rcases List.mem_append.mp hx with h | h
      · exact hrest x h
      · have : x = e := by simpa using h
        subst this
        exact ⟨fun h => h1 (Or.inl h), he, fun h => h1 (Or.inr h), h2⟩

theorem foldl_cleanStep_normal (r : Bool) (l : List Str) (hl : ∀ e ∈ l, '/' ∉ e) :
    ∀ out, normalElems r out → normalElems r (l.foldl (cleanStep r) out) := by
  induction l with
  | nil => intro out h; exact h
  | cons e es ih =>
    intro out h
    exact ih (fun x hx => hl x (List.mem_cons_of_mem _ hx)) _
      (cleanStep_normal r out e h (hl e (List.mem_cons_self _ _)))

theorem cleanElems_normal (path : Str) :
    normalElems (HasPrefix path "/".toList) (cleanElems path) :=
  foldl_cleanStep_normal _ _ (Split_no_sep path '/') [] ⟨0, [], by simp, by simp, by simp⟩

theorem cleanStep_plainElem (r : Bool) (out : List Str) (e : Str) (h : plainElem e) :
    cleanStep r out e = out ++ [e] := by
  unfold cleanStep
  rw [if_neg (fun h0 => h0.elim h.1 h.2.2.1), if_neg h.2.2.2]

theorem foldl_cleanStep_plain (r : Bool) (rest : List Str) (h : ∀ e ∈ rest, plainElem e) :
    ∀ acc, rest.foldl (cleanStep r) acc = acc ++ rest := by
  induction rest with
  | nil => intro acc; simp
  | cons e es ih =>
    intro acc
    rw [List.foldl_cons, cleanStep_plainElem r acc e (h e (List.mem_cons_self _ _)),
      ih (fun x hx => h x (List.mem_cons_of_mem _ hx))]
    simp

theorem foldl_cleanStep_dotdot (k : Nat) :
    (List.replicate k "..".toList).foldl (cleanStep false) [] = List.replicate k "..".toList := by
  induction k with
  | zero => rfl
  | succ k ih =>
    rw [List.replicate_succ', List.foldl_append, ih]
    cases k with
    | zero => rfl
    | succ k =>
      have hl : (List.replicate (k + 1) "..".toList).getLast? = some "..".toList := by
        rw [List.replicate_succ']
        simp
      simp only [List.foldl_cons, List.foldl_nil]
      unfold cleanStep
      rw [if_neg (by decide), if_pos rfl, hl]
      simp

/-- The loop of `Clean` leaves the elements of a cleaned path as they are. -/
theorem foldl_cleanStep_id (r : Bool) (out : List Str) (h : normalElems r out) :
    out.foldl (cleanStep r) [] = out := by
  obtain ⟨k, rest, hout, hrest, hk⟩ := h
  subst hout
  rw [List.foldl_append]
  cases r with
  | true =>
    rw [hk rfl]
    simpa using foldl_cleanStep_plain true rest hrest []
  | false =>
    rw [foldl_cleanStep_dotdot, foldl_cleanStep_plain false rest hrest]

theorem normalElems_ne_nil (r : Bool) (out : List Str) (h : normalElems r out) :
    ∀ e ∈ out, e ≠ [] ∧ '/' ∉ e := by
  obtain ⟨k, rest, hout, hrest, _⟩ := h
  intro e he
  rw [hout] at he
  rcases List.mem_append.mp he with h | h
  · have := List.eq_of_mem_replicate h
    subst this
    decide
  · exact ⟨(hrest e h).1, (hrest e h).2.1⟩

theorem Join_head (out : List Str) (sep : Str) (c : Char) (hne : out ≠ [])
    (h : ∀ e ∈ out, e ≠ [] ∧ c ∉ e) :
    Join out sep ≠ [] ∧ HasPrefix (Join out sep) [c] = false := by
  cases out with
  | nil => exact absurd rfl hne
  | cons e es =>
    obtain ⟨he1, he2⟩ := h e (List.mem_cons_self _ _)
    cases e with
    | nil => exact absurd rfl he1
    | cons a as =>
      have hac : a ≠ c := fun hh => he2 (hh ▸ List.mem_cons_self _ _)
      have hca : ¬ c = a := fun hh => hac hh.symm
      cases es with
      | nil => simp [Join, HasPrefix, List.isPrefixOf, hca]
      | cons q qs => simp [Join, HasPrefix, List.isPrefixOf, hca]

/-- A rendered list of cleaned elements splits and cleans back to itself. -/
theorem cleanElems_render (r : Bool) (out : List Str) (hn : normalElems r out)
    (ho : out ≠ []) :
    (if r = true then ['/'] else []) ++ Join out ['/'] ≠ [] ∧
    HasPrefix ((if r = true then ['/'] else []) ++ Join out ['/']) ['/'] = r ∧
    cleanElems ((if r = true then ['/'] else []) ++ Join out ['/']) = out := by
  have hid := foldl_cleanStep_id r out hn
  have hel := normalElems_ne_nil r out hn
  obtain ⟨hj1, hj2⟩ := Join_head out ['/'] '/' ho hel
  have hsj : Split (Join out ['/']) '/' = out := Split_Join _ '/' ho (fun e he => (hel e he).2)
  cases r with
  | true =>
    have hp : HasPrefix (['/'] ++ Join out ['/']) ['/'] = true := by
      simp [HasPrefix, List.isPrefixOf]
    refine ⟨by simp, hp, ?_⟩
    show cleanElems (['/'] ++ Join out ['/']) = out
    unfold cleanElems
    have hp2 : HasPrefix (['/'] ++ Join out ['/']) "/".toList = true := hp
    rw [hp2]
    show List.foldl _ [] (Split ([] ++ '/' :: Join out ['/']) '/') = _
    rw [Split_append_sep, hsj]
    simpa [Split, cleanStep] using hid
  | false =>
    refine ⟨by simpa using hj1, by simpa using hj2, ?_⟩
    show cleanElems ([] ++ Join out ['/']) = out
    rw [List.nil_append]
    unfold cleanElems
    have hp2 : HasPrefix (Join out ['/']) "/".toList = false := hj2
    rw [hp2, hsj]
    exact hid

/-- Cleaning the text before the last element gives the cleaned parent
path. -/
theorem Clean_childPrefix (X : Str) (hX : X ≠ []) : Clean (childPrefix X) = Clean X := by
  have hn := cleanElems_normal X
  unfold childPrefix
  by_cases ho : cleanElems X = []
  · rw [if_pos ho]
    by_cases hr : HasPrefix X "/".toList = true
    · rw [if_pos hr]
      unfold Clean
      rw [if_neg hX, if_pos hr, ho]
      decide
    · rw [if_neg hr]
      unfold Clean
      rw [if_neg hX, if_neg hr, ho]
      decide
  · rw [if_neg ho, ← List.append_assoc]
    obtain ⟨h1, h2, h3⟩ := cleanElems_render _ _ hn ho
    have h1b : (if HasPrefix X "/".toList = true then "/".toList else []) ++
        Join (cleanElems X) "/".toList ≠ [] := h1
    have h2b : HasPrefix ((if HasPrefix X "/".toList = true then "/".toList else []) ++
        Join (cleanElems X) "/".toList) "/".toList = HasPrefix X "/".toList := h2
    have h3b : cleanElems ((if HasPrefix X "/".toList = true then "/".toList else []) ++
        Join (cleanElems X) "/".toList) = cleanElems X := h3
    show Clean (_ ++ ['/']) = _
    rw [Clean_append_slash _ h1b]
    unfold Clean
    rw [if_neg h1b, if_neg hX, h3b, h2b]

theorem dropWhile_append_of_all {α : Type} (p : α → Bool) (l m : List α)
    (h : ∀ x ∈ l, p x = true) : (l ++ m).dropWhile p = m.dropWhile p := by
  induction l with
  | nil => rfl
  | cons a as ih =>
    rw [List.cons_append, List.dropWhile_cons, if_pos (h a (List.mem_cons_self _ _))]
    exact ih (fun x hx => h x (List.mem_cons_of_mem _ hx))

theorem takeWhile_append_of_all {α : Type} (p : α → Bool) (l m : List α)
    (h : ∀ x ∈ l, p x = true) : (l ++ m).takeWhile p = l ++ m.takeWhile p := by
  induction l with
  | nil => rfl
  | cons a as ih =>
    rw [List.cons_append, List.takeWhile_cons, if_pos (h a (List.mem_cons_self _ _)),
      ih (fun x hx => h x (List.mem_cons_of_mem _ hx))]
    rfl

theorem childPrefix_shape (X : Str) : childPrefix X = [] ∨ ∃ Q, childPrefix X = Q ++ ['/'] := by
  unfold childPrefix
  by_cases ho : cleanElems X = []
  · by_cases hr : HasPrefix X "/".toList = true
    · right; exact ⟨[], by rw [if_pos hr, if_pos ho]; rfl⟩
    · left; rw [if_neg hr, if_pos ho]; rfl
  · right
    refine ⟨(if HasPrefix X "/".toList = true then "/".toList else []) ++
      Join (cleanElems X) "/".toList, ?_⟩
    rw [if_neg ho, List.append_assoc]
    rfl

/-- `filepath.Dir` of a path whose last element is `D`. -/
theorem Dir_append_elem (P D : Str) (hP : P = [] ∨ ∃ Q, P = Q ++ ['/']) (hD : '/' ∉ D) :
    Dir (P ++ D) = Clean P := by
  have hall : ∀ x ∈ D.reverse, (fun c : Char => c != '/') x = true := by
    intro x hx
    have : x ≠ '/' := fun h => hD (h ▸ List.mem_reverse.mp hx)
    simpa using this
  unfold Dir
  rw [List.reverse_append, dropWhile_append_of_all _ _ _ hall]
  rcases hP with h | ⟨Q, h⟩
  · subst h; rfl
  · subst h
    simp

/-- `filepath.Base` of a path whose last element is `D`. -/
theorem Base_append_elem (P D : Str) (hP : P = [] ∨ ∃ Q, P = Q ++ ['/']) (hD : '/' ∉ D)
    (hne : D ≠ []) : Base (P ++ D) = D := by
  have hall : ∀ x ∈ D.reverse, (fun c : Char => c != '/') x = true := by
    intro x hx
    have : x ≠ '/' := fun h => hD (h ▸ List.mem_reverse.mp hx)
    simpa using this
  have hstrip : ((P ++ D).reverse.dropWhile (fun c => c == '/')) = (P ++ D).reverse := by
    rw [List.reverse_append]
    obtain ⟨d, ds, hd⟩ := List.exists_cons_of_ne_nil (by simpa using hne : D.reverse ≠ [])
    rw [hd]
    have : d ≠ '/' := by
      have := hall d (by rw [hd]; exact List.mem_cons_self _ _)
      simpa using this
    simp [List.dropWhile_cons, this]
  unfold Base
  rw [if_neg (by simp [hne])]
  simp only [hstrip, List.reverse_reverse]
  rw [List.reverse_append, takeWhile_append_of_all _ _ _ hall]
  rcases hP with h | ⟨Q, h⟩
  · subst h; simp [hne]
  · subst h
    simp [hne]

theorem Clean_ne_child (X D : Str) (hX : X ≠ []) (h1 : D ≠ [])
    (h3 : HasPrefix D ".".toList = false) : Clean X ≠ childPrefix X ++ D := by
  have hlen : 0 < D.length := List.length_pos.mpr h1
  unfold Clean childPrefix
  rw [if_neg hX]
  by_cases hr : HasPrefix X "/".toList = true
  · rw [if_pos hr, if_pos hr]
    by_cases ho : cleanElems X = []
    · rw [if_pos ho, ho]
      intro h
      have := congrArg List.length h
      simp only [Join, List.length_append, List.length_nil] at this
      omega
    · rw [if_neg ho]
      intro h
      have := congrArg List.length h
      simp only [List.length_append] at this
      have h2 : 0 < "/".toList.length := by decide
      omega
  · rw [if_neg hr, if_neg hr]
    by_cases ho : cleanElems X = []
    · rw [if_pos ho, if_pos ho]
      intro h
      simp only [List.nil_append] at h
      rw [← h] at h3
      revert h3
      decide
    · rw [if_neg ho, if_neg ho]
      intro h
      have := congrArg List.length h
      simp only [List.length_append, List.length_nil] at this
      have h2 : 0 < "/".toList.length := by decide
      omega

/-- The build-cache path is the cleaned text `X/dir`, where `X` is the text
whose cleaning is the version directory. -/
theorem buildCachePath_shape (cm : CacheManager) (dep : Dependency) :
    ∃ X : Str, X ≠ [] ∧ cm.versionDir dep = Clean X ∧
      ∀ bt, cm.GetBuildCachePath dep bt = Clean (X ++ '/' :: BuildTag.ToDirName bt) := by
  by_cases hc : cm.cacheDir = []
  · refine ⟨Join ["buildfly".toList, dep.Name, dep.Version] "/".toList, by simp [Join], ?_, ?_⟩
    · simp [CacheManager.versionDir, filepathJoin, hc]
    · intro bt
      cases bt <;>
        simp [CacheManager.GetBuildCachePath, filepathJoin, hc, Join, BuildTag.ToDirName]
  · refine ⟨Join [cm.cacheDir, "buildfly".toList, dep.Name, dep.Version] "/".toList,
      by simp [Join, hc], ?_, ?_⟩
    · simp [CacheManager.versionDir, filepathJoin, hc]
    · intro bt
      cases bt <;>
        simp [CacheManager.GetBuildCachePath, filepathJoin, hc, Join, BuildTag.ToDirName]

theorem gpuParts_head (g : GPUInfo) :
    ∀ p ∈ gpuParts g, ∃ c rest, p = c :: rest ∧ c.isAlpha = true := by
  intro p hp
  unfold gpuParts at hp
  split_ifs at hp <;> (try split at hp) <;> (try split_ifs at hp) <;>
    simp only [List.mem_append, List.mem_singleton, List.not_mem_nil, or_false, false_or,
      List.nil_append, List.append_nil] at hp <;>
    (try rcases hp with hp | hp) <;>
    (try subst hp) <;>
    (try exact ⟨_, _, rfl, by decide⟩)

theorem stringParts_head (bt : BuildTag) :
    ∀ p ∈ stringParts bt, ∃ c rest, p = c :: rest ∧ c.isAlpha = true := by
  intro p hp
  unfold stringParts at hp
  simp only [List.mem_append] at hp
  rcases hp with (((((((h | h) | h) | h) | h) | h) | h) | h)
  all_goals first
    | (split_ifs at h
       · simp only [List.mem_singleton] at h
         subst h
         exact ⟨_, _, rfl, by decide⟩
       · simp at h)
    | (split at h
       · exact gpuParts_head _ p h
       · simp at h)

theorem Join_cons_head (c : Char) (rest : Str) (ps : List Str) (sep : Str) :
    ∃ t, Join ((c :: rest) :: ps) sep = c :: t := by
  cases ps with
  | nil => exact ⟨rest, rfl⟩
  | cons q qs => exact ⟨rest ++ sep ++ Join (q :: qs) sep, rfl⟩

/-- The canonical string is empty or starts with the letter of a key. -/
theorem String_head (bt : BuildTag) :
    BuildTag.String (some bt) = [] ∨
    ∃ c t, BuildTag.String (some bt) = c :: t ∧ c.isAlpha = true := by
  have hS : BuildTag.String (some bt) = Join (stringParts bt) ",".toList := rfl
  rw [hS]
  cases hp : stringParts bt with
  | nil => left; rfl
  | cons p ps =>
    right
    obtain ⟨c, rest, hc, hal⟩ := stringParts_head bt p (by rw [hp]; exact List.mem_cons_self _ _)
    subst hc
    obtain ⟨t, ht⟩ := Join_cons_head c rest ps ",".toList
    exact ⟨c, t, ht, hal⟩

theorem ReplaceAll_of_not_mem (s : Str) (old : Char) (new : Str) (h : old ∉ s) :
    ReplaceAll s old new = s := by
  induction s with
  | nil => rfl
  | cons c cs ih =>
    have hc : c ≠ old := fun e => h (e ▸ List.mem_cons_self _ _)
    have hcs : old ∉ cs := fun e => h (List.mem_cons_of_mem _ e)
    have := ih hcs
    unfold ReplaceAll at this ⊢
    simp [List.flatMap_cons, hc, this]

theorem ReplaceAll_cons (c : Char) (cs : Str) (old : Char) (new : Str) :
    ReplaceAll (c :: cs) old new = (if c = old then new else [c]) ++ ReplaceAll cs old new := by
  unfold ReplaceAll
  simp [List.flatMap_cons]

/-- Replacing `=` by `-` can be undone on a string without `-`. -/
theorem ReplaceAll_eq_inverse (s : Str) (h : '-' ∉ s) :
    ReplaceAll (ReplaceAll s '=' ['-']) '-' ['='] = s := by
  induction s with
  | nil => rfl
  | cons c cs ih =>
    have hc : c ≠ '-' := fun e => h (e ▸ List.mem_cons_self _ _)
    have hcs : '-' ∉ cs := fun e => h (List.mem_cons_of_mem _ e)
    rw [ReplaceAll_cons]
    by_cases he : c = '='
    · rw [if_pos he]
      show ReplaceAll ('-' :: ReplaceAll cs '=' ['-']) '-' ['='] = _
      rw [ReplaceAll_cons, if_pos rfl, ih hcs, he]
      rfl
    · rw [if_neg he]
      show ReplaceAll (c :: ReplaceAll cs '=' ['-']) '-' ['='] = _
      rw [ReplaceAll_cons, if_neg hc, ih hcs]
      rfl

/-- Without `+` and `|` in the canonical string, the directory name is the
canonical string with `-` for `=`. -/
theorem ToDirName_of_safe (bt : BuildTag) (h2 : '+' ∉ BuildTag.String (some bt))
    (h3 : '|' ∉ BuildTag.String (some bt)) :
    BuildTag.ToDirName (some bt) = ReplaceAll (BuildTag.String (some bt)) '=' ['-'] := by
  have e2 : '+' ∉ ReplaceAll (BuildTag.String (some bt)) '=' "-".toList := by
    intro h
    rcases mem_ReplaceAll h with h | h
    · exact h2 h.1
    · revert h; decide
  have e3 : '|' ∉ ReplaceAll (BuildTag.String (some bt)) '=' "-".toList := by
    intro h
    rcases mem_ReplaceAll h with h | h
    · exact h3 h.1
    · revert h; decide
  have hd : HasPrefix (ReplaceAll (BuildTag.String (some bt)) '=' "-".toList) ".".toList
      = false := by
    rcases String_head bt with h | ⟨c, t, h, hal⟩
    · rw [h]; rfl
    · rw [h, ReplaceAll_cons]
      have hce : c ≠ '=' := by
        intro e; rw [e] at hal; revert hal; decide
      have hcd : c ≠ '.' := by
        intro e; rw [e] at hal; revert hal; decide
      rw [if_neg hce]
      have hdc : ¬ '.' = c := fun e => hcd e.symm
      simp [HasPrefix, List.isPrefixOf, hdc]
  simp only [BuildTag.ToDirName]
  rw [ReplaceAll_of_not_mem _ '+' _ e2, ReplaceAll_of_not_mem _ '|' _ e3, hd]
  rfl

/-! ### Variants and build-cache entries (C3, C10) -/

/-- C3, as stated, fails: two descriptors that are not `Equal`, one with the
compiler `gcc_11+` and one with the compiler `gcc_11plus`, have the same
directory name and so the same build-cache path. -/
theorem toDirName_collision :
    BuildTag.Equals (some { Compiler := "gcc_11+".toList })
      (some { Compiler := "gcc_11plus".toList }) = false ∧
    BuildTag.ToDirName (some { Compiler := "gcc_11+".toList }) =
      BuildTag.ToDirName (some { Compiler := "gcc_11plus".toList }) ∧
    CacheManager.GetBuildCachePath { cacheDir := "/c".toList }
        { Name := "fmt".toList, Version := "8.0.1".toList }
        (some { Compiler := "gcc_11+".toList }) =
      CacheManager.GetBuildCachePath { cacheDir := "/c".toList }
        { Name := "fmt".toList, Version := "8.0.1".toList }
        (some { Compiler := "gcc_11plus".toList }) := by
  decide

/-- C3 (amended). Two non-nil descriptors that are not `Equal` and whose
canonical strings contain none of `-`, `+`, `|` and `/` have different
directory names, and for every cache manager and dependency different
build-cache paths. -/
theorem toDirName_injective (a b : BuildTag)
    (hne : BuildTag.Equals (some a) (some b) = false)
    (ha : dirSafe (BuildTag.String (some a))) (hb : dirSafe (BuildTag.String (some b))) :
    BuildTag.ToDirName (some a) ≠ BuildTag.ToDirName (some b) ∧
    ∀ (cm : CacheManager) (dep : Dependency),
      cm.GetBuildCachePath dep (some a) ≠ cm.GetBuildCachePath dep (some b) := by
  have hs : BuildTag.String (some a) ≠ BuildTag.String (some b) := by
    simpa [BuildTag.Equals] using hne
  obtain ⟨a1, a2, a3, a4⟩ := ha
  obtain ⟨b1, b2, b3, b4⟩ := hb
  have ea := ToDirName_of_safe a a2 a3
  have eb := ToDirName_of_safe b b2 b3
  have hd : BuildTag.ToDirName (some a) ≠ BuildTag.ToDirName (some b) := by
    rw [ea, eb]
    intro h
    apply hs
    rw [← ReplaceAll_eq_inverse _ a1, ← ReplaceAll_eq_inverse _ b1, h]
  refine ⟨hd, ?_⟩
  intro cm dep
  obtain ⟨X, hX, _, hpath⟩ := buildCachePath_shape cm dep
  rw [hpath, hpath]
  have slash : ∀ (t : BuildTag), '/' ∉ BuildTag.String (some t) →
      BuildTag.ToDirName (some t) = ReplaceAll (BuildTag.String (some t)) '=' ['-'] →
      '/' ∉ BuildTag.ToDirName (some t) := by
    intro t ht e h
    rw [e] at h
    rcases mem_ReplaceAll h with h | h
    · exact ht h.1
    · revert h; decide
  have sa := slash a a4 ea
  have sb := slash b b4 eb
  have da := (toDirName_safe (some a)).2.2.2
  have db := (toDirName_safe (some b)).2.2.2
  by_cases na : BuildTag.ToDirName (some a) = []
  · by_cases nb : BuildTag.ToDirName (some b) = []
    · exact absurd (na.trans nb.symm) hd
    · rw [na, Clean_append_slash X hX, Clean_append_elem X _ hX nb sb db]
      exact Clean_ne_child X _ hX nb db
  · by_cases nb : BuildTag.ToDirName (some b) = []
    · rw [nb, Clean_append_slash X hX, Clean_append_elem X _ hX na sa da]
      exact fun h => Clean_ne_child X _ hX na da h.symm
    · rw [Clean_append_elem X _ hX na sa da, Clean_append_elem X _ hX nb sb db]
      exact fun h => hd (List.append_cancel_left h)

/-- The amended C3 applies to the descriptors of an x86_64 and of an arm64
Linux build. -/
theorem toDirName_injective_witness :
    BuildTag.Equals (some { Arch := "x86_64".toList, Platform := "linux".toList })
      (some { Arch := "arm64".toList, Platform := "linux".toList }) = false ∧
    dirSafe (BuildTag.String (some { Arch := "x86_64".toList, Platform := "linux".toList })) ∧
    dirSafe (BuildTag.String (some { Arch := "arm64".toList, Platform := "linux".toList })) ∧
    BuildTag.ToDirName (some { Arch := "x86_64".toList, Platform := "linux".toList }) ≠
      BuildTag.ToDirName (some { Arch := "arm64".toList, Platform := "linux".toList }) ∧
    CacheManager.GetBuildCachePath { cacheDir := "/c".toList }
        { Name := "fmt".toList, Version := "8.0.1".toList }
        (some { Arch := "x86_64".toList, Platform := "linux".toList }) ≠
      CacheManager.GetBuildCachePath { cacheDir := "/c".toList }
        { Name := "fmt".toList, Version := "8.0.1".toList }
        (some { Arch := "arm64".toList, Platform := "linux".toList }) :=
  have h := toDirName_injective { Arch := "x86_64".toList, Platform := "linux".toList }
    { Arch := "arm64".toList, Platform := "linux".toList } (by decide) (by decide) (by decide)
  ⟨by decide, by decide, by decide, h.1, h.2 _ _⟩

/-- C10, as stated, fails: for a descriptor whose target contains a `/` the
directory name spans two path elements, so the build-cache path is not a
direct child of the version directory and its last element is not the
directory name; and for the descriptor with every field empty (the `minimal
build tag` of the install command) the directory name is empty and the
build-cache path is the version directory itself. -/
theorem buildCachePath_not_child :
    (BuildTag.Validate (some { Target := "a/b".toList }) = none ∧
      BuildTag.ToDirName (some { Target := "a/b".toList }) = "target-a/b".toList ∧
      CacheManager.GetBuildCachePath cacheAtC fmtDep (some { Target := "a/b".toList }) =
        "/c/buildfly/fmt/8.0.1/target-a/b".toList ∧
      Base (CacheManager.GetBuildCachePath cacheAtC fmtDep (some { Target := "a/b".toList })) =
        "b".toList ∧
      Dir (CacheManager.GetBuildCachePath cacheAtC fmtDep (some { Target := "a/b".toList })) ≠
        CacheManager.versionDir cacheAtC fmtDep) ∧
    (BuildTag.Validate (some {}) = none ∧
      BuildTag.ToDirName (some {}) = [] ∧
      CacheManager.GetBuildCachePath cacheAtC fmtDep (some {}) =
        CacheManager.versionDir cacheAtC fmtDep) := by
  decide

/-- C10 (amended). For every dependency and every variant, nil included,
whose directory name (`default` for the nil variant, `ToDirName` otherwise) is
not empty and contains no `/`, the build-cache path is a direct child of the
version directory `cacheDir/buildfly/name/version`: its `filepath.Dir` is the
version directory, its `filepath.Base` is the directory name, and it differs
from the version directory. -/
theorem buildCachePath_direct_child (cm : CacheManager) (dep : Dependency)
    (variant : Option BuildTag) (h1 : BuildTag.ToDirName variant ≠ [])
    (h2 : '/' ∉ BuildTag.ToDirName variant) :
    Dir (cm.GetBuildCachePath dep variant) = cm.versionDir dep ∧
    Base (cm.GetBuildCachePath dep variant) = BuildTag.ToDirName variant ∧
    cm.GetBuildCachePath dep variant ≠ cm.versionDir dep ∧
    (variant = none → Base (cm.GetBuildCachePath dep variant) = "default".toList) := by
  obtain ⟨X, hX, hv, hpath⟩ := buildCachePath_shape cm dep
  have h3 := (toDirName_safe variant).2.2.2
  have hb : Base (cm.GetBuildCachePath dep variant) = BuildTag.ToDirName variant := by
    rw [hpath, Clean_append_elem X _ hX h1 h2 h3]
    exact Base_append_elem _ _ (childPrefix_shape X) h2 h1
  refine ⟨?_, hb, ?_, ?_⟩
  · rw [hpath, Clean_append_elem X _ hX h1 h2 h3, Dir_append_elem _ _ (childPrefix_shape X) h2,
      Clean_childPrefix X hX, hv]
  · rw [hpath, hv, Clean_append_elem X _ hX h1 h2 h3]
    exact fun h => Clean_ne_child X _ hX h1 h3 h.symm
  · intro hn
    rw [hb, hn]
    rfl

/-- The amended C10 applies to the variant of an x86_64 Linux build. -/
theorem buildCachePath_direct_child_witness :
    BuildTag.ToDirName (some { Arch := "x86_64".toList, Platform := "linux".toList }) ≠ [] ∧
    '/' ∉ BuildTag.ToDirName (some { Arch := "x86_64".toList, Platform := "linux".toList }) ∧
    Dir (CacheManager.GetBuildCachePath { cacheDir := "/c".toList }
        { Name := "fmt".toList, Version := "8.0.1".toList }
        (some { Arch := "x86_64".toList, Platform := "linux".toList })) =
      CacheManager.versionDir { cacheDir := "/c".toList }
        { Name := "fmt".toList, Version := "8.0.1".toList } ∧
    Base (CacheManager.GetBuildCachePath { cacheDir := "/c".toList }
        { Name := "fmt".toList, Version := "8.0.1".toList }
        (some { Arch := "x86_64".toList, Platform := "linux".toList })) =
      "arch-x86_64,platform-linux".toList :=
  have h := buildCachePath_direct_child { cacheDir := "/c".toList }
    { Name := "fmt".toList, Version := "8.0.1".toList }
    (some { Arch := "x86_64".toList, Platform := "linux".toList }) (by decide) (by decide)
  ⟨by decide, by decide, h.1, h.2.1⟩

/-! ### Round trip through the canonical string (C1) -/

theorem dropWhile_eq_self_of_length {α : Type} (p : α → Bool) (l : List α)
    (h : l.length ≤ (l.dropWhile p).length) : l.dropWhile p = l :=
  (List.dropWhile_suffix p).eq_of_length (le_antisymm (List.dropWhile_sublist p).length_le h)

/-- A string that `TrimSpace` leaves unchanged has no white space at either
end. -/
theorem trim_ends (v : Str) (h : TrimSpace v = v) :
    v.dropWhile isSpace = v ∧ v.reverse.dropWhile isSpace = v.reverse := by
  have hlen : v.length = ((v.dropWhile isSpace).reverse.dropWhile isSpace).length := by
    have := congrArg List.length h
    simpa [TrimSpace] using this.symm
  have h1 : ((v.dropWhile isSpace).reverse.dropWhile isSpace).length
      ≤ (v.dropWhile isSpace).length := by
    simpa using (List.dropWhile_sublist isSpace (l := (v.dropWhile isSpace).reverse)).length_le
  have hd : v.dropWhile isSpace = v := dropWhile_eq_self_of_length _ _ (by omega)
  refine ⟨hd, ?_⟩
  rw [hd] at hlen
  exact dropWhile_eq_self_of_length _ _ (by simpa using hlen.le)

theorem trim_of_ends (v : Str) (h1 : v.dropWhile isSpace = v)
    (h2 : v.reverse.dropWhile isSpace = v.reverse) : TrimSpace v = v := by
  unfold TrimSpace
  rw [h1, h2, List.reverse_reverse]

/-- A `key=value` pair with a plain value is left unchanged by `TrimSpace`. -/
theorem trim_pair (k : Char) (ks v : Str) (hk : isSpace k = false) (hv : TrimSpace v = v) :
    TrimSpace ((k :: ks) ++ '=' :: v) = (k :: ks) ++ '=' :: v := by
  obtain ⟨_, hv2⟩ := trim_ends v hv
  apply trim_of_ends
  · simp [List.dropWhile_cons, hk]
  · have he : isSpace '=' = false := by decide
    rw [List.reverse_append, List.reverse_cons]
    cases hr : v.reverse with
    | nil => simp [List.dropWhile_cons, he]
    | cons a as =>
      rw [hr] at hv2
      have ha : isSpace a = false := by
        by_contra hc
        have hc2 : isSpace a = true := by simpa using hc
        rw [List.dropWhile_cons, if_pos hc2] at hv2
        have := congrArg List.length hv2
        have h3 := (List.dropWhile_sublist isSpace (l := as)).length_le
        simp at this
        omega
      simp [List.dropWhile_cons, ha]

theorem SplitN2_pair (k v : Str) (hk : '=' ∉ k) : SplitN2 (k ++ '=' :: v) '=' = [k, v] := by
  have hall : ∀ x ∈ k, (fun c : Char => c != '=') x = true := by
    intro x hx
    have : x ≠ '=' := fun h => hk (h ▸ hx)
    simpa using this
  unfold SplitN2
  rw [if_pos (by simp), takeWhile_append_of_all _ _ _ hall, dropWhile_append_of_all _ _ _ hall]
  simp [List.takeWhile_cons, List.dropWhile_cons]

/-- The parser on a well-formed first pair `key=value`. -/
theorem parsePairs_pair (k : Char) (ks v : Str) (rest : List Str) (bt : BuildTag)
    (hk : isSpace k = false) (hks : '=' ∉ k :: ks) (hkt : TrimSpace (k :: ks) = k :: ks)
    (hv : TrimSpace v = v) :
    parsePairs (((k :: ks) ++ '=' :: v) :: rest) bt =
      match setKey bt (k :: ks) v with
      | .ok bt2 => parsePairs rest bt2
      | .error e => .error e := by
  have hp := trim_pair k ks v hk hv
  rw [parsePairs]
  simp only [hp]
  rw [if_neg (by simp), SplitN2_pair _ _ hks]
  simp only []
  rw [hkt, hv]

/-- The parser on an optional pair: a field that `String` writes only when it
is not empty. -/
theorem parsePairs_opt (k : Char) (ks v : Str) (rest : List Str) (bt f : BuildTag)
    (hk : isSpace k = false) (hks : '=' ∉ k :: ks) (hkt : TrimSpace (k :: ks) = k :: ks)
    (hv : TrimSpace v = v) (hset : setKey bt (k :: ks) v = .ok f) (hempty : v = [] → f = bt) :
    parsePairs ((if v ≠ [] then [(k :: ks) ++ '=' :: v] else []) ++ rest) bt =
      parsePairs rest f := by
  by_cases h : v = []
  · rw [if_neg (by simpa using h), hempty h]
    rfl
  · rw [if_pos h, List.singleton_append, parsePairs_pair k ks v rest bt hk hks hkt hv, hset]

theorem contains_mem (l : List Str) (v : Str) (h : contains l v = true) : v ∈ l := by
  unfold contains at h
  rw [List.any_eq_true] at h
  obtain ⟨x, hx, he⟩ := h
  have : x = v := by simpa using he
  exact this ▸ hx

/-- What `Validate` checks of a descriptor that it accepts. -/
theorem validate_fields (d : BuildTag) (h : BuildTag.Validate (some d) = none) :
    plainValue d.Arch ∧ plainValue d.Platform ∧ plainValue d.Std ∧ plainValue d.ABI ∧
    ∀ g, d.GPU = some g → g.Validate = none := by
  unfold BuildTag.Validate at h
  simp only [] at h
  split_ifs at h with h1 h2 h3 h4
  have p1 : plainValue d.Arch := by
    by_cases he : d.Arch = []
    · rw [he]; decide
    · have hc := contains_mem _ _ (by simpa [he] using h1)
      revert hc
      generalize d.Arch = v
      intro hc
      simp only [List.mem_cons, List.mem_singleton, List.not_mem_nil, or_false] at hc
      rcases hc with hc | hc | hc | hc | hc <;> subst hc <;> decide
  have p2 : plainValue d.Platform := by
    by_cases he : d.Platform = []
    · rw [he]; decide
    · have hc := contains_mem _ _ (by simpa [he] using h2)
      revert hc
      generalize d.Platform = v
      intro hc
      simp only [List.mem_cons, List.mem_singleton, List.not_mem_nil, or_false] at hc
      rcases hc with hc | hc | hc <;> subst hc <;> decide
  have p3 : plainValue d.Std := by
    by_cases he : d.Std = []
    · rw [he]; decide
    · have hc := contains_mem _ _ (by simpa [he] using h3)
      revert hc
      generalize d.Std = v
      intro hc
      simp only [List.mem_cons, List.mem_singleton, List.not_mem_nil, or_false] at hc
      rcases hc with hc | hc | hc | hc | hc <;> subst hc <;> decide
  have p4 : plainValue d.ABI := by
    by_cases he : d.ABI = []
    · rw [he]; decide
    · have hc := contains_mem _ _ (by simpa [he] using h4)
      revert hc
      generalize d.ABI = v
      intro hc
      simp only [List.mem_cons, List.mem_singleton, List.not_mem_nil, or_false] at hc
      rcases hc with hc | hc | hc <;> subst hc <;> decide
  refine ⟨p1, p2, p3, p4, ?_⟩
  intro g hg
  rw [hg] at h
  simp only [] at h
  cases hv : g.Validate with
  | none => rfl
  | some e => rw [hv] at h; simp at h

/-- The parser on the seven scalar pairs of a canonical string. -/
theorem parsePairs_scalars (d : BuildTag) (rest : List Str)
    (h1 : TrimSpace d.Arch = d.Arch) (h2 : TrimSpace d.Platform = d.Platform)
    (h3 : TrimSpace d.Runtime = d.Runtime) (h4 : TrimSpace d.Compiler = d.Compiler)
    (h5 : TrimSpace d.Std = d.Std) (h6 : TrimSpace d.ABI = d.ABI)
    (h7 : TrimSpace d.Target = d.Target) :
    parsePairs
      ((if d.Arch ≠ [] then ["arch=".toList ++ d.Arch] else []) ++
       ((if d.Platform ≠ [] then ["platform=".toList ++ d.Platform] else []) ++
        ((if d.Runtime ≠ [] then ["runtime=".toList ++ d.Runtime] else []) ++
         ((if d.Compiler ≠ [] then ["compiler=".toList ++ d.Compiler] else []) ++
          ((if d.Std ≠ [] then ["std=".toList ++ d.Std] else []) ++
           ((if d.ABI ≠ [] then ["abi=".toList ++ d.ABI] else []) ++
            ((if d.Target ≠ [] then ["target=".toList ++ d.Target] else []) ++ rest))))))) {} =
    parsePairs rest { d with GPU := none } := by
  refine Eq.trans (parsePairs_opt 'a' "rch".toList d.Arch _ {} { Arch := d.Arch }
    (by decide) (by decide) (by decide) h1 (by simp [setKey]) (fun h => by rw [h])) ?_
  refine Eq.trans (parsePairs_opt 'p' "latform".toList d.Platform _ _
    { Arch := d.Arch, Platform := d.Platform }
    (by decide) (by decide) (by decide) h2 (by simp [setKey]) (fun h => by rw [h])) ?_
  refine Eq.trans (parsePairs_opt 'r' "untime".toList d.Runtime _ _
    { Arch := d.Arch, Platform := d.Platform, Runtime := d.Runtime }
    (by decide) (by decide) (by decide) h3 (by simp [setKey]) (fun h => by rw [h])) ?_
  refine Eq.trans (parsePairs_opt 'c' "ompiler".toList d.Compiler _ _
    { Arch := d.Arch, Platform := d.Platform, Runtime := d.Runtime, Compiler := d.Compiler }
    (by decide) (by decide) (by decide) h4 (by simp [setKey]) (fun h => by rw [h])) ?_
  refine Eq.trans (parsePairs_opt 's' "td".toList d.Std _ _
    { Arch := d.Arch, Platform := d.Platform, Runtime := d.Runtime, Compiler := d.Compiler,
      Std := d.Std }
    (by decide) (by decide) (by decide) h5 (by simp [setKey]) (fun h => by rw [h])) ?_
  refine Eq.trans (parsePairs_opt 'a' "bi".toList d.ABI _ _
    { Arch := d.Arch, Platform := d.Platform, Runtime := d.Runtime, Compiler := d.Compiler,
      Std := d.Std, ABI := d.ABI }
    (by decide) (by decide) (by decide) h6 (by simp [setKey]) (fun h => by rw [h])) ?_
  exact parsePairs_opt 't' "arget".toList d.Target _ _ { d with GPU := none }
    (by decide) (by decide) (by decide) h7 (by simp [setKey]) (fun h => by rw [h])

theorem Split_archs (archs : List Str) (hne : archs ≠ []) (h : ∀ a ∈ archs, '|' ∉ a) :
    Split (Join archs ['|']) '|' = archs :=
  Split_Join archs '|' hne h

/-- The parser on the pairs that `String` writes for an enabled CUDA
sub-record. -/
theorem parsePairs_cuda (bt : BuildTag) (c : CUDABackend) (hbt : bt.GPU = none)
    (hE : c.Enabled = true) (hV : c.Version ≠ []) (hpv : plainValue c.Version)
    (hpa : plainArchs c.Arch) :
    parsePairs (gpuParts { Backend := "cuda".toList, CUDA := some c }) bt =
      .ok { bt with GPU := some { Backend := "cuda".toList, CUDA := some c } } := by
  obtain ⟨ver, archs, en⟩ := c
  simp only at hE hV hpv hpa
  subst hE
  have hg : gpuParts
      { Backend := "cuda".toList, CUDA := some { Version := ver, Arch := archs, Enabled := true } } =
      ["cuda=".toList ++ ver] ++
        (if archs.length > 0 then ["cuda_arch=".toList ++ Join archs "|".toList] else []) := by
    simp [gpuParts, hV]
  rw [hg, List.singleton_append]
  refine Eq.trans (parsePairs_pair 'c' "uda".toList ver _ bt (by decide) (by decide) (by decide)
    hpv.2) ?_
  have hs : setKey bt ('c' :: "uda".toList) ver =
      .ok { bt with
            GPU := some { Backend := "cuda".toList, CUDA := some { Version := ver, Enabled := true } } } := by
    simp [setKey, hbt]
  rw [hs]
  simp only []
  rcases hpa with ha | ⟨ha1, ha2⟩
  · subst ha
    simp [parsePairs]
  · by_cases hn : archs = []
    · subst hn
      simp [parsePairs]
    · have hl : archs.length > 0 := List.length_pos.mpr hn
      rw [if_pos hl]
      refine Eq.trans (parsePairs_pair 'c' "uda_arch".toList (Join archs "|".toList) [] _
        (by decide) (by decide) (by decide) ha2.2) ?_
      have hsp := Split_archs archs hn ha1
      simp [setKey, parsePairs, hsp]

/-- The parser on the pairs that `String` writes for an enabled ROCm
sub-record. -/
theorem parsePairs_rocm (bt : BuildTag) (c : ROCmBackend) (hbt : bt.GPU = none)
    (hE : c.Enabled = true) (hV : c.Version ≠ []) (hpv : plainValue c.Version)
    (hpa : plainArchs c.Arch) :
    parsePairs (gpuParts { Backend := "rocm".toList, ROCm := some c }) bt =
      .ok { bt with GPU := some { Backend := "rocm".toList, ROCm := some c } } := by
  obtain ⟨ver, archs, en⟩ := c
  simp only at hE hV hpv hpa
  subst hE
  have hg : gpuParts
      { Backend := "rocm".toList, ROCm := some { Version := ver, Arch := archs, Enabled := true } } =
      ["rocm=".toList ++ ver] ++
        (if archs.length > 0 then ["rocm_arch=".toList ++ Join archs "|".toList] else []) := by
    simp [gpuParts, hV]
  rw [hg, List.singleton_append]
  refine Eq.trans (parsePairs_pair 'r' "ocm".toList ver _ bt (by decide) (by decide) (by decide)
    hpv.2) ?_
  have hs : setKey bt ('r' :: "ocm".toList) ver =
      .ok { bt with
            GPU := some { Backend := "rocm".toList, ROCm := some { Version := ver, Enabled := true } } } := by
    simp [setKey, hbt]
  rw [hs]
  simp only []
  rcases hpa with ha | ⟨ha1, ha2⟩
  · subst ha
    simp [parsePairs]
  · by_cases hn : archs = []
    · subst hn
      simp [parsePairs]
    · have hl : archs.length > 0 := List.length_pos.mpr hn
      rw [if_pos hl]
      refine Eq.trans (parsePairs_pair 'r' "ocm_arch".toList (Join archs "|".toList) [] _
        (by decide) (by decide) (by decide) ha2.2) ?_
      have hsp := Split_archs archs hn ha1
      simp [setKey, parsePairs, hsp]

/-- The parser on the pair that `String` writes for an enabled OpenCL
sub-record. -/
theorem parsePairs_opencl (bt : BuildTag) (c : OpenCLBackend) (hbt : bt.GPU = none)
    (hE : c.Enabled = true) (hV : c.Version ≠ []) (hpv : plainValue c.Version) :
    parsePairs (gpuParts { Backend := "opencl".toList, OpenCL := some c }) bt =
      .ok { bt with GPU := some { Backend := "opencl".toList, OpenCL := some c } } := by
  obtain ⟨ver, en⟩ := c
  simp only at hE hV hpv
  subst hE
  have hg : gpuParts { Backend := "opencl".toList, OpenCL := some { Version := ver, Enabled := true } }
      = ["opencl=".toList ++ ver] := by
    simp [gpuParts, hV]
  rw [hg]
  refine Eq.trans (parsePairs_pair 'o' "pencl".toList ver _ bt (by decide) (by decide)
    (by decide) hpv.2) ?_
  have hs : setKey bt ('o' :: "pencl".toList) ver =
      .ok { bt with
            GPU := some { Backend := "opencl".toList, OpenCL := some { Version := ver, Enabled := true } } } := by
    simp [setKey, hbt]
  rw [hs]
  simp [parsePairs]

theorem gpuParts_no_comma (g : GPUInfo) (h : emittedGPU (some g)) :
    ∀ p ∈ gpuParts g, ',' ∉ p := by
  obtain ⟨backend, cuda, rocm, opencl⟩ := g
  intro p hp
  rcases h with ⟨hB, hR, hO, c, hC, _, hV, hA⟩ | ⟨hB, hC, hO, c, hR, _, hV, hA⟩ |
    ⟨hB, hC, hR, c, hO, _, hV⟩
  · simp only at hB hR hO hC
    subst hB hR hO hC
    unfold gpuParts at hp
    simp only [if_true] at hp
    split_ifs at hp <;>
      simp only [List.mem_append, List.mem_singleton, List.not_mem_nil, or_false, false_or,
        List.nil_append, List.append_nil] at hp
    all_goals first
      | (rcases hp with hp | hp <;> subst hp <;> intro hm <;>
          rcases List.mem_append.mp hm with hm | hm)
      | (subst hp; intro hm; rcases List.mem_append.mp hm with hm | hm)
    all_goals first
      | (revert hm; decide)
      | exact hV.1 hm
      | (rcases hA with hA | hA
         · simp_all
         · exact hA.2.1 hm)
  · simp only at hB hR hO hC
    subst hB hR hO hC
    unfold gpuParts at hp
    simp only [if_true, show ¬ ("rocm".toList = "cuda".toList) by decide, if_false] at hp
    split_ifs at hp <;>
      simp only [List.mem_append, List.mem_singleton, List.not_mem_nil, or_false, false_or,
        List.nil_append, List.append_nil] at hp
    all_goals first
      | (rcases hp with hp | hp <;> subst hp <;> intro hm <;>
          rcases List.mem_append.mp hm with hm | hm)
      | (subst hp; intro hm; rcases List.mem_append.mp hm with hm | hm)
    all_goals first
      | (revert hm; decide)
      | exact hV.1 hm
      | (rcases hA with hA | hA
         · simp_all
         · exact hA.2.1 hm)
  · simp only at hB hR hO hC
    subst hB hR hO hC
    unfold gpuParts at hp
    simp only [if_true, show ¬ ("opencl".toList = "cuda".toList) by decide,
      show ¬ ("opencl".toList = "rocm".toList) by decide, if_false] at hp
    split_ifs at hp <;>
      simp only [List.mem_append, List.mem_singleton, List.not_mem_nil, or_false, false_or,
        List.nil_append, List.append_nil] at hp
    all_goals first
      | (subst hp; intro hm; rcases List.mem_append.mp hm with hm | hm)
    all_goals first
      | (revert hm; decide)
      | exact hV.1 hm

theorem stringParts_no_comma (d : BuildTag)
    (h1 : ',' ∉ d.Arch) (h2 : ',' ∉ d.Platform) (h3 : ',' ∉ d.Runtime) (h4 : ',' ∉ d.Compiler)
    (h5 : ',' ∉ d.Std) (h6 : ',' ∉ d.ABI) (h7 : ',' ∉ d.Target) (hg : emittedGPU d.GPU) :
    ∀ p ∈ stringParts d, ',' ∉ p := by
  intro p hp
  unfold stringParts at hp
  simp only [List.mem_append] at hp
  rcases hp with (((((((h | h) | h) | h) | h) | h) | h) | h)
  all_goals first
    | (split_ifs at h
       · simp only [List.mem_singleton] at h
         subst h
         intro hm
         rcases List.mem_append.mp hm with hm | hm
         · revert hm; decide
         · first
           | exact h1 hm | exact h2 hm | exact h3 hm | exact h4 hm | exact h5 hm
           | exact h6 hm | exact h7 hm
       · simp at h)
    | (split at h
       · rename_i g hgpu
         rw [hgpu] at hg
         exact gpuParts_no_comma g hg p h
       · simp at h)

theorem Join_nil_of_parts (parts : List Str) (sep : Str) (h : Join parts sep ≠ []) :
    parts ≠ [] := by
  intro hp
  rw [hp] at h
  exact h rfl

/-- C1 (amended). For every descriptor that `Validate` accepts, whose
canonical string is not empty, whose free-form values (runtime, compiler,
target, GPU version and joined GPU architecture list) contain no `,` and have
no leading or trailing white space, whose GPU architecture entries contain no
`|`, and whose GPU sub-record is absent or is the enabled sub-record of its
backend with the other two absent, `ParseBuildTag` of the canonical string
succeeds and returns the descriptor itself, equal in every field. -/
theorem parse_string_roundtrip (d : BuildTag)
    (hval : BuildTag.Validate (some d) = none)
    (hne : BuildTag.String (some d) ≠ [])
    (hr : plainValue d.Runtime) (hc : plainValue d.Compiler) (ht : plainValue d.Target)
    (hg : emittedGPU d.GPU) :
    ParseBuildTag (BuildTag.String (some d)) = .ok d := by
  obtain ⟨pa, pp, ps, pb, hgv⟩ := validate_fields d hval
  have hS : BuildTag.String (some d) = Join (stringParts d) [','] := rfl
  have hparts : stringParts d ≠ [] := Join_nil_of_parts _ _ (hS ▸ hne)
  have hsplit : Split (BuildTag.String (some d)) ',' = stringParts d := by
    rw [hS]
    exact Split_Join _ ',' hparts
      (stringParts_no_comma d pa.1 pp.1 hr.1 hc.1 ps.1 pb.1 ht.1 hg)
  unfold ParseBuildTag
  rw [if_neg hne, hsplit]
  unfold stringParts
  simp only [List.append_assoc]
  rw [parsePairs_scalars d _ pa.2 pp.2 hr.2 hc.2 ps.2 pb.2 ht.2]
  obtain ⟨arch, platform, runtime, compiler, std, abi, target, gpu⟩ := d
  cases gpu with
  | none => rfl
  | some g =>
    have hv := hgv g rfl
    obtain ⟨backend, cuda, rocm, opencl⟩ := g
    simp only
    rcases hg with ⟨hB, hR, hO, c, hC, hE, hV, hA⟩ | ⟨hB, hC, hO, c, hR, hE, hV, hA⟩ |
      ⟨hB, hC, hR, c, hO, hE, hV⟩
    · simp only at hB hR hO hC
      subst hB hR hO hC
      have hver : c.Version ≠ [] := by
        intro h0
        simp [GPUInfo.Validate, contains, h0] at hv
      exact parsePairs_cuda _ c rfl hE hver hV hA
    · simp only at hB hR hO hC
      subst hB hR hO hC
      have hver : c.Version ≠ [] := by
        intro h0
        simp [GPUInfo.Validate, contains, h0] at hv
      exact parsePairs_rocm _ c rfl hE hver hV hA
    · simp only at hB hR hO hC
      subst hB hR hO hC
      have hver : c.Version ≠ [] := by
        intro h0
        simp [GPUInfo.Validate, contains, h0] at hv
      exact parsePairs_opencl _ c rfl hE hver hV

/-- The amended C1 applies to the CUDA descriptor of the repository's
tests. -/
theorem parse_string_roundtrip_witness :
    BuildTag.Validate (some cudaTag) = none ∧ BuildTag.String (some cudaTag) ≠ [] ∧
    plainValue cudaTag.Runtime ∧ plainValue cudaTag.Compiler ∧ plainValue cudaTag.Target ∧
    emittedGPU cudaTag.GPU ∧
    ParseBuildTag (BuildTag.String (some cudaTag)) = .ok cudaTag :=
  ⟨by decide, by decide, by decide, by decide, by decide, by decide,
    parse_string_roundtrip cudaTag (by decide) (by decide) (by decide) (by decide) (by decide)
      (by decide)⟩

/-- C1, as stated, fails on descriptors that `Validate` accepts: the
descriptor with every field empty has the empty canonical string, which
`ParseBuildTag` rejects; a GPU sub-record with the backend `none`, or a
disabled one, is not written by `String` and is absent after parsing; and a
runtime that contains a comma splits into a malformed pair. -/
theorem roundtrip_fails :
    (BuildTag.Validate (some {}) = none ∧
      ParseBuildTag (BuildTag.String (some {})) = .error .emptyTag) ∧
    (BuildTag.Validate
        (some { Arch := "x86_64".toList, GPU := some { Backend := "none".toList } }) = none ∧
      ParseBuildTag (BuildTag.String
        (some { Arch := "x86_64".toList, GPU := some { Backend := "none".toList } })) =
        .ok { Arch := "x86_64".toList }) ∧
    (BuildTag.Validate
        (some { Arch := "x86_64".toList,
                GPU := some { Backend := "cuda".toList,
                              CUDA := some { Version := "12.0".toList } } }) = none ∧
      ParseBuildTag (BuildTag.String
        (some { Arch := "x86_64".toList,
                GPU := some { Backend := "cuda".toList,
                              CUDA := some { Version := "12.0".toList } } })) =
        .ok { Arch := "x86_64".toList }) ∧
    (BuildTag.Validate (some { Runtime := "glibc,2.35".toList }) = none ∧
      ParseBuildTag (BuildTag.String (some { Runtime := "glibc,2.35".toList })) =
        .error (.invalidFormat "2.35".toList)) := by
  decide

/-! ### Checksum verification (C4, C5) -/

theorem verifyChecksum_none_iff (env : Env) (content : Bytes) (e : Str × Str) :
    verifyChecksumWithAlgorithm env content e.2 e.1 = none ↔ checksumOK env content e := by
  unfold verifyChecksumWithAlgorithm checksumOK
  cases h : hexDigest env (ToLower env e.1) content with
  | none => simp
  | some a => simp

theorem verifyEach_none_iff (env : Env) (content : Bytes) (l : List (Str × Str)) :
    verifyEach env content l = none ↔ ∀ e ∈ l, checksumOK env content e := by
  induction l with
  | nil => simp [verifyEach]
  | cons e es ih =>
    obtain ⟨alg, exp⟩ := e
    have hv := verifyChecksum_none_iff env content (alg, exp)
    simp only [verifyEach, List.forall_mem_cons]
    cases hc : verifyChecksumWithAlgorithm env content exp alg with
    | none =>
      simp only []
      rw [ih]
      exact ⟨fun h => ⟨hv.mp hc, h⟩, fun h => h.2⟩
    | some err =>
      simp only []
      constructor
      · intro h; cases h
      · intro h
        have := hv.mpr h.1
        simp only at this
        rw [hc] at this
        cases this

theorem ToLower_sha256 (env : Env) : ToLower env "sha256".toList = "sha256".toList := by
  simp [ToLower, unicodeToLower]

/-- When the SHA-256 entry fails and every other entry passes, the loop
returns the SHA-256 mismatch error, whatever the order of the entries. -/
theorem verifyEach_sha256 (env : Env) (content : Bytes) (expected : Str)
    (hne : env.sha256 content ≠ expected) (l : List (Str × Str))
    (hmem : ("sha256".toList, expected) ∈ l)
    (hothers : ∀ e ∈ l, e ≠ ("sha256".toList, expected) → checksumOK env content e) :
    verifyEach env content l = some (sha256Mismatch expected (env.sha256 content)) := by
  induction l with
  | nil => simp at hmem
  | cons e es ih =>
    obtain ⟨alg, exp⟩ := e
    by_cases he : (alg, exp) = ("sha256".toList, expected)
    · have h1 : alg = "sha256".toList := (Prod.mk.inj he).1
      have h2 : exp = expected := (Prod.mk.inj he).2
      subst h1 h2
      simp only [verifyEach, verifyChecksumWithAlgorithm, ToLower_sha256]
      have hd : hexDigest env "sha256".toList content = some (env.sha256 content) := by
        simp [hexDigest]
      rw [hd]
      simp only []
      rw [if_pos hne]
      rfl
    · have hok := hothers (alg, exp) (List.mem_cons_self _ _) he
      have hv := (verifyChecksum_none_iff env content (alg, exp)).mpr hok
      simp only at hv
      simp only [verifyEach, hv]
      apply ih
      · rcases List.mem_cons.mp hmem with h | h
        · exact absurd h.symm he
        · exact h
      · exact fun x hx => hothers x (List.mem_cons_of_mem _ hx)

theorem getChecksums_of_noChecksum (env : Env) (s : SourceInfo) (h : noChecksum s) :
    getChecksums env s = [] := by
  obtain ⟨h1, h2, h3, h4, h5, h6⟩ := h
  simp [getChecksums, h1, h2, h3, h4, h5, h6]

/-- C4 (amended). For a file that exists, `ArchiveDownloader.Verify` returns
no error exactly when every checksum collected by `getChecksums` names a
supported algorithm and the digest of the file under it is the expected
value; it succeeds when no checksum is declared; and when a declared SHA-256
does not match it fails, with the mismatch error naming the expected and the
actual hash whenever every other declared checksum passes. -/
theorem archive_verify_checksums (env : Env) (hrange : ∀ m, (env.rangeOrder m).Perm m)
    (fs : Str → Option Bytes) (dep : Dependency) (archivePath : Str) (content : Bytes)
    (hfile : fs archivePath = some content) :
    (ArchiveDownloader.Verify env fs dep archivePath = none ↔
      ∀ e ∈ getChecksums env dep.Source, checksumOK env content e) ∧
    (noChecksum dep.Source → ArchiveDownloader.Verify env fs dep archivePath = none) ∧
    (∀ expected, ("sha256".toList, expected) ∈ getChecksums env dep.Source →
      env.sha256 content ≠ expected →
      ArchiveDownloader.Verify env fs dep archivePath ≠ none ∧
      ((∀ e ∈ getChecksums env dep.Source, e ≠ ("sha256".toList, expected) →
          checksumOK env content e) →
        ArchiveDownloader.Verify env fs dep archivePath =
          some (sha256Mismatch expected (env.sha256 content)))) := by
  have hperm := hrange (getChecksums env dep.Source)
  have hiff : ArchiveDownloader.Verify env fs dep archivePath = none ↔
      ∀ e ∈ getChecksums env dep.Source, checksumOK env content e := by
    unfold ArchiveDownloader.Verify
    rw [hfile]
    simp only []
    by_cases h0 : (getChecksums env dep.Source).length = 0
    · rw [if_pos h0]
      have : getChecksums env dep.Source = [] := List.length_eq_zero.mp h0
      simp [this]
    · rw [if_neg h0, verifyEach_none_iff]
      exact ⟨fun h e he => h e (hperm.mem_iff.mpr he), fun h e he => h e (hperm.mem_iff.mp he)⟩
  refine ⟨hiff, ?_, ?_⟩
  · intro hn
    rw [hiff, getChecksums_of_noChecksum env _ hn]
    simp
  · intro expected hmem hne
    have hbad : ¬ checksumOK env content ("sha256".toList, expected) := by
      unfold checksumOK
      simp only [ToLower_sha256]
      have hd : hexDigest env "sha256".toList content = some (env.sha256 content) := by
        simp [hexDigest]
      rw [hd]
      exact fun h => hne (Option.some.inj h)
    refine ⟨fun h => hbad (hiff.mp h _ hmem), ?_⟩
    intro hothers
    unfold ArchiveDownloader.Verify
    rw [hfile]
    simp only []
    have h0 : ¬ (getChecksums env dep.Source).length = 0 := by
      intro h
      have : getChecksums env dep.Source = [] := List.length_eq_zero.mp h
      rw [this] at hmem
      simp at hmem
    rw [if_neg h0]
    exact verifyEach_sha256 env content expected hne _ (hperm.mem_iff.mpr hmem)
      (fun e he => hothers e (hperm.mem_iff.mp he))

/-- The amended C4 applies to a file of three bytes and a dependency that
declares a SHA-256. -/
theorem archive_verify_checksums_witness :
    (∀ m, (testEnv.rangeOrder m).Perm m) ∧
    (ArchiveDownloader.Verify testEnv (fun _ => some [1, 2, 3]) headerDep "f".toList ≠ none ∧
      ArchiveDownloader.Verify testEnv (fun _ => some [1, 2, 3]) headerDep "f".toList =
        some (sha256Mismatch "00".toList (testEnv.sha256 [1, 2, 3]))) :=
  ⟨fun m => List.reverse_perm m,
    let h := (archive_verify_checksums testEnv (fun m => List.reverse_perm m)
      (fun _ => some [1, 2, 3]) headerDep "f".toList [1, 2, 3] rfl).2.2 "00".toList
      (by decide) (by decide)
    ⟨h.1, h.2 (by decide)⟩⟩

/-- C4, as stated, fails: with a declared SHA-256 that does not match and a
second checksum under an unsupported name, a `range` that yields the second
entry first makes `Verify` return the error `unsupported checksum algorithm`,
not a mismatch error naming the expected and the actual hash. -/
theorem archive_verify_other_error :
    ("sha256".toList, "00".toList) ∈ getChecksums testEnv crcDep.Source ∧
    testEnv.sha256 [1, 2, 3] ≠ "00".toList ∧
    ArchiveDownloader.Verify testEnv (fun _ => some [1, 2, 3]) crcDep "f".toList =
      some (.errorf "checksum verification failed (crc32)".toList
        (DownloadError "unsupported checksum algorithm: crc32".toList)) := by
  decide

/-- C5 fails on the code: for a direct-file dependency that declares its
SHA-256 in the field `sha256` and a file whose digest differs from it,
`DirectDownloader.Verify` returns no error, while `ArchiveDownloader.Verify`
returns the checksum-mismatch error on the same input. -/
theorem direct_verify_ignores_sha256 :
    headerDep.Source.SHA256 = "00".toList ∧
    testEnv.sha256 [1, 2, 3] ≠ "00".toList ∧
    DirectDownloader.Verify testEnv (fun _ => some [1, 2, 3]) headerDep "lib.h".toList = none ∧
    ArchiveDownloader.Verify testEnv (fun _ => some [1, 2, 3]) headerDep "lib.h".toList =
      some (sha256Mismatch "00".toList (testEnv.sha256 [1, 2, 3])) := by
  decide

/-! ### Mirror fallback (C6) -/

theorem direct_loop_success (host : Host) (dep : Dependency) (targetDir u : Str)
    (post : List Str) (hu : DirectDownloader.attempt host dep targetDir u = none) :
    ∀ (pre : List Str) (l : Option GoError) (t : List Str),
      (∀ v ∈ pre, DirectDownloader.attempt host dep targetDir v ≠ none) →
      DirectDownloader.loop host dep targetDir (pre ++ u :: post) l t =
        (none, t ++ pre ++ [u]) := by
  intro pre
  induction pre with
  | nil => intro l t _; simp [DirectDownloader.loop, hu]
  | cons p ps ih =>
    intro l t h
    cases hp : DirectDownloader.attempt host dep targetDir p with
    | none => exact absurd hp (h p (List.mem_cons_self _ _))
    | some e =>
      simp only [List.cons_append, DirectDownloader.loop, hp, List.append_eq]
      rw [ih _ _ (fun v hv => h v (List.mem_cons_of_mem _ hv))]
      simp

theorem direct_loop_fail (host : Host) (dep : Dependency) (targetDir u : Str) (e : GoError)
    (hu : DirectDownloader.attempt host dep targetDir u = some e) :
    ∀ (pre : List Str) (l : Option GoError) (t : List Str),
      (∀ v ∈ pre, DirectDownloader.attempt host dep targetDir v ≠ none) →
      DirectDownloader.loop host dep targetDir (pre ++ [u]) l t =
        (some e, t ++ pre ++ [u]) := by
  intro pre
  induction pre with
  | nil => intro l t _; simp [DirectDownloader.loop, hu]
  | cons p ps ih =>
    intro l t h
    cases hp : DirectDownloader.attempt host dep targetDir p with
    | none => exact absurd hp (h p (List.mem_cons_self _ _))
    | some e2 =>
      simp only [List.cons_append, DirectDownloader.loop, hp, List.append_eq]
      rw [ih _ _ (fun v hv => h v (List.mem_cons_of_mem _ hv))]
      simp

theorem archive_loop_success (host : Host) (dep : Dependency) (cacheFile u : Str)
    (post : List Str) (hu : ArchiveDownloader.attempt host dep cacheFile u = none) :
    ∀ (pre : List Str) (l : Option GoError) (t : List Str),
      (∀ v ∈ pre, ArchiveDownloader.attempt host dep cacheFile v ≠ none) →
      ArchiveDownloader.loop host dep cacheFile (pre ++ u :: post) l t =
        (.ok cacheFile, t ++ pre ++ [u]) := by
  intro pre
  induction pre with
  | nil => intro l t _; simp [ArchiveDownloader.loop, hu]
  | cons p ps ih =>
    intro l t h
    cases hp : ArchiveDownloader.attempt host dep cacheFile p with
    | none => exact absurd hp (h p (List.mem_cons_self _ _))
    | some e =>
      simp only [List.cons_append, ArchiveDownloader.loop, hp, List.append_eq]
      rw [ih _ _ (fun v hv => h v (List.mem_cons_of_mem _ hv))]
      simp

theorem archive_loop_fail (host : Host) (dep : Dependency) (cacheFile u : Str) (e : GoError)
    (hu : ArchiveDownloader.attempt host dep cacheFile u = some e) :
    ∀ (pre : List Str) (l : Option GoError) (t : List Str),
      (∀ v ∈ pre, ArchiveDownloader.attempt host dep cacheFile v ≠ none) →
      ArchiveDownloader.loop host dep cacheFile (pre ++ [u]) l t =
        (.error (DownloadErrorWithCause e "all URLs failed to download".toList),
          t ++ pre ++ [u]) := by
  intro pre
  induction pre with
  | nil => intro l t _; simp [ArchiveDownloader.loop, hu]
  | cons p ps ih =>
    intro l t h
    cases hp : ArchiveDownloader.attempt host dep cacheFile p with
    | none => exact absurd hp (h p (List.mem_cons_self _ _))
    | some e2 =>
      simp only [List.cons_append, ArchiveDownloader.loop, hp, List.append_eq]
      rw [ih _ _ (fun v hv => h v (List.mem_cons_of_mem _ hv))]
      simp

theorem getURLs_nil_of_all_nil (s : SourceInfo) (h : s.GetAllAvailableURLs = []) :
    s.GetURLs = [] := by
  have hp := (getAllAvailableURLs_local_first s).1
  rw [h] at hp
  exact hp.symm.eq_nil

theorem getFirstAvailableURL_none (s : SourceInfo) (ex : Str → Bool) (h : s.GetURLs = []) :
    s.GetFirstAvailableURL ex = none := by
  simp [SourceInfo.GetFirstAvailableURL, h]

/-- C6 (amended). Each multi-URL loop tries the candidates in the order of
`GetAllAvailableURLs` and stops at the first that succeeds, returning
success; when every candidate fails, the archive downloader returns a download
error whose cause is the error of the last candidate tried, and the direct
downloader returns the error of the last candidate tried itself; with no
candidate each returns a download error without attempting anything. (For the
archive downloader: when the user cache directory is available and the archive
is not yet in the raw-archive cache.) -/
theorem download_fallback (host : Host) (dep : Dependency) (targetDir : Str) :
    (host.mkdirAll targetDir = none →
      (∀ pre u post, dep.Source.GetAllAvailableURLs = pre ++ u :: post →
        (∀ v ∈ pre, DirectDownloader.attempt host dep targetDir v ≠ none) →
        DirectDownloader.attempt host dep targetDir u = none →
        DirectDownloader.Download host dep targetDir = (none, pre ++ [u])) ∧
      (∀ pre u e, dep.Source.GetAllAvailableURLs = pre ++ [u] →
        (∀ v ∈ pre, DirectDownloader.attempt host dep targetDir v ≠ none) →
        DirectDownloader.attempt host dep targetDir u = some e →
        DirectDownloader.Download host dep targetDir = (some e, pre ++ [u])) ∧
      (dep.Source.GetAllAvailableURLs = [] →
        DirectDownloader.Download host dep targetDir =
          (some (DownloadError "no valid URLs found for download".toList), []))) ∧
    (∀ ucd url, host.userCacheDir = .ok ucd →
      host.mkdirAll
        (filepathJoin [ucd, ".buildfly".toList, "archives".toList, dep.Version]) = none →
      dep.Source.GetFirstAvailableURL (fun p => (host.fs p).isSome) = some url →
      host.fs (ArchiveDownloader.cacheFile dep ucd url) = none →
      (∀ pre u post, dep.Source.GetAllAvailableURLs = pre ++ u :: post →
        (∀ v ∈ pre, ArchiveDownloader.attempt host dep
          (ArchiveDownloader.cacheFile dep ucd url) v ≠ none) →
        ArchiveDownloader.attempt host dep (ArchiveDownloader.cacheFile dep ucd url) u = none →
        ArchiveDownloader.downloadArchive host dep =
          (.ok (ArchiveDownloader.cacheFile dep ucd url), pre ++ [u])) ∧
      (∀ pre u e, dep.Source.GetAllAvailableURLs = pre ++ [u] →
        (∀ v ∈ pre, ArchiveDownloader.attempt host dep
          (ArchiveDownloader.cacheFile dep ucd url) v ≠ none) →
        ArchiveDownloader.attempt host dep (ArchiveDownloader.cacheFile dep ucd url) u =
          some e →
        ArchiveDownloader.downloadArchive host dep =
          (.error (DownloadErrorWithCause e "all URLs failed to download".toList),
            pre ++ [u]))) ∧
    (dep.Source.GetAllAvailableURLs = [] →
      ArchiveDownloader.downloadArchive host dep =
        (.error (DownloadErrorWithCause (.source "no URLs available".toList)
          "failed to get available URL".toList), [])) := by
  refine ⟨?_, ?_, ?_⟩
  · intro hmk
    refine ⟨?_, ?_, ?_⟩
    · intro pre u post hurls hpre hu
      unfold DirectDownloader.Download
      rw [hmk, hurls]
      simpa using direct_loop_success host dep targetDir u post hu pre none [] hpre
    · intro pre u e hurls hpre hu
      unfold DirectDownloader.Download
      rw [hmk, hurls]
      simpa using direct_loop_fail host dep targetDir u e hu pre none [] hpre
    · intro hurls
      unfold DirectDownloader.Download
      rw [hmk, hurls]
      rfl
  · intro ucd url hucd hmk hfirst hcache
    have hstart : ArchiveDownloader.downloadArchive host dep =
        ArchiveDownloader.loop host dep (ArchiveDownloader.cacheFile dep ucd url)
          dep.Source.GetAllAvailableURLs none [] := by
      unfold ArchiveDownloader.downloadArchive
      rw [hfirst]
      simp only []
      rw [hucd]
      simp only []
      rw [hmk]
      simp only []
      rw [hcache]
      simp
    refine ⟨?_, ?_⟩
    · intro pre u post hurls hpre hu
      rw [hstart, hurls]
      simpa using archive_loop_success host dep _ u post hu pre none [] hpre
    · intro pre u e hurls hpre hu
      rw [hstart, hurls]
      simpa using archive_loop_fail host dep _ u e hu pre none [] hpre
  · intro hurls
    unfold ArchiveDownloader.downloadArchive
    rw [getFirstAvailableURL_none _ _ (getURLs_nil_of_all_nil _ hurls)]

/-- The amended C6 applies to the candidates `[bad, bad, good]`: both
downloaders succeed at the third candidate, having tried all three in
order. -/
theorem download_fallback_witness :
    flakyHost.mkdirAll "t".toList = none ∧
    DirectDownloader.Download flakyHost mirrorDep "t".toList =
      (none, mirrorDep.Source.URLS) ∧
    ArchiveDownloader.downloadArchive flakyHost mirrorDep =
      (.ok "/home/u/.cache/.buildfly/archives/8.0.1/f.tgz".toList, mirrorDep.Source.URLS) :=
  have h := download_fallback flakyHost mirrorDep "t".toList
  ⟨rfl,
    (h.1 rfl).1 ["https://b1.test/f.tgz".toList, "https://b2.test/f.tgz".toList]
      "https://ok.test/f.tgz".toList [] (by decide) (by decide) (by decide),
    (h.2.1 "/home/u/.cache".toList "https://b1.test/f.tgz".toList rfl (by decide) (by decide)
      (by decide)).1 ["https://b1.test/f.tgz".toList, "https://b2.test/f.tgz".toList]
      "https://ok.test/f.tgz".toList [] (by decide) (by decide) (by decide)⟩

/-- C6, as stated, fails for the direct downloader: when its only candidate
fails with the error of a 404 response (the error that `downloadFile` returns
for that status), `Download` returns that error itself, which has no cause,
not a download error whose cause is that error. -/
theorem direct_download_unwrapped :
    (DirectDownloader.downloadFile { StatusCode := 404 } {} (fun _ => none)
      "https://example.com/lib.h".toList "t/lib.h".toList).1 =
      some (DownloadError "HTTP error: 404".toList) ∧
    DirectDownloader.attempt failingHost headerDep "t".toList
      "https://example.com/lib.h".toList = some (DownloadError "HTTP error: 404".toList) ∧
    DirectDownloader.Download failingHost headerDep "t".toList =
      (some (DownloadError "HTTP error: 404".toList), ["https://example.com/lib.h".toList]) ∧
    (DownloadError "HTTP error: 404".toList).Unwrap = none := by
  decide

/-! ### Temporary file then rename (C8) -/

theorem temp_ne (p : Str) : p ≠ p ++ ".tmp".toList := by
  intro h
  have := congrArg List.length h
  simp at this

/-- The archive downloader writes its destination only by the final rename:
when `downloadFromHTTP` returns an error, and in particular when the copy
fails or delivers a number of bytes other than the declared length, the
destination is as before the call; and when it returns no error the
destination holds the whole body, whose length is the declared one. -/
theorem archive_download_atomic (x : Exchange) (faults : Faults) (fs : Str → Option Bytes)
    (url cacheFile : Str) :
    ((ArchiveDownloader.downloadFromHTTP x faults fs url cacheFile).1 ≠ none →
      (ArchiveDownloader.downloadFromHTTP x faults fs url cacheFile).2 cacheFile =
        fs cacheFile) ∧
    (x.copyErr ≠ none ∨ (x.ContentLength > 0 ∧ (x.body.length : Int) ≠ x.ContentLength) →
      (ArchiveDownloader.downloadFromHTTP x faults fs url cacheFile).1 ≠ none) ∧
    ((ArchiveDownloader.downloadFromHTTP x faults fs url cacheFile).1 = none →
      (ArchiveDownloader.downloadFromHTTP x faults fs url cacheFile).2 cacheFile =
        some x.body) := by
  have hne := temp_ne cacheFile
  obtain ⟨re, de, sc, cl, body, ce⟩ := x
  unfold ArchiveDownloader.downloadFromHTTP removeQuietly
  simp only []
  cases re with
  | some e => simp
  | none =>
  cases de with
  | some e => simp
  | none =>
  by_cases hsc : sc = 200
  · simp only [hsc, ne_eq, not_true_eq_false, if_false]
    cases hrm : (if (fs (cacheFile ++ ".tmp".toList)).isSome then
        faults.remove (cacheFile ++ ".tmp".toList) else none) with
    | some e => simp
    | none =>
    cases hcr : faults.create (cacheFile ++ ".tmp".toList) with
    | some e => simp [fsSet, hne]
    | none =>
    cases ce with
    | some e =>
      cases hr2 : faults.remove (cacheFile ++ ".tmp".toList) <;> simp [fsSet, hne]
    | none =>
    by_cases hlen : cl > 0 ∧ (body.length : Int) ≠ cl
    · cases hr2 : faults.remove (cacheFile ++ ".tmp".toList) <;> simp [fsSet, hne, hlen]
    · cases hrn : faults.rename (cacheFile ++ ".tmp".toList) with
      | some e =>
        cases hr2 : faults.remove (cacheFile ++ ".tmp".toList) <;> simp [fsSet, hne, hlen]
      | none => simp [fsSet, hne, hlen]
  · simp [hsc]

/-- C8 fails on the code for the direct downloader: a transfer that declares
ten bytes and breaks off after three leaves the three bytes at the
destination, in place of the complete file that was there; the archive
downloader, on the same transfer, leaves its destination as it was. -/
theorem direct_download_partial :
    oneFile "d/lib.h".toList = some [7, 7, 7, 7] ∧
    (DirectDownloader.downloadFile brokenTransfer {} oneFile "https://example.com/lib.h".toList
      "d/lib.h".toList).1 ≠ none ∧
    (DirectDownloader.downloadFile brokenTransfer {} oneFile "https://example.com/lib.h".toList
      "d/lib.h".toList).2 "d/lib.h".toList = some [1, 2, 3] ∧
    (ArchiveDownloader.downloadFromHTTP brokenTransfer {} oneFile
      "https://example.com/lib.h".toList "d/lib.h".toList).2 "d/lib.h".toList =
      some [7, 7, 7, 7] := by
  decide

/-! ### Storing a build twice (C9) -/

theorem lookupEntry_setEntry_same (es : List (Str × Node)) (name : Str) (n : Node) :
    lookupEntry (setEntry es name n) name = some n := by
  induction es with
  | nil => simp [setEntry, lookupEntry]
  | cons e rest ih =>
    obtain ⟨k, m⟩ := e
    by_cases h : k = name
    · simp [setEntry, lookupEntry, h]
    · simp [setEntry, lookupEntry, h, ih]

theorem lookupEntry_setEntry_ne (es : List (Str × Node)) (name other : Str) (n : Node)
    (h : other ≠ name) : lookupEntry (setEntry es name n) other = lookupEntry es other := by
  induction es with
  | nil =>
    have : ¬ name = other := fun e => h e.symm
    simp [setEntry, lookupEntry, this]
  | cons e rest ih =>
    obtain ⟨k, m⟩ := e
    by_cases hk : k = name
    · subst hk
      have : ¬ k = other := fun e => h e.symm
      simp [setEntry, lookupEntry, this]
    · by_cases ho : k = other
      · subst ho
        simp [setEntry, lookupEntry, hk]
      · simp [setEntry, lookupEntry, hk, ho, ih]

theorem setEntry_of_lookup (es : List (Str × Node)) (name : Str) (n : Node)
    (h : lookupEntry es name = some n) : setEntry es name n = es := by
  induction es with
  | nil => simp [lookupEntry] at h
  | cons e rest ih =>
    obtain ⟨k, m⟩ := e
    by_cases hk : k = name
    · simp only [lookupEntry, hk, if_true, Option.some.injEq] at h
      simp [setEntry, hk, h]
    · simp only [lookupEntry, hk, if_false] at h
      simp [setEntry, hk, ih h]

theorem setEntry_setEntry (es : List (Str × Node)) (name : Str) (n : Node) :
    setEntry (setEntry es name n) name n = setEntry es name n :=
  setEntry_of_lookup _ _ _ (lookupEntry_setEntry_same es name n)

/-- Copying entries leaves alone the destination entries with other names. -/
theorem copyEntries_frame (src : List (Str × Node)) (name : Str)
    (h : lookupEntry src name = none) :
    ∀ dst, lookupEntry (copyEntries src dst).2 name = lookupEntry dst name := by
  induction src with
  | nil => intro dst; simp [copyEntries]
  | cons e rest ih =>
    obtain ⟨k, n⟩ := e
    intro dst
    have hk : k ≠ name := by
      intro hk
      simp [lookupEntry, hk] at h
    have hrest : lookupEntry rest name = none := by
      simpa [lookupEntry, hk] using h
    rw [copyEntries]
    split
    · simp only []
      exact lookupEntry_setEntry_ne _ _ _ _ (fun e => hk e.symm)
    · rw [ih hrest]
      exact lookupEntry_setEntry_ne _ _ _ _ (fun e => hk e.symm)

theorem copyFileNode_idem (data : Bytes) (dst : Option Node) :
    copyFileNode data (some (copyFileNode data dst).2) = copyFileNode data dst := by
  cases dst with
  | none => rfl
  | some n =>
    cases n with
    | file d => rfl
    | dir es => rfl

mutual
/-- Copying a node once more onto its own result changes nothing and returns
the same error. -/
theorem copyNode_idem : ∀ (n : Node) (dst : Option Node), distinctNames n = true →
    copyNode n (some (copyNode n dst).2) = copyNode n dst
  | .file data, dst, _ => by
    simp only [copyNode]
    exact copyFileNode_idem data dst
  | .dir src, dst, h => by
    have hs : distinctEntries src = true := by simpa [distinctNames] using h
    cases dst with
    | none =>
      simp only [copyNode]
      rw [copyEntries_idem src [] hs]
    | some d =>
      cases d with
      | file b => simp only [copyNode]
      | dir es =>
        simp only [copyNode]
        rw [copyEntries_idem src es hs]
/-- Copying entries once more onto their own result changes nothing and
returns the same error. -/
theorem copyEntries_idem : ∀ (src dst : List (Str × Node)), distinctEntries src = true →
    copyEntries src (copyEntries src dst).2 = copyEntries src dst
  | [], dst, _ => by simp [copyEntries]
  | (name, n) :: rest, dst, h => by
    have h1 : lookupEntry rest name = none := by
      simp [distinctEntries] at h
      exact h.1.1
    have h2 : distinctNames n = true := by
      simp [distinctEntries] at h
      exact h.1.2
    have h3 : distinctEntries rest = true := by
      simp [distinctEntries] at h
      exact h.2
    have ihn := copyNode_idem n (lookupEntry dst name) h2
    cases hc : (copyNode n (lookupEntry dst name)).1 with
    | some err =>
      have e1 : copyEntries ((name, n) :: rest) dst =
          (some err, setEntry dst name (copyNode n (lookupEntry dst name)).2) := by
        rw [copyEntries, hc]
      rw [e1]
      simp only []
      rw [copyEntries, lookupEntry_setEntry_same, ihn, hc]
      simp only []
      rw [setEntry_setEntry]
    | none =>
      have e1 : copyEntries ((name, n) :: rest) dst =
          copyEntries rest (setEntry dst name (copyNode n (lookupEntry dst name)).2) := by
        rw [copyEntries, hc]
      rw [e1]
      have hl : lookupEntry
          (copyEntries rest (setEntry dst name (copyNode n (lookupEntry dst name)).2)).2 name =
          some (copyNode n (lookupEntry dst name)).2 := by
        rw [copyEntries_frame rest name h1, lookupEntry_setEntry_same]
      rw [copyEntries, hl, ihn, hc]
      simp only []
      rw [setEntry_of_lookup _ _ _ hl]
      exact copyEntries_idem rest _ h3
end

/-- Where the path exists, `updateAt` applies the change to the node there. -/
theorem updateAt_lookup (f : Option Node → Option GoError × Node) :
    ∀ (p : List Str) (fs n : Node), fs.lookup p = some n →
      (updateAt f fs p).1 = (f (some n)).1 ∧
      (updateAt f fs p).2.lookup p = some (f (some n)).2 ∧
      ((f (some n)).2 = n → (updateAt f fs p).2 = fs) := by
  intro p
  induction p with
  | nil =>
    intro fs n h
    simp only [Node.lookup, Option.some.injEq] at h
    subst h
    cases fs <;> simp [updateAt, Node.lookup]
  | cons c cs ih =>
    intro fs n h
    cases fs with
    | file d => simp [Node.lookup] at h
    | dir es =>
      simp only [Node.lookup] at h
      cases hl : lookupEntry es c with
      | none => rw [hl] at h; simp at h
      | some child =>
        rw [hl] at h
        simp only [] at h
        cases cs with
        | nil =>
          simp only [Node.lookup, Option.some.injEq] at h
          subst h
          simp only [updateAt, hl, Node.lookup, lookupEntry_setEntry_same, true_and]
          intro hf
          rw [hf, setEntry_of_lookup _ _ _ hl]
        | cons c2 cs2 =>
          obtain ⟨i1, i2, i3⟩ := ih child n h
          simp only [updateAt, hl, Node.lookup, lookupEntry_setEntry_same]
          refine ⟨i1, i2, ?_⟩
          intro hf
          rw [i3 hf, setEntry_of_lookup _ _ _ hl]

/-- After `MkdirAll` the path is a directory. -/
theorem MkdirAll_lookup : ∀ (p : List Str) (fs fs2 : Node), MkdirAll fs p = some fs2 →
    ∃ es, fs2.lookup p = some (.dir es) := by
  intro p
  induction p with
  | nil =>
    intro fs fs2 h
    cases fs with
    | file d => simp [MkdirAll] at h
    | dir es =>
      simp only [MkdirAll, Option.some.injEq] at h
      exact ⟨es, by rw [← h]; rfl⟩
  | cons c cs ih =>
    intro fs fs2 h
    cases fs with
    | file d => simp [MkdirAll] at h
    | dir es =>
      simp only [MkdirAll] at h
      cases hl : lookupEntry es c with
      | none =>
        rw [hl] at h
        simp only [Option.map_eq_some'] at h
        obtain ⟨child2, hc, hfs⟩ := h
        obtain ⟨es2, h2⟩ := ih _ _ hc
        exact ⟨es2, by rw [← hfs]; simp [Node.lookup, lookupEntry_setEntry_same, h2]⟩
      | some child =>
        rw [hl] at h
        simp only [Option.map_eq_some'] at h
        obtain ⟨child2, hc, hfs⟩ := h
        obtain ⟨es2, h2⟩ := ih _ _ hc
        exact ⟨es2, by rw [← hfs]; simp [Node.lookup, lookupEntry_setEntry_same, h2]⟩

/-- `MkdirAll` changes nothing where the path is a directory already. -/
theorem MkdirAll_of_dir : ∀ (p : List Str) (fs : Node) (es : List (Str × Node)),
    fs.lookup p = some (.dir es) → MkdirAll fs p = some fs := by
  intro p
  induction p with
  | nil =>
    intro fs es h
    simp only [Node.lookup, Option.some.injEq] at h
    subst h
    rfl
  | cons c cs ih =>
    intro fs es h
    cases fs with
    | file d => simp [Node.lookup] at h
    | dir es0 =>
      simp only [Node.lookup] at h
      cases hl : lookupEntry es0 c with
      | none => rw [hl] at h; simp at h
      | some child =>
        rw [hl] at h
        simp only [] at h
        simp [MkdirAll, hl, ih child es h, setEntry_of_lookup _ _ _ hl]

/-- The directory of a path that exists is a directory of the tree. -/
theorem lookup_dropLast : ∀ (p : List Str) (fs : Node) (es : List (Str × Node)),
    fs.lookup p = some (.dir es) → ∃ es2, fs.lookup p.dropLast = some (.dir es2) := by
  intro p
  induction p with
  | nil => intro fs es h; exact ⟨es, h⟩
  | cons c cs ih =>
    intro fs es h
    cases fs with
    | file d => simp [Node.lookup] at h
    | dir es0 =>
      cases cs with
      | nil => exact ⟨es0, rfl⟩
      | cons c2 cs2 =>
        simp only [Node.lookup] at h
        cases hl : lookupEntry es0 c with
        | none => rw [hl] at h; simp at h
        | some child =>
          rw [hl] at h
          simp only [] at h
          obtain ⟨es2, h2⟩ := ih child es h
          exact ⟨es2, by simp [List.dropLast, Node.lookup, hl, h2]⟩

/-! ### The directory of a cleaned path -/

theorem Clean_eq_render (q : Str) (hq : q ≠ []) :
    Clean q = renderClean (HasPrefix q "/".toList) (cleanElems q) := by
  unfold Clean renderClean
  rw [if_neg hq]

theorem normalElems_keep (r : Bool) (l : List Str) (h : normalElems r l) :
    ∃ (k : Nat) (rest : List Str), l = List.replicate k "..".toList ++ rest ∧
      (∀ e ∈ rest, plainElem e) ∧ (r = true → k = 0) ∧
      l.filter (fun e => e ≠ [] ∧ e ≠ ".".toList ∧ e ≠ "..".toList) = rest := by
  obtain ⟨k, rest, hl, hrest, hk⟩ := h
  refine ⟨k, rest, hl, hrest, hk, ?_⟩
  rw [hl, List.filter_append]
  have h1 : (List.replicate k "..".toList).filter
      (fun e => e ≠ [] ∧ e ≠ ".".toList ∧ e ≠ "..".toList) = [] := by
    rw [List.filter_eq_nil_iff]
    intro a ha
    have := List.eq_of_mem_replicate ha
    subst this
    decide
  have h2 : rest.filter (fun e => e ≠ [] ∧ e ≠ ".".toList ∧ e ≠ "..".toList) = rest := by
    rw [List.filter_eq_self]
    intro a ha
    have := hrest a ha
    simp only [decide_eq_true_eq]
    exact ⟨this.1, this.2.2.1, this.2.2.2⟩
  rw [h1, h2]
  rfl

/-- The elements of a cleaned path, from the root, are its ordinary
elements. -/
theorem pathElems_render (r : Bool) (l : List Str) (h : normalElems r l) :
    pathElems (renderClean r l) =
      l.filter (fun e => e ≠ [] ∧ e ≠ ".".toList ∧ e ≠ "..".toList) := by
  have hel := normalElems_ne_nil r l h
  by_cases hl : l = []
  · subst hl
    cases r <;> decide
  · have hsj : Split (Join l ['/']) '/' = l := Split_Join _ '/' hl (fun e he => (hel e he).2)
    cases r with
    | true =>
      show List.filter _ (Split ([] ++ '/' :: Join l ['/']) '/') = _
      rw [Split_append_sep, hsj]
      simp [Split]
    | false =>
      unfold renderClean
      rw [if_neg (by simp), if_neg hl]
      show List.filter _ (Split (Join l ['/']) '/') = _
      rw [hsj]

theorem normalElems_init (r : Bool) (init : List Str) (last : Str)
    (h : normalElems r (init ++ [last])) : normalElems r init := by
  obtain ⟨k, rest, hl, hrest, hk⟩ := h
  rcases List.eq_nil_or_concat rest with hr | ⟨rest2, x, hr⟩
  · subst hr
    rw [List.append_nil] at hl
    cases k with
    | zero => simp at hl
    | succ k =>
      rw [List.replicate_succ'] at hl
      have := List.append_inj_left' hl rfl
      have hrf : r = false := by
        cases r with
        | true => exact absurd (hk rfl) (by simp)
        | false => rfl
      exact ⟨k, [], by simp [this], by simp, by simp [hrf]⟩
  · rw [List.concat_eq_append] at hr
    subst hr
    rw [← List.append_assoc] at hl
    have := List.append_inj_left' hl rfl
    exact ⟨k, rest2, this, fun e he => hrest e (by simp [he]), hk⟩

/-- `filepath.Dir` of a cleaned path is the cleaned path without its last
element. -/
theorem Dir_render (r : Bool) (l : List Str) (h : normalElems r l) :
    Dir (renderClean r l) = renderClean r l.dropLast := by
  rcases List.eq_nil_or_concat l with hl | ⟨init, last, hl⟩
  · subst hl
    cases r <;> decide
  · rw [List.concat_eq_append] at hl
    subst hl
    have hinit := normalElems_init r init last h
    have hlast := (normalElems_ne_nil r _ h) last (by simp)
    rw [List.dropLast_concat]
    by_cases hi : init = []
    · subst hi
      cases r with
      | true =>
        have : renderClean true ([] ++ [last]) = ['/'] ++ last := by
          simp [renderClean, Join]
        rw [this, Dir_append_elem ['/'] last (Or.inr ⟨[], rfl⟩) hlast.2]
        decide
      | false =>
        have : renderClean false ([] ++ [last]) = [] ++ last := by
          simp [renderClean, Join]
        rw [this, Dir_append_elem [] last (Or.inl rfl) hlast.2]
        decide
    · obtain ⟨h1, h2, h3⟩ := cleanElems_render r init hinit hi
      have hP : renderClean r (init ++ [last]) =
          (((if r = true then ['/'] else []) ++ Join init ['/']) ++ ['/']) ++ last := by
        unfold renderClean
        have hj := Join_append_singleton init last ['/'] hi
        cases r with
        | true =>
          simp only [if_true]
          show ['/'] ++ Join (init ++ [last]) ['/'] = _
          rw [hj]
          simp [List.append_assoc]
        | false =>
          rw [if_neg (by simp), if_neg (by simp)]
          show Join (init ++ [last]) ['/'] = _
          rw [hj]
          simp [List.append_assoc]
      rw [hP, Dir_append_elem _ _ (Or.inr ⟨_, rfl⟩) hlast.2, Clean_append_slash _ h1,
        Clean_eq_render _ h1]
      have h2b : HasPrefix ((if r = true then ['/'] else []) ++ Join init ['/']) "/".toList = r :=
        h2
      rw [h2b, h3]

theorem filter_dropLast_normal (r : Bool) (l : List Str) (h : normalElems r l) :
    (l.filter (fun e => e ≠ [] ∧ e ≠ ".".toList ∧ e ≠ "..".toList)).dropLast =
      l.dropLast.filter (fun e => e ≠ [] ∧ e ≠ ".".toList ∧ e ≠ "..".toList) := by
  rcases List.eq_nil_or_concat l with hl | ⟨init, last, hl⟩
  · subst hl; rfl
  · rw [List.concat_eq_append] at hl
    subst hl
    rw [List.dropLast_concat, List.filter_append]
    by_cases hp : last ≠ [] ∧ last ≠ ".".toList ∧ last ≠ "..".toList
    · have : [last].filter (fun e => e ≠ [] ∧ e ≠ ".".toList ∧ e ≠ "..".toList) = [last] := by
        rw [List.filter_eq_self]
        intro a ha
        have : a = last := by simpa using ha
        subst this
        simpa using hp
      rw [this, List.dropLast_concat]
    · have hf : [last].filter (fun e => e ≠ [] ∧ e ≠ ".".toList ∧ e ≠ "..".toList) = [] := by
        rw [List.filter_eq_nil_iff]
        intro a ha
        have : a = last := by simpa using ha
        subst this
        simpa using hp
      rw [hf, List.append_nil]
      obtain ⟨k, rest, hl, hrest, hk, hkeep⟩ := normalElems_keep r _ h
      have hrest0 : rest = [] := by
        rcases List.eq_nil_or_concat rest with hr | ⟨rest2, x, hr⟩
        · exact hr
        · rw [List.concat_eq_append] at hr
          subst hr
          rw [← List.append_assoc] at hl
          have hx : last = x := List.append_inj_right' hl rfl |> fun e => by simpa using e
          have := hrest x (by simp)
          exact absurd ⟨hx ▸ this.1, hx ▸ this.2.2.1, hx ▸ this.2.2.2⟩ hp
      subst hrest0
      rw [List.append_nil] at hl
      have hinit : ∀ e ∈ init, e = "..".toList := by
        intro e he
        have : e ∈ List.replicate k "..".toList := by
          rw [← hl]; simp [he]
        exact List.eq_of_mem_replicate this
      have : init.filter (fun e => e ≠ [] ∧ e ≠ ".".toList ∧ e ≠ "..".toList) = [] := by
        rw [List.filter_eq_nil_iff]
        intro a ha
        rw [hinit a ha]
        decide
      rw [this]
      rfl

/-- The elements of the directory of a cleaned path are the elements of the
path without the last. -/
theorem pathElems_Dir_Clean (q : Str) (hq : q ≠ []) :
    pathElems (Dir (Clean q)) = (pathElems (Clean q)).dropLast := by
  have hn := cleanElems_normal q
  rw [Clean_eq_render q hq, Dir_render _ _ hn, pathElems_render _ _ hn,
    filter_dropLast_normal _ _ hn]
  obtain ⟨k, rest, hl, hrest, hk⟩ := hn
  rcases List.eq_nil_or_concat (cleanElems q) with h0 | ⟨init, last, h0⟩
  · rw [h0]
    cases HasPrefix q "/".toList <;> decide
  · rw [List.concat_eq_append] at h0
    have hn2 : normalElems (HasPrefix q "/".toList) (init ++ [last]) := h0 ▸ ⟨k, rest, hl, hrest, hk⟩
    rw [h0, List.dropLast_concat]
    exact pathElems_render _ _ (normalElems_init _ _ _ hn2)

theorem buildCachePath_parent (cm : CacheManager) (dep : Dependency) (bt : Option BuildTag) :
    pathElems (Dir (cm.GetBuildCachePath dep bt)) =
      (pathElems (cm.GetBuildCachePath dep bt)).dropLast := by
  obtain ⟨X, _, _, hpath⟩ := buildCachePath_shape cm dep
  rw [hpath]
  exact pathElems_Dir_Clean _ (by simp)

theorem CopyDir_of_mkdir (src : List (Str × Node)) (fs fsB : Node) (p : List Str)
    (h : MkdirAll fs p = some fsB) :
    CopyDir src fs p = updateAt (copyNode (.dir src)) fsB p := by
  simp [CopyDir, h]

theorem CopyDir_of_fail (src : List (Str × Node)) (fs : Node) (p : List Str)
    (h : MkdirAll fs p = none) :
    CopyDir src fs p = (some (.sys "not a directory".toList), fs) := by
  simp [CopyDir, h]

theorem StoreBuild_of_mkdir (cm : CacheManager) (fs fsA : Node) (dep : Dependency)
    (variant : Option BuildTag) (src : List (Str × Node))
    (h : MkdirAll fs (pathElems (Dir (cm.GetBuildCachePath dep variant))) = some fsA) :
    cm.StoreBuild fs dep (.dir src) variant =
      CopyDir src fsA (pathElems (cm.GetBuildCachePath dep variant)) := by
  simp [CacheManager.StoreBuild, h]

theorem StoreBuild_of_fail (cm : CacheManager) (fs : Node) (dep : Dependency)
    (variant : Option BuildTag) (src : List (Str × Node))
    (h : MkdirAll fs (pathElems (Dir (cm.GetBuildCachePath dep variant))) = none) :
    cm.StoreBuild fs dep (.dir src) variant =
      (some (CacheErrorWithCause (.sys "not a directory".toList)
        "failed to create build cache directory".toList), fs) := by
  simp [CacheManager.StoreBuild, h]

/-- `CopyDir` onto its own result changes nothing and returns the same
error; and where its `MkdirAll` succeeds, the destination is a directory
afterwards. -/
theorem CopyDir_idem (src : List (Str × Node)) (hwf : distinctEntries src = true) (fs : Node)
    (p : List Str) :
    CopyDir src (CopyDir src fs p).2 p = CopyDir src fs p ∧
    ((CopyDir src fs p).1 = none ∨ (MkdirAll fs p).isSome = true →
      ∃ es, (CopyDir src fs p).2.lookup p = some (.dir es)) := by
  have hn : distinctNames (.dir src) = true := by simpa [distinctNames] using hwf
  cases hm : MkdirAll fs p with
  | none =>
    have e1 := CopyDir_of_fail src fs p hm
    rw [e1]
    refine ⟨CopyDir_of_fail src fs p hm, ?_⟩
    intro h
    rcases h with h | h
    · cases h
    · cases h
  | some fsB =>
    obtain ⟨es, hes⟩ := MkdirAll_lookup p fs fsB hm
    have e1 := CopyDir_of_mkdir src fs fsB p hm
    obtain ⟨u1, u2, _⟩ := updateAt_lookup (copyNode (.dir src)) p fsB _ hes
    have hdir : ∃ es2, (copyNode (.dir src) (some (.dir es))).2 = .dir es2 :=
      ⟨(copyEntries src es).2, by simp [copyNode]⟩
    obtain ⟨es2, hes2⟩ := hdir
    have hl : (CopyDir src fs p).2.lookup p = some (.dir es2) := by
      rw [e1, u2, hes2]
    refine ⟨?_, fun _ => ⟨es2, hl⟩⟩
    have hm2 : MkdirAll (CopyDir src fs p).2 p = some (CopyDir src fs p).2 :=
      MkdirAll_of_dir p _ es2 hl
    have e2 := CopyDir_of_mkdir src _ _ p hm2
    obtain ⟨v1, _, v3⟩ := updateAt_lookup (copyNode (.dir src)) p (CopyDir src fs p).2 _ hl
    have hidem := copyNode_idem (.dir src) (some (.dir es)) hn
    rw [hes2] at hidem
    rw [e2]
    apply Prod.ext
    · rw [v1, hidem, e1, u1]
    · rw [v3 (by rw [hidem, hes2])]

/-- A second `StoreBuild` of the same build output returns what the first
returned and leaves the tree that the first left; after a first call without
error the cache entry exists. -/
theorem storeBuild_again (cm : CacheManager) (fs : Node) (dep : Dependency)
    (variant : Option BuildTag) (src : List (Str × Node)) (hwf : distinctEntries src = true) :
    cm.StoreBuild (cm.StoreBuild fs dep (.dir src) variant).2 dep (.dir src) variant =
      cm.StoreBuild fs dep (.dir src) variant ∧
    ((cm.StoreBuild fs dep (.dir src) variant).1 = none →
      cm.IsBuildCached (cm.StoreBuild fs dep (.dir src) variant).2 dep variant = true) := by
  have hpar := buildCachePath_parent cm dep variant
  cases hm : MkdirAll fs (pathElems (Dir (cm.GetBuildCachePath dep variant))) with
  | none =>
    have e1 := StoreBuild_of_fail cm fs dep variant src hm
    rw [e1]
    exact ⟨StoreBuild_of_fail cm fs dep variant src hm, fun h => by cases h⟩
  | some fsA =>
    have e1 := StoreBuild_of_mkdir cm fs fsA dep variant src hm
    obtain ⟨c1, c2⟩ :=
      CopyDir_idem src hwf fsA (pathElems (cm.GetBuildCachePath dep variant))
    obtain ⟨esA, hA⟩ := MkdirAll_lookup _ fs fsA hm
    have hparent : ∃ es, (CopyDir src fsA
        (pathElems (cm.GetBuildCachePath dep variant))).2.lookup
        (pathElems (Dir (cm.GetBuildCachePath dep variant))) = some (.dir es) := by
      cases hm2 : MkdirAll fsA (pathElems (cm.GetBuildCachePath dep variant)) with
      | none =>
        rw [CopyDir_of_fail src fsA _ hm2]
        exact ⟨esA, hA⟩
      | some fsB =>
        obtain ⟨es, hes⟩ := c2 (Or.inr (by rw [hm2]; rfl))
        rw [hpar]
        exact lookup_dropLast _ _ es hes
    obtain ⟨esP, hP⟩ := hparent
    have hm3 := MkdirAll_of_dir _ _ esP hP
    refine ⟨?_, ?_⟩
    · rw [e1, StoreBuild_of_mkdir cm _ _ dep variant src hm3, c1]
    · intro hok
      rw [e1] at hok ⊢
      obtain ⟨es, hes⟩ := c2 (Or.inl hok)
      simp [CacheManager.IsBuildCached, hes]

/-- C9. Storing the same build output (a directory tree with distinct names
in each directory) for the same dependency and variant a second time leaves
the cache tree as the first call left it, so `RetrieveBuild` yields the same
files with the same contents after either call, into any target; and when the
first call returns no error, `IsBuildCached` is true after each call. -/
theorem storeBuild_twice (cm : CacheManager) (fs : Node) (dep : Dependency)
    (variant : Option BuildTag) (src : List (Str × Node)) (hwf : distinctEntries src = true)
    (target : Option Node) :
    (cm.StoreBuild (cm.StoreBuild fs dep (.dir src) variant).2 dep (.dir src) variant).2 =
      (cm.StoreBuild fs dep (.dir src) variant).2 ∧
    cm.RetrieveBuild (cm.StoreBuild (cm.StoreBuild fs dep (.dir src) variant).2 dep (.dir src)
        variant).2 dep target variant =
      cm.RetrieveBuild (cm.StoreBuild fs dep (.dir src) variant).2 dep target variant ∧
    ((cm.StoreBuild fs dep (.dir src) variant).1 = none →
      cm.IsBuildCached (cm.StoreBuild fs dep (.dir src) variant).2 dep variant = true ∧
      cm.IsBuildCached (cm.StoreBuild (cm.StoreBuild fs dep (.dir src) variant).2 dep
        (.dir src) variant).2 dep variant = true) := by
  obtain ⟨k1, k2⟩ := storeBuild_again cm fs dep variant src hwf
  refine ⟨by rw [k1], by rw [k1], ?_⟩
  intro hok
  exact ⟨k2 hok, by rw [k1]; exact k2 hok⟩

/-- C9 applies to the build output of `fmt@8.0.1` stored, for the nil
variant, into an empty cache tree: the first call succeeds, the entry is
cached after each call, and retrieval into a fresh target returns the build
output. -/
theorem storeBuild_twice_witness :
    distinctEntries fmtBuild = true ∧
    (cacheAtC.StoreBuild (.dir []) fmtDep (.dir fmtBuild) none).1 = none ∧
    cacheAtC.IsBuildCached (cacheAtC.StoreBuild (.dir []) fmtDep (.dir fmtBuild) none).2 fmtDep
      none = true ∧
    cacheAtC.IsBuildCached (cacheAtC.StoreBuild (cacheAtC.StoreBuild (.dir []) fmtDep
      (.dir fmtBuild) none).2 fmtDep (.dir fmtBuild) none).2 fmtDep none = true ∧
    cacheAtC.RetrieveBuild (cacheAtC.StoreBuild (cacheAtC.StoreBuild (.dir []) fmtDep
      (.dir fmtBuild) none).2 fmtDep (.dir fmtBuild) none).2 fmtDep none none =
      (none, some (.dir fmtBuild)) :=
  have h := storeBuild_twice cacheAtC (.dir []) fmtDep none fmtBuild (by decide) none
  ⟨by decide, by decide, (h.2.2 (by decide)).1, (h.2.2 (by decide)).2, h.2.1.trans rfl⟩

example : (cacheAtC.StoreBuild (.dir []) fmtDep (.dir fmtBuild) none).2 =
    .dir [("c".toList, .dir [("buildfly".toList, .dir [("fmt".toList,
      .dir [("8.0.1".toList, .dir [("default".toList, .dir fmtBuild)])])])])] := by
  rfl

/-! ### Errors of the parser (C19) -/

theorem setKey_ok_of_known (bt : BuildTag) (k v : Str) (h : k ∈ knownKeys) :
    ∃ bt2, setKey bt k v = .ok bt2 := by
  simp only [knownKeys, List.mem_cons, List.mem_singleton, List.not_mem_nil, or_false] at h
  rcases h with h | h | h | h | h | h | h | h | h | h | h | h | h | h | h | h | h <;> subst h
  case inr.inr.inr.inr.inr.inr.inr.inr.inr.inr.inr.inr.inr.inr.inr.inr =>
    by_cases hv : v = "true".toList ∨ v = "1".toList
    · exact ⟨_, by rw [setKey]; simp only [hv]; rfl⟩
    · exact ⟨_, by rw [setKey]; simp only [hv]; rfl⟩
  all_goals exact ⟨_, rfl⟩

theorem setKey_error_of_unknown (bt : BuildTag) (k v : Str) (h : k ∉ knownKeys) :
    setKey bt k v = .error (.unknownKey k) := by
  have hne : ∀ x ∈ knownKeys, ¬ k = x := fun x hx e => h (e ▸ hx)
  unfold setKey
  simp only [hne "arch".toList (by decide), hne "platform".toList (by decide),
    hne "runtime".toList (by decide), hne "compiler".toList (by decide),
    hne "std".toList (by decide), hne "abi".toList (by decide),
    hne "target".toList (by decide), hne "cuda".toList (by decide),
    hne "cuda_version".toList (by decide), hne "cuda_arch".toList (by decide),
    hne "rocm".toList (by decide), hne "rocm_version".toList (by decide),
    hne "rocm_arch".toList (by decide), hne "opencl".toList (by decide),
    hne "opencl_version".toList (by decide), hne "gpu_backend".toList (by decide),
    hne "gpu_enabled".toList (by decide), or_self, if_false]

/-- The loop of the parser fails exactly when one of the segments is
rejected. -/
theorem parsePairs_error_iff (l : List Str) (bt : BuildTag) :
    (∃ e, parsePairs l bt = .error e) ↔ ∃ seg ∈ l, badSegment seg := by
  induction l generalizing bt with
  | nil => simp [parsePairs]
  | cons p rest ih =>
    rw [parsePairs]
    simp only [List.mem_cons, exists_eq_or_imp]
    by_cases hp : TrimSpace p = []
    · simp only [hp, if_true]
      rw [ih]
      simp [badSegment, hp]
    · simp only [hp, if_false]
      by_cases heq : '=' ∈ TrimSpace p
      · simp only [SplitN2, if_pos heq]
        by_cases hk : TrimSpace ((TrimSpace p).takeWhile (fun c => c != '=')) ∈ knownKeys
        · obtain ⟨bt2, h2⟩ := setKey_ok_of_known bt _
            (TrimSpace (((TrimSpace p).dropWhile (fun c => c != '=')).drop 1)) hk
          simp only [h2]
          rw [ih]
          simp [badSegment, hp, heq, hk]
        · simp only [setKey_error_of_unknown bt _ _ hk]
          simp [badSegment, hp, heq, hk]
      · simp only [SplitN2, if_neg heq]
        simp [badSegment, hp, heq]

/-- C19. `ParseBuildTag` returns an error exactly when its input is the empty
string or has a comma-separated segment that, trimmed of white space, is not
empty and either has no `=` or has a key outside the known set; on every
other input it returns a descriptor. -/
theorem parseBuildTag_error_iff (tagStr : Str) :
    ((∃ e, ParseBuildTag tagStr = .error e) ↔
      (tagStr = [] ∨ ∃ seg ∈ Split tagStr ',', badSegment seg)) ∧
    ((¬ (tagStr = [] ∨ ∃ seg ∈ Split tagStr ',', badSegment seg)) →
      ∃ bt, ParseBuildTag tagStr = .ok bt) := by
  have key : (∃ e, ParseBuildTag tagStr = .error e) ↔
      (tagStr = [] ∨ ∃ seg ∈ Split tagStr ',', badSegment seg) := by
    unfold ParseBuildTag
    by_cases h : tagStr = []
    · simp [h]
    · simp only [h, if_false, false_or]
      exact parsePairs_error_iff _ _
  refine ⟨key, fun hn => ?_⟩
  cases hr : ParseBuildTag tagStr with
  | ok bt => exact ⟨bt, rfl⟩
  | error e => exact absurd (key.mp ⟨e, hr⟩) hn

theorem parseBuildTag_error_iff_witness :
    (¬ ("arch=x86_64, std=cpp17".toList = [] ∨
        ∃ seg ∈ Split "arch=x86_64, std=cpp17".toList ',', badSegment seg)) ∧
    ∃ bt, ParseBuildTag "arch=x86_64, std=cpp17".toList = .ok bt :=
  ⟨by decide, (parseBuildTag_error_iff "arch=x86_64, std=cpp17".toList).2 (by decide)⟩

/-! ### What `Validate` accepts (C20) -/

theorem contains_iff (l : List Str) (v : Str) : contains l v = true ↔ v ∈ l := by
  unfold contains
  rw [List.any_eq_true]
  constructor
  · rintro ⟨x, hx, he⟩
    have : x = v := by simpa using he
    exact this ▸ hx
  · intro h
    exact ⟨v, h, by simp⟩

theorem gpuValidate_iff (g : GPUInfo) : g.Validate = none ↔ completeGPU g := by
  unfold GPUInfo.Validate completeGPU
  by_cases hb : contains ["cuda".toList, "rocm".toList, "opencl".toList, "none".toList]
      g.Backend = true
  · have hm := (contains_iff _ _).mp hb
    simp only [List.mem_cons, List.mem_singleton, List.not_mem_nil, or_false] at hm
    rcases hm with h | h | h | h
    · rw [h]
      cases hc : g.CUDA with
      | none => simp [contains]
      | some c => by_cases hv : c.Version = [] <;> simp [contains, hv]
    · rw [h]
      cases hc : g.ROCm with
      | none => simp [contains]
      | some c => by_cases hv : c.Version = [] <;> simp [contains, hv]
    · rw [h]
      cases hc : g.OpenCL with
      | none => simp [contains]
      | some c => by_cases hv : c.Version = [] <;> simp [contains, hv]
    · rw [h]
      simp [contains]
  · have hm : ¬ g.Backend ∈ ["cuda".toList, "rocm".toList, "opencl".toList, "none".toList] :=
      fun h => hb ((contains_iff _ _).mpr h)
    have hb2 : contains ["cuda".toList, "rocm".toList, "opencl".toList, "none".toList]
        g.Backend = false := by simpa using hb
    simp only [List.mem_cons, List.mem_singleton, List.not_mem_nil, or_false, not_or] at hm
    simp only [hb2, Bool.not_false, if_true]
    simp only [hm.1, hm.2.1, hm.2.2.1, hm.2.2.2, false_and, or_false]
    simp

/-- C20. `Validate` returns an error for the nil descriptor, and for a
non-nil descriptor it returns no error exactly when each of arch, platform,
std and abi is empty or in its closed list and the GPU sub-record is absent or
has a backend among cuda, rocm, opencl and none with, for a backend other
than none, the matching sub-record present with a non-empty version. -/
theorem validate_iff :
    BuildTag.Validate none ≠ none ∧
    ∀ bt : BuildTag, BuildTag.Validate (some bt) = none ↔ wellFormedTag bt := by
  refine ⟨by simp [BuildTag.Validate], fun bt => ?_⟩
  unfold BuildTag.Validate wellFormedTag
  simp only [← contains_iff, ← gpuValidate_iff]
  split_ifs with c1 c2 c3 c4
  · simp only [reduceCtorEq, false_iff, not_and]
    intro h
    rcases h with h | h
    · exact absurd h c1.1
    · have := c1.2
      rw [h] at this
      exact absurd this (by decide)
  · simp only [reduceCtorEq, false_iff, not_and]
    intro _ h
    rcases h with h | h
    · exact absurd h c2.1
    · have := c2.2
      rw [h] at this
      exact absurd this (by decide)
  · simp only [reduceCtorEq, false_iff, not_and]
    intro _ _ h
    rcases h with h | h
    · exact absurd h c3.1
    · have := c3.2
      rw [h] at this
      exact absurd this (by decide)
  · simp only [reduceCtorEq, false_iff, not_and]
    intro _ _ _ h
    rcases h with h | h
    · exact absurd h c4.1
    · have := c4.2
      rw [h] at this
      exact absurd this (by decide)
  · have e1 : bt.Arch = [] ∨ contains ["x86_64".toList, "arm64".toList, "x64".toList,
        "i386".toList, "aarch64".toList] bt.Arch = true := by
      by_cases h : bt.Arch = []
      · exact Or.inl h
      · right; by_contra hc; exact c1 ⟨h, by simpa using hc⟩
    have e2 : bt.Platform = [] ∨ contains ["linux".toList, "darwin".toList,
        "windows".toList] bt.Platform = true := by
      by_cases h : bt.Platform = []
      · exact Or.inl h
      · right; by_contra hc; exact c2 ⟨h, by simpa using hc⟩
    have e3 : bt.Std = [] ∨ contains ["cpp11".toList, "cpp14".toList, "cpp17".toList,
        "cpp20".toList, "cpp23".toList] bt.Std = true := by
      by_cases h : bt.Std = []
      · exact Or.inl h
      · right; by_contra hc; exact c3 ⟨h, by simpa using hc⟩
    have e4 : bt.ABI = [] ∨ contains ["sysv".toList, "macho".toList, "msabi".toList]
        bt.ABI = true := by
      by_cases h : bt.ABI = []
      · exact Or.inl h
      · right; by_contra hc; exact c4 ⟨h, by simpa using hc⟩
    cases hg : bt.GPU with
    | none => exact ⟨fun _ => ⟨e1, e2, e3, e4, Or.inl rfl⟩, fun _ => rfl⟩
    | some g =>
      cases hv : g.Validate with
      | none =>
        refine ⟨fun _ => ⟨e1, e2, e3, e4, Or.inr ⟨g, rfl, hv⟩⟩, fun _ => ?_⟩
        simp only [hv]
      | some e =>
        constructor
        · intro h
          simp only [hv, reduceCtorEq] at h
        · rintro ⟨_, _, _, _, h | ⟨g2, h2, h3⟩⟩
          · simp at h
          · have : g2 = g := by simpa using h2.symm
            rw [this, hv] at h3
            simp at h3

/-! ### The download entry (C11) -/

example : (cacheAtC.GetDownloadCachePath testEnv testLibDep) =
    "/c/buildfly/test-lib/1.0.0/test-lib.tar.gz".toList := by decide

example : getFileNameFromURL "https://h/a/b.zip?x=1#frag".toList = "b.zip".toList := by decide
example : getFileNameFromURL "https://h/a/b.zip#frag?x=1".toList = "b.zip".toList := by decide
example : getFileNameFromURL "https://h/a/".toList = [] := by decide

theorem take_length_takeWhile {α : Type} (p : α → Bool) (l : List α) :
    l.take (l.takeWhile p).length = l.takeWhile p := by
  induction l with
  | nil => rfl
  | cons a as ih =>
    by_cases h : p a = true
    · simp [List.takeWhile_cons, h, ih]
    · simp [List.takeWhile_cons, h]

theorem takeWhile_of_not_mem (s : Str) (sep : Char) (h : sep ∉ s) :
    s.takeWhile (fun c => c != sep) = s := by
  induction s with
  | nil => rfl
  | cons c cs ih =>
    have hc : c ≠ sep := fun e => h (e ▸ List.mem_cons_self _ _)
    have hcs : sep ∉ cs := fun e => h (List.mem_cons_of_mem _ e)
    simp [List.takeWhile_cons, hc, ih hcs]

/-- Cutting a string at the position that `strings.Index` returns keeps the
text before the first occurrence of the separator. -/
theorem cut_at_Index (s : Str) (sep : Char) :
    (if Index s sep ≠ -1 then s.take (Index s sep).toNat else s) =
      s.takeWhile (fun c => c != sep) := by
  unfold Index
  by_cases h : sep ∈ s
  · rw [if_pos h, if_pos (by omega)]
    simp only [Int.toNat_ofNat]
    exact take_length_takeWhile _ _
  · rw [if_neg h, if_neg (by simp), takeWhile_of_not_mem s sep h]

theorem takeWhile_takeWhile {α : Type} (p q : α → Bool) (l : List α) :
    (l.takeWhile p).takeWhile q = l.takeWhile (fun c => p c && q c) := by
  induction l with
  | nil => rfl
  | cons a as ih =>
    by_cases hp : p a = true <;> by_cases hq : q a = true <;>
      simp [List.takeWhile_cons, hp, hq, ih]

/-- The last piece of a split is the text after the last separator. -/
theorem Split_getLastD (s : Str) (sep : Char) :
    (Split s sep).getLastD [] = (s.reverse.takeWhile (fun c => c != sep)).reverse := by
  have hsplit := List.takeWhile_append_dropWhile (fun c => c != sep) s.reverse
  cases hd : s.reverse.dropWhile (fun c => c != sep) with
  | nil =>
    rw [hd, List.append_nil] at hsplit
    have hno : sep ∉ s := by
      intro hm
      have hm2 : sep ∈ s.reverse.takeWhile (fun c => c != sep) := by
        rw [hsplit]; simpa using hm
      have := List.mem_takeWhile_imp hm2
      simp at this
    rw [hsplit, List.reverse_reverse, Split_of_not_mem hno]
    rfl
  | cons c t =>
    have hc : c = sep := by
      have := List.head_dropWhile_not (fun c => c != sep) s.reverse (by rw [hd]; simp)
      simp only [hd, List.head_cons] at this
      simpa using this
    subst hc
    rw [hd] at hsplit
    have hs : s = t.reverse ++ c :: (s.reverse.takeWhile (fun x => x != c)).reverse := by
      have := congrArg List.reverse hsplit
      rw [List.reverse_reverse, List.reverse_append, List.reverse_cons, List.append_assoc,
        List.singleton_append] at this
      exact this.symm
    have hno : c ∉ (s.reverse.takeWhile (fun x => x != c)).reverse := by
      intro hm
      have := List.mem_takeWhile_imp (List.mem_reverse.mp hm)
      simp at this
    generalize (s.reverse.takeWhile (fun x => x != c)).reverse = b at hs hno ⊢
    rw [hs, Split_append_sep, Split_of_not_mem hno]
    simp [List.getLastD_eq_getLast?]

theorem getFileNameFromURL_eq (url : Str) :
    getFileNameFromURL url =
      ((url.reverse.takeWhile (fun c => c != '/')).reverse).takeWhile
        (fun c => c != '?' && c != '#') := by
  unfold getFileNameFromURL
  have hlen : (Split url '/').length > 0 := List.length_pos.mpr (Split_ne_nil _ _)
  simp only [hlen, if_true]
  rw [cut_at_Index, cut_at_Index, takeWhile_takeWhile, Split_getLastD]

theorem getCacheFileName_eq (cm : CacheManager) (env : Env) (dep : Dependency) :
    cm.getCacheFileName env dep = specFileName cm env dep := by
  unfold CacheManager.getCacheFileName specFileName
  cases hu : dep.Source.GetURLs with
  | nil => rfl
  | cons url rest =>
    simp only [List.head?_cons, getFileNameFromURL_eq]
    by_cases h : ((url.reverse.takeWhile (fun c => c != '/')).reverse).takeWhile
        (fun c => c != '?' && c != '#') = [] ∨
        ((url.reverse.takeWhile (fun c => c != '/')).reverse).takeWhile
        (fun c => c != '?' && c != '#') = "download".toList
    · rw [if_pos h, if_neg (by tauto)]
    · rw [if_neg h, if_pos (by tauto)]

/-- C11. The download entry of a dependency is the path
`cacheDir/buildfly/name/version/filename` (the `filepath.Join` of these five
elements; for a cache directory that is not empty, the cleaned text of the
five joined by `/`), where `filename` is the last `/`-separated segment of the
first URL without its `?` query and `#` fragment when that is neither empty
nor `download`, and otherwise the cache key followed by `.tar.gz`, `.git` or
`.bin` according to the source type. -/
theorem downloadCachePath_eq (cm : CacheManager) (env : Env) (dep : Dependency) :
    cm.GetDownloadCachePath env dep =
      filepathJoin [cm.cacheDir, "buildfly".toList, dep.Name, dep.Version,
        specFileName cm env dep] ∧
    (cm.cacheDir ≠ [] →
      cm.GetDownloadCachePath env dep =
        Clean (cm.cacheDir ++ "/buildfly/".toList ++ dep.Name ++ "/".toList ++ dep.Version ++
          "/".toList ++ specFileName cm env dep)) := by
  have h1 : cm.GetDownloadCachePath env dep =
      filepathJoin [cm.cacheDir, "buildfly".toList, dep.Name, dep.Version,
        specFileName cm env dep] := by
    unfold CacheManager.GetDownloadCachePath
    rw [getCacheFileName_eq]
  refine ⟨h1, fun hne => ?_⟩
  rw [h1, filepathJoin, if_neg hne]
  congr 1
  simp [Join, List.append_assoc]

theorem downloadCachePath_eq_witness :
    cacheAtC.cacheDir ≠ [] ∧
    cacheAtC.GetDownloadCachePath testEnv testLibDep =
      "/c/buildfly/test-lib/1.0.0/test-lib.tar.gz".toList :=
  ⟨by decide, ((downloadCachePath_eq cacheAtC testEnv testLibDep).2 (by decide)).trans
    (by decide)⟩

/-! ### The cleanup sweep (C12) -/

/-- C12 fails on the code: in the cache that `Init`, `Store` and `StoreBuild`
produce, with every node thirty days old and a maximum age of seven days,
`Cleanup` returns no error and leaves the expired download entry and the
expired build entry in place: it sweeps `downloads`, `builds` and `metadata`,
and the entries are under `buildfly`. -/
theorem cleanup_keeps_expired :
    initCache.1 = none ∧ downloadStored.1 = none ∧ buildStored.1 = none ∧
    (weekCache.Cleanup (fun _ => 30 * day) buildStored.2).1 = none ∧
    weekCache.isExpired (fun _ => 30 * day) buildStored.2
      (weekCache.GetDownloadCachePath testEnv testLibDep) = true ∧
    weekCache.isExpired (fun _ => 30 * day) buildStored.2
      (weekCache.GetBuildCachePath testLibDep none) = true ∧
    weekCache.IsCachedDownloads testEnv
      (weekCache.Cleanup (fun _ => 30 * day) buildStored.2).2 testLibDep = true ∧
    weekCache.IsBuildCached
      (weekCache.Cleanup (fun _ => 30 * day) buildStored.2).2 testLibDep none = true := by
  decide

/-! ### Runs of the orchestrator -/

theorem Extends.refl (Q : Call → Bool) (l : List Call) : Extends Q l l :=
  ⟨[], by simp, by simp⟩

theorem Extends.snoc {Q : Call → Bool} {l0 l : List Call} (h : Extends Q l0 l) (c : Call)
    (hc : Q c = true) : Extends Q l0 (l ++ [c]) := by
  obtain ⟨a, rfl, ha⟩ := h
  refine ⟨a ++ [c], by simp, ?_⟩
  intro x hx
  rcases List.mem_append.mp hx with h | h
  · exact ha x h
  · simp at h; rw [h]; exact hc

theorem Extends.trans {Q : Call → Bool} {l0 l1 l2 : List Call} (h1 : Extends Q l0 l1)
    (h2 : Extends Q l1 l2) : Extends Q l0 l2 := by
  obtain ⟨a, rfl, ha⟩ := h1
  obtain ⟨b, rfl, hb⟩ := h2
  refine ⟨a ++ b, by simp, ?_⟩
  intro x hx
  rcases List.mem_append.mp hx with h | h
  · exact ha x h
  · exact hb x h

theorem Extends.mono {Q R : Call → Bool} {l0 l : List Call} (h : Extends Q l0 l)
    (hQR : ∀ c, Q c = true → R c = true) : Extends R l0 l := by
  obtain ⟨a, rfl, ha⟩ := h
  exact ⟨a, rfl, fun c hc => hQR c (ha c hc)⟩

theorem Extends.mem {Q : Call → Bool} {l0 l : List Call} (h : Extends Q l0 l) (c : Call)
    (hc : c ∈ l0) : c ∈ l := by
  obtain ⟨a, rfl, _⟩ := h
  exact List.mem_append_left _ hc

/-- A log that extends a log without calls of the kind `K` by calls that are
not of the kind `K` has no call of the kind `K`. -/
theorem Extends.none_of {Q K : Call → Bool} {l0 l : List Call} (h : Extends Q l0 l)
    (hQ : ∀ c, Q c = true → K c = false) (h0 : ∀ c ∈ l0, K c = false) :
    ∀ c ∈ l, K c = false := by
  obtain ⟨a, rfl, ha⟩ := h
  intro c hc
  rcases List.mem_append.mp hc with h | h
  · exact h0 c h
  · exact hQ c (ha c h)

/-- The first loop of `linkToProjectDir` logs calls of `OS` only. -/
theorem linkEntries_log {σ : Type} (os : OS σ) (Q : Call → Bool)
    (hQ : ∀ c, c.isOS = true → Q c = true) (src tgt : Str) (l0 : List Call) :
    ∀ (entries linkDirs : List Str) (st : σ × List Call), Extends Q l0 st.2 →
      Extends Q l0 (linkEntries os.traced src tgt entries linkDirs st).2.2 := by
  intro entries
  induction entries with
  | nil => intro linkDirs st h; simpa [linkEntries] using h
  | cons name rest ih =>
    intro linkDirs st h
    rw [linkEntries]
    simp only [OS.traced]
    rcases os.Lstat (filepathJoin [tgt, name]) st.1 with ⟨found, s1⟩
    cases found
    · simp only [Bool.false_eq_true, if_false]
      rcases os.Abs (filepathJoin [src, name]) s1 with ⟨ra, s3⟩
      cases ra with
      | error e => exact (h.snoc _ (hQ _ (by rfl))).snoc _ (hQ _ (by rfl))
      | ok p =>
        simp only []
        rcases os.Symlink p (filepathJoin [tgt, name]) s3 with ⟨rs, s4⟩
        cases rs with
        | some e => exact ((h.snoc _ (hQ _ (by rfl))).snoc _ (hQ _ (by rfl))).snoc _ (hQ _ (by rfl))
        | none => exact ih _ _ (((h.snoc _ (hQ _ (by rfl))).snoc _ (hQ _ (by rfl))).snoc _ (hQ _ (by rfl)))
    · simp only [if_true]
      rcases os.RemoveAll (filepathJoin [tgt, name]) s1 with ⟨rr, s2⟩
      cases rr with
      | some e => exact (h.snoc _ (hQ _ (by rfl))).snoc _ (hQ _ (by rfl))
      | none =>
        simp only []
        rcases os.Abs (filepathJoin [src, name]) s2 with ⟨ra, s3⟩
        cases ra with
        | error e => exact ((h.snoc _ (hQ _ (by rfl))).snoc _ (hQ _ (by rfl))).snoc _ (hQ _ (by rfl))
        | ok p =>
          simp only []
          rcases os.Symlink p (filepathJoin [tgt, name]) s3 with ⟨rs, s4⟩
          cases rs with
          | some e =>
            exact (((h.snoc _ (hQ _ (by rfl))).snoc _ (hQ _ (by rfl))).snoc _ (hQ _ (by rfl))).snoc _ (hQ _ (by rfl))
          | none =>
            exact ih _ _
              ((((h.snoc _ (hQ _ (by rfl))).snoc _ (hQ _ (by rfl))).snoc _ (hQ _ (by rfl))).snoc _ (hQ _ (by rfl)))

/-- The second loop of `linkToProjectDir` logs calls of `OS` only. -/
theorem recordLinks_log {σ : Type} (os : OS σ) (Q : Call → Bool)
    (hQ : ∀ c, c.isOS = true → Q c = true) (installTxt : Str) (l0 : List Call) :
    ∀ (dirs : List Str) (st : σ × List Call), Extends Q l0 st.2 →
      Extends Q l0 (recordLinks os.traced installTxt dirs st).2.2 := by
  intro dirs
  induction dirs with
  | nil => intro st h; simpa [recordLinks] using h
  | cons dir rest ih =>
    intro st h
    rw [recordLinks]
    simp only [OS.traced]
    rcases os.WriteString installTxt (dir ++ "\n".toList) st.1 with ⟨rw, s1⟩
    cases rw with
    | some e => exact h.snoc _ (hQ _ (by rfl))
    | none => exact ih _ (h.snoc _ (hQ _ (by rfl)))

/-- One logged call: when the log before it extends `l0`, so does the log
after it. -/
theorem ext_step {σ α : Type} {Q : Call → Bool} {l0 : List Call} {st s1 : σ × List Call}
    {r : α} (x : α × (σ × List Call)) (c : Call) (hx : x.2.2 = st.2 ++ [c])
    (hc : Q c = true) (h : Extends Q l0 st.2) (heq : x = (r, s1)) : Extends Q l0 s1.2 := by
  subst heq
  rw [show s1.2 = st.2 ++ [c] from hx]
  exact h.snoc c hc

/-- A run of `linkToProjectDir` logs calls of `OS` only. -/
theorem linkToProjectDir_log {σ : Type} (os : OS σ) (Q : Call → Bool)
    (hQ : ∀ c, c.isOS = true → Q c = true) (cfg : ProjectConfig) (dep : Dependency)
    (l0 : List Call) (st : σ × List Call) (h : Extends Q l0 st.2) :
    Extends Q l0 (linkToProjectDir os.traced cfg dep st).2.2 := by
  unfold linkToProjectDir
  simp only []
  rcases hm : os.traced.MkdirAll (filepathJoin [cfg.BuildFlyBaseDir, "install".toList,
    dep.Name]) st with ⟨rm, s1⟩
  have h1 := ext_step _ _ rfl (hQ _ (by rfl)) h hm
  cases rm with
  | some e => exact h1
  | none =>
    simp only []
    rcases hd : os.traced.ReadDir (linkSourceDir cfg dep) s1 with ⟨rd, s2⟩
    have h2 := ext_step _ _ rfl (hQ _ (by rfl)) h1 hd
    cases rd with
    | error e => exact h2
    | ok entries =>
      simp only []
      have h3 := linkEntries_log os Q hQ (linkSourceDir cfg dep)
        (filepathJoin [cfg.BuildFlyBaseDir, "install".toList, dep.Name]) l0 entries [] s2 h2
      rcases hl : linkEntries os.traced (linkSourceDir cfg dep)
        (filepathJoin [cfg.BuildFlyBaseDir, "install".toList, dep.Name]) entries [] s2
        with ⟨rl, s3⟩
      rw [hl] at h3
      cases rl with
      | error e => exact h3
      | ok linkDirs =>
        simp only []
        rcases ho : os.traced.OpenAppend
          (filepathJoin [cfg.BuildFlyBaseDir, "install.txt".toList]) s3 with ⟨ro, s4⟩
        have h4 := ext_step _ _ rfl (hQ _ (by rfl)) h3 ho
        cases ro with
        | some e => exact h4
        | none => exact recordLinks_log os Q hQ _ l0 linkDirs s4 h4

theorem isOS_not_source (c : Call) (h : c.isOS = true) :
    c.isDownload = false ∧ c.isRetrieve = false ∧ c.isExecute = false := by
  cases c <;> simp_all [Call.isOS, Call.isDownload, Call.isRetrieve, Call.isExecute]

/-- A run of `createBuildDirIfNeeded` logs `MkdirAll` and `CopyDir` only. -/
theorem createBuildDirIfNeeded_log {σ : Type} (os : OS σ) (sv : Services σ) (Q : Call → Bool)
    (hQ : ∀ c, c.isDownload = false → c.isRetrieve = false → Q c = true)
    (cfg : ProjectConfig) (dep : Dependency) (bt : Option BuildTag) (src : Str)
    (l0 : List Call) (st : σ × List Call) (h : Extends Q l0 st.2) :
    Extends Q l0 (createBuildDirIfNeeded os.traced sv.traced cfg dep bt src st).2.2 := by
  unfold createBuildDirIfNeeded
  simp only []
  rcases hm : os.traced.MkdirAll (getDepBuildDir cfg dep bt) st with ⟨rm, s1⟩
  have h1 := ext_step _ _ rfl (hQ _ (by rfl) (by rfl)) h hm
  cases rm with
  | some e => exact h1
  | none =>
    simp only []
    rcases hc : sv.traced.CopyDir src (getDepBuildDir cfg dep bt) s1 with ⟨rc, s2⟩
    have h2 := ext_step _ _ rfl (hQ _ (by rfl) (by rfl)) h1 hc
    cases rc with
    | some e => exact h2
    | none => exact h2

/-- A run of `compileInBuildDir` logs `MkdirAll`, `Execute` and `StoreBuild`
only. -/
theorem compileInBuildDir_log {σ : Type} (os : OS σ) (sv : Services σ) (Q : Call → Bool)
    (hQ : ∀ c, c.isDownload = false → c.isRetrieve = false → Q c = true)
    (cfg : ProjectConfig) (dep : Dependency) (buildDir installDir : Str) (noCache : Bool)
    (l0 : List Call) (st : σ × List Call) (h : Extends Q l0 st.2) :
    Extends Q l0
      (compileInBuildDir os.traced sv.traced cfg dep buildDir installDir noCache st).2.2 := by
  unfold compileInBuildDir
  rcases hm : os.traced.MkdirAll installDir st with ⟨rm, s1⟩
  have h1 := ext_step _ _ rfl (hQ _ (by rfl) (by rfl)) h hm
  cases rm with
  | some e => exact h1
  | none =>
    simp only []
    rcases hx : sv.traced.Execute dep buildDir buildDir installDir s1 with ⟨rx, s2⟩
    have h2 := ext_step _ _ rfl (hQ _ (by rfl) (by rfl)) h1 hx
    cases rx with
    | some e => exact h2
    | none =>
      simp only []
      cases noCache with
      | true => simpa using h2
      | false =>
        simp only [Bool.not_false, if_true]
        rcases hsb : sv.traced.StoreBuild cfg.CacheDir dep installDir cfg.BuildTag s2
          with ⟨rs, s3⟩
        exact ext_step _ _ rfl (hQ _ (by rfl) (by rfl)) h2 hsb

/-- What `downloadAndInstall` does after `downloadArchivesIfNeeded` logs
neither a fetch nor a retrieval from the download cache. -/
theorem downloadAndInstall_log {σ : Type} (os : OS σ) (sv : Services σ) (Q : Call → Bool)
    (hQ : ∀ c, c.isDownload = false → c.isRetrieve = false → Q c = true)
    (cfg : ProjectConfig) (dep : Dependency) (noCache : Bool)
    (l0 : List Call) (st : σ × List Call)
    (h : Extends Q l0 (downloadArchivesIfNeeded os.traced sv.traced dep noCache st).2.2) :
    Extends Q l0 (downloadAndInstall os.traced sv.traced cfg dep noCache st).2.2 := by
  have hOS : ∀ c, c.isOS = true → Q c = true := fun c hc =>
    hQ c (isOS_not_source c hc).1 (isOS_not_source c hc).2.1
  unfold downloadAndInstall
  rcases ha : downloadArchivesIfNeeded os.traced sv.traced dep noCache st with ⟨ra, s1⟩
  rw [ha] at h
  cases ra with
  | error e => exact h
  | ok sourceDir =>
    simp only []
    have h2 := createBuildDirIfNeeded_log os sv Q hQ cfg dep cfg.BuildTag sourceDir l0 s1 h
    rcases hb2 : createBuildDirIfNeeded os.traced sv.traced cfg dep cfg.BuildTag sourceDir s1
      with ⟨rb, s2⟩
    rw [hb2] at h2
    cases rb with
    | error e => exact h2
    | ok depBuildDir =>
      simp only []
      by_cases hb : dep.BuildSystem ≠ [] ∧ dep.BuildSystem ≠ "none".toList
      · rw [if_pos hb]
        have h3 := compileInBuildDir_log os sv Q hQ cfg dep depBuildDir
          (getDepInstallDir cfg dep cfg.BuildTag) noCache l0 s2 h2
        rcases hc : compileInBuildDir os.traced sv.traced cfg dep depBuildDir
          (getDepInstallDir cfg dep cfg.BuildTag) noCache s2 with ⟨rc, s3⟩
        rw [hc] at h3
        cases rc with
        | some e => exact h3
        | none =>
          simp only []
          have h4 := linkToProjectDir_log os Q hOS cfg dep l0 s3 h3
          rcases hl : linkToProjectDir os.traced cfg dep s3 with ⟨rl, s4⟩
          rw [hl] at h4
          cases rl <;> exact h4
      · rw [if_neg hb]
        simp only []
        have h4 := linkToProjectDir_log os Q hOS cfg dep l0 s2 h2
        rcases hl : linkToProjectDir os.traced cfg dep s2 with ⟨rl, s4⟩
        rw [hl] at h4
        cases rl <;> exact h4

/-! ### Forced installation (C13) -/

/-- The log of `downloadArchivesIfNeeded` when the cache is consulted and
holds the dependency: no fetch, and a retrieval into the scratch directory
once that directory exists. -/
theorem downloadArchives_cached {σ : Type} (os : OS σ) (sv : Services σ) (dep : Dependency)
    (s : σ) (hc : (sv.IsCachedDownloads dep s).1 = true) :
    Extends (fun c => !c.isDownload) []
      (downloadArchivesIfNeeded os.traced sv.traced dep false (s, [])).2.2 ∧
    ∀ tempDir s2,
      os.MkdirTemp "buildfly-cache-*".toList (sv.IsCachedDownloads dep s).2 = (.ok tempDir, s2) →
      Call.Retrieve dep tempDir ∈
        (downloadArchivesIfNeeded os.traced sv.traced dep false (s, [])).2.2 := by
  unfold downloadArchivesIfNeeded
  simp only [Bool.not_false, if_true, Services.traced, OS.traced, hc, List.nil_append]
  rcases os.MkdirTemp "buildfly-cache-*".toList (sv.IsCachedDownloads dep s).2 with ⟨rt, s2⟩
  cases rt with
  | error e =>
    refine ⟨⟨_, (List.nil_append _).symm, ?_⟩, ?_⟩
    · intro c hc
      simp only [List.cons_append, List.nil_append, List.mem_cons, List.mem_singleton,
        List.not_mem_nil, or_false] at hc
      rcases hc with h | h <;> rw [h] <;> rfl
    · intro tempDir s3 h
      simp at h
  | ok tmp =>
    simp only []
    rcases sv.Retrieve dep tmp s2 with ⟨rr, s3⟩
    cases rr with
    | some e =>
      refine ⟨⟨_, (List.nil_append _).symm, ?_⟩, ?_⟩
      · intro c hc
        simp only [List.cons_append, List.nil_append, List.mem_cons, List.mem_singleton,
          List.not_mem_nil, or_false] at hc
        rcases hc with h | h | h | h <;> rw [h] <;> rfl
      · intro tempDir s4 h
        simp only [Prod.mk.injEq, Except.ok.injEq] at h
        rw [← h.1]
        simp
    | none =>
      refine ⟨⟨_, (List.nil_append _).symm, ?_⟩, ?_⟩
      · intro c hc
        simp only [List.cons_append, List.nil_append, List.mem_cons, List.mem_singleton,
          List.not_mem_nil, or_false] at hc
        rcases hc with h | h | h <;> rw [h] <;> rfl
      · intro tempDir s4 h
        simp only [Prod.mk.injEq, Except.ok.injEq] at h
        rw [← h.1]
        simp

/-- The log of `downloadArchivesIfNeeded` when the cache is not consulted or
does not hold the dependency: no retrieval, and a fetch into the scratch
directory once that directory exists. -/
theorem downloadArchives_fetch {σ : Type} (os : OS σ) (sv : Services σ) (dep : Dependency)
    (noCache : Bool) (s : σ)
    (hc : noCache = true ∨ (sv.IsCachedDownloads dep s).1 = false) :
    Extends (fun c => !c.isRetrieve) []
      (downloadArchivesIfNeeded os.traced sv.traced dep noCache (s, [])).2.2 ∧
    ∀ tempDir s2,
      os.MkdirTemp "buildfly-download-*".toList
        (if noCache = true then s else (sv.IsCachedDownloads dep s).2) = (.ok tempDir, s2) →
      Call.Download dep tempDir ∈
        (downloadArchivesIfNeeded os.traced sv.traced dep noCache (s, [])).2.2 := by
  unfold downloadArchivesIfNeeded
  have hstart : (if (!noCache) = true then sv.traced.IsCachedDownloads dep (s, [])
      else (false, (s, []))) =
      (false, ((if noCache = true then s else (sv.IsCachedDownloads dep s).2),
        (if noCache = true then [] else [Call.IsCachedDownloads dep]))) := by
    cases noCache with
    | true => rfl
    | false =>
      have h2 : (sv.IsCachedDownloads dep s).1 = false := by simpa using hc
      simp [Services.traced, h2]
  rw [hstart]
  simp only [OS.traced]
  generalize (if noCache = true then s else (sv.IsCachedDownloads dep s).2) = s0
  generalize hl : (if noCache = true then [] else [Call.IsCachedDownloads dep]) = l
  have hlq : ∀ c ∈ l, (!c.isRetrieve) = true := by
    intro c hcl
    subst hl
    cases noCache with
    | true => simp at hcl
    | false => simp at hcl; rw [hcl]; rfl
  rcases os.MkdirTemp "buildfly-download-*".toList s0 with ⟨rt, s2⟩
  cases rt with
  | error e =>
    refine ⟨⟨_, (List.nil_append _).symm, ?_⟩, ?_⟩
    · intro c hc
      simp only [List.mem_append, List.mem_singleton] at hc
      rcases hc with h | h
      · exact hlq c h
      · rw [h]; rfl
    · intro tempDir s3 h
      simp at h
  | ok tmp =>
    simp only [Services.traced]
    rcases sv.Download dep tmp s2 with ⟨rr, s3⟩
    cases rr with
    | some e =>
      refine ⟨⟨_, (List.nil_append _).symm, ?_⟩, ?_⟩
      · intro c hc
        simp only [OS.traced, List.mem_append, List.mem_singleton] at hc
        rcases hc with ((h | h) | h) | h
        · exact hlq c h
        · rw [h]; rfl
        · rw [h]; rfl
        · rw [h]; rfl
      · intro tempDir s4 h
        simp only [Prod.mk.injEq, Except.ok.injEq] at h
        rw [← h.1]
        simp [OS.traced]
    | none =>
      simp only []
      refine ⟨⟨_, (List.nil_append _).symm, ?_⟩, ?_⟩
      · intro c hc
        cases noCache with
        | true =>
          simp only [Bool.not_true, Bool.false_eq_true, if_false, List.mem_append,
            List.mem_singleton] at hc
          rcases hc with (h | h) | h
          · exact hlq c h
          · rw [h]; rfl
          · rw [h]; rfl
        | false =>
          simp only [Bool.not_false, if_true, List.mem_append, List.mem_singleton] at hc
          rcases hc with ((h | h) | h) | h
          · exact hlq c h
          · rw [h]; rfl
          · rw [h]; rfl
          · rw [h]; rfl
      · intro tempDir s4 h
        simp only [Prod.mk.injEq, Except.ok.injEq] at h
        rw [← h.1]
        cases noCache <;> simp

/-- C13 (amended). With `force`, `installDependency` goes through
`downloadAndInstall`. When `no-cache` is also requested, or the download cache
has no entry, it never takes the source from the download cache and fetches it
with `DownloadManager.Download` into the scratch directory (once that
directory exists); without `no-cache` and with an entry in the download
cache, it retrieves the source from the cache and never calls the Fetch
Subsystem. -/
theorem force_source {σ : Type} (os : OS σ) (sv : Services σ) (cfg : ProjectConfig)
    (dep : Dependency) (noCache : Bool) (s : σ) :
    (noCache = true ∨ (sv.IsCachedDownloads dep s).1 = false →
      (∀ c ∈ (installDependency os.traced sv.traced cfg dep true noCache (s, [])).2.2,
        c.isRetrieve = false) ∧
      ∀ tempDir s2,
        os.MkdirTemp "buildfly-download-*".toList
          (if noCache = true then s else (sv.IsCachedDownloads dep s).2) = (.ok tempDir, s2) →
        Call.Download dep tempDir ∈
          (installDependency os.traced sv.traced cfg dep true noCache (s, [])).2.2) ∧
    (noCache = false → (sv.IsCachedDownloads dep s).1 = true →
      (∀ c ∈ (installDependency os.traced sv.traced cfg dep true noCache (s, [])).2.2,
        c.isDownload = false) ∧
      ∀ tempDir s2,
        os.MkdirTemp "buildfly-cache-*".toList (sv.IsCachedDownloads dep s).2 =
          (.ok tempDir, s2) →
        Call.Retrieve dep tempDir ∈
          (installDependency os.traced sv.traced cfg dep true noCache (s, [])).2.2) := by
  have hforce : installDependency os.traced sv.traced cfg dep true noCache (s, []) =
      downloadAndInstall os.traced sv.traced cfg dep noCache (s, []) := by
    simp [installDependency]
  rw [hforce]
  constructor
  · intro hc
    obtain ⟨h1, h2⟩ := downloadArchives_fetch os sv dep noCache s hc
    constructor
    · have := downloadAndInstall_log os sv (fun c => !c.isRetrieve)
        (fun c _ hr => by simp [hr]) cfg dep noCache [] (s, []) h1
      obtain ⟨a, ha, hq⟩ := this
      intro c hcm
      rw [ha, List.nil_append] at hcm
      simpa using hq c hcm
    · intro tempDir s2 hm
      have := downloadAndInstall_log os sv (fun c => !c.isRetrieve)
        (fun c _ hr => by simp [hr]) cfg dep noCache _ (s, []) (Extends.refl _ _)
      exact this.mem _ (h2 tempDir s2 hm)
  · intro hn hc
    subst hn
    obtain ⟨h1, h2⟩ := downloadArchives_cached os sv dep s hc
    constructor
    · have := downloadAndInstall_log os sv (fun c => !c.isDownload)
        (fun c hd _ => by simp [hd]) cfg dep false [] (s, []) h1
      obtain ⟨a, ha, hq⟩ := this
      intro c hcm
      rw [ha, List.nil_append] at hcm
      simpa using hq c hcm
    · intro tempDir s2 hm
      have := downloadAndInstall_log os sv (fun c => !c.isDownload)
        (fun c hd _ => by simp [hd]) cfg dep false _ (s, []) (Extends.refl _ _)
      exact this.mem _ (h2 tempDir s2 hm)

/-- C13, as stated, fails: with `force`, without `no-cache` and with the
dependency in the download cache, `installDependency` succeeds, takes the
source from the download cache and never calls `DownloadManager.Download`. -/
theorem force_uses_download_cache :
    (sceneServices.IsCachedDownloads testLibDep { downloadCached := ["test-lib".toList] }).1
      = true ∧
    (installDependency sceneOS.traced sceneServices.traced defaultConfig testLibDep true false
      ({ downloadCached := ["test-lib".toList] }, [])).1 = none ∧
    Call.Retrieve testLibDep "/tmp/buildfly-cache-1".toList ∈
      (installDependency sceneOS.traced sceneServices.traced defaultConfig testLibDep true false
        ({ downloadCached := ["test-lib".toList] }, [])).2.2 ∧
    ((installDependency sceneOS.traced sceneServices.traced defaultConfig testLibDep true false
      ({ downloadCached := ["test-lib".toList] }, [])).2.2.any Call.isDownload) = false := by
  decide

theorem force_source_witness :
    (sceneServices.IsCachedDownloads testLibDep {}).1 = false ∧
    Call.Download testLibDep "/tmp/buildfly-download-1".toList ∈
      (installDependency sceneOS.traced sceneServices.traced defaultConfig testLibDep true false
        ({}, [])).2.2 :=
  ⟨by decide,
   ((force_source sceneOS sceneServices defaultConfig testLibDep false {}).1
      (Or.inr (by decide))).2 "/tmp/buildfly-download-1".toList {} (by decide)⟩

/-! ### Installing from the build cache (C14) -/

/-- The path of `installDependency` through the build cache, for any
operating system and any services. -/
theorem installDependency_from_build_cache {σ : Type} (os : OS σ) (sv : Services σ)
    (cfg : ProjectConfig) (dep : Dependency) (s s1 s2 s3 s4 s5 : σ)
    (hbs : dep.BuildSystem ≠ [] ∧ dep.BuildSystem ≠ "none".toList)
    (h1 : sv.IsCachedDownloads dep s = (true, s1))
    (h2 : sv.IsBuildCached dep cfg.BuildTag s1 = (true, s2))
    (h3 : os.MkdirAll (getDepInstallDir cfg dep cfg.BuildTag) s2 = (none, s3))
    (h4 : sv.RetrieveBuild dep (getDepInstallDir cfg dep cfg.BuildTag) cfg.BuildTag s3 =
      (none, s4))
    (h5 : linkToProjectDir os cfg dep s4 = (none, s5)) :
    installDependency os sv cfg dep false false s = (none, s5) := by
  simp only [installDependency, tryInstallFromCache, tryBuildFromCache, Bool.not_false,
    Bool.and_self, if_true, h1, h2, h3, h4, h5, hbs, ne_eq, not_false_eq_true, and_self]

/-- C14 (amended). For a dependency with a declared build system, without
`force` and `no-cache`, when the download cache and the build cache hold the
dependency, the install directory can be created, the retrieval from the build
cache succeeds and the linking into the project succeeds, `installDependency`
returns no error, copies the cached build into the install directory, and
calls neither the Build Executor nor the Fetch Subsystem. -/
theorem cached_build_skips_executor {σ : Type} (os : OS σ) (sv : Services σ)
    (cfg : ProjectConfig) (dep : Dependency) (s : σ) (st1 st2 st3 st4 st5 : σ × List Call)
    (hbs : dep.BuildSystem ≠ [] ∧ dep.BuildSystem ≠ "none".toList)
    (h1 : sv.traced.IsCachedDownloads dep (s, []) = (true, st1))
    (h2 : sv.traced.IsBuildCached dep cfg.BuildTag st1 = (true, st2))
    (h3 : os.traced.MkdirAll (getDepInstallDir cfg dep cfg.BuildTag) st2 = (none, st3))
    (h4 : sv.traced.RetrieveBuild dep (getDepInstallDir cfg dep cfg.BuildTag) cfg.BuildTag st3 =
      (none, st4))
    (h5 : linkToProjectDir os.traced cfg dep st4 = (none, st5)) :
    installDependency os.traced sv.traced cfg dep false false (s, []) = (none, st5) ∧
    Call.RetrieveBuild dep (getDepInstallDir cfg dep cfg.BuildTag) cfg.BuildTag ∈ st5.2 ∧
    ∀ c ∈ st5.2, c.isExecute = false ∧ c.isDownload = false := by
  refine ⟨installDependency_from_build_cache os.traced sv.traced cfg dep _ st1 st2 st3 st4 st5
    hbs h1 h2 h3 h4 h5, ?_⟩
  have e1 : st1.2 = [Call.IsCachedDownloads dep] := by
    have := congrArg (fun x => x.2.2) h1
    simpa [Services.traced] using this.symm
  have e2 : st2.2 = st1.2 ++ [Call.IsBuildCached dep cfg.BuildTag] := by
    have := congrArg (fun x => x.2.2) h2
    simpa [Services.traced] using this.symm
  have e3 : st3.2 = st2.2 ++ [Call.MkdirAll (getDepInstallDir cfg dep cfg.BuildTag)] := by
    have := congrArg (fun x => x.2.2) h3
    simpa [OS.traced] using this.symm
  have e4 : st4.2 = st3.2 ++
      [Call.RetrieveBuild dep (getDepInstallDir cfg dep cfg.BuildTag) cfg.BuildTag] := by
    have := congrArg (fun x => x.2.2) h4
    simpa [Services.traced] using this.symm
  have hlink := linkToProjectDir_log os (fun c => c.isOS) (fun _ h => h) cfg dep st4.2 st4
    (Extends.refl _ _)
  rw [h5] at hlink
  constructor
  · exact hlink.mem _ (by rw [e4]; simp)
  · have hno : ∀ c ∈ st4.2, (fun c : Call => c.isExecute || c.isDownload) c = false := by
      intro c hc
      rw [e4, e3, e2, e1] at hc
      simp only [List.mem_append, List.mem_singleton, List.mem_cons, List.not_mem_nil,
        or_false] at hc
      rcases hc with ((h | h) | h) | h <;> rw [h] <;> rfl
    have := hlink.none_of (K := fun c => c.isExecute || c.isDownload)
      (fun c hc => by simp [(isOS_not_source c hc).1, (isOS_not_source c hc).2.2]) hno
    intro c hc
    have h := this c hc
    simpa using h

/-- C14, as stated, fails: the download cache and the build cache hold the
dependency and the retrieval from the build cache succeeds, but the links
cannot be created; `tryBuildFromCache` gives up, `installDependency` falls
back to `downloadAndInstall`, and the Build Executor runs. -/
theorem cached_build_link_failure_builds :
    (sceneServices.IsCachedDownloads testLibDep
      { downloadCached := ["test-lib".toList], buildCached := ["test-lib".toList],
        readOnly := true }).1 = true ∧
    (sceneServices.IsBuildCached testLibDep defaultConfig.BuildTag
      { downloadCached := ["test-lib".toList], buildCached := ["test-lib".toList],
        readOnly := true }).1 = true ∧
    (sceneServices.RetrieveBuild testLibDep
      (getDepInstallDir defaultConfig testLibDep defaultConfig.BuildTag) defaultConfig.BuildTag
      { downloadCached := ["test-lib".toList], buildCached := ["test-lib".toList],
        readOnly := true }).1 = none ∧
    Call.RetrieveBuild testLibDep
      (getDepInstallDir defaultConfig testLibDep defaultConfig.BuildTag) defaultConfig.BuildTag ∈
      (installDependency sceneOS.traced sceneServices.traced defaultConfig testLibDep false false
        ({ downloadCached := ["test-lib".toList], buildCached := ["test-lib".toList],
           readOnly := true }, [])).2.2 ∧
    ((installDependency sceneOS.traced sceneServices.traced defaultConfig testLibDep false false
      ({ downloadCached := ["test-lib".toList], buildCached := ["test-lib".toList],
         readOnly := true }, [])).2.2.any Call.isExecute) = true := by
  decide

theorem cached_build_skips_executor_witness :
    (installDependency sceneOS.traced sceneServices.traced defaultConfig testLibDep false false
      ({ downloadCached := ["test-lib".toList], buildCached := ["test-lib".toList] }, [])).1 =
      none ∧
    ((installDependency sceneOS.traced sceneServices.traced defaultConfig testLibDep false false
      ({ downloadCached := ["test-lib".toList], buildCached := ["test-lib".toList] }, [])).2.2.any
        Call.isExecute) = false := by
  have h := cached_build_skips_executor sceneOS sceneServices defaultConfig testLibDep
    { downloadCached := ["test-lib".toList], buildCached := ["test-lib".toList] }
    _ _ _ _ _ (by decide) rfl rfl rfl rfl rfl
  refine ⟨by rw [h.1], ?_⟩
  rw [h.1]
  decide

/-! ### Linking a dependency that needs no build (C15) -/

/-- For every dependency that needs no build, the directory that
`linkToProjectDir` links from is the install directory of the project
configuration. -/
theorem linkSourceDir_nobuild (cfg : ProjectConfig) (dep : Dependency)
    (h : dep.BuildSystem = [] ∨ dep.BuildSystem = "none".toList) :
    linkSourceDir cfg dep = cfg.InstallDir := by
  unfold linkSourceDir
  rw [if_pos h]

/-! ### A batch of installations (C18) -/

/-- C18 (amended). `runInstall` installs the dependencies in the order of the
list and stops at the first failure: when the dependencies before `d` are
installed without error and the installation of `d` fails, the command
returns the error of `d` in the state that this failure leaves, so that the
dependencies after `d` are not attempted and the ones before `d` stay
installed; and an error that the command returns is always that of the first
dependency that fails. -/
theorem runInstall_stops_at_first_failure {σ : Type} (os : OS σ) (sv : Services σ)
    (cfg : ProjectConfig) (force noCache : Bool) :
    (∀ (before after : List Dependency) (d : Dependency) (s s1 s2 : σ) (err : GoError),
      runInstall os sv cfg force noCache before s = (none, s1) →
      installDependency os sv cfg d force noCache s1 = (some err, s2) →
      runInstall os sv cfg force noCache (before ++ d :: after) s = (some err, s2)) ∧
    (∀ (deps : List Dependency) (s s2 : σ) (err : GoError),
      runInstall os sv cfg force noCache deps s = (some err, s2) →
      ∃ before d after s1, deps = before ++ d :: after ∧
        runInstall os sv cfg force noCache before s = (none, s1) ∧
        installDependency os sv cfg d force noCache s1 = (some err, s2)) := by
  constructor
  · intro before
    induction before with
    | nil =>
      intro after d s s1 s2 err h1 h2
      simp only [runInstall, Prod.mk.injEq, true_and] at h1
      subst h1
      simp [runInstall, h2]
    | cons b rest ih =>
      intro after d s s1 s2 err h1 h2
      rw [runInstall] at h1
      rw [List.cons_append, runInstall]
      rcases hb : installDependency os sv cfg b force noCache s with ⟨rb, sb⟩
      rw [hb] at h1
      cases rb with
      | some e => simp at h1
      | none =>
        simp only [] at h1 ⊢
        exact ih after d sb s1 s2 err h1 h2
  · intro deps
    induction deps with
    | nil => intro s s2 err h; simp [runInstall] at h
    | cons b rest ih =>
      intro s s2 err h
      rw [runInstall] at h
      rcases hb : installDependency os sv cfg b force noCache s with ⟨rb, sb⟩
      rw [hb] at h
      cases rb with
      | some e =>
        simp only [Prod.mk.injEq, Option.some.injEq] at h
        refine ⟨[], b, rest, s, rfl, rfl, ?_⟩
        rw [hb, h.1, h.2]
      | none =>
        simp only [] at h
        obtain ⟨before, d, after, s1, hd, hr, hi⟩ := ih sb s2 err h
        refine ⟨b :: before, d, after, s1, by rw [hd]; rfl, ?_, hi⟩
        rw [runInstall, hb]
        exact hr

/-- C18, as stated, fails: the source of `test-lib` cannot be fetched and
that of `zlib` can. A batch of the two in this order returns the error of
`test-lib` and ends where the failed installation of `test-lib` ends: no
operation is run for `zlib`, which would have been installed without error. -/
theorem runInstall_aborts_batch :
    runInstall sceneOS.traced sceneServices.traced defaultConfig false false
        [testLibDep, zlibDep] ({ offline := ["test-lib".toList] }, []) =
      installDependency sceneOS.traced sceneServices.traced defaultConfig testLibDep false false
        ({ offline := ["test-lib".toList] }, []) ∧
    (runInstall sceneOS.traced sceneServices.traced defaultConfig false false
        [testLibDep, zlibDep] ({ offline := ["test-lib".toList] }, [])).1 ≠ none ∧
    (installDependency sceneOS.traced sceneServices.traced defaultConfig zlibDep false false
      (runInstall sceneOS.traced sceneServices.traced defaultConfig false false
        [testLibDep, zlibDep] ({ offline := ["test-lib".toList] }, [])).2).1 = none := by
  decide

theorem runInstall_stops_at_first_failure_witness :
    (runInstall sceneOS sceneServices defaultConfig false false [zlibDep, testLibDep, hdrDep]
      { offline := ["test-lib".toList] }).1 =
    (installDependency sceneOS sceneServices defaultConfig testLibDep false false
      { downloadCached := ["zlib".toList], buildCached := ["zlib".toList],
        offline := ["test-lib".toList] }).1 := by
  have h := (runInstall_stops_at_first_failure sceneOS sceneServices defaultConfig false
    false).1 [zlibDep] [hdrDep] testLibDep { offline := ["test-lib".toList] }
    { downloadCached := ["zlib".toList], buildCached := ["zlib".toList],
      offline := ["test-lib".toList] }
    { downloadCached := ["zlib".toList], buildCached := ["zlib".toList],
      offline := ["test-lib".toList] }
    (.errorf "failed to download archives: ".toList
      (.errorf "failed to download test-lib: ".toList
        (DownloadErrorWithCause (DownloadError "no valid URLs found".toList)
          "failed to download test-lib".toList)))
    (by decide) (by decide)
  rw [show [zlibDep, testLibDep, hdrDep] = [zlibDep] ++ testLibDep :: [hdrDep] from rfl, h]
  decide

/-! ### The file system with symbolic links -/

example : resolveFrom ["p".toList] "a/../b/./c".toList = ["p".toList, "b".toList, "c".toList] := by
  decide
example : resolveFrom ["p".toList] "/a/../../b".toList = ["b".toList] := by decide

example : (linkToProjectDir posix defaultConfig testLibDep projectFS).1 = none := by decide

example : (linkToProjectDir posix defaultConfig testLibDep projectFS).2.lstat
    ["p".toList, ".buildfly".toList, "install".toList, "test-lib".toList, "lib".toList] =
    some (.link "/home/u/.buildfly/install/test-lib/1.0.0/lib".toList) := by decide

example : (linkToProjectDir posix defaultConfig testLibDep projectFS).2.ReadFile
    "/p/.buildfly/install.txt".toList =
    .ok "/p/.buildfly/install/test-lib/include\n/p/.buildfly/install/test-lib/lib\n".toList := by
  decide

/-! ### The link manager -/

example : ((NewLinkManager "/p".toList).AtomicInstall "fmt".toList "8.0.1".toList []
    "/s".toList "/p/.buildfly/install/fmt".toList freshFS).1 = none := by decide

example : fmtInstalled.lstat
    ["p".toList, ".buildfly".toList, "install".toList, "fmt".toList, "lib".toList] =
    some (.link "/s/lib".toList) := by decide

example : fmtInstalled.ReadFile "/p/.buildfly/install.txt".toList =
    .ok "/p/.buildfly/install/fmt/lib\n".toList := by decide

example : fmtInstalled.lstat ["tmp".toList, "buildfly-install-0".toList] = none := by decide

/-! ### Resolving joined paths -/

theorem normalElems_mem (r : Bool) (out : List Str) (h : normalElems r out) :
    ∀ e ∈ out, e = "..".toList ∨ plainElem e := by
  obtain ⟨k, rest, hout, hrest, _⟩ := h
  intro e he
  rw [hout] at he
  rcases List.mem_append.mp he with h1 | h1
  · exact Or.inl (List.eq_of_mem_replicate h1)
  · exact Or.inr (hrest e h1)

theorem cleanStep_dotdot_snoc (r : Bool) (X : List Str) (last : Str) :
    cleanStep r (X ++ [last]) "..".toList =
      if last = "..".toList then X ++ [last] ++ ["..".toList] else X := by
  unfold cleanStep
  rw [if_neg (by decide), if_pos rfl]
  have : (X ++ [last]).getLast? = some last := by simp
  rw [this]
  simp only [List.dropLast_concat]

/-- Resolving the elements that `Clean` keeps gives what resolving the
original elements gives. -/
theorem foldl_resolve_clean (base : List Str) (l : List Str) (hl : ∀ e ∈ l, '/' ∉ e) :
    (l.foldl (cleanStep false) []).foldl (cleanStep true) base =
      l.foldl (cleanStep true) base := by
  induction l using List.reverseRecOn with
  | nil => rfl
  | append_singleton l e ih =>
    have hl2 : ∀ x ∈ l, '/' ∉ x := fun x hx => hl x (List.mem_append_left _ hx)
    have ih2 := ih hl2
    have hn := foldl_cleanStep_normal false l hl2 [] ⟨0, [], by simp, by simp, by simp⟩
    rw [List.foldl_append, List.foldl_append]
    simp only [List.foldl_cons, List.foldl_nil]
    rw [← ih2]
    generalize l.foldl (cleanStep false) [] = N at hn
    by_cases hskip : e = [] ∨ e = ".".toList
    · simp only [cleanStep, hskip, if_true]
    · by_cases hdd : e = "..".toList
      · subst hdd
        rcases List.eq_nil_or_concat N with hN | ⟨N2, last, hN⟩
        · subst hN
          rfl
        · rw [List.concat_eq_append] at hN
          subst hN
          by_cases hlast : last = "..".toList
          · rw [cleanStep_dotdot_snoc, if_pos hlast, List.foldl_append]
            rfl
          · have hp : plainElem last := by
              rcases normalElems_mem false _ hn last (by simp) with h | h
              · exact absurd h hlast
              · exact h
            rw [cleanStep_dotdot_snoc, if_neg hlast, List.foldl_append]
            simp only [List.foldl_cons, List.foldl_nil]
            rw [cleanStep_plainElem true _ last hp, cleanStep_dotdot_snoc, if_neg hlast]
      · have : cleanStep false N e = N ++ [e] := by
          simp only [cleanStep, hskip, hdd, if_false]
        rw [this, List.foldl_append]
        rfl

theorem Split_render_rel (out : List Str) (hn : normalElems false out) (ho : out ≠ []) :
    Split (Join out "/".toList) '/' = out :=
  Split_Join out '/' ho (fun p hp => (normalElems_ne_nil false out hn p hp).2)

/-- `resolveFrom` does not see whether a path was cleaned. -/
theorem resolveFrom_Clean (base : List Str) (q : Str) :
    resolveFrom base (Clean q) = resolveFrom base q := by
  by_cases hq : q = []
  · subst hq
    rfl
  · rw [Clean_eq_render q hq]
    have hn := cleanElems_normal q
    cases hr : HasPrefix q "/".toList with
    | true =>
      rw [hr] at hn
      have hR : resolveFrom base q = cleanElems q := by
        unfold resolveFrom cleanElems
        rw [hr]
        rfl
      rw [hR]
      generalize cleanElems q = out at hn
      by_cases ho : out = []
      · rw [ho]
        rfl
      · have h3 := cleanElems_render true out hn ho
        simp only [if_true] at h3
        have hp : HasPrefix ("/".toList ++ Join out "/".toList) "/".toList = true := h3.2.1
        have h4 : cleanElems ("/".toList ++ Join out "/".toList) = out := h3.2.2
        unfold cleanElems at h4
        rw [hp] at h4
        unfold resolveFrom renderClean
        rw [if_pos rfl, hp, if_pos rfl]
        exact h4
    | false =>
      rw [hr] at hn
      have hR : resolveFrom base q = (cleanElems q).foldl (cleanStep true) base := by
        unfold resolveFrom cleanElems
        rw [hr]
        exact (foldl_resolve_clean base _ (Split_no_sep q '/')).symm
      rw [hR]
      generalize cleanElems q = out at hn
      by_cases ho : out = []
      · rw [ho]
        rfl
      · have h3 := cleanElems_render false out hn ho
        simp only [Bool.false_eq_true, if_false, List.nil_append] at h3
        have hp : HasPrefix (Join out "/".toList) "/".toList = false := h3.2.1
        have hrender : renderClean false out = Join out "/".toList := by
          unfold renderClean
          rw [if_neg (by simp), if_neg ho]
        rw [hrender]
        unfold resolveFrom
        rw [hp, if_neg (by simp), Split_render_rel _ hn ho]

theorem Split_Join_cons (X : Str) (ps : List Str) (hps : ∀ p ∈ ps, plainElem p) :
    Split (Join (X :: ps) "/".toList) '/' = Split X '/' ++ ps := by
  induction ps generalizing X with
  | nil => simp [Join]
  | cons p rest ih =>
    have h1 := ih p (fun x hx => hps x (List.mem_cons_of_mem _ hx))
    have hp := hps p (List.mem_cons_self _ _)
    show Split (X ++ "/".toList ++ Join (p :: rest) "/".toList) '/' = _
    rw [List.append_assoc]
    show Split (X ++ '/' :: Join (p :: rest) "/".toList) '/' = _
    rw [Split_append_sep, h1, Split_of_not_mem hp.2.1]
    rfl

/-- The elements of a path joined with ordinary elements: those of the path,
followed by the elements. -/
theorem resolveFrom_join (base : List Str) (X : Str) (ps : List Str)
    (hps : ∀ p ∈ ps, plainElem p) (hne : ps ≠ []) :
    resolveFrom base (filepathJoin (X :: ps)) = resolveFrom base X ++ ps := by
  by_cases hX : X = []
  · subst hX
    cases ps with
    | nil => exact absurd rfl hne
    | cons p rest =>
      have hp := hps p (List.mem_cons_self _ _)
      rw [filepathJoin, if_pos rfl, filepathJoin, if_neg hp.1, resolveFrom_Clean]
      unfold resolveFrom
      rw [Split_Join_cons p rest (fun x hx => hps x (List.mem_cons_of_mem _ hx)),
        Split_of_not_mem hp.2.1]
      have hroot : HasPrefix (Join (p :: rest) "/".toList) "/".toList = false := by
        obtain ⟨c, cs, hc⟩ := List.exists_cons_of_ne_nil hp.1
        have hc1 : c ≠ '/' := fun e => hp.2.1 (by rw [hc, e]; exact List.mem_cons_self _ _)
        have hc2 : ¬ '/' = c := fun e => hc1 e.symm
        cases rest with
        | nil => simp [Join, hc, HasPrefix, List.isPrefixOf, hc2]
        | cons r rs => simp [Join, hc, HasPrefix, List.isPrefixOf, hc2]
      rw [hroot]
      simp only [Bool.false_eq_true, if_false, List.singleton_append]
      rw [foldl_cleanStep_plain true (p :: rest) hps]
      simp [HasPrefix, Split, cleanStep]
  · rw [filepathJoin, if_neg hX, resolveFrom_Clean]
    unfold resolveFrom
    rw [Split_Join_cons X ps hps, List.foldl_append]
    have hroot : HasPrefix (Join (X :: ps) "/".toList) "/".toList = HasPrefix X "/".toList := by
      cases ps with
      | nil => exact absurd rfl hne
      | cons p rest =>
        show HasPrefix (X ++ "/".toList ++ Join (p :: rest) "/".toList) "/".toList = _
        rw [List.append_assoc]
        exact HasPrefix_append X _ '/' hX
    rw [hroot, foldl_cleanStep_plain true ps hps]

example : resolveFrom ["p".toList] (filepathJoin ["a/../b".toList, "c".toList]) =
    ["p".toList, "b".toList, "c".toList] := by decide

/-! ### Laws of the file system with symbolic links -/

theorem lookupObj_append_some (objs rest : List (List Str × Obj)) (key : List Str) (x : Obj)
    (h : lookupObj objs key = some x) : lookupObj (objs ++ rest) key = some x := by
  induction objs with
  | nil => simp [lookupObj] at h
  | cons e es ih =>
    obtain ⟨k, o⟩ := e
    rw [List.cons_append, lookupObj]
    rw [lookupObj] at h
    by_cases hk : k = key
    · rw [if_pos hk] at h ⊢
      exact h
    · rw [if_neg hk] at h ⊢
      exact ih h

theorem lookupObj_append_none (objs rest : List (List Str × Obj)) (key : List Str)
    (h : lookupObj objs key = none) : lookupObj (objs ++ rest) key = lookupObj rest key := by
  induction objs with
  | nil => rfl
  | cons e es ih =>
    obtain ⟨k, o⟩ := e
    rw [List.cons_append, lookupObj]
    rw [lookupObj] at h
    by_cases hk : k = key
    · rw [if_pos hk] at h
      simp at h
    · rw [if_neg hk] at h ⊢
      exact ih h

/-- Appending an object at a key leaves the other keys alone. -/
theorem lookupObj_append_ne (objs : List (List Str × Obj)) (k key : List Str) (o : Obj)
    (h : k ≠ key) : lookupObj (objs ++ [(k, o)]) key = lookupObj objs key := by
  cases hl : lookupObj objs key with
  | some x => exact lookupObj_append_some objs _ key x hl
  | none =>
    rw [lookupObj_append_none objs _ key hl]
    simp [lookupObj, h]

theorem lookupObj_filter (objs : List (List Str × Obj)) (p key : List Str) :
    lookupObj (objs.filter (fun e => decide (¬ p <+: e.1))) key =
      if p <+: key then none else lookupObj objs key := by
  induction objs with
  | nil => simp [lookupObj]
  | cons e es ih =>
    obtain ⟨k, o⟩ := e
    by_cases hp : p <+: k
    · rw [List.filter_cons_of_neg (by simpa using hp), ih]
      by_cases hk : k = key
      · subst hk
        rw [if_pos hp, if_pos hp]
      · conv_rhs => rw [lookupObj, if_neg hk]
    · rw [List.filter_cons_of_pos (by simpa using hp)]
      by_cases hk : k = key
      · subst hk
        rw [lookupObj, if_pos rfl, if_neg hp, lookupObj, if_pos rfl]
      · rw [lookupObj, if_neg hk, ih]
        conv_rhs => rw [lookupObj, if_neg hk]

theorem lookupObj_setObj (objs : List (List Str × Obj)) (k key : List Str) (o : Obj) :
    lookupObj (setObj objs k o) key = if key = k then some o else lookupObj objs key := by
  induction objs with
  | nil =>
    simp only [setObj, lookupObj]
    by_cases h : k = key
    · rw [if_pos h, if_pos h.symm]
    · rw [if_neg h, if_neg (fun e => h e.symm)]
  | cons e es ih =>
    obtain ⟨k2, o2⟩ := e
    rw [setObj]
    by_cases h2 : k2 = k
    · rw [if_pos h2]
      subst h2
      by_cases hk : k2 = key
      · rw [lookupObj, if_pos hk, if_pos hk.symm]
      · rw [lookupObj, if_neg hk, if_neg (fun e => hk e.symm)]
        conv_rhs => rw [lookupObj, if_neg hk]
    · rw [if_neg h2]
      by_cases hk : k2 = key
      · rw [lookupObj, if_pos hk]
        subst hk
        rw [if_neg h2]
        conv_rhs => rw [lookupObj, if_pos rfl]
      · rw [lookupObj, if_neg hk, ih]
        conv_rhs => rw [lookupObj, if_neg hk]

theorem resolve_of_cwd (fs fs2 : FS) (h : fs2.cwd = fs.cwd) (path : Str) :
    fs2.resolve path = fs.resolve path := by
  unfold FS.resolve
  rw [h]

theorem Abs_of_cwd (fs fs2 : FS) (h : fs2.cwd = fs.cwd) (path : Str) :
    fs2.Abs path = fs.Abs path := by
  unfold FS.Abs
  rw [resolve_of_cwd fs fs2 h]

/-- `os.Stat` on a path that holds no symbolic link finds what `os.Lstat`
finds. -/
theorem stat_of_lstat (fs : FS) (key : List Str) (h : ∀ t, fs.lstat key ≠ some (.link t)) :
    fs.stat key = (fs.lstat key).map (fun o => (key, o)) := by
  unfold FS.stat
  rw [FS.statFrom]
  cases hl : fs.lstat key with
  | none => rfl
  | some o =>
    cases o with
    | link t => exact absurd hl (h t)
    | file c => rfl
    | dir => rfl

/-- The frame of `os.MkdirAll`: only a path that leads to the new directory
can change. -/
theorem mkdirFrom_frame : ∀ (todo done : List Str) (fs fs1 : FS),
    fs.mkdirFrom done todo = (none, fs1) →
    fs1.cwd = fs.cwd ∧ ∀ k, ¬ k <+: done ++ todo → fs1.lstat k = fs.lstat k := by
  intro todo
  induction todo with
  | nil =>
    intro done fs fs1 h
    simp only [FS.mkdirFrom, Prod.mk.injEq, true_and] at h
    subst h
    exact ⟨rfl, fun _ _ => rfl⟩
  | cons e todo ih =>
    intro done fs fs1 h
    rw [FS.mkdirFrom] at h
    have happ : done ++ e :: todo = (done ++ [e]) ++ todo := by simp
    cases hl : fs.lstat (done ++ [e]) with
    | none =>
      rw [hl] at h
      simp only [] at h
      obtain ⟨h1, h2⟩ := ih _ _ _ h
      refine ⟨h1, fun k hk => ?_⟩
      rw [h2 k (by rw [← happ]; exact hk)]
      have hne : done ++ [e] ≠ k := by
        intro he
        apply hk
        rw [← he, happ]
        exact List.prefix_append _ _
      unfold FS.lstat
      by_cases hk0 : k = []
      · rw [if_pos hk0, if_pos hk0]
      · rw [if_neg hk0, if_neg hk0]
        exact lookupObj_append_ne _ _ _ _ hne
    | some o =>
      rw [hl] at h
      cases o with
      | dir =>
        simp only [] at h
        obtain ⟨h1, h2⟩ := ih _ _ _ h
        exact ⟨h1, fun k hk => h2 k (by rw [← happ]; exact hk)⟩
      | file c => simp at h
      | link t =>
        simp only [] at h
        split_ifs at h
        · simp only [Prod.mk.injEq, true_and] at h
          subst h
          exact ⟨rfl, fun _ _ => rfl⟩
        · simp at h

theorem MkdirAll_frame (fs fs1 : FS) (path : Str) (h : fs.MkdirAll path = (none, fs1)) :
    fs1.cwd = fs.cwd ∧ ∀ k, ¬ k <+: fs.resolve path → fs1.lstat k = fs.lstat k := by
  have := mkdirFrom_frame (fs.resolve path) [] fs fs1 h
  simpa using this

/-- The names that `os.ReadDir` lists are ordinary path elements, each listed
once. -/
theorem entryNames_plain (fs : FS) (key : List Str) :
    (∀ n ∈ fs.entryNames key, plainElem n) ∧ (fs.entryNames key).Nodup := by
  unfold FS.entryNames
  constructor
  · intro n hn
    rw [(List.perm_insertionSort _ _).mem_iff, List.mem_dedup, List.mem_map] at hn
    obtain ⟨e, he, hen⟩ := hn
    rw [List.mem_filter] at he
    have := he.2
    simp only [decide_eq_true_eq] at this
    rw [← hen]
    exact this.2.2
  · exact (List.perm_insertionSort _ _).nodup_iff.mpr (List.nodup_dedup _)

theorem ReadDir_plain (fs : FS) (path : Str) (entries : List Str)
    (h : fs.ReadDir path = .ok entries) :
    (∀ n ∈ entries, plainElem n) ∧ entries.Nodup := by
  unfold FS.ReadDir at h
  split at h
  · simp only [Except.ok.injEq] at h
    rw [← h]
    exact entryNames_plain fs _
  · simp at h
  · simp at h

theorem lstat_append_ne (fs : FS) (key k : List Str) (o : Obj) (h : key ≠ k) :
    FS.lstat { fs with objs := fs.objs ++ [(key, o)] } k = fs.lstat k := by
  unfold FS.lstat
  by_cases hk0 : k = []
  · rw [if_pos hk0, if_pos hk0]
  · rw [if_neg hk0, if_neg hk0]
    exact lookupObj_append_ne _ _ _ _ h

theorem lstat_append_new (fs : FS) (key : List Str) (o : Obj) (hne : key ≠ [])
    (h : (fs.lstat key).isSome = false) :
    FS.lstat { fs with objs := fs.objs ++ [(key, o)] } key = some o := by
  unfold FS.lstat at h ⊢
  rw [if_neg hne] at h ⊢
  have hn : lookupObj fs.objs key = none := by
    cases hl : lookupObj fs.objs key with
    | none => rfl
    | some x => rw [hl] at h; simp at h
  rw [lookupObj_append_none _ _ _ hn]
  simp [lookupObj]

theorem lstat_setObj (fs : FS) (at_ k : List Str) (o : Obj) (hne : at_ ≠ []) :
    FS.lstat { fs with objs := setObj fs.objs at_ o } k =
      if k = at_ then some o else fs.lstat k := by
  unfold FS.lstat
  by_cases hk0 : k = []
  · rw [if_pos hk0, if_pos hk0, if_neg (by rw [hk0]; exact fun e => hne e.symm)]
  · rw [if_neg hk0, if_neg hk0]
    exact lookupObj_setObj _ _ _ _

/-- What `os.RemoveAll` leaves at each path. -/
theorem RemoveAll_lstat (fs : FS) (path : Str) (hne : fs.resolve path ≠ []) :
    (fs.RemoveAll path).1 = none ∧ (fs.RemoveAll path).2.cwd = fs.cwd ∧
    ∀ k, (fs.RemoveAll path).2.lstat k =
      if fs.resolve path <+: k then none else fs.lstat k := by
  unfold FS.RemoveAll
  rw [if_neg hne]
  refine ⟨rfl, rfl, fun k => ?_⟩
  unfold FS.lstat
  by_cases hk0 : k = []
  · subst hk0
    rw [if_pos rfl, if_pos rfl, if_neg]
    intro h
    exact hne (List.prefix_nil.mp h)
  · rw [if_neg hk0, if_neg hk0]
    exact lookupObj_filter _ _ _

theorem prefix_snoc_same_length {α : Type} (base : List α) (a b : α)
    (h : base ++ [a] <+: base ++ [b]) : a = b := by
  have hl : (base ++ [a]).length = (base ++ [b]).length := by simp
  have := h.eq_of_length hl
  simpa using this

/-- The first loop of `linkToProjectDir` on the file system: every entry gets
its link, and nothing else changes outside the target paths. -/
theorem linkEntries_posix (S T : Str) :
    ∀ (entries linkDirs : List Str) (fs fs2 : FS) (out : List Str),
      (∀ n ∈ entries, plainElem n) → entries.Nodup →
      linkEntries posix S T entries linkDirs fs = (.ok out, fs2) →
      out = linkDirs ++ entries.map (fun n => filepathJoin [T, n]) ∧
      fs2.cwd = fs.cwd ∧
      (∀ n ∈ entries,
        fs2.lstat (fs.resolve T ++ [n]) = some (.link (fs.Abs (filepathJoin [S, n])))) ∧
      (∀ k, (∀ n ∈ entries, ¬ (fs.resolve T ++ [n]) <+: k) → fs2.lstat k = fs.lstat k) := by
  intro entries
  induction entries with
  | nil =>
    intro linkDirs fs fs2 out _ _ h
    simp only [linkEntries, Prod.mk.injEq, Except.ok.injEq] at h
    obtain ⟨h1, h2⟩ := h
    subst h1 h2
    exact ⟨by simp, rfl, by simp, fun _ _ => rfl⟩
  | cons n rest ih =>
    intro linkDirs fs fs2 out hplain hnodup h
    have hn : plainElem n := hplain n (List.mem_cons_self _ _)
    have hrest : ∀ x ∈ rest, plainElem x := fun x hx => hplain x (List.mem_cons_of_mem _ hx)
    have hnd := List.nodup_cons.mp hnodup
    have hkey : fs.resolve (filepathJoin [T, n]) = fs.resolve T ++ [n] :=
      resolveFrom_join fs.cwd T [n] (by simpa using hn) (by simp)
    have hkne : fs.resolve (filepathJoin [T, n]) ≠ [] := by rw [hkey]; simp
    rw [linkEntries] at h
    simp only [posix] at h
    -- the state after the removal of what is at the target path
    obtain ⟨fsr, hfsr, hcwd_r, hlstat_r⟩ : ∃ fsr : FS,
        (if fs.Lstat (filepathJoin [T, n]) = true then fs.RemoveAll (filepathJoin [T, n])
          else (none, fs)) = (none, fsr) ∧ fsr.cwd = fs.cwd ∧
        ∀ k, ¬ (fs.resolve T ++ [n]) <+: k → fsr.lstat k = fs.lstat k := by
      by_cases hf : fs.Lstat (filepathJoin [T, n]) = true
      · rw [if_pos hf]
        obtain ⟨r1, r2, r3⟩ := RemoveAll_lstat fs _ hkne
        refine ⟨(fs.RemoveAll (filepathJoin [T, n])).2, ?_, r2, fun k hk => ?_⟩
        · rw [← r1]
        · rw [r3 k, hkey, if_neg hk]
      · rw [if_neg hf]
        exact ⟨fs, rfl, rfl, fun _ _ => rfl⟩
    rw [hfsr] at h
    simp only [] at h
    -- the link is created
    unfold FS.Symlink at h
    simp only [] at h
    split_ifs at h with hex hpar
    · simp at h
    · simp only [] at h
      have hkey_r : fsr.resolve (filepathJoin [T, n]) = fs.resolve T ++ [n] := by
        rw [resolve_of_cwd fs fsr hcwd_r, hkey]
      rw [hkey_r] at h hex
      obtain ⟨i1, i2, i3, i4⟩ := ih _ _ _ _ hrest hnd.2 h
      have hcwd3 : (FS.mk fsr.cwd (fsr.objs ++ [(fs.resolve T ++ [n],
          Obj.link (fsr.Abs (filepathJoin [S, n])))]) fsr.tempDir fsr.nextTemp).cwd = fs.cwd :=
        hcwd_r
      have hres3 : ∀ p, (FS.mk fsr.cwd (fsr.objs ++ [(fs.resolve T ++ [n],
          Obj.link (fsr.Abs (filepathJoin [S, n])))]) fsr.tempDir fsr.nextTemp).resolve p =
          fs.resolve p := fun p => resolve_of_cwd fs _ hcwd3 p
      refine ⟨?_, ?_, ?_, ?_⟩
      · rw [i1]
        simp
      · rw [i2]
        exact hcwd_r
      · intro x hx
        rcases List.mem_cons.mp hx with hxn | hxr
        · subst hxn
          have hframe := i4 (fs.resolve T ++ [x]) (by
            intro y hy hpre
            rw [hres3] at hpre
            have := prefix_snoc_same_length (fs.resolve T) _ _ hpre
            exact hnd.1 (this ▸ hy))
          rw [hframe]
          have := lstat_append_new fsr (fs.resolve T ++ [x])
            (Obj.link (fsr.Abs (filepathJoin [S, x]))) (by simp) (by simpa using hex)
          rw [this, Abs_of_cwd fs fsr hcwd_r]
        · have := i3 x hxr
          rw [hres3, Abs_of_cwd fs _ hcwd3] at this
          exact this
      · intro k hk
        have h1 := i4 k (fun y hy => by rw [hres3]; exact hk y (List.mem_cons_of_mem _ hy))
        have hkn := hk n (List.mem_cons_self _ _)
        rw [h1, lstat_append_ne fsr _ k _ (fun e => hkn (e ▸ List.prefix_refl _)),
          hlstat_r k hkn]
    · simp at h

/-- What opening the install record for appending leaves at each path, when
the record is not a symbolic link. -/
theorem OpenAppend_lstat (fs fs4 : FS) (path : Str) (hne : fs.resolve path ≠ [])
    (hl : ∀ t, fs.lstat (fs.resolve path) ≠ some (.link t))
    (h : fs.OpenAppend path = (none, fs4)) :
    fs4.cwd = fs.cwd ∧
    fs4.lstat (fs.resolve path) =
      some (.file (match fs.lstat (fs.resolve path) with
        | some (.file c) => c
        | _ => [])) ∧
    ∀ k, k ≠ fs.resolve path → fs4.lstat k = fs.lstat k := by
  unfold FS.OpenAppend FS.writeWith at h
  simp only [] at h
  rw [stat_of_lstat fs _ hl] at h
  cases hls : fs.lstat (fs.resolve path) with
  | none =>
    rw [hls] at h
    simp only [Option.map_none'] at h
    split_ifs at h with hc
    · simp only [Prod.mk.injEq, true_and] at h
      subst h
      refine ⟨rfl, ?_, fun k hk => ?_⟩
      · exact lstat_append_new fs _ _ hne (by rw [hls]; rfl)
      · exact lstat_append_ne fs _ k _ (fun e => hk e.symm)
    · simp at h
  | some o =>
    rw [hls] at h
    cases o with
    | link t => exact absurd hls (hl t)
    | dir => simp at h
    | file c =>
      simp only [Option.map_some', Prod.mk.injEq, true_and] at h
      subst h
      refine ⟨rfl, ?_, fun k hk => ?_⟩
      · rw [lstat_setObj fs _ _ _ hne, if_pos rfl]
      · rw [lstat_setObj fs _ _ _ hne, if_neg hk]

/-- The second loop of `linkToProjectDir` on the file system: the lines are
appended to the install record, and nothing else changes. -/
theorem recordLinks_posix (path : Str) :
    ∀ (dirs : List Str) (fs : FS) (c : Str), fs.resolve path ≠ [] →
      fs.lstat (fs.resolve path) = some (.file c) →
      (recordLinks posix path dirs fs).1 = none ∧
      (recordLinks posix path dirs fs).2.cwd = fs.cwd ∧
      (recordLinks posix path dirs fs).2.lstat (fs.resolve path) =
        some (.file (c ++ dirs.flatMap (fun d => d ++ "\n".toList))) ∧
      ∀ k, k ≠ fs.resolve path → (recordLinks posix path dirs fs).2.lstat k = fs.lstat k := by
  intro dirs
  induction dirs with
  | nil =>
    intro fs c _ hl
    refine ⟨rfl, rfl, ?_, fun _ _ => rfl⟩
    simpa [recordLinks] using hl
  | cons d rest ih =>
    intro fs c hne hl
    have hnl : ∀ t, fs.lstat (fs.resolve path) ≠ some (.link t) := by
      intro t ht
      rw [hl] at ht
      simp at ht
    generalize hc2 : c ++ (d ++ "\n".toList) = c2
    have hW : posix.WriteString path (d ++ "\n".toList) fs =
        (none, FS.mk fs.cwd (setObj fs.objs (fs.resolve path) (.file c2)) fs.tempDir
          fs.nextTemp) := by
      show fs.WriteString path (d ++ "\n".toList) = _
      unfold FS.WriteString
      rw [stat_of_lstat fs _ hnl, hl]
      simp only [Option.map_some']
      rw [hc2]
    rw [recordLinks, hW]
    simp only []
    have hl2 : (FS.mk fs.cwd (setObj fs.objs (fs.resolve path) (.file c2)) fs.tempDir
        fs.nextTemp).lstat (fs.resolve path) = some (.file c2) := by
      have := lstat_setObj fs (fs.resolve path) (fs.resolve path) (.file c2) hne
      rw [if_pos rfl] at this
      exact this
    obtain ⟨j1, j2, j3, j4⟩ := ih (FS.mk fs.cwd (setObj fs.objs (fs.resolve path) (.file c2))
      fs.tempDir fs.nextTemp) c2 hne hl2
    refine ⟨j1, j2, ?_, fun k hk => ?_⟩
    · have : (FS.mk fs.cwd (setObj fs.objs (fs.resolve path) (.file c2)) fs.tempDir
          fs.nextTemp).resolve path = fs.resolve path := rfl
      rw [this] at j3
      rw [j3, ← hc2]
      simp [List.append_assoc]
    · have h4 := j4 k hk
      have h5 := lstat_setObj fs (fs.resolve path) k (.file c2) hne
      rw [if_neg hk] at h5
      rw [h4]
      exact h5

/-! ### Replacing links (C16) -/

theorem install_plain : plainElem "install".toList ∧ plainElem "install.txt".toList := by
  decide

theorem prefix_append_cancel {α : Type} (base a b : List α) (h : base ++ a <+: base ++ b) :
    a <+: b := by
  obtain ⟨t, ht⟩ := h
  rw [List.append_assoc] at ht
  exact ⟨t, List.append_cancel_left ht⟩

/-- C16 (amended). For every state of the file system and every dependency
whose name is an ordinary path element, when `linkToProjectDir` returns no
error, each target path is afterwards one symbolic link to the absolute path
of its source entry, whatever file, directory or link was there before, and
the install record (when it is not itself a symbolic link) holds its old text
followed by one new line for each target path: a repeated link step adds the
target paths again. -/
theorem link_replaces (cfg : ProjectConfig) (dep : Dependency) (fs fs2 : FS)
    (entries : List Str) (hname : plainElem dep.Name)
    (hrecord : ∀ t, fs.lstat (fs.resolve
      (filepathJoin [cfg.BuildFlyBaseDir, "install.txt".toList])) ≠ some (.link t))
    (hread : (fs.MkdirAll
      (filepathJoin [cfg.BuildFlyBaseDir, "install".toList, dep.Name])).2.ReadDir
        (linkSourceDir cfg dep) = .ok entries)
    (hrun : linkToProjectDir posix cfg dep fs = (none, fs2)) :
    (∀ n ∈ entries,
      fs2.lstat (fs2.resolve
        (filepathJoin [filepathJoin [cfg.BuildFlyBaseDir, "install".toList, dep.Name], n])) =
      some (.link (fs.Abs (filepathJoin [linkSourceDir cfg dep, n])))) ∧
    fs2.ReadFile (filepathJoin [cfg.BuildFlyBaseDir, "install.txt".toList]) =
      .ok ((match fs.ReadFile (filepathJoin [cfg.BuildFlyBaseDir, "install.txt".toList]) with
            | .ok text => text
            | .error _ => []) ++
        (entries.map (fun n => filepathJoin
          [filepathJoin [cfg.BuildFlyBaseDir, "install".toList, dep.Name], n])).flatMap
            (fun d => d ++ "\n".toList)) := by
  -- the paths
  generalize hT : filepathJoin [cfg.BuildFlyBaseDir, "install".toList, dep.Name] = T at *
  generalize hM : filepathJoin [cfg.BuildFlyBaseDir, "install.txt".toList] = M at *
  generalize hS : linkSourceDir cfg dep = S at *
  have hTk : fs.resolve T = fs.resolve cfg.BuildFlyBaseDir ++ ["install".toList, dep.Name] := by
    rw [← hT]
    exact resolveFrom_join fs.cwd _ _ (by
      intro p hp
      simp only [List.mem_cons, List.mem_singleton, List.not_mem_nil, or_false] at hp
      rcases hp with h | h
      · rw [h]; exact install_plain.1
      · rw [h]; exact hname) (by simp)
  have hMk : fs.resolve M = fs.resolve cfg.BuildFlyBaseDir ++ ["install.txt".toList] := by
    rw [← hM]
    exact resolveFrom_join fs.cwd _ _ (by
      intro p hp
      simp only [List.mem_singleton] at hp
      rw [hp]; exact install_plain.2) (by simp)
  have hMne : fs.resolve M ≠ [] := by rw [hMk]; simp
  have hM_T : ¬ fs.resolve M <+: fs.resolve T := by
    rw [hMk, hTk]
    intro h
    have := prefix_append_cancel _ _ _ h
    rw [List.cons_prefix_cons] at this
    exact absurd this.1 (by decide)
  have hkey_M : ∀ n, fs.resolve T ++ [n] ≠ fs.resolve M ∧
      ¬ (fs.resolve T ++ [n]) <+: fs.resolve M := by
    intro n
    have hnp : ¬ (fs.resolve T ++ [n]) <+: fs.resolve M := by
      rw [hMk, hTk, List.append_assoc]
      intro h
      have := prefix_append_cancel _ _ _ h
      have hlen := this.length_le
      simp at hlen
    exact ⟨fun e => hnp (e ▸ List.prefix_refl _), hnp⟩
  -- the run, step by step
  unfold linkToProjectDir at hrun
  simp only [] at hrun
  rw [hT, hM, hS] at hrun
  rcases hmk : posix.MkdirAll T fs with ⟨r1, fs1⟩
  rw [hmk] at hrun
  have hmk2 : fs.MkdirAll T = (r1, fs1) := hmk
  rw [hmk2] at hread
  cases r1 with
  | some e => simp at hrun
  | none =>
    simp only [] at hrun hread
    have hrd : posix.ReadDir S fs1 = (.ok entries, fs1) := by
      show (fs1.ReadDir S, fs1) = _
      rw [hread]
    rw [hrd] at hrun
    simp only [] at hrun
    rcases hle : linkEntries posix S T entries [] fs1 with ⟨rl, fs3⟩
    rw [hle] at hrun
    cases rl with
    | error e => simp at hrun
    | ok linkDirs =>
      simp only [] at hrun
      rcases hoa : posix.OpenAppend M fs3 with ⟨ro, fs4⟩
      rw [hoa] at hrun
      cases ro with
      | some e => simp at hrun
      | none =>
        simp only [] at hrun
        -- the frames
        obtain ⟨a1, a2⟩ := MkdirAll_frame fs fs1 T hmk2
        obtain ⟨hpl, hnd⟩ := ReadDir_plain fs1 S entries hread
        obtain ⟨b1, b2, b3, b4⟩ := linkEntries_posix S T entries [] fs1 fs3 linkDirs hpl hnd hle
        have hr1 : ∀ p, fs1.resolve p = fs.resolve p := resolve_of_cwd fs fs1 a1
        have hc3 : fs3.cwd = fs.cwd := b2.trans a1
        have hr3 : ∀ p, fs3.resolve p = fs.resolve p := resolve_of_cwd fs fs3 hc3
        have hm3 : fs3.lstat (fs.resolve M) = fs.lstat (fs.resolve M) := by
          rw [b4 _ (fun n _ => by rw [hr1]; exact (hkey_M n).2), a2 _ hM_T]
        have hoa2 : fs3.OpenAppend M = (none, fs4) := hoa
        obtain ⟨c1, c2, c3⟩ := OpenAppend_lstat fs3 fs4 M (by rw [hr3]; exact hMne)
          (by rw [hr3, hm3]; exact hrecord) hoa2
        rw [hr3, hm3] at c2
        rw [hr3] at c3
        have hc4 : fs4.cwd = fs.cwd := c1.trans hc3
        have hr4 : ∀ p, fs4.resolve p = fs.resolve p := resolve_of_cwd fs fs4 hc4
        obtain ⟨d1, d2, d3, d4⟩ := recordLinks_posix M linkDirs fs4 _
          (by rw [hr4]; exact hMne) (by rw [hr4]; exact c2)
        rw [hrun] at d1 d2 d3 d4
        simp only [] at d2 d3 d4
        rw [hr4] at d3 d4
        have hc2 : fs2.cwd = fs.cwd := d2.trans hc4
        have hr2 : ∀ p, fs2.resolve p = fs.resolve p := resolve_of_cwd fs fs2 hc2
        constructor
        · intro n hn
          have hkey : fs.resolve (filepathJoin [T, n]) = fs.resolve T ++ [n] :=
            resolveFrom_join fs.cwd T [n] (by simpa using hpl n hn) (by simp)
          rw [hr2, hkey, d4 _ (hkey_M n).1, c3 _ (hkey_M n).1]
          have := b3 n hn
          rw [hr1, Abs_of_cwd fs fs1 a1] at this
          exact this
        · have hnl2 : ∀ t, fs2.lstat (fs.resolve M) ≠ some (.link t) := by
            intro t ht
            rw [d3] at ht
            simp at ht
          unfold FS.ReadFile
          rw [hr2, stat_of_lstat fs2 _ hnl2, d3, stat_of_lstat fs _ hrecord, b1]
          simp only [Option.map_some', List.nil_append]
          cases hl0 : fs.lstat (fs.resolve M) with
          | none => rfl
          | some o =>
            cases o with
            | file c => rfl
            | dir => rfl
            | link t => exact absurd hl0 (hrecord t)

/-- C16, as stated, fails: the dependency `test-lib` is linked into the
project twice. Both runs succeed and the target `lib` is a link to the source
entry, but the install record then holds the target path twice. -/
theorem relink_duplicates_manifest :
    (linkToProjectDir posix defaultConfig testLibDep projectFS).1 = none ∧
    (linkToProjectDir posix defaultConfig testLibDep
      (linkToProjectDir posix defaultConfig testLibDep projectFS).2).1 = none ∧
    (linkToProjectDir posix defaultConfig testLibDep
      (linkToProjectDir posix defaultConfig testLibDep projectFS).2).2.lstat
        ["p".toList, ".buildfly".toList, "install".toList, "test-lib".toList, "lib".toList] =
      some (.link "/home/u/.buildfly/install/test-lib/1.0.0/lib".toList) ∧
    (linkToProjectDir posix defaultConfig testLibDep
      (linkToProjectDir posix defaultConfig testLibDep projectFS).2).2.ReadFile
        "/p/.buildfly/install.txt".toList =
      .ok ("/p/.buildfly/install/test-lib/include\n/p/.buildfly/install/test-lib/lib\n" ++
        "/p/.buildfly/install/test-lib/include\n/p/.buildfly/install/test-lib/lib\n").toList ∧
    (scanLines ("/p/.buildfly/install/test-lib/include\n/p/.buildfly/install/test-lib/lib\n" ++
        "/p/.buildfly/install/test-lib/include\n/p/.buildfly/install/test-lib/lib\n").toList).count
      "/p/.buildfly/install/test-lib/lib".toList = 2 := by
  decide

theorem link_replaces_witness :
    projectFS.lstat
      ["p".toList, ".buildfly".toList, "install".toList, "test-lib".toList, "lib".toList] =
      some (.file "stale".toList) ∧
    (linkToProjectDir posix defaultConfig testLibDep projectFS).2.lstat
      ((linkToProjectDir posix defaultConfig testLibDep projectFS).2.resolve
        (filepathJoin [filepathJoin [defaultConfig.BuildFlyBaseDir, "install".toList,
          testLibDep.Name], "lib".toList])) =
      some (.link (projectFS.Abs
        (filepathJoin [linkSourceDir defaultConfig testLibDep, "lib".toList]))) :=
  ⟨by decide,
   (link_replaces defaultConfig testLibDep projectFS
      (linkToProjectDir posix defaultConfig testLibDep projectFS).2
      ["include".toList, "lib".toList] (by decide)
      (fun t h => by
        have hn : projectFS.lstat (projectFS.resolve
            (filepathJoin [defaultConfig.BuildFlyBaseDir, "install.txt".toList])) = none := by
          decide
        rw [hn] at h
        exact absurd h (by simp))
      (by decide)
      (Prod.ext (by decide) rfl)).1 "lib".toList (by decide)⟩

/-! ### Uninstalling (C17) -/

/-- C17 fails on the code: after `AtomicInstall` of `fmt` has
created and recorded the link `/p/.buildfly/install/fmt/lib`,
`AtomicUninstall` of `fmt` returns no error and changes nothing: the link is
still there and the manifest still has its line. `readManifests` gives the
lines of the manifest to one record without a dependency name, so that no
link is found for `fmt`. -/
theorem uninstall_leaves_links :
    ((NewLinkManager "/p".toList).AtomicInstall "fmt".toList "8.0.1".toList []
      "/s".toList "/p/.buildfly/install/fmt".toList freshFS).1 = none ∧
    fmtInstalled.lstat
      ["p".toList, ".buildfly".toList, "install".toList, "fmt".toList, "lib".toList] =
      some (.link "/s/lib".toList) ∧
    fmtInstalled.ReadFile "/p/.buildfly/install.txt".toList =
      .ok "/p/.buildfly/install/fmt/lib\n".toList ∧
    (NewLinkManager "/p".toList).readManifests fmtInstalled =
      .ok [{ Links := [{ TargetPath := "/p/.buildfly/install/fmt/lib".toList }] }] ∧
    (NewLinkManager "/p".toList).AtomicUninstall "fmt".toList fmtInstalled =
      (none, fmtInstalled) := by
  decide

/-- With the empty name, `AtomicUninstall` finds every recorded link and
writes a flag file `remove_0.flag` for it, but the test of `executeUninstall`
compares the first eleven bytes of the name with the seven bytes of
`remove_`: the link stays, and the manifest is emptied. -/
theorem uninstall_flag_never_matches :
    isUninstallFlag "remove_0.flag".toList = false ∧
    ((NewLinkManager "/p".toList).AtomicUninstall [] fmtInstalled).1 = none ∧
    ((NewLinkManager "/p".toList).AtomicUninstall [] fmtInstalled).2.lstat
      ["p".toList, ".buildfly".toList, "install".toList, "fmt".toList, "lib".toList] =
      some (.link "/s/lib".toList) ∧
    ((NewLinkManager "/p".toList).AtomicUninstall [] fmtInstalled).2.ReadFile
      "/p/.buildfly/install.txt".toList = .ok [] := by
  decide

/-- A second `AtomicInstall` over an existing link fails in `prepareInstall`:
the directory that is to hold the flag file `remove.flag` is never created.
The old link and the manifest stay as they were. -/
theorem atomicInstall_again_fails :
    ((NewLinkManager "/p".toList).AtomicInstall "fmt".toList "8.0.1".toList []
      "/s".toList "/p/.buildfly/install/fmt".toList fmtInstalled).1 =
      some (.errorf "failed to prepare install: ".toList
        (.errorf "failed to create remove flag: ".toList
          (.sys "no such file or directory".toList))) ∧
    ((NewLinkManager "/p".toList).AtomicInstall "fmt".toList "8.0.1".toList []
      "/s".toList "/p/.buildfly/install/fmt".toList fmtInstalled).2.objs = fmtInstalled.objs := by
  decide

/-! ### The GPU invariant (C21) -/

example : ParseBuildTag "cuda=12.0".toList =
    .ok { GPU := some { Backend := "cuda".toList,
                        CUDA := some { Version := "12.0".toList, Enabled := true } } } := by
  decide

/-- C21 fails on the code: `ParseBuildTag` fills a sub-record for each back
end that the string mentions and sets `Backend` from the first key only, and
`Validate` checks the sub-record that `Backend` names and nothing else. The
descriptor parsed from `cuda=12.0,rocm=5.0` passes `Validate` with the CUDA
and the ROCm sub-records both populated, and the one parsed from
`gpu_backend=none,cuda=12.0` passes it with a CUDA sub-record under the back
end `none`. -/
theorem parsed_valid_not_exclusive :
    ParseBuildTag "cuda=12.0,rocm=5.0".toList =
      .ok { GPU := some { Backend := "cuda".toList,
                          CUDA := some { Version := "12.0".toList, Enabled := true },
                          ROCm := some { Version := "5.0".toList, Enabled := true } } } ∧
    BuildTag.Validate
      (some { GPU := some { Backend := "cuda".toList,
                            CUDA := some { Version := "12.0".toList, Enabled := true },
                            ROCm := some { Version := "5.0".toList, Enabled := true } } }) = none ∧
    ¬ gpuExclusive { Backend := "cuda".toList,
                     CUDA := some { Version := "12.0".toList, Enabled := true },
                     ROCm := some { Version := "5.0".toList, Enabled := true } } ∧
    ParseBuildTag "gpu_backend=none,cuda=12.0".toList =
      .ok { GPU := some { Backend := "none".toList,
                          CUDA := some { Version := "12.0".toList, Enabled := true } } } ∧
    BuildTag.Validate
      (some { GPU := some { Backend := "none".toList,
                            CUDA := some { Version := "12.0".toList, Enabled := true } } }) = none ∧
    ¬ gpuExclusive { Backend := "none".toList,
                     CUDA := some { Version := "12.0".toList, Enabled := true } } := by
  decide

/-! ### The order of the pairs (C29) -/

/-- C29. The result of `ParseBuildTag` depends on the order of the pairs:
the pairs `cuda=12.0` and `gpu_enabled=true` have different keys, the parser
succeeds on them in either order, and the two results have different
canonical strings (`cuda=12.0` and the empty string); the first passes
`Validate` and the second, whose back end is empty, fails it. -/
theorem parse_depends_on_order :
    ∃ (p q : Str) (r1 r2 : BuildTag),
      (SplitN2 p '=').head? ≠ (SplitN2 q '=').head? ∧
      ParseBuildTag (Join [p, q] ",".toList) = .ok r1 ∧
      ParseBuildTag (Join [q, p] ",".toList) = .ok r2 ∧
      BuildTag.String (some r1) ≠ BuildTag.String (some r2) ∧
      BuildTag.Validate (some r1) = none ∧
      BuildTag.Validate (some r2) = some (.invalidGPU (.invalidBackend [])) :=
  ⟨"cuda=12.0".toList, "gpu_enabled=true".toList,
    { GPU := some { Backend := "cuda".toList,
                    CUDA := some { Version := "12.0".toList, Enabled := true } } },
    { GPU := some { CUDA := some { Version := "12.0".toList, Enabled := true } } },
    by decide, by decide, by decide, by decide, by decide, by decide⟩

/-! ### Merging with the detected descriptor (C22) -/

theorem Clone_eq (bt : Option BuildTag) : BuildTag.Clone bt = bt := by
  cases bt with
  | none => rfl
  | some bt =>
    obtain ⟨a, p, r, c, s, b, t, g⟩ := bt
    cases g with
    | none => rfl
    | some g =>
      obtain ⟨be, cu, ro, oc⟩ := g
      cases cu <;> cases ro <;> cases oc <;> rfl

/-- The result of the merge, field by field. -/
theorem GetDefaultBuildTag_some (b d : BuildTag) :
    GetDefaultBuildTag (.ok d) (some b) =
      .ok { Arch := if b.Arch = [] then d.Arch else b.Arch,
            Platform := if b.Platform = [] then d.Platform else b.Platform,
            Runtime := if b.Runtime = [] then d.Runtime else b.Runtime,
            Compiler := if b.Compiler = [] then d.Compiler else b.Compiler,
            Std := if b.Std = [] then d.Std else b.Std,
            ABI := if b.ABI = [] then d.ABI else b.ABI,
            Target := if b.Target = [] then d.Target else b.Target,
            GPU := if b.GPU = none then d.GPU else b.GPU } := by
  obtain ⟨a, p, r, c, s, ab, t, g⟩ := b
  unfold GetDefaultBuildTag
  simp -zeta only [Clone_eq, Option.getD_some]
  lift_lets
  intro r0 r1 r2 r3 r4 r5 r6 r7 r8
  have h1 : r1 = ⟨if a = [] then d.Arch else a, p, r, c, s, ab, t, g⟩ := by
    by_cases h : a = [] <;> simp [r1, r0, h]
  clear_value r1
  subst h1
  have h2 : r2 = ⟨if a = [] then d.Arch else a, if p = [] then d.Platform else p, r, c, s, ab, t,
      g⟩ := by
    by_cases h : p = [] <;> simp [r2, h]
  clear_value r2
  subst h2
  have h3 : r3 = ⟨if a = [] then d.Arch else a, if p = [] then d.Platform else p,
      if r = [] then d.Runtime else r, c, s, ab, t, g⟩ := by
    by_cases h : r = [] <;> simp [r3, h]
  clear_value r3
  subst h3
  have h4 : r4 = ⟨if a = [] then d.Arch else a, if p = [] then d.Platform else p,
      if r = [] then d.Runtime else r, if c = [] then d.Compiler else c, s, ab, t, g⟩ := by
    by_cases h : c = [] <;> simp [r4, h]
  clear_value r4
  subst h4
  have h5 : r5 = ⟨if a = [] then d.Arch else a, if p = [] then d.Platform else p,
      if r = [] then d.Runtime else r, if c = [] then d.Compiler else c,
      if s = [] then d.Std else s, ab, t, g⟩ := by
    by_cases h : s = [] <;> simp [r5, h]
  clear_value r5
  subst h5
  have h6 : r6 = ⟨if a = [] then d.Arch else a, if p = [] then d.Platform else p,
      if r = [] then d.Runtime else r, if c = [] then d.Compiler else c,
      if s = [] then d.Std else s, if ab = [] then d.ABI else ab, t, g⟩ := by
    by_cases h : ab = [] <;> simp [r6, h]
  clear_value r6
  subst h6
  have h7 : r7 = ⟨if a = [] then d.Arch else a, if p = [] then d.Platform else p,
      if r = [] then d.Runtime else r, if c = [] then d.Compiler else c,
      if s = [] then d.Std else s, if ab = [] then d.ABI else ab,
      if t = [] then d.Target else t, g⟩ := by
    by_cases h : t = [] <;> simp [r7, h]
  clear_value r7
  subst h7
  have h8 : r8 = ⟨if a = [] then d.Arch else a, if p = [] then d.Platform else p,
      if r = [] then d.Runtime else r, if c = [] then d.Compiler else c,
      if s = [] then d.Std else s, if ab = [] then d.ABI else ab,
      if t = [] then d.Target else t, if g = none then d.GPU else g⟩ := by
    by_cases h : g = none <;> simp [r8, h]
  rw [h8]

example : GetDefaultBuildTag (.ok cudaTag) (some clangTag) =
    .ok { cudaTag with Compiler := "clang_15".toList, GPU := clangTag.GPU } := by
  decide

/-- C22. For every base descriptor, `nil` included, and every detected
descriptor, `GetDefaultBuildTag` returns a descriptor, and in it each of arch,
platform, runtime, compiler, std, abi and target is the value of the base when
that is not empty and the detected value otherwise, and the GPU sub-record is
the one of the base when it is present and the detected one otherwise. -/
theorem merge_fills_empty_fields (config : Option BuildTag) (detected : BuildTag) :
    ∃ r, GetDefaultBuildTag (.ok detected) config = .ok r ∧
      r.Arch = (if (config.getD {}).Arch ≠ [] then (config.getD {}).Arch else detected.Arch) ∧
      r.Platform =
        (if (config.getD {}).Platform ≠ [] then (config.getD {}).Platform
         else detected.Platform) ∧
      r.Runtime =
        (if (config.getD {}).Runtime ≠ [] then (config.getD {}).Runtime else detected.Runtime) ∧
      r.Compiler =
        (if (config.getD {}).Compiler ≠ [] then (config.getD {}).Compiler
         else detected.Compiler) ∧
      r.Std = (if (config.getD {}).Std ≠ [] then (config.getD {}).Std else detected.Std) ∧
      r.ABI = (if (config.getD {}).ABI ≠ [] then (config.getD {}).ABI else detected.ABI) ∧
      r.Target =
        (if (config.getD {}).Target ≠ [] then (config.getD {}).Target else detected.Target) ∧
      r.GPU = (if (config.getD {}).GPU ≠ none then (config.getD {}).GPU else detected.GPU) := by
  have hres : GetDefaultBuildTag (.ok detected) config =
      GetDefaultBuildTag (.ok detected) (some (config.getD {})) := by
    cases config <;> rfl
  rw [hres, GetDefaultBuildTag_some]
  generalize config.getD {} = b
  refine ⟨_, rfl, ?_, ?_, ?_, ?_, ?_, ?_, ?_, ?_⟩
  · by_cases h : b.Arch = [] <;> simp [h]
  · by_cases h : b.Platform = [] <;> simp [h]
  · by_cases h : b.Runtime = [] <;> simp [h]
  · by_cases h : b.Compiler = [] <;> simp [h]
  · by_cases h : b.Std = [] <;> simp [h]
  · by_cases h : b.ABI = [] <;> simp [h]
  · by_cases h : b.Target = [] <;> simp [h]
  · by_cases h : b.GPU = none <;> simp [h]

/-! ### Round trip of the canonical string (C28) -/

example : BuildTag.String (some splitArchTag) = "arch=x86_64,cuda_arch=sm_80|sm_90|sm_75".toList ∧
    ParseBuildTag (BuildTag.String (some splitArchTag)) =
      .ok { Arch := "x86_64".toList,
            GPU := some { Backend := "cuda".toList,
                          CUDA := some { Arch := ["sm_80".toList, "sm_90".toList, "sm_75".toList],
                                         Enabled := true } } } := by
  decide

/-- Joining undoes splitting. -/
theorem Join_Split (s : Str) (sep : Char) : Join (Split s sep) [sep] = s := by
  induction s with
  | nil => rfl
  | cons c cs ih =>
    unfold Split
    by_cases hc : c = sep
    · rw [if_pos hc]
      cases hs : Split cs sep with
      | nil => exact absurd hs (Split_ne_nil cs sep)
      | cons p ps =>
        rw [hs] at ih
        rw [Join, ih, hc]
        rfl
    · rw [if_neg hc]
      cases hs : Split cs sep with
      | nil => exact absurd hs (Split_ne_nil cs sep)
      | cons p ps =>
        rw [hs] at ih
        simp only
        cases ps with
        | nil =>
          simp only [Join] at ih ⊢
          rw [ih]
        | cons q qs =>
          simp only [Join] at ih ⊢
          rw [← ih]
          simp

/-- The value of a pair whose key has no `=`. -/
theorem valueOf_pair (k v : Str) (hk : '=' ∉ k) : valueOf (k ++ '=' :: v) = v := by
  have hall : ∀ x ∈ k, (fun c : Char => c != '=') x = true := by
    intro x hx
    have : x ≠ '=' := fun h => hk (h ▸ hx)
    simpa using this
  unfold valueOf
  rw [dropWhile_append_of_all _ _ _ hall]
  simp [List.dropWhile_cons]

/-- The parser on no pairs, for a descriptor without a GPU sub-record. -/
theorem parsePairs_nil_gpu (bt : BuildTag) (hbt : bt.GPU = none) :
    parsePairs [] bt = .ok { bt with GPU := none } := by
  obtain ⟨a, p, r, c, s, b, t, g⟩ := bt
  simp only at hbt
  subst hbt
  rfl

/-- The parser on the pairs that `String` writes for a CUDA sub-record: the
result has a GPU sub-record for which `String` writes the same pairs. -/
theorem parse_cuda_parts (bt : BuildTag) (ver : Str) (archs : List Str) (hbt : bt.GPU = none)
    (hpv : ver ≠ [] → plainValue ver)
    (hpa : archs.length > 0 → plainValue (Join archs "|".toList)) :
    ∃ g2 : Option GPUInfo,
      parsePairs ((if ver ≠ [] then ["cuda=".toList ++ ver] else []) ++
        (if archs.length > 0 then ["cuda_arch=".toList ++ Join archs "|".toList] else [])) bt =
        .ok { bt with GPU := g2 } ∧
      optGpuParts g2 =
        (if ver ≠ [] then ["cuda=".toList ++ ver] else []) ++
        (if archs.length > 0 then ["cuda_arch=".toList ++ Join archs "|".toList] else []) := by
  have hsplit : 0 < (Split (Join archs ['|']) '|').length :=
    List.length_pos.mpr (Split_ne_nil _ _)
  have hjoin : Join (Split (Join archs ['|']) '|') ['|'] = Join archs ['|'] :=
    Join_Split _ '|'
  by_cases hv : ver = []
  · by_cases ha : archs.length > 0
    · refine ⟨some (GPUInfo.mk "cuda".toList
          (some (CUDABackend.mk [] (Split (Join archs "|".toList) '|') true)) none none), ?_, ?_⟩
      · rw [if_neg (by simpa using hv), if_pos ha, List.nil_append]
        refine Eq.trans (parsePairs_pair 'c' "uda_arch".toList (Join archs "|".toList) [] _
          (by decide) (by decide) (by decide) (hpa ha).2) ?_
        simp [setKey, parsePairs, hbt]
      · rw [if_neg (by simpa using hv), if_pos ha]
        simp [optGpuParts, gpuParts, hsplit, hjoin]
    · refine ⟨none, ?_, ?_⟩
      · rw [if_neg (by simpa using hv), if_neg ha]
        exact parsePairs_nil_gpu bt hbt
      · rw [if_neg (by simpa using hv), if_neg ha]
        rfl
  · have hs : setKey bt ('c' :: "uda".toList) ver =
        .ok { bt with
              GPU := some (GPUInfo.mk "cuda".toList (some (CUDABackend.mk ver [] true))
                none none) } := by
      simp [setKey, hbt]
    by_cases ha : archs.length > 0
    · refine ⟨some (GPUInfo.mk "cuda".toList
          (some (CUDABackend.mk ver (Split (Join archs "|".toList) '|') true)) none none), ?_, ?_⟩
      · rw [if_pos hv, if_pos ha, List.singleton_append]
        refine Eq.trans (parsePairs_pair 'c' "uda".toList ver _ bt (by decide) (by decide)
          (by decide) (hpv hv).2) ?_
        rw [hs]
        simp only []
        refine Eq.trans (parsePairs_pair 'c' "uda_arch".toList (Join archs "|".toList) [] _
          (by decide) (by decide) (by decide) (hpa ha).2) ?_
        simp [setKey, parsePairs]
      · rw [if_pos hv, if_pos ha]
        simp [optGpuParts, gpuParts, hsplit, hjoin, hv]
    · refine ⟨some (GPUInfo.mk "cuda".toList (some (CUDABackend.mk ver [] true)) none none),
        ?_, ?_⟩
      · rw [if_pos hv, if_neg ha, List.append_nil]
        refine Eq.trans (parsePairs_pair 'c' "uda".toList ver _ bt (by decide) (by decide)
          (by decide) (hpv hv).2) ?_
        rw [hs]
        rfl
      · rw [if_pos hv, if_neg ha]
        simp [optGpuParts, gpuParts, hv]

/-- The parser on the pairs that `String` writes for a ROCm sub-record: the
result has a GPU sub-record for which `String` writes the same pairs. -/
theorem parse_rocm_parts (bt : BuildTag) (ver : Str) (archs : List Str) (hbt : bt.GPU = none)
    (hpv : ver ≠ [] → plainValue ver)
    (hpa : archs.length > 0 → plainValue (Join archs "|".toList)) :
    ∃ g2 : Option GPUInfo,
      parsePairs ((if ver ≠ [] then ["rocm=".toList ++ ver] else []) ++
        (if archs.length > 0 then ["rocm_arch=".toList ++ Join archs "|".toList] else [])) bt =
        .ok { bt with GPU := g2 } ∧
      optGpuParts g2 =
        (if ver ≠ [] then ["rocm=".toList ++ ver] else []) ++
        (if archs.length > 0 then ["rocm_arch=".toList ++ Join archs "|".toList] else []) := by
  have hsplit : 0 < (Split (Join archs ['|']) '|').length :=
    List.length_pos.mpr (Split_ne_nil _ _)
  have hjoin : Join (Split (Join archs ['|']) '|') ['|'] = Join archs ['|'] :=
    Join_Split _ '|'
  by_cases hv : ver = []
  · by_cases ha : archs.length > 0
    · refine ⟨some (GPUInfo.mk "rocm".toList none
          (some (ROCmBackend.mk [] (Split (Join archs "|".toList) '|') true)) none), ?_, ?_⟩
      · rw [if_neg (by simpa using hv), if_pos ha, List.nil_append]
        refine Eq.trans (parsePairs_pair 'r' "ocm_arch".toList (Join archs "|".toList) [] _
          (by decide) (by decide) (by decide) (hpa ha).2) ?_
        simp [setKey, parsePairs, hbt]
      · rw [if_neg (by simpa using hv), if_pos ha]
        simp [optGpuParts, gpuParts, hsplit, hjoin]
    · refine ⟨none, ?_, ?_⟩
      · rw [if_neg (by simpa using hv), if_neg ha]
        exact parsePairs_nil_gpu bt hbt
      · rw [if_neg (by simpa using hv), if_neg ha]
        rfl
  · have hs : setKey bt ('r' :: "ocm".toList) ver =
        .ok { bt with
              GPU := some (GPUInfo.mk "rocm".toList none (some (ROCmBackend.mk ver [] true))
                none) } := by
      simp [setKey, hbt]
    by_cases ha : archs.length > 0
    · refine ⟨some (GPUInfo.mk "rocm".toList none
          (some (ROCmBackend.mk ver (Split (Join archs "|".toList) '|') true)) none), ?_, ?_⟩
      · rw [if_pos hv, if_pos ha, List.singleton_append]
        refine Eq.trans (parsePairs_pair 'r' "ocm".toList ver _ bt (by decide) (by decide)
          (by decide) (hpv hv).2) ?_
        rw [hs]
        simp only []
        refine Eq.trans (parsePairs_pair 'r' "ocm_arch".toList (Join archs "|".toList) [] _
          (by decide) (by decide) (by decide) (hpa ha).2) ?_
        simp [setKey, parsePairs]
      · rw [if_pos hv, if_pos ha]
        simp [optGpuParts, gpuParts, hsplit, hjoin, hv]
    · refine ⟨some (GPUInfo.mk "rocm".toList none (some (ROCmBackend.mk ver [] true)) none),
        ?_, ?_⟩
      · rw [if_pos hv, if_neg ha, List.append_nil]
        refine Eq.trans (parsePairs_pair 'r' "ocm".toList ver _ bt (by decide) (by decide)
          (by decide) (hpv hv).2) ?_
        rw [hs]
        rfl
      · rw [if_pos hv, if_neg ha]
        simp [optGpuParts, gpuParts, hv]

/-- The parser on the pair that `String` writes for an OpenCL sub-record. -/
theorem parse_opencl_parts (bt : BuildTag) (ver : Str) (hbt : bt.GPU = none)
    (hpv : ver ≠ [] → plainValue ver) :
    ∃ g2 : Option GPUInfo,
      parsePairs (if ver ≠ [] then ["opencl=".toList ++ ver] else []) bt =
        .ok { bt with GPU := g2 } ∧
      optGpuParts g2 = (if ver ≠ [] then ["opencl=".toList ++ ver] else []) := by
  by_cases hv : ver = []
  · refine ⟨none, ?_, ?_⟩
    · rw [if_neg (by simpa using hv)]
      exact parsePairs_nil_gpu bt hbt
    · rw [if_neg (by simpa using hv)]
      rfl
  · refine ⟨some (GPUInfo.mk "opencl".toList none none (some (OpenCLBackend.mk ver true))),
      ?_, ?_⟩
    · rw [if_pos hv]
      refine Eq.trans (parsePairs_pair 'o' "pencl".toList ver _ bt (by decide) (by decide)
        (by decide) (hpv hv).2) ?_
      simp [setKey, parsePairs, hbt]
    · rw [if_pos hv]
      simp [optGpuParts, gpuParts, hv]

/-- The parser on the pairs that `String` writes for a GPU sub-record with
plain values: the result has a GPU sub-record, or none, for which `String`
writes the same pairs. -/
theorem parse_gpuParts (bt : BuildTag) (g : GPUInfo) (hbt : bt.GPU = none)
    (hv : ∀ p ∈ gpuParts g, plainValue (valueOf p)) :
    ∃ g2 : Option GPUInfo,
      parsePairs (gpuParts g) bt = .ok { bt with GPU := g2 } ∧
      optGpuParts g2 = gpuParts g := by
  have hnil : ∃ g2 : Option GPUInfo,
      parsePairs [] bt = .ok { bt with GPU := g2 } ∧
      optGpuParts g2 = [] := ⟨none, parsePairs_nil_gpu bt hbt, rfl⟩
  obtain ⟨backend, cuda, rocm, opencl⟩ := g
  by_cases h1 : backend = "cuda".toList
  · subst h1
    cases cuda with
    | none =>
      have hg : gpuParts (GPUInfo.mk "cuda".toList none rocm opencl) = [] := by
        unfold gpuParts
        rw [if_pos rfl]
      rw [hg]
      exact hnil
    | some c =>
      by_cases hE : c.Enabled = true
      · have hg : gpuParts (GPUInfo.mk "cuda".toList (some c) rocm opencl) =
            (if c.Version ≠ [] then ["cuda=".toList ++ c.Version] else []) ++
            (if c.Arch.length > 0 then ["cuda_arch=".toList ++ Join c.Arch "|".toList]
             else []) := by
          unfold gpuParts
          rw [if_pos rfl]
          simp only [hE, if_true]
        rw [hg] at hv ⊢
        refine parse_cuda_parts bt c.Version c.Arch hbt ?_ ?_
        · intro hne
          have e : valueOf ("cuda=".toList ++ c.Version) = c.Version :=
            valueOf_pair "cuda".toList (c.Version) (by decide)
          have := hv ("cuda=".toList ++ c.Version) (by simp [hne])
          rw [e] at this
          exact this
        · intro hne
          have e : valueOf ("cuda_arch=".toList ++ Join c.Arch "|".toList) = Join c.Arch "|".toList :=
            valueOf_pair "cuda_arch".toList (Join c.Arch "|".toList) (by decide)
          have := hv ("cuda_arch=".toList ++ Join c.Arch "|".toList) (by simp [hne])
          rw [e] at this
          exact this
      · have hg : gpuParts (GPUInfo.mk "cuda".toList (some c) rocm opencl) = [] := by
          unfold gpuParts
          rw [if_pos rfl]
          simp only [hE, Bool.false_eq_true, if_false]
        rw [hg]
        exact hnil
  · by_cases h2 : backend = "rocm".toList
    · subst h2
      cases rocm with
      | none =>
        have hg : gpuParts (GPUInfo.mk "rocm".toList cuda none opencl) = [] := by
          unfold gpuParts
          rw [if_neg h1, if_pos rfl]
        rw [hg]
        exact hnil
      | some c =>
        by_cases hE : c.Enabled = true
        · have hg : gpuParts (GPUInfo.mk "rocm".toList cuda (some c) opencl) =
              (if c.Version ≠ [] then ["rocm=".toList ++ c.Version] else []) ++
              (if c.Arch.length > 0 then ["rocm_arch=".toList ++ Join c.Arch "|".toList]
               else []) := by
            unfold gpuParts
            rw [if_neg h1, if_pos rfl]
            simp only [hE, if_true]
          rw [hg] at hv ⊢
          refine parse_rocm_parts bt c.Version c.Arch hbt ?_ ?_
          · intro hne
            have e : valueOf ("rocm=".toList ++ c.Version) = c.Version :=
              valueOf_pair "rocm".toList (c.Version) (by decide)
            have := hv ("rocm=".toList ++ c.Version) (by simp [hne])
            rw [e] at this
            exact this
          · intro hne
            have e : valueOf ("rocm_arch=".toList ++ Join c.Arch "|".toList) = Join c.Arch "|".toList :=
              valueOf_pair "rocm_arch".toList (Join c.Arch "|".toList) (by decide)
            have := hv ("rocm_arch=".toList ++ Join c.Arch "|".toList) (by simp [hne])
            rw [e] at this
            exact this
        · have hg : gpuParts (GPUInfo.mk "rocm".toList cuda (some c) opencl) = [] := by
            unfold gpuParts
            rw [if_neg h1, if_pos rfl]
            simp only [hE, Bool.false_eq_true, if_false]
          rw [hg]
          exact hnil
    · by_cases h3 : backend = "opencl".toList
      · subst h3
        cases opencl with
        | none =>
          have hg : gpuParts (GPUInfo.mk "opencl".toList cuda rocm none) = [] := by
            unfold gpuParts
            rw [if_neg h1, if_neg h2, if_pos rfl]
          rw [hg]
          exact hnil
        | some c =>
          by_cases hE : c.Enabled = true
          · have hg : gpuParts (GPUInfo.mk "opencl".toList cuda rocm (some c)) =
                (if c.Version ≠ [] then ["opencl=".toList ++ c.Version] else []) := by
              unfold gpuParts
              rw [if_neg h1, if_neg h2, if_pos rfl]
              simp only [hE, if_true]
            rw [hg] at hv ⊢
            refine parse_opencl_parts bt c.Version hbt ?_
            intro hne
            have e : valueOf ("opencl=".toList ++ c.Version) = c.Version :=
              valueOf_pair "opencl".toList (c.Version) (by decide)
            have := hv ("opencl=".toList ++ c.Version) (by simp [hne])
            rw [e] at this
            exact this
          · have hg : gpuParts (GPUInfo.mk "opencl".toList cuda rocm (some c)) = [] := by
              unfold gpuParts
              rw [if_neg h1, if_neg h2, if_pos rfl]
              simp only [hE, Bool.false_eq_true, if_false]
            rw [hg]
            exact hnil
      · have hg : gpuParts (GPUInfo.mk backend cuda rocm opencl) = [] := by
          unfold gpuParts
          rw [if_neg h1, if_neg h2, if_neg h3]
        rw [hg]
        exact hnil

/-- Every pair that `String` writes for a GPU sub-record is a key of
`emittedKeys`, the sign `=`, and a value. -/
theorem gpuParts_forms (g : GPUInfo) :
    ∀ p ∈ gpuParts g, ∃ k ∈ emittedKeys, ∃ v, p = k ++ '=' :: v := by
  intro p hp
  unfold gpuParts at hp
  split_ifs at hp
  · cases hc : g.CUDA with
    | none => rw [hc] at hp; simp at hp
    | some c =>
      rw [hc] at hp
      simp only at hp
      split_ifs at hp <;>
        simp only [List.mem_append, List.mem_singleton, List.not_mem_nil, or_false, false_or,
          List.nil_append, List.append_nil] at hp
      · rcases hp with hp | hp
        · exact ⟨"cuda".toList, by decide, _, hp⟩
        · exact ⟨"cuda_arch".toList, by decide, _, hp⟩
      · exact ⟨"cuda".toList, by decide, _, hp⟩
      · exact ⟨"cuda_arch".toList, by decide, _, hp⟩
  · cases hc : g.ROCm with
    | none => rw [hc] at hp; simp at hp
    | some c =>
      rw [hc] at hp
      simp only at hp
      split_ifs at hp <;>
        simp only [List.mem_append, List.mem_singleton, List.not_mem_nil, or_false, false_or,
          List.nil_append, List.append_nil] at hp
      · rcases hp with hp | hp
        · exact ⟨"rocm".toList, by decide, _, hp⟩
        · exact ⟨"rocm_arch".toList, by decide, _, hp⟩
      · exact ⟨"rocm".toList, by decide, _, hp⟩
      · exact ⟨"rocm_arch".toList, by decide, _, hp⟩
  · cases hc : g.OpenCL with
    | none => rw [hc] at hp; simp at hp
    | some c =>
      rw [hc] at hp
      simp only at hp
      split_ifs at hp <;>
        simp only [List.mem_singleton, List.not_mem_nil] at hp
      exact ⟨"opencl".toList, by decide, _, hp⟩
  · simp at hp

/-- The pairs that `String` writes for the GPU sub-record of a descriptor. -/
theorem stringParts_eq (d : BuildTag) :
    stringParts d =
      (if d.Arch ≠ [] then ["arch=".toList ++ d.Arch] else []) ++
      ((if d.Platform ≠ [] then ["platform=".toList ++ d.Platform] else []) ++
       ((if d.Runtime ≠ [] then ["runtime=".toList ++ d.Runtime] else []) ++
        ((if d.Compiler ≠ [] then ["compiler=".toList ++ d.Compiler] else []) ++
         ((if d.Std ≠ [] then ["std=".toList ++ d.Std] else []) ++
          ((if d.ABI ≠ [] then ["abi=".toList ++ d.ABI] else []) ++
           ((if d.Target ≠ [] then ["target=".toList ++ d.Target] else []) ++
            optGpuParts d.GPU)))))) := by
  unfold stringParts
  simp only [List.append_assoc]
  cases d.GPU <;> rfl

/-- A pair with a key of `emittedKeys` and a plain value has no comma. -/
theorem pair_no_comma (p : Str) (h : ∃ k ∈ emittedKeys, ∃ v, p = k ++ '=' :: v)
    (hv : plainValue (valueOf p)) : ',' ∉ p := by
  obtain ⟨k, hk, v, hp⟩ := h
  have hkeys : ∀ k ∈ emittedKeys, ',' ∉ k ∧ '=' ∉ k := by decide
  obtain ⟨hk1, hk2⟩ := hkeys k hk
  rw [hp, valueOf_pair k v hk2] at hv
  rw [hp]
  intro hm
  rcases List.mem_append.mp hm with hm | hm
  · exact hk1 hm
  · rcases List.mem_cons.mp hm with hm | hm
    · exact absurd hm (by decide)
    · exact hv.1 hm

/-- The parser on the pairs that `String` writes for the GPU sub-record of a
descriptor, when it has one. -/
theorem parse_optGpuParts (bt : BuildTag) (g : Option GPUInfo) (hbt : bt.GPU = none)
    (hv : ∀ p ∈ optGpuParts g, plainValue (valueOf p)) :
    ∃ g2 : Option GPUInfo,
      parsePairs (optGpuParts g) bt = .ok { bt with GPU := g2 } ∧
      optGpuParts g2 = optGpuParts g := by
  cases g with
  | none => exact ⟨none, parsePairs_nil_gpu bt hbt, rfl⟩
  | some g => exact parse_gpuParts bt g hbt hv

/-- Every pair that `String` writes is a key of `emittedKeys`, the sign `=`,
and a value. -/
theorem stringParts_forms (d : BuildTag) :
    ∀ p ∈ stringParts d, ∃ k ∈ emittedKeys, ∃ v, p = k ++ '=' :: v := by
  intro p hp
  rw [stringParts_eq] at hp
  simp only [List.mem_append] at hp
  rcases hp with h | h | h | h | h | h | h | h
  · split_ifs at h
    · exact ⟨"arch".toList, by decide, _, List.mem_singleton.mp h⟩
    · simp at h
  · split_ifs at h
    · exact ⟨"platform".toList, by decide, _, List.mem_singleton.mp h⟩
    · simp at h
  · split_ifs at h
    · exact ⟨"runtime".toList, by decide, _, List.mem_singleton.mp h⟩
    · simp at h
  · split_ifs at h
    · exact ⟨"compiler".toList, by decide, _, List.mem_singleton.mp h⟩
    · simp at h
  · split_ifs at h
    · exact ⟨"std".toList, by decide, _, List.mem_singleton.mp h⟩
    · simp at h
  · split_ifs at h
    · exact ⟨"abi".toList, by decide, _, List.mem_singleton.mp h⟩
    · simp at h
  · split_ifs at h
    · exact ⟨"target".toList, by decide, _, List.mem_singleton.mp h⟩
    · simp at h
  · cases hg : d.GPU with
    | none => rw [hg] at h; simp [optGpuParts] at h
    | some g =>
      rw [hg] at h
      exact gpuParts_forms g p h

/-- A scalar field whose pair, when `String` writes it, has a plain value is
a plain value. -/
theorem plain_of_part (k v : Str) (parts : List Str) (hk : '=' ∉ k)
    (hmem : v ≠ [] → k ++ '=' :: v ∈ parts) (hv : ∀ p ∈ parts, plainValue (valueOf p)) :
    plainValue v := by
  by_cases h : v = []
  · rw [h]
    decide
  · have := hv _ (hmem h)
    rwa [valueOf_pair k v hk] at this

/-- C28. For every descriptor whose canonical string is not empty and in
which no value that `String` writes contains a comma or has white space at
either end, `ParseBuildTag` of the canonical string succeeds, and its result
has the same canonical string, so `Equals` holds between the result and the
descriptor. -/
theorem canonical_string_roundtrip (d : BuildTag) (hne : BuildTag.String (some d) ≠ [])
    (hv : ∀ p ∈ stringParts d, plainValue (valueOf p)) :
    ∃ r, ParseBuildTag (BuildTag.String (some d)) = .ok r ∧
      BuildTag.String (some r) = BuildTag.String (some d) ∧
      BuildTag.Equals (some r) (some d) = true := by
  have hS : BuildTag.String (some d) = Join (stringParts d) [','] := rfl
  have hparts : stringParts d ≠ [] := Join_nil_of_parts _ _ (hS ▸ hne)
  have hsplit : Split (BuildTag.String (some d)) ',' = stringParts d := by
    rw [hS]
    exact Split_Join _ ',' hparts
      (fun p hp => pair_no_comma p (stringParts_forms d p hp) (hv p hp))
  have hmemG : ∀ p ∈ optGpuParts d.GPU, p ∈ stringParts d := by
    intro p hp
    rw [stringParts_eq]
    simp only [List.mem_append]
    exact Or.inr (Or.inr (Or.inr (Or.inr (Or.inr (Or.inr (Or.inr hp))))))
  have hA : plainValue d.Arch := plain_of_part "arch".toList d.Arch _ (by decide)
    (fun h => by rw [stringParts_eq]; simp [h]) hv
  have hP : plainValue d.Platform := plain_of_part "platform".toList d.Platform _ (by decide)
    (fun h => by rw [stringParts_eq]; simp [h]) hv
  have hR : plainValue d.Runtime := plain_of_part "runtime".toList d.Runtime _ (by decide)
    (fun h => by rw [stringParts_eq]; simp [h]) hv
  have hC : plainValue d.Compiler := plain_of_part "compiler".toList d.Compiler _ (by decide)
    (fun h => by rw [stringParts_eq]; simp [h]) hv
  have hSt : plainValue d.Std := plain_of_part "std".toList d.Std _ (by decide)
    (fun h => by rw [stringParts_eq]; simp [h]) hv
  have hAb : plainValue d.ABI := plain_of_part "abi".toList d.ABI _ (by decide)
    (fun h => by rw [stringParts_eq]; simp [h]) hv
  have hT : plainValue d.Target := plain_of_part "target".toList d.Target _ (by decide)
    (fun h => by rw [stringParts_eq]; simp [h]) hv
  obtain ⟨g2, hparse, hg2⟩ := parse_optGpuParts { d with GPU := none } d.GPU rfl
    (fun p hp => hv p (hmemG p hp))
  have hres : ParseBuildTag (BuildTag.String (some d)) = .ok { d with GPU := g2 } := by
    unfold ParseBuildTag
    rw [if_neg hne, hsplit, stringParts_eq,
      parsePairs_scalars d _ hA.2 hP.2 hR.2 hC.2 hSt.2 hAb.2 hT.2, hparse]
  have hstr : BuildTag.String (some { d with GPU := g2 }) = BuildTag.String (some d) := by
    show Join (stringParts { d with GPU := g2 }) [','] = Join (stringParts d) [',']
    rw [stringParts_eq, stringParts_eq d]
    simp only [hg2]
  refine ⟨_, hres, hstr, ?_⟩
  unfold BuildTag.Equals
  simp only [hstr, beq_self_eq_true]

/-- C28 applies to a descriptor with a disabled CUDA sub-record: the parser
succeeds on its canonical string and the result has the same canonical
string, though it is not the descriptor itself, having no GPU sub-record. -/
theorem canonical_string_roundtrip_witness :
    BuildTag.String (some disabledCudaTag) ≠ [] ∧
    (∀ p ∈ stringParts disabledCudaTag, plainValue (valueOf p)) ∧
    (∃ r, ParseBuildTag (BuildTag.String (some disabledCudaTag)) = .ok r ∧
      BuildTag.String (some r) = BuildTag.String (some disabledCudaTag) ∧
      BuildTag.Equals (some r) (some disabledCudaTag) = true) ∧
    ParseBuildTag (BuildTag.String (some disabledCudaTag)) ≠ .ok disabledCudaTag :=
  ⟨by decide, by decide,
    canonical_string_roundtrip disabledCudaTag (by decide) (by decide), by decide⟩

/-! ### Collecting the checksums (C23) -/

example : getChecksums testEnv mixedSource =
    [("md5".toList, "ab12".toList), ("sha512".toList, "cd34".toList),
     ("sha256".toList, "ef56".toList)] := by decide

/-- C23, as stated, fails: two entries of the map `checksums` whose names
differ only in case collapse into one, so one of them is not in the result;
an entry of the map under the name of a dedicated field replaces the field;
and when such an entry has an empty hash, the legacy field supplies the
SHA-256 although a non-empty one is given in the field `sha256`. -/
theorem checksums_collide :
    getChecksums testEnv
        { Checksums := [("MD5".toList, "aa".toList), ("md5".toList, "bb".toList)] } =
      [("md5".toList, "bb".toList)] ∧
    getChecksums testEnv { MD5 := "aa".toList, Checksums := [("md5".toList, "bb".toList)] } =
      [("md5".toList, "bb".toList)] ∧
    getChecksums testEnv
        { SHA256 := "abc".toList, Checksums := [("sha256".toList, [])], Hash := "ff".toList } =
      [("sha256".toList, "ff".toList)] := by
  decide

/-- Setting a name that the map does not have appends the entry. -/
theorem mapSet_new (m : List (Str × Str)) (k v : Str) (h : k ∉ m.map (fun e => e.1)) :
    mapSet m k v = m ++ [(k, v)] := by
  induction m with
  | nil => rfl
  | cons e rest ih =>
    obtain ⟨k1, v1⟩ := e
    simp only [List.map_cons, List.mem_cons, not_or] at h
    rw [mapSet, if_neg (fun e => h.1 e.symm), ih h.2]
    rfl

/-- Setting entries with new and distinct names, one after the other, appends
them. -/
theorem foldl_mapSet_new (es m : List (Str × Str))
    (h : ((m ++ es).map (fun e => e.1)).Nodup) :
    es.foldl (fun m e => mapSet m e.1 e.2) m = m ++ es := by
  induction es generalizing m with
  | nil => simp
  | cons e rest ih =>
    have h2 : ((m ++ [e] ++ rest).map (fun e => e.1)).Nodup := by
      simpa using h
    have hnew : e.1 ∉ m.map (fun e => e.1) := by
      intro hm
      rw [List.map_append, List.nodup_append] at h
      exact h.2.2 hm (by simp)
    rw [List.foldl_cons, mapSet_new m e.1 e.2 hnew, ih _ h2]
    simp

/-- The value of a name in a map without repeated names. -/
theorem mapGet_of_mem (m : List (Str × Str)) (k v : Str)
    (hd : (m.map (fun e => e.1)).Nodup) (h : (k, v) ∈ m) : mapGet m k = v := by
  induction m with
  | nil => simp at h
  | cons e rest ih =>
    obtain ⟨k1, v1⟩ := e
    simp only [List.map_cons, List.nodup_cons] at hd
    rcases List.mem_cons.mp h with h | h
    · simp only [Prod.mk.injEq] at h
      rw [mapGet, if_pos h.1.symm, h.2]
    · have hne : k1 ≠ k := by
        intro e
        subst e
        exact hd.1 (List.mem_map.mpr ⟨(k1, v), h, rfl⟩)
      rw [mapGet, if_neg hne]
      exact ih hd.2 h

theorem mapGet_of_not_mem (m : List (Str × Str)) (k : Str) (h : k ∉ m.map (fun e => e.1)) :
    mapGet m k = [] := by
  induction m with
  | nil => rfl
  | cons e rest ih =>
    obtain ⟨k1, v1⟩ := e
    simp only [List.map_cons, List.mem_cons, not_or] at h
    rw [mapGet, if_neg (fun e => h.1 e.symm)]
    exact ih h.2

/-- The entries of a map without repeated names after one name is set. -/
theorem mem_mapSet (m : List (Str × Str)) (k0 v0 : Str) (hd : (m.map (fun e => e.1)).Nodup)
    (e : Str × Str) :
    e ∈ mapSet m k0 v0 ↔ e = (k0, v0) ∨ (e.1 ≠ k0 ∧ e ∈ m) := by
  induction m with
  | nil => simp [mapSet]
  | cons f rest ih =>
    obtain ⟨k1, v1⟩ := f
    simp only [List.map_cons, List.nodup_cons] at hd
    by_cases hk : k1 = k0
    · rw [mapSet, if_pos hk]
      subst hk
      constructor
      · intro h
        rcases List.mem_cons.mp h with h | h
        · exact Or.inl h
        · refine Or.inr ⟨?_, List.mem_cons_of_mem _ h⟩
          intro he
          exact hd.1 (List.mem_map.mpr ⟨e, h, he⟩)
      · rintro (h | ⟨h1, h2⟩)
        · rw [h]
          exact List.mem_cons_self _ _
        · rcases List.mem_cons.mp h2 with h2 | h2
          · rw [h2] at h1
            exact absurd rfl h1
          · exact List.mem_cons_of_mem _ h2
    · rw [mapSet, if_neg hk, List.mem_cons, ih hd.2, List.mem_cons]
      constructor
      · rintro (h | h | ⟨h1, h2⟩)
        · exact Or.inr ⟨by rw [h]; exact hk, Or.inl h⟩
        · exact Or.inl h
        · exact Or.inr ⟨h1, Or.inr h2⟩
      · rintro (h | ⟨h1, h2 | h2⟩)
        · exact Or.inr (Or.inl h)
        · exact Or.inl h2
        · exact Or.inr (Or.inr ⟨h1, h2⟩)

/-- In a map without repeated names, the value of a name is empty exactly
when no entry under the name has a non-empty value. -/
theorem mapGet_nil_iff (m : List (Str × Str)) (k : Str) (hd : (m.map (fun e => e.1)).Nodup) :
    mapGet m k = [] ↔ ∀ e ∈ m, e.1 = k → e.2 = [] := by
  constructor
  · intro h e he hk
    have := mapGet_of_mem m e.1 e.2 hd he
    rw [hk, h] at this
    exact this.symm
  · intro h
    by_cases hk : k ∈ m.map (fun e => e.1)
    · obtain ⟨e, he, hek⟩ := List.mem_map.mp hk
      have := mapGet_of_mem m e.1 e.2 hd he
      rw [hek] at this
      rw [this]
      exact h e he hek
    · exact mapGet_of_not_mem m k hk

/-- The map that `getChecksums` has built before it looks at the legacy
field. -/
theorem getChecksums_eq (env : Env) (source : SourceInfo)
    (hd : distinctChecksumNames env source) :
    getChecksums env source =
      if source.Hash ≠ [] ∧ mapGet (declaredChecksums env source) "sha256".toList = [] then
        mapSet (declaredChecksums env source) "sha256".toList (ToLower env source.Hash)
      else declaredChecksums env source := by
  have hbase : ∀ es : List (Str × Str),
      ((declaredChecksums env { source with Checksums := [] } ++ es).map (fun e => e.1)).Nodup →
      es.foldl (fun m e => mapSet m e.1 e.2)
        (declaredChecksums env { source with Checksums := [] }) =
      declaredChecksums env { source with Checksums := [] } ++ es :=
    fun es h => foldl_mapSet_new es _ h
  have hsplit : declaredChecksums env source =
      declaredChecksums env { source with Checksums := [] } ++
        source.Checksums.map (fun e => (ToLower env e.1, ToLower env e.2)) := by
    simp [declaredChecksums]
  have hfold : source.Checksums.foldl
      (fun m e => mapSet m (ToLower env e.1) (ToLower env e.2))
      (declaredChecksums env { source with Checksums := [] }) = declaredChecksums env source := by
    rw [hsplit, ← hbase _ (by rw [← hsplit]; exact hd), List.foldl_map]
  have hded : declaredChecksums env { source with Checksums := [] } =
      (let checksums : List (Str × Str) := []
       let checksums :=
         if source.MD5 ≠ [] then mapSet checksums "md5".toList (ToLower env source.MD5)
         else checksums
       let checksums :=
         if source.SHA1 ≠ [] then mapSet checksums "sha1".toList (ToLower env source.SHA1)
         else checksums
       let checksums :=
         if source.SHA256 ≠ [] then mapSet checksums "sha256".toList (ToLower env source.SHA256)
         else checksums
       if source.SHA512 ≠ [] then mapSet checksums "sha512".toList (ToLower env source.SHA512)
       else checksums) := by
    by_cases h1 : source.MD5 = [] <;> by_cases h2 : source.SHA1 = [] <;>
      by_cases h3 : source.SHA256 = [] <;> by_cases h4 : source.SHA512 = [] <;>
      simp [declaredChecksums, h1, h2, h3, h4, mapSet]
  unfold getChecksums
  simp only [] at hded ⊢
  rw [← hded, hfold]

/-- The names of a map after one name is set. -/
theorem mapSet_names (m : List (Str × Str)) (k v : Str) :
    (mapSet m k v).map (fun e => e.1) =
      if k ∈ m.map (fun e => e.1) then m.map (fun e => e.1) else m.map (fun e => e.1) ++ [k] := by
  induction m with
  | nil => simp [mapSet]
  | cons f rest ih =>
    obtain ⟨k1, v1⟩ := f
    by_cases hk : k1 = k
    · rw [mapSet, if_pos hk]
      simp [hk]
    · rw [mapSet, if_neg hk, List.map_cons, ih]
      have hk2 : ¬ k = k1 := fun e => hk e.symm
      by_cases hm : k ∈ rest.map (fun e => e.1)
      · simp only [hm, if_true, List.map_cons, List.mem_cons, or_true]
      · simp only [hm, if_false, List.map_cons, List.mem_cons, hk2, or_self, List.cons_append]

/-- C23 (amended). For every source in which no two declared checksums have
the same name in lower case (a non-empty field `md5`, `sha1`, `sha256` or
`sha512` counts under its name), `getChecksums` returns a map, without
repeated names, that holds every declared checksum, name and hash in lower
case, except that the entry `sha256` is the legacy field `hash` in lower case
when that field is not empty and no non-empty SHA-256 is declared; it holds
nothing else, and it is empty when no checksum of any kind is declared. -/
theorem checksums_collected (env : Env) (source : SourceInfo)
    (hd : distinctChecksumNames env source) :
    (∀ e, e ∈ getChecksums env source ↔
      (e ∈ declaredChecksums env source ∧
        ¬ (e.1 = "sha256".toList ∧ legacySupplies env source)) ∨
      (e = ("sha256".toList, ToLower env source.Hash) ∧ legacySupplies env source)) ∧
    ((getChecksums env source).map (fun e => e.1)).Nodup ∧
    (noChecksum source → getChecksums env source = []) := by
  have hleg : (source.Hash ≠ [] ∧ mapGet (declaredChecksums env source) "sha256".toList = []) ↔
      legacySupplies env source := by
    unfold legacySupplies
    rw [mapGet_nil_iff _ _ hd]
  rw [getChecksums_eq env source hd]
  refine ⟨?_, ?_, ?_⟩
  · intro e
    by_cases hl : legacySupplies env source
    · rw [if_pos (hleg.mpr hl), mem_mapSet _ _ _ hd]
      constructor
      · rintro (h | ⟨h1, h2⟩)
        · exact Or.inr ⟨h, hl⟩
        · exact Or.inl ⟨h2, fun h => h1 h.1⟩
      · rintro (⟨h1, h2⟩ | ⟨h1, _⟩)
        · exact Or.inr ⟨fun h => h2 ⟨h, hl⟩, h1⟩
        · exact Or.inl h1
    · rw [if_neg (fun h => hl (hleg.mp h))]
      constructor
      · intro h
        exact Or.inl ⟨h, fun h2 => hl h2.2⟩
      · rintro (⟨h1, _⟩ | ⟨_, h2⟩)
        · exact h1
        · exact absurd h2 hl
  · split_ifs
    · rw [mapSet_names]
      split_ifs with hm
      · exact hd
      · exact List.Nodup.append hd (List.nodup_singleton _) (by simpa using hm)
    · exact hd
  · rintro ⟨h1, h2, h3, h4, h5, h6⟩
    simp [declaredChecksums, h1, h2, h3, h4, h5, h6]

/-- The amended C23 applies to a source with a field, an entry of the map
and a legacy hash. -/
theorem checksums_collected_witness :
    distinctChecksumNames testEnv mixedSource ∧
    ((∀ e, e ∈ getChecksums testEnv mixedSource ↔
      (e ∈ declaredChecksums testEnv mixedSource ∧
        ¬ (e.1 = "sha256".toList ∧ legacySupplies testEnv mixedSource)) ∨
      (e = ("sha256".toList, ToLower testEnv mixedSource.Hash) ∧
        legacySupplies testEnv mixedSource)) ∧
    ((getChecksums testEnv mixedSource).map (fun e => e.1)).Nodup ∧
    (noChecksum mixedSource → getChecksums testEnv mixedSource = [])) :=
  ⟨by decide, checksums_collected testEnv mixedSource (by decide)⟩

/-! ### The raw-archive cache (C30) -/

/-- C30. The cache file that `downloadArchive` chooses is the join of the
user cache directory, `.buildfly/archives`, the version of the dependency and
the base name of its first available URL. A dependency `dep1` with a URL
`url1` (its first available one, say) and a dependency `dep2` with the same
version whose first available URL has the same base name are given the same
file, whatever their names and their other URLs; and when that file exists
and `dep2` declares no checksum, `downloadArchive` returns it for `dep2`
without trying any candidate URL. -/
theorem archive_cache_file_shared (host : Host) (dep1 dep2 : Dependency)
    (userCacheDir url1 url2 : Str)
    (h2 : dep2.Source.GetFirstAvailableURL (fun p => (host.fs p).isSome) = some url2)
    (hv : dep1.Version = dep2.Version) (hb : Base url1 = Base url2) :
    ArchiveDownloader.cacheFile dep1 userCacheDir url1 =
      filepathJoin [filepathJoin [userCacheDir, ".buildfly".toList, "archives".toList,
        dep1.Version], Base url1] ∧
    ArchiveDownloader.cacheFile dep1 userCacheDir url1 =
      ArchiveDownloader.cacheFile dep2 userCacheDir url2 ∧
    (host.userCacheDir = .ok userCacheDir →
      host.mkdirAll (filepathJoin [userCacheDir, ".buildfly".toList, "archives".toList,
        dep2.Version]) = none →
      (host.fs (ArchiveDownloader.cacheFile dep1 userCacheDir url1)).isSome = true →
      noChecksum dep2.Source →
      ArchiveDownloader.downloadArchive host dep2 =
        (.ok (ArchiveDownloader.cacheFile dep1 userCacheDir url1), [])) := by
  have heq : ArchiveDownloader.cacheFile dep1 userCacheDir url1 =
      ArchiveDownloader.cacheFile dep2 userCacheDir url2 := by
    unfold ArchiveDownloader.cacheFile
    rw [hv, hb]
  refine ⟨rfl, heq, ?_⟩
  intro hu hmk hfs hno
  unfold ArchiveDownloader.downloadArchive
  rw [h2, hu]
  simp only [hmk]
  rw [← heq]
  have hver : ArchiveDownloader.Verify host.env host.fs dep2
      (ArchiveDownloader.cacheFile dep1 userCacheDir url1) = none := by
    unfold ArchiveDownloader.Verify
    cases hc : host.fs (ArchiveDownloader.cacheFile dep1 userCacheDir url1) with
    | none => rw [hc] at hfs; simp at hfs
    | some content =>
      simp only [getChecksums_of_noChecksum host.env dep2.Source hno, List.length_nil, if_true]
  rw [if_pos ⟨hfs, hver⟩]

/-- C30 on two dependencies that share the file `lib.tar.gz`: the archive
that is in the cache for one is returned for the other. -/
theorem archive_cache_file_shared_witness :
    zlibArchive.Source.GetFirstAvailableURL (fun p => (cachedHost.fs p).isSome) =
      some "https://zlib.test/dl/lib.tar.gz".toList ∧
    pngArchive.Source.GetFirstAvailableURL (fun p => (cachedHost.fs p).isSome) =
      some "https://png.test/releases/lib.tar.gz".toList ∧
    ArchiveDownloader.cacheFile zlibArchive "/home/u/.cache".toList
        "https://zlib.test/dl/lib.tar.gz".toList =
      "/home/u/.cache/.buildfly/archives/1.0/lib.tar.gz".toList ∧
    ArchiveDownloader.downloadArchive cachedHost pngArchive =
      (.ok "/home/u/.cache/.buildfly/archives/1.0/lib.tar.gz".toList, []) :=
  ⟨by decide, by decide, by decide,
    (archive_cache_file_shared cachedHost zlibArchive pngArchive "/home/u/.cache".toList
      "https://zlib.test/dl/lib.tar.gz".toList "https://png.test/releases/lib.tar.gz".toList
      (by decide) (by decide) (by decide)).2.2 rfl rfl (by decide) (by decide)⟩

/-! ### Expanding variables (C25) -/

example : Expand "a$b-$\x7bc\x7d$".toList (fun k => '<' :: k ++ ['>']) = "a<b>-<c>$".toList := by
  decide

example : Expand "$\x7b\x7d x $\x7b y".toList (fun k => k) = " x  y".toList := by decide

example : ReplaceAllString "aXYbXYXY".toList "XY".toList "-".toList = "a-b--".toList := by decide

example : Ext "/c/lib-1.0.tar.gz".toList = ".gz".toList ∧ Ext "/c.d/lib".toList = [] := by decide

example : demoContext.ExpandCommand testMachine
    "make -C $SOURCE_DIR BUILD=$\x7bbuild_type\x7d -j$cpu_cores $HOME".toList =
    .ok "make -C /p/.buildfly/src BUILD=Debug -j4 /home/u".toList := by decide

/-- The value that `ExpandCommand` gives to a variable that it cannot
resolve: a dollar sign and the name in braces, whichever form the reference
had. -/
theorem lookupVar_unresolved (m : Machine) (vc : VariableContext) (key : Str)
    (h : vc.unresolved m key) :
    vc.lookupVar m key = "$\x7b".toList ++ key ++ "\x7d".toList := by
  obtain ⟨h1, h2, h3⟩ := h
  have hne : ∀ k ∈ builtinVars, ¬ (ToUpper m key = k) := fun k hk e => h2 (e ▸ hk)
  unfold VariableContext.lookupVar
  rw [h1]
  simp only [hne "INSTALL_DIR".toList (by decide), hne "BUILD_DIR".toList (by decide),
    hne "DOWNLOAD_PATH".toList (by decide), hne "EXTRACT_DIR".toList (by decide),
    hne "SOURCE_DIR".toList (by decide), hne "BUILD_TYPE".toList (by decide),
    hne "CXX_COMPILER".toList (by decide), hne "CXX_FLAGS".toList (by decide),
    hne "CPU_CORES".toList (by decide), hne "OS".toList (by decide),
    hne "ARCH".toList (by decide), hne "PROJECT_NAME".toList (by decide),
    hne "PROJECT_VERSION".toList (by decide), hne "DEP_NAME".toList (by decide),
    hne "DEP_VERSION".toList (by decide), hne "BUILD_TAG".toList (by decide),
    hne "BUILD_TAG_DIR".toList (by decide), if_false, h3, ne_eq, not_true_eq_false]

/-- C25 fails on the code for the form `$V`: the function passed to
`os.Expand` returns the name in braces for a variable that it cannot resolve,
so a reference written `$FOO` comes back with braces around `FOO`, and so
does the positional reference `$1` of an `awk` program; only a reference
written with braces comes back as it was. No error is returned. -/
theorem dollar_form_rewritten :
    demoContext.unresolved testMachine "FOO".toList ∧
    demoContext.ExpandCommand testMachine "echo $FOO/bin".toList =
      .ok "echo $\x7bFOO\x7d/bin".toList ∧
    demoContext.ExpandCommand testMachine "echo $\x7bFOO\x7d/bin".toList =
      .ok "echo $\x7bFOO\x7d/bin".toList ∧
    demoContext.unresolved testMachine "1".toList ∧
    demoContext.ExpandCommand testMachine "awk '/x/ \x7bprint $1\x7d' f".toList =
      .ok "awk '/x/ \x7bprint $\x7b1\x7d\x7d' f".toList := by
  decide

/-- Skipping at least as many characters as the text has leaves nothing. -/
theorem expandFrom_skip (mapping : Str → Str) (l : Str) :
    ∀ n, l.length ≤ n → expandFrom mapping n l = [] := by
  induction l with
  | nil => intro n _; cases n <;> rfl
  | cons x xs ih =>
    intro n hn
    cases n with
    | zero => simp at hn
    | succ k =>
      rw [expandFrom]
      exact ih k (by simpa using hn)

/-- The name that `getShellName` reads from a text made of letters, digits
and underscores that does not start with a digit: the whole text. -/
theorem getShellName_name (V : Str) (hne : V ≠ []) (hal : ∀ c ∈ V, isAlphaNum c = true)
    (hfirst : ∀ c, V.head? = some c → isShellSpecialVar c = false) :
    getShellName V = (V, V.length) := by
  have htake : V.takeWhile isAlphaNum = V := List.takeWhile_eq_self_iff.mpr hal
  cases V with
  | nil => exact absurd rfl hne
  | cons c cs =>
    have hc : c ≠ '\x7b' := by
      intro e
      have := hal c (List.mem_cons_self _ _)
      rw [e] at this
      exact absurd this (by decide)
    have hs : isShellSpecialVar c = false := hfirst c rfl
    unfold getShellName
    split
    · rename_i h
      exact absurd h (by simp)
    · rename_i rest h
      exact absurd (List.cons.inj h).1 hc
    · rename_i c2 rest h1 h2
      obtain ⟨e1, e2⟩ := List.cons.inj h2
      subst e1 e2
      rw [hs]
      simp only [Bool.false_eq_true, if_false, htake]

/-- A text without the first character of `sub` does not contain `sub`. -/
theorem Contains_of_not_mem (s t : Str) (c : Char) (h : c ∉ s) : Contains s (c :: t) = false := by
  induction s with
  | nil => rfl
  | cons x xs ih =>
    have hx : ¬ c = x := fun e => h (e ▸ List.mem_cons_self _ _)
    have hxs : c ∉ xs := fun e => h (List.mem_cons_of_mem _ e)
    rw [Contains, ih hxs]
    simp [List.isPrefixOf, hx]

/-- Two texts without a closing brace, each followed by one, are equal when
the first is an initial segment of the second. -/
theorem braced_eq (p : Str) :
    ∀ V : Str, '\x7d' ∉ p → '\x7d' ∉ V →
      (p ++ ['\x7d']).isPrefixOf (V ++ ['\x7d']) = true → p = V := by
  induction p with
  | nil =>
    intro V _ hV h
    cases V with
    | nil => rfl
    | cons b V2 =>
      simp only [List.nil_append, List.cons_append, List.isPrefixOf, Bool.and_eq_true,
        beq_iff_eq] at h
      exact absurd (h.1 ▸ List.mem_cons_self _ _) hV
  | cons a p2 ih =>
    intro V hp hV h
    cases V with
    | nil =>
      simp only [List.nil_append, List.cons_append, List.isPrefixOf, Bool.and_eq_true,
        beq_iff_eq] at h
      exact absurd (h.1 ▸ List.mem_cons_self _ _) hp
    | cons b V2 =>
      simp only [List.cons_append, List.isPrefixOf, Bool.and_eq_true, beq_iff_eq] at h
      rw [h.1, ih V2 (fun e => hp (List.mem_cons_of_mem _ e))
        (fun e => hV (List.mem_cons_of_mem _ e)) h.2]

/-- For every variable that `ExpandCommand` cannot resolve, whose name is
made of letters, digits and underscores and does not start with a digit, on
every machine whose template engine renders the braced reference as itself,
the reference written with a dollar sign and the bare name comes back in the
braced form, which is not the text that was written. -/
theorem dollar_reference_braced (m : Machine) (vc : VariableContext) (V : Str)
    (hne : V ≠ []) (hal : ∀ c ∈ V, isAlphaNum c = true)
    (hfirst : ∀ c, V.head? = some c → isShellSpecialVar c = false)
    (hun : vc.unresolved m V)
    (ht : m.ExpandTemplate ("$\x7b".toList ++ V ++ "\x7d".toList) vc =
      .ok ("$\x7b".toList ++ V ++ "\x7d".toList)) :
    vc.ExpandCommand m ('$' :: V) = .ok ("$\x7b".toList ++ V ++ "\x7d".toList) ∧
    "$\x7b".toList ++ V ++ "\x7d".toList ≠ '$' :: V := by
  have hbrace : '\x7d' ∉ V := by
    intro h
    exact absurd (hal _ h) (by decide)
  have hdollar : '$' ∉ V := by
    intro h
    exact absurd (hal _ h) (by decide)
  have hexp : Expand ('$' :: V) (vc.lookupVar m) = "$\x7b".toList ++ V ++ "\x7d".toList := by
    unfold Expand
    rw [expandFrom, if_pos ⟨rfl, hne⟩, getShellName_name V hne hal hfirst]
    simp only [hne, false_and, if_false]
    rw [expandFrom_skip _ V _ (le_refl _), List.append_nil, lookupVar_unresolved m vc V hun]
  have hV : V ≠ "INSTALL_DIR".toList := by
    intro e
    apply hun.2.1
    rw [e]
    have : ToUpper m "INSTALL_DIR".toList = "INSTALL_DIR".toList := rfl
    rw [this]
    decide
  have hcont : Contains ("$\x7b".toList ++ V ++ "\x7d".toList) "$\x7bINSTALL_DIR\x7d".toList =
      false := by
    have h1 : "$\x7b".toList ++ V ++ "\x7d".toList = '$' :: '\x7b' :: (V ++ ['\x7d']) := by simp
    have h2 : "$\x7bINSTALL_DIR\x7d".toList = '$' :: '\x7b' :: ("INSTALL_DIR".toList ++ ['\x7d']) :=
      rfl
    rw [h1, h2, Contains, Contains_of_not_mem _ _ '$' (by
      intro h
      rcases List.mem_cons.mp h with h | h
      · exact absurd h (by decide)
      · rcases List.mem_append.mp h with h | h
        · exact hdollar h
        · exact absurd (List.mem_singleton.mp h) (by decide)), Bool.or_false]
    cases hp : ('$' :: '\x7b' :: ("INSTALL_DIR".toList ++ ['\x7d'])).isPrefixOf
        ('$' :: '\x7b' :: (V ++ ['\x7d'])) with
    | false => rfl
    | true =>
      exfalso
      simp only [List.isPrefixOf, beq_self_eq_true, Bool.true_and] at hp
      exact hV (braced_eq "INSTALL_DIR".toList V (by decide) hbrace hp).symm
  refine ⟨?_, ?_⟩
  · unfold VariableContext.ExpandCommand VariableContext.ExpandVariables
    simp only [hexp, ht, hcont, Bool.false_eq_true, if_false]
  · intro h
    have := congrArg List.length h
    simp at this
    omega

/-! ### The custom build system (C27) -/

/-- C27 fails on the code: `validateDependency` accepts a dependency with the
build system `custom`, an override for the configure command and no custom
script, and the executor rejects it: `ValidateBuildSystem` and `Execute`
both return the error `custom build system requires custom_script`, the
latter without spawning a process, on every machine. -/
theorem custom_without_script_rejected {σ : Type} (sh : Shell σ) (m : Machine)
    (be : BuildExecutor) (sourceDir buildDir installDir : Str) (s : σ) :
    validateDependency scriptlessDep.Name scriptlessDep = none ∧
    be.ValidateBuildSystem scriptlessDep =
      some (BuildError "custom build system requires custom_script".toList) ∧
    (be.Execute sh.traced m scriptlessDep sourceDir buildDir installDir (s, [])).1 =
      some (BuildError "custom build system requires custom_script".toList) ∧
    (be.Execute sh.traced m scriptlessDep sourceDir buildDir installDir (s, [])).2.2.2 = [] := by
  refine ⟨by decide, rfl, ?_, ?_⟩
  · simp [BuildExecutor.Execute, BuildExecutor.setDirs, BuildExecutor.executeCustom,
      scriptlessDep]
  · simp [BuildExecutor.Execute, BuildExecutor.setDirs, BuildExecutor.executeCustom,
      scriptlessDep, Shell.traced]

/-! ### The phases of a build (C26) -/

example :
    brokenRun.1 =
      some (BuildErrorWithCause (.sys "exit status 2".toList) "CMake build failed".toList) ∧
    brokenRun.2.2.2 =
      [({ name := "cmake".toList,
          args := ["-B".toList, "/b".toList, "-S".toList, "/s".toList,
                   "-DCMAKE_INSTALL_PREFIX=/i".toList, "-DCMAKE_BUILD_TYPE=Release".toList,
                   "-DFMT_TEST=OFF".toList],
          env := ["build_type=Debug".toList] }, none),
       ({ name := "sh".toList, args := ["-c".toList, "make fail -j4".toList],
          dir := "/b".toList, env := ["build_type=Debug".toList] },
        some (.sys "exit status 2".toList))] := by
  decide

theorem orBuildError_fst {σ : Type} (message : Str) (r : Option GoError × σ) :
    (orBuildError message r).1 = r.1.map (fun err => BuildErrorWithCause err message) ∧
    (orBuildError message r).2 = r.2 := by
  obtain ⟨e, s⟩ := r
  cases e <;> exact ⟨rfl, rfl⟩

/-- A stage that the dependency overrides is the phase of its command. -/
theorem override_stage {σ : Type} (sh : Shell σ) (m : Machine) (be : BuildExecutor)
    (message commandLine workDir : Str) (s : σ) :
    orBuildError message (be.executeCommand sh m commandLine workDir s) =
      runPhase sh message (overrideCommand m be message commandLine workDir) s := by
  unfold BuildExecutor.executeCommand overrideCommand runPhase
  cases be.context.ExpandCommand m commandLine <;> rfl

theorem cmakeConfigure_eq {σ : Type} (sh : Shell σ) (m : Machine) (be : BuildExecutor)
    (dep : Dependency) (sourceDir buildDir installDir : Str) (s : σ)
    (hbs : dep.BuildSystem = "cmake".toList) :
    be.cmakeConfigure sh m dep sourceDir buildDir installDir s =
      runPhase sh (phaseMessage dep.BuildSystem .configure)
        (phaseCommand m be dep sourceDir buildDir installDir .configure) s := by
  unfold BuildExecutor.cmakeConfigure phaseCommand
  simp only [hbs, phaseMessage, if_true]
  split_ifs with h
  · exact override_stage sh m be _ _ _ s
  · cases hx : be.expandOptions m "CMake".toList dep.CMakeOptions
        ["-B".toList, buildDir, "-S".toList, sourceDir,
         "-DCMAKE_INSTALL_PREFIX=".toList ++ installDir,
         "-DCMAKE_BUILD_TYPE=".toList ++ be.context.BuildType] <;> rfl

theorem cmakeBuild_eq {σ : Type} (sh : Shell σ) (m : Machine) (be : BuildExecutor)
    (dep : Dependency) (sourceDir buildDir installDir : Str) (s : σ)
    (hbs : dep.BuildSystem = "cmake".toList) :
    be.cmakeBuild sh m dep buildDir s =
      runPhase sh (phaseMessage dep.BuildSystem .build)
        (phaseCommand m be dep sourceDir buildDir installDir .build) s := by
  unfold BuildExecutor.cmakeBuild phaseCommand
  simp only [hbs, phaseMessage, if_true]
  split_ifs with h
  · exact override_stage sh m be _ _ _ s
  · rfl

theorem cmakeInstall_eq {σ : Type} (sh : Shell σ) (m : Machine) (be : BuildExecutor)
    (dep : Dependency) (sourceDir buildDir installDir : Str) (s : σ)
    (hbs : dep.BuildSystem = "cmake".toList) :
    be.cmakeInstall sh m dep buildDir s =
      runPhase sh (phaseMessage dep.BuildSystem .install)
        (phaseCommand m be dep sourceDir buildDir installDir .install) s := by
  unfold BuildExecutor.cmakeInstall phaseCommand
  simp only [hbs, phaseMessage, if_true]
  split_ifs with h
  · exact override_stage sh m be _ _ _ s
  · rfl

theorem makeConfigure_eq {σ : Type} (sh : Shell σ) (m : Machine) (be : BuildExecutor)
    (dep : Dependency) (sourceDir buildDir installDir : Str) (s : σ)
    (hbs : dep.BuildSystem = "make".toList) (hc : dep.BuildCommands.Configure ≠ []) :
    be.makeConfigure sh m dep sourceDir s =
      runPhase sh (phaseMessage dep.BuildSystem .configure)
        (phaseCommand m be dep sourceDir buildDir installDir .configure) s := by
  unfold BuildExecutor.makeConfigure phaseCommand
  have h1 : ("make".toList = "cmake".toList) = False := by decide
  simp only [hbs, phaseMessage, h1, if_true, if_false, if_pos hc]
  exact override_stage sh m be _ _ _ s

theorem makeBuild_eq {σ : Type} (sh : Shell σ) (m : Machine) (be : BuildExecutor)
    (dep : Dependency) (sourceDir buildDir installDir : Str) (s : σ)
    (hbs : dep.BuildSystem = "make".toList) :
    be.makeBuild sh m dep sourceDir s =
      runPhase sh (phaseMessage dep.BuildSystem .build)
        (phaseCommand m be dep sourceDir buildDir installDir .build) s := by
  unfold BuildExecutor.makeBuild phaseCommand
  have h1 : ("make".toList = "cmake".toList) = False := by decide
  simp only [hbs, phaseMessage, h1, if_true, if_false]
  split_ifs with h
  · exact override_stage sh m be _ _ _ s
  · cases hx : be.expandOptions m "Make".toList dep.MakeOptions
        ["-j".toList ++ Itoa be.context.CPUCount] <;> rfl

theorem makeInstall_eq {σ : Type} (sh : Shell σ) (m : Machine) (be : BuildExecutor)
    (dep : Dependency) (sourceDir buildDir installDir : Str) (s : σ)
    (hbs : dep.BuildSystem = "make".toList ∨ dep.BuildSystem = "configure".toList) :
    be.makeInstall sh m dep sourceDir s =
      runPhase sh (phaseMessage dep.BuildSystem .install)
        (phaseCommand m be dep sourceDir buildDir installDir .install) s := by
  unfold BuildExecutor.makeInstall phaseCommand
  have h1 : ("make".toList = "cmake".toList) = False := by decide
  have h2 : ("configure".toList = "cmake".toList) = False := by decide
  have h3 : ("configure".toList = "make".toList) = False := by decide
  rcases hbs with hbs | hbs
  · simp only [hbs, phaseMessage, h1, if_true, if_false]
    split_ifs with h
    · exact override_stage sh m be _ _ _ s
    · rfl
  · simp only [hbs, phaseMessage, h2, h3, if_true, if_false]
    split_ifs with h
    · exact override_stage sh m be _ _ _ s
    · rfl

theorem configureConfigure_eq {σ : Type} (sh : Shell σ) (m : Machine) (be : BuildExecutor)
    (dep : Dependency) (sourceDir buildDir installDir : Str) (s : σ)
    (hbs : dep.BuildSystem = "configure".toList) :
    be.configureConfigure sh m dep sourceDir installDir s =
      runPhase sh (phaseMessage dep.BuildSystem .configure)
        (phaseCommand m be dep sourceDir buildDir installDir .configure) s := by
  unfold BuildExecutor.configureConfigure phaseCommand
  have h2 : ("configure".toList = "cmake".toList) = False := by decide
  have h3 : ("configure".toList = "make".toList) = False := by decide
  simp only [hbs, phaseMessage, h2, h3, if_true, if_false]
  split_ifs with h
  · exact override_stage sh m be _ _ _ s
  · cases hx : be.expandOptions m "Configure".toList dep.ConfigureOptions
        ["--prefix=".toList ++ installDir] <;> rfl

theorem configureBuild_eq {σ : Type} (sh : Shell σ) (m : Machine) (be : BuildExecutor)
    (dep : Dependency) (sourceDir buildDir installDir : Str) (s : σ)
    (hbs : dep.BuildSystem = "configure".toList) :
    be.configureBuild sh m dep sourceDir s =
      runPhase sh (phaseMessage dep.BuildSystem .build)
        (phaseCommand m be dep sourceDir buildDir installDir .build) s := by
  unfold BuildExecutor.configureBuild phaseCommand
  have h2 : ("configure".toList = "cmake".toList) = False := by decide
  have h3 : ("configure".toList = "make".toList) = False := by decide
  simp only [hbs, phaseMessage, h2, h3, if_true, if_false]
  split_ifs with h
  · exact override_stage sh m be _ _ _ s
  · rfl

/-- Three stages in a row, each the phase of its command, are the three
phases in order. -/
theorem inSequence_eq {σ : Type} (sh : Shell σ) (message : Phase → Str)
    (cmd : Phase → Except GoError Cmd) (p1 p2 p3 : Phase) (s : σ) :
    inSequence (runPhase sh (message p1) (cmd p1)) (runPhase sh (message p2) (cmd p2))
      (runPhase sh (message p3) (cmd p3)) s = runPhases sh message cmd [p1, p2, p3] s := by
  unfold inSequence
  simp only [runPhases]
  rcases runPhase sh (message p1) (cmd p1) s with ⟨_ | e1, s1⟩
  · simp only
    rcases runPhase sh (message p2) (cmd p2) s1 with ⟨_ | e2, s2⟩
    · simp only
      rcases runPhase sh (message p3) (cmd p3) s2 with ⟨_ | e3, s3⟩ <;> rfl
    · rfl
  · rfl

/-- Two stages after a stage that does nothing are the two phases in
order. -/
theorem inSequence_skip {σ : Type} (sh : Shell σ) (message : Phase → Str)
    (cmd : Phase → Except GoError Cmd) (p2 p3 : Phase) (s : σ) :
    inSequence (fun t => (none, t)) (runPhase sh (message p2) (cmd p2))
      (runPhase sh (message p3) (cmd p3)) s = runPhases sh message cmd [p2, p3] s := by
  unfold inSequence
  simp only [runPhases]
  rcases runPhase sh (message p2) (cmd p2) s with ⟨_ | e2, s2⟩
  · simp only
    rcases runPhase sh (message p3) (cmd p3) s2 with ⟨_ | e3, s3⟩ <;> rfl
  · rfl

/-- After the first statements of `Execute`, the three build systems run the
phases of the dependency in order. -/
theorem execute_eq_runPhases {σ : Type} (sh : Shell σ) (m : Machine) (be : BuildExecutor)
    (dep : Dependency) (sourceDir buildDir installDir : Str) (s : σ)
    (hbs : dep.BuildSystem = "cmake".toList ∨ dep.BuildSystem = "make".toList ∨
      dep.BuildSystem = "configure".toList) :
    be.Execute sh m dep sourceDir buildDir installDir s =
      match be.setDirs sh sourceDir buildDir installDir s with
      | ((sourceDir, buildDir, installDir), be, s) =>
        match sh.MkdirAll buildDir s with
        | (some err, s) =>
          (some (BuildErrorWithCause err "failed to create build directory".toList), be, s)
        | (none, s) =>
          ((runPhases sh (phaseMessage dep.BuildSystem)
              (phaseCommand m be dep sourceDir buildDir installDir) (phasesOf dep) s).1, be,
           (runPhases sh (phaseMessage dep.BuildSystem)
              (phaseCommand m be dep sourceDir buildDir installDir) (phasesOf dep) s).2) := by
  unfold BuildExecutor.Execute
  rcases be.setDirs sh sourceDir buildDir installDir s with ⟨⟨src, bld, ins⟩, be2, s2⟩
  simp only
  have h1 : ¬ ("make".toList = "cmake".toList) := by decide
  have h2 : ¬ ("configure".toList = "cmake".toList) := by decide
  have h3 : ¬ ("configure".toList = "make".toList) := by decide
  rcases hbs with hbs | hbs | hbs
  · rw [if_pos hbs]
    unfold BuildExecutor.executeCMake
    rcases sh.MkdirAll bld s2 with ⟨_ | e, s3⟩
    · simp only
      have hp : phasesOf dep = [.configure, .build, .install] := by
        unfold phasesOf
        rw [if_neg]
        rw [hbs]
        exact fun h => absurd h.1 (by decide)
      have e1 : be2.cmakeConfigure sh m dep src bld ins = _ :=
        funext (fun t => cmakeConfigure_eq sh m be2 dep src bld ins t hbs)
      have e2 : be2.cmakeBuild sh m dep bld = _ :=
        funext (fun t => cmakeBuild_eq sh m be2 dep src bld ins t hbs)
      have e3 : be2.cmakeInstall sh m dep bld = _ :=
        funext (fun t => cmakeInstall_eq sh m be2 dep src bld ins t hbs)
      rw [hp, ← inSequence_eq, e1, e2, e3]
    · rfl
  · rw [if_neg (by rw [hbs]; exact h1), if_pos hbs]
    unfold BuildExecutor.executeMake
    rcases sh.MkdirAll bld s2 with ⟨_ | e, s3⟩
    · simp only
      have e2 : be2.makeBuild sh m dep src = _ :=
        funext (fun t => makeBuild_eq sh m be2 dep src bld ins t hbs)
      have e3 : be2.makeInstall sh m dep src = _ :=
        funext (fun t => makeInstall_eq sh m be2 dep src bld ins t (Or.inl hbs))
      by_cases hc : dep.BuildCommands.Configure = []
      · have hp : phasesOf dep = [.build, .install] := by
          unfold phasesOf
          rw [if_pos ⟨hbs, hc⟩]
        have e1 : be2.makeConfigure sh m dep src = fun t => (none, t) := by
          funext t
          unfold BuildExecutor.makeConfigure
          rw [if_neg (by simpa using hc)]
        rw [hp, ← inSequence_skip, e1, e2, e3]
      · have hp : phasesOf dep = [.configure, .build, .install] := by
          unfold phasesOf
          rw [if_neg (fun h => hc h.2)]
        have e1 : be2.makeConfigure sh m dep src = _ :=
          funext (fun t => makeConfigure_eq sh m be2 dep src bld ins t hbs hc)
        rw [hp, ← inSequence_eq, e1, e2, e3]
    · rfl
  · rw [if_neg (by rw [hbs]; exact h2), if_neg (by rw [hbs]; exact h3), if_pos hbs]
    unfold BuildExecutor.executeConfigure
    rcases sh.MkdirAll bld s2 with ⟨_ | e, s3⟩
    · simp only
      have hp : phasesOf dep = [.configure, .build, .install] := by
        unfold phasesOf
        rw [if_neg]
        rw [hbs]
        exact fun h => absurd h.1 (by decide)
      have e1 : be2.configureConfigure sh m dep src ins = _ :=
        funext (fun t => configureConfigure_eq sh m be2 dep src bld ins t hbs)
      have e2 : be2.configureBuild sh m dep src = _ :=
        funext (fun t => configureBuild_eq sh m be2 dep src bld ins t hbs)
      have e3 : be2.makeInstall sh m dep src = _ :=
        funext (fun t => makeInstall_eq sh m be2 dep src bld ins t (Or.inr hbs))
      rw [hp, ← inSequence_eq, e1, e2, e3]
    · rfl

/-- The processes that the phases spawn, read from the log: they are the
processes of an initial segment of the phases, in order; every one but the
last returned no error; when the last one failed, the result is the build
error of its phase with the error of the process as cause; when the result
is no error, every phase ran and every process succeeded; and when no
process failed, either every phase ran and the result is no error, or the
process of the next phase could not be set up and the result is the error of
that. -/
theorem runPhases_log {σ : Type} (sh : Shell σ) (message : Phase → Str)
    (cmd : Phase → Except GoError Cmd) (ps : List Phase) :
    ∀ (s : σ) (log0 : List (Cmd × Option GoError)),
    ∃ (ran : List Phase) (new : List (Cmd × Option GoError)),
      (runPhases sh.traced message cmd ps (s, log0)).2.2 = log0 ++ new ∧
      ran <+: ps ∧
      ran.map cmd = new.map (fun e => .ok e.1) ∧
      (∀ e ∈ new.dropLast, e.2 = none) ∧
      (∀ c err, new.getLast? = some (c, some err) →
        ∃ p, ran.getLast? = some p ∧
          (runPhases sh.traced message cmd ps (s, log0)).1 =
            some (BuildErrorWithCause err (message p))) ∧
      ((runPhases sh.traced message cmd ps (s, log0)).1 = none →
        ran = ps ∧ ∀ e ∈ new, e.2 = none) ∧
      ((∀ e ∈ new, e.2 = none) →
        (ran = ps ∧ (runPhases sh.traced message cmd ps (s, log0)).1 = none) ∨
        ∃ p e, ran ++ [p] <+: ps ∧ cmd p = .error e ∧
          (runPhases sh.traced message cmd ps (s, log0)).1 = some e) := by
  induction ps with
  | nil =>
    intro s log0
    refine ⟨[], [], by simp [runPhases], List.prefix_refl _, rfl, by simp, by simp, ?_, ?_⟩
    · intro _
      exact ⟨rfl, by simp⟩
    · intro _
      exact Or.inl ⟨rfl, rfl⟩
  | cons p rest ih =>
    intro s log0
    cases hc : cmd p with
    | error e =>
      have hrun : runPhases sh.traced message cmd (p :: rest) (s, log0) = (some e, (s, log0)) := by
        simp [runPhases, runPhase, hc]
      refine ⟨[], [], ?_, List.nil_prefix, rfl, by simp, by simp, ?_, ?_⟩
      · rw [hrun]
        simp
      · rw [hrun]
        intro h
        exact absurd h (by simp)
      · intro _
        refine Or.inr ⟨p, e, ?_, hc, by rw [hrun]⟩
        exact List.prefix_iff_eq_append.mpr (by simp)
    | ok c =>
      cases hr : (sh.Run c s).1 with
      | some err =>
        have hrun : runPhases sh.traced message cmd (p :: rest) (s, log0) =
            (some (BuildErrorWithCause err (message p)),
              ((sh.Run c s).2, log0 ++ [(c, some err)])) := by
          simp [runPhases, runPhase, hc, Shell.traced, orBuildError, hr]
        refine ⟨[p], [(c, some err)], ?_, ?_, ?_, by simp, ?_, ?_, ?_⟩
        · rw [hrun]
        · exact List.prefix_iff_eq_append.mpr (by simp)
        · simp [hc]
        · intro c2 err2 h
          simp only [List.getLast?_singleton, Option.some.injEq, Prod.mk.injEq] at h
          obtain ⟨_, h2⟩ := h
          subst h2
          exact ⟨p, rfl, by rw [hrun]⟩
        · intro h
          rw [hrun] at h
          exact absurd h (by simp)
        · intro h
          exact absurd (h (c, some err) (List.mem_singleton.mpr rfl)) (by simp)
      | none =>
        have hrun : runPhases sh.traced message cmd (p :: rest) (s, log0) =
            runPhases sh.traced message cmd rest ((sh.Run c s).2, log0 ++ [(c, none)]) := by
          simp [runPhases, runPhase, hc, Shell.traced, orBuildError, hr]
        obtain ⟨ran, new, h1, h2, h3, h4, h5, h6, h7⟩ :=
          ih (sh.Run c s).2 (log0 ++ [(c, none)])
        refine ⟨p :: ran, (c, none) :: new, ?_, ?_, ?_, ?_, ?_, ?_, ?_⟩
        · rw [hrun, h1]
          simp
        · exact (List.cons_prefix_cons).mpr ⟨rfl, h2⟩
        · simp [hc, h3]
        · intro e he
          cases new with
          | nil => simp at he
          | cons n ns =>
            rw [List.dropLast_cons₂] at he
            rcases List.mem_cons.mp he with he | he
            · rw [he]
            · exact h4 e he
        · intro c2 err2 h
          cases new with
          | nil => simp at h
          | cons n ns =>
            rw [List.getLast?_cons_cons] at h
            obtain ⟨q, hq, hres⟩ := h5 c2 err2 h
            refine ⟨q, ?_, by rw [hrun]; exact hres⟩
            cases ran with
            | nil => simp at hq
            | cons r rs => rw [List.getLast?_cons_cons]; exact hq
        · intro h
          rw [hrun] at h
          obtain ⟨ha, hb⟩ := h6 h
          refine ⟨by rw [ha], ?_⟩
          intro e he
          rcases List.mem_cons.mp he with he | he
          · rw [he]
          · exact hb e he
        · intro h
          rcases h7 (fun e he => h e (List.mem_cons_of_mem _ he)) with
            ⟨ha, hb⟩ | ⟨q, e, hq, hce, hres⟩
          · exact Or.inl ⟨by rw [ha], by rw [hrun]; exact hb⟩
          · refine Or.inr ⟨q, e, ?_, hce, by rw [hrun]; exact hres⟩
            rw [List.cons_append]
            exact (List.cons_prefix_cons).mpr ⟨rfl, hq⟩

/-- The message of a phase names the phase. -/
theorem phaseMessage_names (env : Env) (buildSystem : Str) (p : Phase) :
    Contains (ToLower env (phaseMessage buildSystem p)) p.word = true := by
  unfold phaseMessage
  split_ifs <;> cases p <;> rfl

theorem setDirs_log {σ : Type} (sh : Shell σ) (be : BuildExecutor)
    (sourceDir buildDir installDir : Str) (s : σ) (log : List (Cmd × Option GoError)) :
    (be.setDirs sh.traced sourceDir buildDir installDir (s, log)).2.2.2 = log := by
  simp [BuildExecutor.setDirs, Shell.traced]

/-- C26 fails as worded: the dependency `lz4` is built with `make` and
overrides no command; it passes the validation of the loader. Every process
succeeds and `Execute` returns no error, yet it spawns two processes only,
`make -j4` and `make install` in the source directory: the run has a build
and an install phase and no configure phase. -/
theorem plain_make_skips_configure :
    validateDependency plainMakeDep.Name plainMakeDep = none ∧
    plainMakeRun.1 = none ∧
    plainMakeRun.2.2.2.map (fun e => (e.1.name, e.1.args, e.1.dir, e.2)) =
      [("make".toList, ["-j4".toList], "/s".toList, none),
       ("make".toList, ["install".toList], "/s".toList, none)] ∧
    phasesOf plainMakeDep = [.build, .install] := by
  decide

/-! ### Extraction (C24) -/

example :
    (ArchiveDownloader.extractArchive testEnv testShell.traced "/c/fmt-8.0.1.TAR.GZ".toList
      "/t".toList (0, [])).2.2.map (fun e => e.1) =
      [{ name := "file".toList, args := ["/c/fmt-8.0.1.TAR.GZ".toList] },
       { name := "tar".toList,
         args := ["xzf".toList, "/c/fmt-8.0.1.TAR.GZ".toList, "-C".toList, "/t".toList,
                  "--strip-components=1".toList, "--preserve-permissions".toList] }] ∧
    (ArchiveDownloader.extractArchive testEnv testShell.traced "/c/fmt.gz".toList
      "/t".toList (0, [])) =
      (some (DownloadError
        "standalone .gz files are not supported, please use .tar.gz".toList), (0, [])) := by
  decide

/-- Two suffixes of a string end in the same character. -/
theorem HasSuffix_last (s a b : Str) (c d : Char) (hs : HasSuffix s (a ++ [c]) = true)
    (hd : HasSuffix s (b ++ [d]) = true) : c = d := by
  unfold HasSuffix at hs hd
  rw [List.reverse_append, List.reverse_singleton, List.singleton_append] at hs hd
  cases hr : s.reverse with
  | nil => rw [hr] at hs; simp at hs
  | cons x xs =>
    rw [hr] at hs hd
    simp only [List.isPrefixOf, Bool.and_eq_true, beq_iff_eq] at hs hd
    rw [hs.1, hd.1]

/-- A path that ends in `.zip` ends in none of the tar extensions. -/
theorem zip_not_tar (s : Str) (hzip : HasSuffix s ".zip".toList = true) :
    ∀ t ∈ tarSuffixes, HasSuffix s t = false := by
  have hz : HasSuffix s (".zi".toList ++ ['p']) = true := hzip
  intro t ht
  cases h : HasSuffix s t with
  | false => rfl
  | true =>
    exfalso
    simp only [tarSuffixes, List.mem_cons, List.mem_singleton, List.not_mem_nil, or_false] at ht
    rcases ht with ht | ht | ht | ht | ht | ht | ht <;> subst ht
    · exact absurd (HasSuffix_last s ".zi".toList ".tar.g".toList 'p' 'z' hz h) (by decide)
    · exact absurd (HasSuffix_last s ".zi".toList ".tg".toList 'p' 'z' hz h) (by decide)
    · exact absurd (HasSuffix_last s ".zi".toList ".tar.bz".toList 'p' '2' hz h) (by decide)
    · exact absurd (HasSuffix_last s ".zi".toList ".tbz".toList 'p' '2' hz h) (by decide)
    · exact absurd (HasSuffix_last s ".zi".toList ".tar.x".toList 'p' 'z' hz h) (by decide)
    · exact absurd (HasSuffix_last s ".zi".toList ".tx".toList 'p' 'z' hz h) (by decide)
    · exact absurd (HasSuffix_last s ".zi".toList ".ta".toList 'p' 'r' hz h) (by decide)

/-- The process that `extractArchive` spawns for a path that ends in `.zip`,
in any mix of capitals and small letters. -/
theorem extractArchive_zip {σ : Type} (env : Env) (sh : Shell σ) (archivePath targetDir : Str)
    (s : σ) (hzip : HasSuffix (ToLower env archivePath) ".zip".toList = true) :
    ArchiveDownloader.extractArchive env sh archivePath targetDir s =
      ArchiveDownloader.extractZip sh archivePath targetDir s := by
  have h := zip_not_tar _ hzip
  unfold ArchiveDownloader.extractArchive
  simp only [h ".tar.gz".toList (by decide), h ".tgz".toList (by decide),
    h ".tar.bz2".toList (by decide), h ".tbz2".toList (by decide),
    h ".tar.xz".toList (by decide), h ".txz".toList (by decide), h ".tar".toList (by decide),
    hzip, Bool.or_self, Bool.false_eq_true, if_false, if_true]

/-- C24 fails on the code for the extension `.zip`: for every path that ends
in `.zip` (in any mix of capitals and small letters), on every machine,
`extractArchive` spawns one process, `unzip -q -o archive -d target`, which
has no option that removes the top-level directory component, so the members
of the archive keep it under the target directory. -/
theorem zip_keeps_top_level {σ : Type} (env : Env) (sh : Shell σ) (archivePath targetDir : Str)
    (s : σ) (hzip : HasSuffix (ToLower env archivePath) ".zip".toList = true) :
    (ArchiveDownloader.extractArchive env sh.traced archivePath targetDir (s, [])).2.2.map
        (fun e => e.1) =
      [{ name := "unzip".toList,
         args := ["-q".toList, "-o".toList, archivePath, "-d".toList, targetDir] }] ∧
    ∀ e ∈ (ArchiveDownloader.extractArchive env sh.traced archivePath targetDir (s, [])).2.2,
      ¬ stripsTopLevel e.1 := by
  rw [extractArchive_zip env sh.traced archivePath targetDir (s, []) hzip]
  unfold ArchiveDownloader.extractZip
  have hrun : ∀ c : Cmd, sh.traced.Run c (s, []) =
      ((sh.Run c s).1, ((sh.Run c s).2, [(c, (sh.Run c s).1)])) := fun c => rfl
  rw [hrun]
  rcases sh.Run (Cmd.mk "unzip".toList
      ["-q".toList, "-o".toList, archivePath, "-d".toList, targetDir] [] []) s with
    ⟨_ | err, s2⟩
  · refine ⟨rfl, ?_⟩
    intro e he
    simp only [List.mem_singleton] at he
    subst he
    exact fun h => absurd (show "unzip".toList = "tar".toList from h.1) (by decide)
  · refine ⟨rfl, ?_⟩
    intro e he
    simp only [List.mem_singleton] at he
    subst he
    exact fun h => absurd (show "unzip".toList = "tar".toList from h.1) (by decide)

/-- C24 fails for the archive `/c/fmt-8.0.1.zip`. -/
theorem zip_keeps_top_level_witness :
    HasSuffix (ToLower testEnv "/c/fmt-8.0.1.zip".toList) ".zip".toList = true ∧
    ((ArchiveDownloader.extractArchive testEnv testShell.traced "/c/fmt-8.0.1.zip".toList
        "/t".toList (0, [])).2.2.map (fun e => e.1) =
      [{ name := "unzip".toList,
         args := ["-q".toList, "-o".toList, "/c/fmt-8.0.1.zip".toList, "-d".toList,
                  "/t".toList] }] ∧
    ∀ e ∈ (ArchiveDownloader.extractArchive testEnv testShell.traced "/c/fmt-8.0.1.zip".toList
        "/t".toList (0, [])).2.2,
      ¬ stripsTopLevel e.1) :=
  ⟨by decide,
    zip_keeps_top_level testEnv testShell "/c/fmt-8.0.1.zip".toList "/t".toList 0 (by decide)⟩

/-- The processes of the four `tar` extractors: every process other than
`file` is a `tar` with `--strip-components=1`. -/
theorem tar_extractors_strip {σ : Type} (sh : Shell σ) (archivePath targetDir : Str) (s : σ) :
    (∀ e ∈ (ArchiveDownloader.extractTarGz sh.traced archivePath targetDir (s, [])).2.2,
      e.1.name = "file".toList ∨ stripsTopLevel e.1) ∧
    (∀ e ∈ (ArchiveDownloader.extractTarBz2 sh.traced archivePath targetDir (s, [])).2.2,
      e.1.name = "file".toList ∨ stripsTopLevel e.1) ∧
    (∀ e ∈ (ArchiveDownloader.extractTarXz sh.traced archivePath targetDir (s, [])).2.2,
      e.1.name = "file".toList ∨ stripsTopLevel e.1) ∧
    (∀ e ∈ (ArchiveDownloader.extractTar sh.traced archivePath targetDir (s, [])).2.2,
      e.1.name = "file".toList ∨ stripsTopLevel e.1) := by
  have hrun : ∀ (c : Cmd) (t : σ) (l : List (Cmd × Option GoError)), sh.traced.Run c (t, l) =
      ((sh.Run c t).1, ((sh.Run c t).2, l ++ [(c, (sh.Run c t).1)])) := fun c t l => rfl
  have hmk : ∀ (p : Str) (t : σ) (l : List (Cmd × Option GoError)), sh.traced.MkdirAll p (t, l) =
      ((sh.MkdirAll p t).1, ((sh.MkdirAll p t).2, l)) := fun p t l => rfl
  refine ⟨?_, ?_, ?_, ?_⟩
  · unfold ArchiveDownloader.extractTarGz
    simp only [hrun, hmk, List.nil_append]
    rcases sh.MkdirAll targetDir _ with ⟨_ | err, s2⟩
    · simp only [hrun]
      rcases sh.Run _ s2 with ⟨_ | err2, s3⟩ <;>
      · intro e he
        simp only [List.cons_append, List.nil_append, List.mem_cons, List.mem_singleton,
          List.not_mem_nil, or_false] at he
        rcases he with he | he <;> subst he
        · exact Or.inl rfl
        · exact Or.inr ⟨rfl, by simp⟩
    · intro e he
      simp only [List.mem_singleton] at he
      subst he
      exact Or.inl rfl
  · unfold ArchiveDownloader.extractTarBz2
    simp only [hrun, List.nil_append]
    rcases sh.Run _ s with ⟨_ | err2, s3⟩ <;>
    · intro e he
      simp only [List.mem_singleton] at he
      subst he
      exact Or.inr ⟨rfl, by simp⟩
  · unfold ArchiveDownloader.extractTarXz
    simp only [hrun, List.nil_append]
    rcases sh.Run _ s with ⟨_ | err2, s3⟩ <;>
    · intro e he
      simp only [List.mem_singleton] at he
      subst he
      exact Or.inr ⟨rfl, by simp⟩
  · unfold ArchiveDownloader.extractTar
    simp only [hrun, List.nil_append]
    rcases sh.Run _ s with ⟨_ | err2, s3⟩ <;>
    · intro e he
      simp only [List.mem_singleton] at he
      subst he
      exact Or.inr ⟨rfl, by simp⟩

/-- For an archive of a tar format, the process that `extractArchive` spawns
removes the top-level directory component. -/
theorem tar_formats_strip {σ : Type} (env : Env) (sh : Shell σ) (archivePath targetDir : Str)
    (s : σ) (htar : ∃ t ∈ tarSuffixes, HasSuffix (ToLower env archivePath) t = true) :
    ∀ e ∈ (ArchiveDownloader.extractArchive env sh.traced archivePath targetDir (s, [])).2.2,
      e.1.name = "file".toList ∨ stripsTopLevel e.1 := by
  obtain ⟨h1, h2, h3, h4⟩ := tar_extractors_strip sh archivePath targetDir s
  obtain ⟨t, ht, hs⟩ := htar
  simp only [tarSuffixes, List.mem_cons, List.mem_singleton, List.not_mem_nil, or_false] at ht
  unfold ArchiveDownloader.extractArchive
  simp only []
  split_ifs with c1 c2 c3 c4
  · exact h1
  · exact h2
  · exact h3
  · exact h4
  all_goals
    exfalso
    rcases ht with ht | ht | ht | ht | ht | ht | ht <;> subst ht
    · exact c1 (by rw [hs]; rfl)
    · exact c1 (by rw [hs, Bool.or_true])
    · exact c2 (by rw [hs]; rfl)
    · exact c2 (by rw [hs, Bool.or_true])
    · exact c3 (by rw [hs]; rfl)
    · exact c3 (by rw [hs, Bool.or_true])
    · exact c4 hs

end Buildfly
